import Mathlib

/-!
A verification development for the `yapancha/parser` interpreter.

Shallow embedding of the C++ sources (`lexer.h`, `lex.cpp`, `parser.h`,
`parser.cpp`, `main.cpp`): the `Value` struct with its four operators, the
parse tree with its `GetType` / `Evaluate` methods, the process-wide tables,
the `SemanticCheck` visitor, the lexer `getToken` and the recursive-descent
parsing functions.

Conventions of the embedding
* the C++ `int` is a 32-bit two's-complement integer: it is carried as an
  `Int`, and the result of `+`, `-` and `*` is reduced by `wrapInt`
  (the usual wrap-around; the C++ standard leaves signed overflow undefined);
  the quotient `INT_MIN / -1` has no value (`intQuotient`), the program is
  stopped there;
* the order in which the two operands of a binary node are evaluated is left
  to the compiler by C++: `ParseTree.EvaluateIn` takes it as a parameter, and
  `ParseTree.Evaluate` is the total function of the left-first order;
* a `std::string` is a Lean `String`, one `Char` per C++ `char`;
* a `std::map<string, T>` is an association list with unique keys
  (`Table`), `find` and `operator[]` are `Table.find`, `Table.index`
  and `Table.assign`;
* `std::cout` is the text written so far (`Globals.cout`);
* a member of `Value` that the C++ constructor leaves uninitialised
  (`intValue` of a value that is not an integer) is carried as `0`; the
  program never reads it;
* the input stream of the lexer is the list of the characters not read yet,
  together with the global `lineNumber`; the parser reads from the list of
  the tokens that the lexer returns before the end marker;
* the mutually recursive parsing functions take a fuel argument, and a call
  ends in one of three ways (`Parsed`): it returns, an exception leaves it,
  or the fuel ran out; the theorems give the fuel that is enough.
-/

namespace Interp

/-! ## `lexer.h`: token kinds -/

/-- The enumeration `TokenType` of `lexer.h`. -/
inductive TokenType where
  | T_INT | T_STRING | T_SET | T_PRINT | T_PRINTLN
  | T_ID
  | T_ICONST | T_SCONST
  | T_PLUS | T_MINUS | T_STAR | T_SLASH | T_LPAREN | T_RPAREN | T_SC
  | T_ERROR
  | T_DONE
  deriving DecidableEq, Repr

/-! ## 32-bit integers -/

/-- Smallest value of the C++ `int`. -/
def INT_MIN : Int := -2147483648

/-- Largest value of the C++ `int`. -/
def INT_MAX : Int := 2147483647

/-- The mathematical integer `x` is a value of the C++ type `int`. -/
def isInt32 (x : Int) : Prop := -2147483648 ≤ x ∧ x ≤ 2147483647

instance (x : Int) : Decidable (isInt32 x) := by
  unfold isInt32; exact inferInstance

/-- Reduction of a mathematical result to the 32-bit two's-complement range. -/
def wrapInt (x : Int) : Int := (x + 2147483648) % 4294967296 - 2147483648

/-- The C++ `a + b` on `int`. -/
def intAdd (a b : Int) : Int := wrapInt (a + b)

/-- The C++ `a - b` on `int`. -/
def intSub (a b : Int) : Int := wrapInt (a - b)

/-- The C++ `a * b` on `int`. -/
def intMul (a b : Int) : Int := wrapInt (a * b)

/-- The C++ `a / b` on `int` for `b ≠ 0`: the quotient truncated toward zero.
It is total: at `INT_MIN / -1`, where the quotient is not an `int` and C++
gives no value, it is the wrapped quotient; `intQuotient` below has no value
there. -/
def intDiv (a b : Int) : Int := wrapInt (Int.tdiv a b)

/-! ## `parser.h`: the `Value` struct -/

/-- The enumeration `TypeForNode`. -/
inductive TypeForNode where
  | INT_TYPE | STRING_TYPE | ERROR_TYPE | EMPTY_TYPE
  deriving DecidableEq, Repr

/-- The struct `Value`: a tag and the two payload members. -/
structure Value where
  type : TypeForNode
  intValue : Int
  stringValue : String
  deriving DecidableEq, Repr

/-- The factory `Value::Integer(v)`. -/
def Value.Integer (v : Int) : Value := ⟨TypeForNode.INT_TYPE, v, ""⟩

/-- The factory `Value::Error(error)`; the default message is the empty text. -/
def Value.Error (error : String) : Value := ⟨TypeForNode.ERROR_TYPE, 0, error⟩

/-- The factory `Value::Empty()`, also the default constructor `Value()`. -/
def Value.Empty : Value := ⟨TypeForNode.EMPTY_TYPE, 0, ""⟩

/-- The factory `Value::String(s)`. -/
def Value.String (s : String) : Value := ⟨TypeForNode.STRING_TYPE, 0, s⟩

/-- The stream insertion `os << v` of a `Value`: the text it writes. -/
def printValue (v : Value) : String :=
  if v.type = TypeForNode.INT_TYPE then toString v.intValue
  else if v.type = TypeForNode.STRING_TYPE then v.stringValue
  else ""

/-- The `operator+` of `Value`. -/
def Value.add (u v : Value) : Value :=
  if u.type = TypeForNode.INT_TYPE ∧ v.type = TypeForNode.INT_TYPE then
    Value.Integer (intAdd u.intValue v.intValue)
  else if u.type = TypeForNode.STRING_TYPE ∧ v.type = TypeForNode.STRING_TYPE then
    Value.String (u.stringValue ++ v.stringValue)
  else Value.Error ""

/-- The `operator-` of `Value`. -/
def Value.sub (u v : Value) : Value :=
  if u.type = TypeForNode.INT_TYPE ∧ v.type = TypeForNode.INT_TYPE then
    Value.Integer (intSub u.intValue v.intValue)
  else Value.Error ""

/-- Number of iterations still ahead of the loop `while (count--)`: the
unsigned reading of `count`. -/
def loopMeasure (count : Int) : Nat :=
  if count = 0 then 0 else ((count - 1) % 4294967296).toNat + 1

/-- The loop `while (count--) { accum += s; }` of `operator*`: the test reads
`count`, the decrement follows, and the body runs when the value read was not
zero. -/
def repeatLoop (count : Int) (s accum : String) : String :=
  if count = 0 then accum
  else repeatLoop (wrapInt (count - 1)) s (accum ++ s)
termination_by loopMeasure count
decreasing_by
  unfold loopMeasure wrapInt
  split_ifs <;> omega

/-- The `operator*` of `Value`. -/
def Value.mul (u v : Value) : Value :=
  if u.type = TypeForNode.INT_TYPE ∧ v.type = TypeForNode.INT_TYPE then
    Value.Integer (intMul u.intValue v.intValue)
  else if u.type = TypeForNode.INT_TYPE ∧ v.type = TypeForNode.STRING_TYPE then
    Value.String (repeatLoop u.intValue v.stringValue "")
  else if v.type = TypeForNode.INT_TYPE ∧ u.type = TypeForNode.STRING_TYPE then
    Value.String (repeatLoop v.intValue u.stringValue "")
  else Value.Error ""

/-- The library call `u.find(v)` of `std::string`: the least position at which
`v` occurs in `u`, `none` standing for `string::npos`. -/
def strFind : List Char → List Char → Option Nat
  | [], v => if v = [] then some 0 else none
  | c :: u, v =>
    if List.isPrefixOf v (c :: u) then some 0
    else (strFind u v).map (· + 1)

/-- The library call `u.replace(pos, len, "")` of `std::string`: the `len`
characters from position `pos` on are removed. -/
def strErase (u : List Char) (pos len : Nat) : List Char :=
  u.take pos ++ u.drop (pos + len)

/-- The `operator/` of `Value`, as a total function: the value returned, with
the wrapped quotient at `INT_MIN / -1`, where the call does not return (see
`Value.operatorDiv`). -/
def Value.div (u v : Value) : Value :=
  if u.type = TypeForNode.INT_TYPE ∧ v.type = TypeForNode.INT_TYPE then
    if v.intValue ≠ 0 then Value.Integer (intDiv u.intValue v.intValue)
    else Value.Error "DIVIDE BY ZERO"
  else if u.type = TypeForNode.STRING_TYPE ∧ v.type = TypeForNode.STRING_TYPE then
    match strFind u.stringValue.data v.stringValue.data with
    | none => u
    | some pos =>
      { Value.String u.stringValue with
        stringValue := ⟨strErase u.stringValue.data pos v.stringValue.data.length⟩ }
  else Value.Error ""

/-! ## The process-wide tables and the output stream -/

/-- A `std::map<string, α>`: the bindings, at most one per key. -/
abbrev Table (α : Type) := List (String × α)

/-- The lookup `t.find(k)`: the value bound to `k`, `none` standing for
`t.end()`. -/
def Table.find {α : Type} : Table α → String → Option α
  | [], _ => none
  | (k1, v1) :: t, k => if k1 = k then some v1 else Table.find t k

/-- The assignment `t[k] = v`: an existing binding of `k` is overwritten, a
missing one is inserted. -/
def Table.assign {α : Type} : Table α → String → α → Table α
  | [], k, v => [(k, v)]
  | (k1, v1) :: t, k, v =>
    if k1 = k then (k, v) :: t else (k1, v1) :: Table.assign t k v

/-- The read `t[k]`: the value bound to `k`; a missing `k` is first bound to
the default-constructed value `dflt`. Returns the value and the table. -/
def Table.index {α : Type} (t : Table α) (k : String) (dflt : α) : α × Table α :=
  match Table.find t k with
  | some v => (v, t)
  | none => (dflt, Table.assign t k dflt)

/-- The globals of `main.cpp` that checking and evaluation touch, and the text
written to `std::cout` so far. -/
structure Globals where
  theInputFileName : Option String
  symbolTable : Table Value
  typeTable : Table TypeForNode
  cout : String
  deriving DecidableEq, Repr

/-- The state of the program start: no table entry, nothing written. -/
def Globals.initial (file : Option String) : Globals :=
  ⟨file, [], [], ""⟩

/-- The function `error(linenum, message)` of `main.cpp`. -/
def error (linenum : Int) (message : String) (g : Globals) : Globals :=
  let pre := match g.theInputFileName with
    | some f => f ++ ":"
    | none => ""
  { g with cout := g.cout ++ pre ++ toString (intAdd linenum 1) ++ ":" ++ message ++ "\n" }

/-! ## The parse tree -/

/-- The class `Identifier`: the line of its token and the name. -/
structure Identifier where
  linenumber : Int
  identifier : String
  deriving DecidableEq, Repr

/-- The class `ParseTree` with its eleven concrete classes. A child pointer
that `Evaluate` and `accept` test against null is an `Option`. -/
inductive ParseTree where
  | StatementList (left right : Option ParseTree)
  | Addition (linenumber : Int) (left right : ParseTree)
  | Subtraction (linenumber : Int) (left right : ParseTree)
  | Multiplication (linenumber : Int) (left right : ParseTree)
  | Division (linenumber : Int) (left right : ParseTree)
  | IntegerConstant (linenumber : Int) (value : Int)
  | StringConstant (linenumber : Int) (value : String)
  | Identifier (id : Identifier)
  | VariableDeclaration (linenumber : Int) (type : TypeForNode) (identifier : Identifier)
  | VariableAssignment (linenumber : Int) (identifier : Identifier) (left : ParseTree)
  | PrintCommand (linenumber : Int) (tokenType : TokenType) (left : ParseTree)
  deriving Repr

/-- The accessor `getLineNumber()`; a `StatementList` is built with line 0. -/
def ParseTree.getLineNumber : ParseTree → Int
  | .StatementList _ _ => 0
  | .Addition n _ _ => n
  | .Subtraction n _ _ => n
  | .Multiplication n _ _ => n
  | .Division n _ _ => n
  | .IntegerConstant n _ => n
  | .StringConstant n _ => n
  | .Identifier id => id.linenumber
  | .VariableDeclaration n _ _ => n
  | .VariableAssignment n _ _ => n
  | .PrintCommand n _ _ => n

/-- The method `Identifier::GetType()`. -/
def Identifier.GetType (id : Identifier) (typeTable : Table TypeForNode) : TypeForNode :=
  match Table.find typeTable id.identifier with
  | some t => t
  | none => TypeForNode.ERROR_TYPE

/-- The virtual method `GetType()`; the classes that do not override it
(`StatementList`, `VariableAssignment`, `PrintCommand`) inherit
`ParseTree::GetType`, which returns `ERROR_TYPE`. -/
def ParseTree.GetType (typeTable : Table TypeForNode) : ParseTree → TypeForNode
  | .StatementList _ _ => TypeForNode.ERROR_TYPE
  | .Addition _ l r =>
    if l.GetType typeTable = r.GetType typeTable then l.GetType typeTable
    else TypeForNode.ERROR_TYPE
  | .Subtraction _ l r =>
    if l.GetType typeTable = TypeForNode.INT_TYPE ∧ r.GetType typeTable = TypeForNode.INT_TYPE then
      TypeForNode.INT_TYPE
    else TypeForNode.ERROR_TYPE
  | .Multiplication _ l r =>
    if l.GetType typeTable = TypeForNode.INT_TYPE then r.GetType typeTable
    else if l.GetType typeTable = TypeForNode.STRING_TYPE
        ∧ r.GetType typeTable = TypeForNode.INT_TYPE then
      TypeForNode.STRING_TYPE
    else TypeForNode.ERROR_TYPE
  | .Division _ l r =>
    if l.GetType typeTable = r.GetType typeTable then l.GetType typeTable
    else TypeForNode.ERROR_TYPE
  | .IntegerConstant _ _ => TypeForNode.INT_TYPE
  | .StringConstant _ _ => TypeForNode.STRING_TYPE
  | .Identifier id => id.GetType typeTable
  | .VariableDeclaration _ t _ => t
  | .VariableAssignment _ _ _ => TypeForNode.ERROR_TYPE
  | .PrintCommand _ _ _ => TypeForNode.ERROR_TYPE

/-! ## Evaluation -/

/-- The method `Identifier::Evaluate()`: `return symbolTable[identifier];`. -/
def Identifier.Evaluate (id : Identifier) (g : Globals) : Value × Globals :=
  let r := Table.index g.symbolTable id.identifier Value.Empty
  (r.1, { g with symbolTable := r.2 })

/-- The tail of `Division::Evaluate()`: a diagnostic when the quotient is an
`Error` that carries a message. -/
def reportDivision (linenumber : Int) (val : Value) (g : Globals) : Globals :=
  if val.type = TypeForNode.ERROR_TYPE ∧ val.stringValue.length > 0 then
    error linenumber val.stringValue g
  else g

/-- The virtual method `Evaluate()`, as a total function: the value returned
and the globals after the call. The operands of a binary node are evaluated
left first, the order the specification gives (C++ leaves it to the compiler),
and a division is `Value.div`. `ParseTree.EvaluateIn` below takes the order
as a parameter and has no value where a division is undefined. -/
def ParseTree.Evaluate : ParseTree → Globals → Value × Globals
  | .StatementList left right, g =>
    match left with
    | some l =>
      let a := l.Evaluate g
      if a.1.type ≠ TypeForNode.EMPTY_TYPE then (Value.Error "", a.2)
      else
        match right with
        | some r => r.Evaluate a.2
        | none => (Value.Empty, a.2)
    | none =>
      match right with
      | some r => r.Evaluate g
      | none => (Value.Empty, g)
  | .Addition _ l r, g =>
    let a := l.Evaluate g
    let b := r.Evaluate a.2
    (Value.add a.1 b.1, b.2)
  | .Subtraction _ l r, g =>
    let a := l.Evaluate g
    let b := r.Evaluate a.2
    (Value.sub a.1 b.1, b.2)
  | .Multiplication _ l r, g =>
    let a := l.Evaluate g
    let b := r.Evaluate a.2
    (Value.mul a.1 b.1, b.2)
  | .Division n l r, g =>
    let a := l.Evaluate g
    let b := r.Evaluate a.2
    (Value.div a.1 b.1, reportDivision n (Value.div a.1 b.1) b.2)
  | .IntegerConstant _ value, g => (Value.Integer value, g)
  | .StringConstant _ value, g => (Value.String value, g)
  | .Identifier id, g => id.Evaluate g
  | .VariableDeclaration _ t id, g =>
    let dflt := if t = TypeForNode.INT_TYPE then Value.Integer 0 else Value.String ""
    (Value.Empty, { g with symbolTable := Table.assign g.symbolTable id.identifier dflt })
  | .VariableAssignment _ id e, g =>
    let a := e.Evaluate g
    if a.1.type ≠ TypeForNode.ERROR_TYPE then
      (Value.Empty, { a.2 with symbolTable := Table.assign a.2.symbolTable id.identifier a.1 })
    else (Value.Error "", a.2)
  | .PrintCommand _ tokenType e, g =>
    let a := e.Evaluate g
    if a.1.type ≠ TypeForNode.ERROR_TYPE then
      let nl := if tokenType = TokenType.T_PRINTLN then "\n" else ""
      (Value.Empty, { a.2 with cout := a.2.cout ++ printValue a.1 ++ nl })
    else (Value.Error "", a.2)

/-! ## `main.cpp`: the semantic check -/

/-- The visitor object `SemanticCheck` (its member `hasErrors`) together
with the globals it reads and writes. -/
structure SemanticCheck where
  hasErrors : Bool
  g : Globals
  deriving DecidableEq, Repr

/-- The method `isErrorFree()`. -/
def SemanticCheck.isErrorFree (c : SemanticCheck) : Bool := !c.hasErrors

/-- The method `beginVisit(const Identifier*)`, reached through
`Identifier::accept`. -/
def SemanticCheck.visitIdentifier (id : Identifier) (c : SemanticCheck) : SemanticCheck :=
  match Table.find c.g.typeTable id.identifier with
  | none =>
    { hasErrors := true,
      g := error id.linenumber
        ("variable " ++ id.identifier ++ " is used before being declared") c.g }
  | some _ => c

/-- The method `beginVisit(const VariableDeclaration*)`. -/
def SemanticCheck.visitDeclaration (linenumber : Int) (t : TypeForNode) (id : Identifier)
    (c : SemanticCheck) : SemanticCheck :=
  match Table.find c.g.typeTable id.identifier with
  | some _ =>
    { hasErrors := true,
      g := error linenumber ("variable " ++ id.identifier ++ " was already declared") c.g }
  | none =>
    { c with g := { c.g with typeTable := Table.assign c.g.typeTable id.identifier t } }

/-- The end of `beginVisitOperation(op)`, after both children were visited:
the test of `op->GetType()`. The member `hasErrors` is not written. -/
def SemanticCheck.checkOperation (op : ParseTree) (c : SemanticCheck) : SemanticCheck :=
  if op.GetType c.g.typeTable = TypeForNode.ERROR_TYPE then
    { c with g := error op.getLineNumber "type error" c.g }
  else c

/-- The end of `beginVisit(const VariableAssignment*)`, after the target and
the expression were visited: the comparison of the two types. -/
def SemanticCheck.checkAssignment (id : Identifier) (e : ParseTree) (c : SemanticCheck) :
    SemanticCheck :=
  match Table.find c.g.typeTable id.identifier with
  | some t =>
    if e.GetType c.g.typeTable ≠ t then
      { hasErrors := true, g := error e.getLineNumber "type error" c.g }
    else c
  | none => c

/-- The method `accept(visitor)` with the visitor `SemanticCheck`: each class
calls its `beginVisit`, which for a `StatementList` is the inherited one
(it returns true, the two children are then visited) and for the other
classes is the override of `SemanticCheck` (it does the visiting itself and
returns false). -/
def ParseTree.accept : ParseTree → SemanticCheck → SemanticCheck
  | .StatementList left right, c =>
    let c1 := match left with
      | some l => l.accept c
      | none => c
    match right with
    | some r => r.accept c1
    | none => c1
  | .Addition n l r, c =>
    SemanticCheck.checkOperation (.Addition n l r) (r.accept (l.accept c))
  | .Subtraction n l r, c =>
    SemanticCheck.checkOperation (.Subtraction n l r) (r.accept (l.accept c))
  | .Multiplication n l r, c =>
    SemanticCheck.checkOperation (.Multiplication n l r) (r.accept (l.accept c))
  | .Division n l r, c =>
    SemanticCheck.checkOperation (.Division n l r) (r.accept (l.accept c))
  | .IntegerConstant _ _, c => c
  | .StringConstant _ _, c => c
  | .Identifier id, c => SemanticCheck.visitIdentifier id c
  | .VariableDeclaration n t id, c => SemanticCheck.visitDeclaration n t id c
  | .VariableAssignment _ id e, c =>
    SemanticCheck.checkAssignment id e (e.accept (SemanticCheck.visitIdentifier id c))
  | .PrintCommand _ _ e, c => e.accept c

/-- The tail of `main` once parsing succeeded: the semantic check, and the
evaluation when the check is error free. -/
def checkAndRun (tree : ParseTree) (g : Globals) : Globals :=
  let c := tree.accept ⟨false, g⟩
  if c.isErrorFree then (tree.Evaluate c.g).2 else c.g

/-! ## `lexer.h`, `lex.cpp`: tokens and the lexer -/

/-- The class `Token`: kind, lexeme and the line recorded at construction
(the value of the global `lineNumber` at that moment). -/
structure Token where
  tt : TokenType
  lexeme : String
  lnum : Int
  deriving DecidableEq, Repr

/-- The library call `isspace(ch)` in the "C" locale. -/
def isspace (ch : Char) : Bool :=
  ch = ' ' || ch = '\t' || ch = '\n' || ch = Char.ofNat 11 || ch = Char.ofNat 12 || ch = '\r'

/-- The library call `isalpha(ch)` in the "C" locale. -/
def isalpha (ch : Char) : Bool := ch.isAlpha

/-- The library call `isdigit(ch)`. -/
def isdigit (ch : Char) : Bool := ch.isDigit

/-- The double quote character. -/
def quoteChar : Char := Char.ofNat 34

/-- The map `kwmap` of `lex.cpp`. -/
def kwmap : Table TokenType :=
  [("int", TokenType.T_INT), ("string", TokenType.T_STRING), ("set", TokenType.T_SET),
   ("print", TokenType.T_PRINT), ("println", TokenType.T_PRINTLN)]

/-- The function `id_or_kw(lexeme)`; `lineNumber` is the line the token records. -/
def id_or_kw (lexeme : String) (lineNumber : Int) : Token :=
  match Table.find kwmap lexeme with
  | some tt => ⟨tt, lexeme, lineNumber⟩
  | none => ⟨TokenType.T_ID, lexeme, lineNumber⟩

/-- The inner `switch (ch)` of the state `BEGIN`: the kind of a token of one
character. -/
def punctuationKind (ch : Char) : TokenType :=
  if ch = '+' then TokenType.T_PLUS
  else if ch = '-' then TokenType.T_MINUS
  else if ch = '*' then TokenType.T_STAR
  else if ch = Char.ofNat 40 then TokenType.T_LPAREN
  else if ch = Char.ofNat 41 then TokenType.T_RPAREN
  else if ch = ';' then TokenType.T_SC
  else TokenType.T_ERROR

/-- The enumeration `LexState` of `getToken`. -/
inductive LexState where
  | BEGIN | INID | INSTRING | ININT | ONESLASH | INCOMMENT
  deriving DecidableEq, Repr

/-- The input stream `br` (the characters not read yet; reading past the last
one sets the end-of-file state, in which every later read fails) together
with the global `lineNumber`. -/
structure LexerInput where
  chars : List Char
  lineNumber : Int
  deriving DecidableEq, Repr

/-- The loop `for(;;)` of `getToken`, from the state `lexstate` with the
lexeme collected so far: one character is read per turn, a newline read
increments `lineNumber`, `putback` returns the character to the stream, and
the end of the stream leaves the loop for `return T_DONE`. -/
def getTokenLoop : LexState → String → List Char → Int → Token × LexerInput
  | _, _, [], ln => (⟨TokenType.T_DONE, "", ln⟩, ⟨[], ln⟩)
  | st, lexeme, ch :: rest, ln0 =>
    let ln := if ch = '\n' then intAdd ln0 1 else ln0
    match st with
    | .BEGIN =>
      if isspace ch then getTokenLoop .BEGIN lexeme rest ln
      else if isalpha ch then getTokenLoop .INID (String.singleton ch) rest ln
      else if ch = quoteChar then getTokenLoop .INSTRING (String.singleton ch) rest ln
      else if isdigit ch then getTokenLoop .ININT (String.singleton ch) rest ln
      else if ch = '/' then getTokenLoop .ONESLASH (String.singleton ch) rest ln
      else (⟨punctuationKind ch, String.singleton ch, ln⟩, ⟨rest, ln⟩)
    | .INID =>
      if isalpha ch || isdigit ch then getTokenLoop .INID (lexeme.push ch) rest ln
      else (id_or_kw lexeme ln, ⟨ch :: rest, ln⟩)
    | .INSTRING =>
      if ch = '\n' then (⟨TokenType.T_ERROR, lexeme.push ch, ln⟩, ⟨rest, ln⟩)
      else if ch = quoteChar then (⟨TokenType.T_SCONST, lexeme.push ch, ln⟩, ⟨rest, ln⟩)
      else getTokenLoop .INSTRING (lexeme.push ch) rest ln
    | .ININT =>
      if isdigit ch then getTokenLoop .ININT (lexeme.push ch) rest ln
      else if isalpha ch then (⟨TokenType.T_ERROR, lexeme.push ch, ln⟩, ⟨rest, ln⟩)
      else (⟨TokenType.T_ICONST, lexeme, ln⟩, ⟨ch :: rest, ln⟩)
    | .ONESLASH =>
      if ch ≠ '/' then (⟨TokenType.T_SLASH, lexeme, ln⟩, ⟨ch :: rest, ln⟩)
      else getTokenLoop .INCOMMENT lexeme rest ln
    | .INCOMMENT =>
      if ch = '\n' then getTokenLoop .BEGIN lexeme rest ln
      else getTokenLoop .INCOMMENT lexeme rest ln

/-- The function `getToken(br)`: the token returned, and the stream and
`lineNumber` after the call. -/
def getToken (inp : LexerInput) : Token × LexerInput :=
  getTokenLoop LexState.BEGIN "" inp.chars inp.lineNumber

/-! ## `parser.cpp`: the parser -/

/-- The library call `stoi(lexeme)`: leading whitespace is skipped, an
optional sign and the longest run of decimal digits are read; `none` stands
for the exception it throws, `std::invalid_argument` when there is no digit
and `std::out_of_range` when the number is not a value of `int`. -/
def stoi (lexeme : String) : Option Int :=
  let cs := lexeme.data.dropWhile isspace
  let neg := cs.head? = some '-'
  let ds := if cs.head? = some '-' ∨ cs.head? = some '+' then cs.drop 1 else cs
  let digits := ds.takeWhile isdigit
  let v : Int := (digits.foldl (fun a ch => 10 * a + (ch.toNat - 48)) 0 : Nat)
  let x : Int := if neg then -v else v
  if digits = [] then none
  else if INT_MIN ≤ x ∧ x ≤ INT_MAX then some x
  else none

/-- The state that the parsing functions share: the tokens that the calls of
the lexer will still return before the end of input, in order, and the line
recorded by the end marker returned after them; the object `ParserToken` (its
members `tok` and `pushedBack`); the global `hasParseErrors`; and the globals
that `error` writes to. -/
structure ParserState where
  input : List Token
  eofLine : Int
  tok : Token
  pushedBack : Bool
  hasParseErrors : Bool
  g : Globals
  deriving DecidableEq, Repr

/-- The state at the start of `Prog`: nothing pushed back (the member `tok` is
a default-constructed `Token`), no parse error. -/
def ParserState.initial (input : List Token) (eofLine : Int) (g : Globals) : ParserState :=
  ⟨input, eofLine, ⟨TokenType.T_ERROR, "", 0⟩, false, false, g⟩

/-- The method `ParserToken::getToken(in)`. -/
def ParserState.getToken (s : ParserState) : Token × ParserState :=
  if s.pushedBack then (s.tok, { s with pushedBack := false })
  else
    match s.input with
    | [] => (⟨TokenType.T_DONE, "", s.eofLine⟩, s)
    | t :: ts => (t, { s with input := ts })

/-- The method `ParserToken::pushbackToken(t)`. -/
def ParserState.pushbackToken (t : Token) (s : ParserState) : ParserState :=
  { s with tok := t, pushedBack := true }

/-- The function `syntaxError(line, text)`. -/
def syntaxError (line : Int) (text : String) (s : ParserState) : ParserState :=
  { s with g := error line ("Syntax error " ++ text) s.g, hasParseErrors := true }

/-- The function `checkIdentifier(id)`. -/
def checkIdentifier (id : Token) (s : ParserState) : Option Identifier × ParserState :=
  if id.tt = TokenType.T_ID then (some ⟨id.lnum, id.lexeme⟩, s)
  else (none, syntaxError id.lnum "identifier expected" s)

/-- The way a call of a parsing function ends: it returns a tree pointer
(`none` is the null pointer), or an exception leaves it (no function of the
program catches one), or the fuel of the embedding ran out. -/
inductive Parsed where
  | outOfFuel
  | thrown (s : ParserState)
  | returned (tree : Option ParseTree) (s : ParserState)
  deriving Repr

mutual
/-- The function `Primary(in)`. -/
def Primary : Nat → ParserState → Parsed
  | 0, _ => Parsed.outOfFuel
  | fuel + 1, s =>
    let firstToken := s.getToken.1
    let s1 := s.getToken.2
    if firstToken.tt = TokenType.T_ICONST then
      match stoi firstToken.lexeme with
      | some v => Parsed.returned (some (ParseTree.IntegerConstant firstToken.lnum v)) s1
      | none => Parsed.thrown s1
    else if firstToken.tt = TokenType.T_SCONST then
      if firstToken.lexeme.length = 0 then Parsed.thrown s1
      else
        Parsed.returned
          (some (ParseTree.StringConstant firstToken.lnum
            (String.mk ((firstToken.lexeme.data.drop 1).take (firstToken.lexeme.length - 2)))))
          s1
    else if firstToken.tt = TokenType.T_ID then
      Parsed.returned (some (ParseTree.Identifier ⟨firstToken.lnum, firstToken.lexeme⟩)) s1
    else if firstToken.tt = TokenType.T_LPAREN then
      match Expr fuel s1 with
      | Parsed.returned expr s2 =>
        let lastToken := s2.getToken.1
        let s3 := s2.getToken.2
        if lastToken.tt = TokenType.T_RPAREN then Parsed.returned expr s3
        else Parsed.returned none (syntaxError lastToken.lnum "right paren expected" s3)
      | r => r
    else Parsed.returned none (syntaxError firstToken.lnum "primary expected" s1)

/-- The loop `for (;;)` of `Term(in)`, entered with the tree `t1` built so
far. -/
def TermLoop : Nat → ParseTree → ParserState → Parsed
  | 0, _, _ => Parsed.outOfFuel
  | fuel + 1, t1, s =>
    let op := s.getToken.1
    let s1 := s.getToken.2
    if op.tt ≠ TokenType.T_STAR ∧ op.tt ≠ TokenType.T_SLASH then
      Parsed.returned (some t1) (s1.pushbackToken op)
    else
      match Primary fuel s1 with
      | Parsed.returned (some t2) s2 =>
        TermLoop fuel
          (if op.tt = TokenType.T_STAR then ParseTree.Multiplication op.lnum t1 t2
           else ParseTree.Division op.lnum t1 t2) s2
      | Parsed.returned none s2 =>
        Parsed.returned none (syntaxError op.lnum "term required after * or / operator" s2)
      | r => r

/-- The function `Term(in)`. -/
def Term : Nat → ParserState → Parsed
  | 0, _ => Parsed.outOfFuel
  | fuel + 1, s =>
    match Primary fuel s with
    | Parsed.returned (some t1) s1 => TermLoop fuel t1 s1
    | r => r

/-- The loop `for (;;)` of `Expr(in)`, entered with the tree `t1` built so
far. -/
def ExprLoop : Nat → ParseTree → ParserState → Parsed
  | 0, _, _ => Parsed.outOfFuel
  | fuel + 1, t1, s =>
    let op := s.getToken.1
    let s1 := s.getToken.2
    if op.tt ≠ TokenType.T_PLUS ∧ op.tt ≠ TokenType.T_MINUS then
      Parsed.returned (some t1) (s1.pushbackToken op)
    else
      match Term fuel s1 with
      | Parsed.returned (some t2) s2 =>
        ExprLoop fuel
          (if op.tt = TokenType.T_PLUS then ParseTree.Addition op.lnum t1 t2
           else ParseTree.Subtraction op.lnum t1 t2) s2
      | Parsed.returned none s2 =>
        Parsed.returned none
          (syntaxError op.lnum "expression required after + or - operator" s2)
      | r => r

/-- The function `Expr(in)`. -/
def Expr : Nat → ParserState → Parsed
  | 0, _ => Parsed.outOfFuel
  | fuel + 1, s =>
    match Term fuel s with
    | Parsed.returned (some t1) s1 => ExprLoop fuel t1 s1
    | r => r
end

/-- The function `Decl(in)`. -/
def Decl (s : ParserState) : Parsed :=
  let declarationType := s.getToken.1
  let s1 := s.getToken.2
  let id := s1.getToken.1
  let s2 := s1.getToken.2
  match (checkIdentifier id s2).1 with
  | some identifier =>
    Parsed.returned
      (some (ParseTree.VariableDeclaration declarationType.lnum
        (if declarationType.tt = TokenType.T_INT then TypeForNode.INT_TYPE
         else TypeForNode.STRING_TYPE) identifier))
      (checkIdentifier id s2).2
  | none =>
    Parsed.returned none (syntaxError id.lnum "declaration expected" (checkIdentifier id s2).2)

/-- The function `Set(in)`. -/
def Set (fuel : Nat) (s : ParserState) : Parsed :=
  let set := s.getToken.1
  let s1 := s.getToken.2
  let id := s1.getToken.1
  let s2 := s1.getToken.2
  match (checkIdentifier id s2).1 with
  | some identifier =>
    match Expr fuel (checkIdentifier id s2).2 with
    | Parsed.returned (some expr) s3 =>
      Parsed.returned (some (ParseTree.VariableAssignment set.lnum identifier expr)) s3
    | Parsed.returned none s3 =>
      Parsed.returned none (syntaxError id.lnum "expression required" s3)
    | r => r
  | none => Parsed.returned none (checkIdentifier id s2).2

/-- The function `Print(in)`. -/
def Print (fuel : Nat) (s : ParserState) : Parsed :=
  let keyword := s.getToken.1
  let s1 := s.getToken.2
  match Expr fuel s1 with
  | Parsed.returned (some expr) s2 =>
    Parsed.returned (some (ParseTree.PrintCommand keyword.lnum keyword.tt expr)) s2
  | Parsed.returned none s2 =>
    Parsed.returned none (syntaxError keyword.lnum "expression required" s2)
  | r => r

/-- The function `Stmt(in)`. -/
def Stmt (fuel : Nat) (s : ParserState) : Parsed :=
  let token := s.getToken.1
  let s1 := s.getToken.2.pushbackToken token
  if token.tt = TokenType.T_INT ∨ token.tt = TokenType.T_STRING then Decl s1
  else if token.tt = TokenType.T_SET then Set fuel s1
  else if token.tt = TokenType.T_PRINT ∨ token.tt = TokenType.T_PRINTLN then Print fuel s1
  else if token.tt = TokenType.T_DONE then Parsed.returned none s1
  else Parsed.returned none (syntaxError token.lnum "statement expected" s1)

/-- The function `StmtList(in)`. -/
def StmtList : Nat → ParserState → Parsed
  | 0, _ => Parsed.outOfFuel
  | fuel + 1, s =>
    match Stmt fuel s with
    | Parsed.returned (some stmt) s1 =>
      let semicolon := s1.getToken.1
      let s2 := s1.getToken.2
      if semicolon.tt = TokenType.T_SC then
        match StmtList fuel s2 with
        | Parsed.returned rest s3 =>
          Parsed.returned (some (ParseTree.StatementList (some stmt) rest)) s3
        | r => r
      else Parsed.returned none (syntaxError semicolon.lnum "semicolon required" s2)
    | r => r

/-- The function `Prog(in)`. -/
def Prog (fuel : Nat) (s : ParserState) : Parsed := StmtList fuel s

/-! ## Evaluation as the built program runs it

Two points of `parser.h` that the total functions `Value.div` and
`ParseTree.Evaluate` above fix by a choice are left open here.
* The quotient `INT_MIN / -1` has no value of type `int`: `operator/` tests
  the divisor against zero only, the division is undefined and the built
  program is stopped by the processor. `intQuotient` and
  `Value.operatorDiv` return `none` there.
* The two operands of `getLeft()->Evaluate() op getRight()->Evaluate()` are
  evaluated in an order that C++ leaves to the compiler. `EvaluateIn` takes
  the order of each of the four call sites as a parameter.
-/

/-- The C++ `a / b` on `int` for `b ≠ 0`: the quotient truncated toward zero,
and `none` for `INT_MIN / -1`, whose quotient is not an `int` and where the
program is stopped. -/
def intQuotient (a b : Int) : Option Int :=
  if a = INT_MIN ∧ b = -1 then none else some (intDiv a b)

/-- The `operator/` of `Value` with the undefined division: `none` when the
call does not return. -/
def Value.operatorDiv (u v : Value) : Option Value :=
  if u.type = TypeForNode.INT_TYPE ∧ v.type = TypeForNode.INT_TYPE then
    if v.intValue ≠ 0 then (intQuotient u.intValue v.intValue).map Value.Integer
    else some (Value.Error "DIVIDE BY ZERO")
  else if u.type = TypeForNode.STRING_TYPE ∧ v.type = TypeForNode.STRING_TYPE then
    match strFind u.stringValue.data v.stringValue.data with
    | none => some u
    | some pos =>
      some { Value.String u.stringValue with
        stringValue := ⟨strErase u.stringValue.data pos v.stringValue.data.length⟩ }
  else some (Value.Error "")

/-- The order in which the compiler evaluates the two operands at each of the
four call sites `getLeft()->Evaluate() op getRight()->Evaluate()`: `true`
when the left operand is evaluated first. -/
structure OperandOrder where
  addition : Bool
  subtraction : Bool
  multiplication : Bool
  division : Bool
  deriving DecidableEq, Repr

/-- Every call site evaluates the left operand first. -/
def OperandOrder.leftFirst : OperandOrder := ⟨true, true, true, true⟩

/-- Every call site evaluates the right operand first. -/
def OperandOrder.rightFirst : OperandOrder := ⟨false, false, false, false⟩

/-- The two operand calls of a binary node in the given order: the value of
the left operand, the value of the right operand and the globals after both
calls; `none` when one of the calls does not return. -/
def evalOperands (leftFirst : Bool) (el er : Globals → Option (Value × Globals))
    (g : Globals) : Option (Value × Value × Globals) :=
  if leftFirst then
    match el g with
    | none => none
    | some a =>
      match er a.2 with
      | none => none
      | some b => some (a.1, b.1, b.2)
  else
    match er g with
    | none => none
    | some b =>
      match el b.2 with
      | none => none
      | some a => some (a.1, b.1, a.2)

/-- The virtual method `Evaluate()` as the built program runs it: the value
returned and the globals after the call, `none` when the call does not return
because a division inside it is undefined. A null child of a `StatementList`
is skipped. -/
def ParseTree.EvaluateIn (o : OperandOrder) : ParseTree → Globals → Option (Value × Globals)
  | .StatementList (some l) (some r), g =>
    match l.EvaluateIn o g with
    | none => none
    | some a =>
      if a.1.type ≠ TypeForNode.EMPTY_TYPE then some (Value.Error "", a.2)
      else r.EvaluateIn o a.2
  | .StatementList (some l) none, g =>
    match l.EvaluateIn o g with
    | none => none
    | some a =>
      if a.1.type ≠ TypeForNode.EMPTY_TYPE then some (Value.Error "", a.2)
      else some (Value.Empty, a.2)
  | .StatementList none (some r), g => r.EvaluateIn o g
  | .StatementList none none, g => some (Value.Empty, g)
  | .Addition _ l r, g =>
    match evalOperands o.addition (l.EvaluateIn o) (r.EvaluateIn o) g with
    | none => none
    | some (a, b, g2) => some (Value.add a b, g2)
  | .Subtraction _ l r, g =>
    match evalOperands o.subtraction (l.EvaluateIn o) (r.EvaluateIn o) g with
    | none => none
    | some (a, b, g2) => some (Value.sub a b, g2)
  | .Multiplication _ l r, g =>
    match evalOperands o.multiplication (l.EvaluateIn o) (r.EvaluateIn o) g with
    | none => none
    | some (a, b, g2) => some (Value.mul a b, g2)
  | .Division n l r, g =>
    match evalOperands o.division (l.EvaluateIn o) (r.EvaluateIn o) g with
    | none => none
    | some (a, b, g2) =>
      match Value.operatorDiv a b with
      | none => none
      | some val => some (val, reportDivision n val g2)
  | .IntegerConstant _ value, g => some (Value.Integer value, g)
  | .StringConstant _ value, g => some (Value.String value, g)
  | .Identifier id, g => some (id.Evaluate g)
  | .VariableDeclaration _ t id, g =>
    let dflt := if t = TypeForNode.INT_TYPE then Value.Integer 0 else Value.String ""
    some (Value.Empty, { g with symbolTable := Table.assign g.symbolTable id.identifier dflt })
  | .VariableAssignment _ id e, g =>
    match e.EvaluateIn o g with
    | none => none
    | some a =>
      if a.1.type ≠ TypeForNode.ERROR_TYPE then
        some (Value.Empty,
          { a.2 with symbolTable := Table.assign a.2.symbolTable id.identifier a.1 })
      else some (Value.Error "", a.2)
  | .PrintCommand _ tokenType e, g =>
    match e.EvaluateIn o g with
    | none => none
    | some a =>
      if a.1.type ≠ TypeForNode.ERROR_TYPE then
        let nl := if tokenType = TokenType.T_PRINTLN then "\n" else ""
        some (Value.Empty, { a.2 with cout := a.2.cout ++ printValue a.1 ++ nl })
      else some (Value.Error "", a.2)

/-- The tail of `main` once parsing succeeded, as the built program runs it:
the semantic check, and the evaluation when the check is error free; `none`
when the evaluation does not return. -/
def checkAndRunIn (o : OperandOrder) (tree : ParseTree) (g : Globals) : Option Globals :=
  let c := tree.accept ⟨false, g⟩
  if c.isErrorFree then (tree.EvaluateIn o c.g).map (·.2) else some c.g

/-! ## Definitions used to state the properties -/

/-- The text `s` repeated `n` times: the concatenation of `n` copies of `s`. -/
def repeatString : Nat → String → String
  | 0, _ => ""
  | n + 1, s => s ++ repeatString n s

/-- The text `v` occurs in `u` after the leading part `p` and before the
trailing part `q`. -/
def occursAt (u v p q : List Char) : Prop := u = p ++ v ++ q

instance (u v p q : List Char) : Decidable (occursAt u v p q) := by
  unfold occursAt; exact inferInstance

/-- The tree that `StmtList` of `parser.cpp` builds for the statements `ss`:
`new StatementList(stmt, StmtList(in))`, and a null pointer when no statement
is left. -/
def stmtListTree : List ParseTree → Option ParseTree
  | [] => none
  | s :: ss => some (ParseTree.StatementList (some s) (stmtListTree ss))

/-- The globals after the statements `ss` were evaluated one after the other,
each of them, starting from `g`. -/
def evalAll : List ParseTree → Globals → Globals
  | [], g => g
  | s :: ss, g => evalAll ss (s.Evaluate g).2

/-- Each of the statements `ss`, evaluated one after the other from `g`,
yields a value of type `EMPTY_TYPE`. -/
def allEmpty : List ParseTree → Globals → Bool
  | [], _ => true
  | s :: ss, g =>
    decide ((s.Evaluate g).1.type = TypeForNode.EMPTY_TYPE) && allEmpty ss (s.Evaluate g).2

/-- The trees that `Expr`, `Term` and `Primary` of `parser.cpp` build: the
four binary nodes over constants and identifiers. -/
def ParseTree.isExpr : ParseTree → Bool
  | .Addition _ l r => l.isExpr && r.isExpr
  | .Subtraction _ l r => l.isExpr && r.isExpr
  | .Multiplication _ l r => l.isExpr && r.isExpr
  | .Division _ l r => l.isExpr && r.isExpr
  | .IntegerConstant _ _ => true
  | .StringConstant _ _ => true
  | .Identifier _ => true
  | _ => false

/-- The trees that `Decl`, `Set` and `Print` of `parser.cpp` build. -/
def ParseTree.isStmt : ParseTree → Bool
  | .VariableDeclaration _ t _ =>
    decide (t = TypeForNode.INT_TYPE ∨ t = TypeForNode.STRING_TYPE)
  | .VariableAssignment _ _ e => e.isExpr
  | .PrintCommand _ tok e =>
    decide (tok = TokenType.T_PRINT ∨ tok = TokenType.T_PRINTLN) && e.isExpr
  | _ => false

/-- Every identifier that occurs as an operand in the tree is bound in the
value table `S`. -/
def ParseTree.identifiersBound (S : Table Value) : ParseTree → Bool
  | .StatementList left right =>
    (match left with
      | some l => l.identifiersBound S
      | none => true)
    && (match right with
      | some r => r.identifiersBound S
      | none => true)
  | .Addition _ l r => l.identifiersBound S && r.identifiersBound S
  | .Subtraction _ l r => l.identifiersBound S && r.identifiersBound S
  | .Multiplication _ l r => l.identifiersBound S && r.identifiersBound S
  | .Division _ l r => l.identifiersBound S && r.identifiersBound S
  | .IntegerConstant _ _ => true
  | .StringConstant _ _ => true
  | .Identifier id => (Table.find S id.identifier).isSome
  | .VariableDeclaration _ _ _ => true
  | .VariableAssignment _ _ e => e.identifiersBound S
  | .PrintCommand _ _ e => e.identifiersBound S

/-- Every call of `Identifier::Evaluate` that is made while `Evaluate` runs on
the tree from the globals `g` finds its name bound in `symbolTable` at the
time of the call. The recursion follows `Evaluate` call by call: the same
children, in the same order, from the same intermediate globals, and no call
on the part that `Evaluate` skips. -/
def ParseTree.readsOnlyBound : ParseTree → Globals → Bool
  | .StatementList left right, g =>
    match left with
    | some l =>
      l.readsOnlyBound g &&
        (if (l.Evaluate g).1.type ≠ TypeForNode.EMPTY_TYPE then true
         else
          match right with
          | some r => r.readsOnlyBound (l.Evaluate g).2
          | none => true)
    | none =>
      match right with
      | some r => r.readsOnlyBound g
      | none => true
  | .Addition _ l r, g => l.readsOnlyBound g && r.readsOnlyBound (l.Evaluate g).2
  | .Subtraction _ l r, g => l.readsOnlyBound g && r.readsOnlyBound (l.Evaluate g).2
  | .Multiplication _ l r, g => l.readsOnlyBound g && r.readsOnlyBound (l.Evaluate g).2
  | .Division _ l r, g => l.readsOnlyBound g && r.readsOnlyBound (l.Evaluate g).2
  | .IntegerConstant _ _, _ => true
  | .StringConstant _ _, _ => true
  | .Identifier id, g => (Table.find g.symbolTable id.identifier).isSome
  | .VariableDeclaration _ _ _, _ => true
  | .VariableAssignment _ _ e, g => e.readsOnlyBound g
  | .PrintCommand _ _ e, g => e.readsOnlyBound g

/-- Every name of the type table `T` is bound in the value table `S`. -/
def covers (T : Table TypeForNode) (S : Table Value) : Prop :=
  ∀ k, (Table.find T k).isSome = true → (Table.find S k).isSome = true

/-! ### The programs of the examples, as `Prog` builds them from one line of input -/

/-- The statement `int x`. -/
def declIntX : ParseTree :=
  ParseTree.VariableDeclaration 0 TypeForNode.INT_TYPE ⟨0, "x"⟩

/-- The statement `set x 6`. -/
def setX6 : ParseTree :=
  ParseTree.VariableAssignment 0 ⟨0, "x"⟩ (ParseTree.IntegerConstant 0 6)

/-- The statement `set x x/0`. -/
def setXDivZero : ParseTree :=
  ParseTree.VariableAssignment 0 ⟨0, "x"⟩
    (ParseTree.Division 0 (ParseTree.Identifier ⟨0, "x"⟩) (ParseTree.IntegerConstant 0 0))

/-- The statement `println x`. -/
def printlnX : ParseTree :=
  ParseTree.PrintCommand 0 TokenType.T_PRINTLN (ParseTree.Identifier ⟨0, "x"⟩)

/-- The program `int x; set x 6; set x x/0; println x;`. -/
def progDivZero : ParseTree :=
  ParseTree.StatementList (some declIntX)
    (some (ParseTree.StatementList (some setX6)
      (some (ParseTree.StatementList (some setXDivZero)
        (some (ParseTree.StatementList (some printlnX) none))))))

/-- The statement `print 1 + "a"`. -/
def printOnePlusA : ParseTree :=
  ParseTree.PrintCommand 0 TokenType.T_PRINT
    (ParseTree.Addition 0 (ParseTree.IntegerConstant 0 1) (ParseTree.StringConstant 0 "a"))

/-- The program `print 1 + "a";`. -/
def progTypeError : ParseTree :=
  ParseTree.StatementList (some printOnePlusA) none

/-- The program `println "ran"; print 1 + "a";`. -/
def progTypeErrorRan : ParseTree :=
  ParseTree.StatementList
    (some (ParseTree.PrintCommand 0 TokenType.T_PRINTLN (ParseTree.StringConstant 0 "ran")))
    (some (ParseTree.StatementList (some printOnePlusA) none))

/-- The statement `set x 5`. -/
def setX5 : ParseTree :=
  ParseTree.VariableAssignment 0 ⟨0, "x"⟩ (ParseTree.IntegerConstant 0 5)

/-- The program `int x; set x 5; println x;`. -/
def progPrintFive : ParseTree :=
  ParseTree.StatementList (some declIntX)
    (some (ParseTree.StatementList (some setX5)
      (some (ParseTree.StatementList (some printlnX) none))))

/-- The statement `set x y`, assigning from an identifier `y`. -/
def setXFromY : ParseTree :=
  ParseTree.VariableAssignment 0 ⟨0, "x"⟩ (ParseTree.Identifier ⟨0, "y"⟩)

/-- The statement `set x y + 1`. -/
def setXFromYPlusOne : ParseTree :=
  ParseTree.VariableAssignment 0 ⟨0, "x"⟩
    (ParseTree.Addition 0 (ParseTree.Identifier ⟨0, "y"⟩) (ParseTree.IntegerConstant 0 1))

/-- The program `print y;`, whose identifier is declared nowhere. -/
def progPrintUndeclared : ParseTree :=
  ParseTree.StatementList
    (some (ParseTree.PrintCommand 0 TokenType.T_PRINT (ParseTree.Identifier ⟨0, "y"⟩))) none

/-- The four classes of binary arithmetic nodes. -/
inductive BinaryKind where
  | addition | subtraction | multiplication | division
  deriving DecidableEq, Repr

/-- The node of the given class, with its line and its two children. -/
def BinaryKind.node : BinaryKind → Int → ParseTree → ParseTree → ParseTree
  | .addition, n, l, r => ParseTree.Addition n l r
  | .subtraction, n, l, r => ParseTree.Subtraction n l r
  | .multiplication, n, l, r => ParseTree.Multiplication n l r
  | .division, n, l, r => ParseTree.Division n l r

/-- The reference table of the static type of a binary node, entry by entry
as the specification words it: addition and division give the common type of
the two sides, subtraction gives integer on two integers, multiplication
gives the right type on a left integer and string on string times integer;
every other entry is the ill-typed marker. -/
def referenceType : BinaryKind → TypeForNode → TypeForNode → TypeForNode
  | .addition, .INT_TYPE, .INT_TYPE => .INT_TYPE
  | .addition, .STRING_TYPE, .STRING_TYPE => .STRING_TYPE
  | .addition, .ERROR_TYPE, .ERROR_TYPE => .ERROR_TYPE
  | .addition, .EMPTY_TYPE, .EMPTY_TYPE => .EMPTY_TYPE
  | .addition, _, _ => .ERROR_TYPE
  | .subtraction, .INT_TYPE, .INT_TYPE => .INT_TYPE
  | .subtraction, _, _ => .ERROR_TYPE
  | .multiplication, .INT_TYPE, r => r
  | .multiplication, .STRING_TYPE, .INT_TYPE => .STRING_TYPE
  | .multiplication, _, _ => .ERROR_TYPE
  | .division, .INT_TYPE, .INT_TYPE => .INT_TYPE
  | .division, .STRING_TYPE, .STRING_TYPE => .STRING_TYPE
  | .division, .ERROR_TYPE, .ERROR_TYPE => .ERROR_TYPE
  | .division, .EMPTY_TYPE, .EMPTY_TYPE => .EMPTY_TYPE
  | .division, _, _ => .ERROR_TYPE

/-- One diagnostic line of the output, in the form
`[filename:]line-number:message`, the line numbers counted from 1. -/
def diagnosticLine (file : Option String) (linenum : Int) (message : String) : String :=
  (match file with
    | some f => f ++ ":"
    | none => "")
  ++ toString (intAdd linenum 1) ++ ":" ++ message ++ "\n"

/-- The names of the `VariableDeclaration` nodes of a tree. -/
def ParseTree.declaredNames : ParseTree → List String
  | .StatementList left right =>
    (match left with
      | some l => l.declaredNames
      | none => [])
    ++ (match right with
      | some r => r.declaredNames
      | none => [])
  | .Addition _ l r => l.declaredNames ++ r.declaredNames
  | .Subtraction _ l r => l.declaredNames ++ r.declaredNames
  | .Multiplication _ l r => l.declaredNames ++ r.declaredNames
  | .Division _ l r => l.declaredNames ++ r.declaredNames
  | .IntegerConstant _ _ => []
  | .StringConstant _ _ => []
  | .Identifier _ => []
  | .VariableDeclaration _ _ id => [id.identifier]
  | .VariableAssignment _ _ e => e.declaredNames
  | .PrintCommand _ _ e => e.declaredNames

/-- Every visit of a `VariableDeclaration` node that is made while `accept`
runs on the tree from the checker state `c` finds the name already in the
type table, that is, takes the branch that reports `was already declared`.
The recursion follows `accept` call by call. -/
def ParseTree.flagsEveryDeclaration : ParseTree → SemanticCheck → Bool
  | .StatementList left right, c =>
    match left with
    | some l =>
      l.flagsEveryDeclaration c &&
        (match right with
          | some r => r.flagsEveryDeclaration (l.accept c)
          | none => true)
    | none =>
      match right with
      | some r => r.flagsEveryDeclaration c
      | none => true
  | .Addition _ l r, c => l.flagsEveryDeclaration c && r.flagsEveryDeclaration (l.accept c)
  | .Subtraction _ l r, c => l.flagsEveryDeclaration c && r.flagsEveryDeclaration (l.accept c)
  | .Multiplication _ l r, c => l.flagsEveryDeclaration c && r.flagsEveryDeclaration (l.accept c)
  | .Division _ l r, c => l.flagsEveryDeclaration c && r.flagsEveryDeclaration (l.accept c)
  | .IntegerConstant _ _, _ => true
  | .StringConstant _ _, _ => true
  | .Identifier _, _ => true
  | .VariableDeclaration _ _ id, c => (Table.find c.g.typeTable id.identifier).isSome
  | .VariableAssignment _ id e, c =>
    e.flagsEveryDeclaration (SemanticCheck.visitIdentifier id c)
  | .PrintCommand _ _ e, c => e.flagsEveryDeclaration c

/-- The program `int x; int x;`. -/
def progDeclaredTwice : ParseTree :=
  ParseTree.StatementList (some declIntX)
    (some (ParseTree.StatementList (some declIntX) none))

/-- The program `set y 1;`. -/
def progSetUndeclared : ParseTree :=
  ParseTree.StatementList
    (some (ParseTree.VariableAssignment 0 ⟨0, "y"⟩ (ParseTree.IntegerConstant 0 1))) none

/-- The statement `set x "hi"`. -/
def setXHi : ParseTree :=
  ParseTree.VariableAssignment 0 ⟨0, "x"⟩ (ParseTree.StringConstant 0 "hi")

/-- The program `int x; set x "hi";`. -/
def progAssignTypeError : ParseTree :=
  ParseTree.StatementList (some declIntX)
    (some (ParseTree.StatementList (some setXHi) none))

/-- Every identifier that occurs as an operand in the tree is in the type
table `T`. -/
def ParseTree.identifiersDeclared (T : Table TypeForNode) : ParseTree → Bool
  | .StatementList left right =>
    (match left with
      | some l => l.identifiersDeclared T
      | none => true)
    && (match right with
      | some r => r.identifiersDeclared T
      | none => true)
  | .Addition _ l r => l.identifiersDeclared T && r.identifiersDeclared T
  | .Subtraction _ l r => l.identifiersDeclared T && r.identifiersDeclared T
  | .Multiplication _ l r => l.identifiersDeclared T && r.identifiersDeclared T
  | .Division _ l r => l.identifiersDeclared T && r.identifiersDeclared T
  | .IntegerConstant _ _ => true
  | .StringConstant _ _ => true
  | .Identifier id => (Table.find T id.identifier).isSome
  | .VariableDeclaration _ _ _ => true
  | .VariableAssignment _ _ e => e.identifiersDeclared T
  | .PrintCommand _ _ e => e.identifiersDeclared T

/-- A run of skipped text: whitespace characters and whole line comments,
each comment being `//`, text without a newline, and the newline. -/
inductive Skipped : List Char → Prop where
  | nil : Skipped []
  | space (ch : Char) (rest : List Char) :
      isspace ch = true → Skipped rest → Skipped (ch :: rest)
  | comment (text rest : List Char) :
      (∀ x ∈ text, x ≠ '\n') → Skipped rest →
      Skipped ('/' :: '/' :: (text ++ '\n' :: rest))

/-- The kind of a word as the specification gives it: the keyword kind when
the word is exactly one of `int`, `string`, `set`, `print`, `println`, the
identifier kind otherwise. -/
def keywordKind (w : String) : TokenType :=
  if w = "int" then TokenType.T_INT
  else if w = "string" then TokenType.T_STRING
  else if w = "set" then TokenType.T_SET
  else if w = "print" then TokenType.T_PRINT
  else if w = "println" then TokenType.T_PRINTLN
  else TokenType.T_ID

/-- The line counter after the characters `cs` were read once each, starting
from `ln`. -/
def lineAfter (ln : Int) (cs : List Char) : Int :=
  cs.foldl (fun l ch => if ch = '\n' then intAdd l 1 else l) ln

/-! ### The grammar and the runs of the parser -/

/-- The end marker that the lexer returns at the end of the input. -/
def ParserState.doneToken (s : ParserState) : Token := ⟨TokenType.T_DONE, "", s.eofLine⟩

/-- The tokens that the next calls of `ParserToken::getToken` return, in
order, before the end markers: the token pushed back, if any, and the tokens
the lexer still has. -/
def ParserState.pend (s : ParserState) : List Token :=
  if s.pushedBack then s.tok :: s.input else s.input

/-- The tokens `l` are what the parser still has to read before the end
markers: either they are the pending tokens, or none is left and the end
marker itself was pushed back. -/
def Pending (s : ParserState) (l : List Token) : Prop :=
  s.pend = l ∨ (l = [] ∧ s.pushedBack = true ∧ s.tok = s.doneToken ∧ s.input = [])

/-- The kind of the token that is read next when the tokens `l` are pending. -/
def nextKind (l : List Token) : TokenType :=
  match l with
  | [] => TokenType.T_DONE
  | t :: _ => t.tt

/-- A token whose tree node can be constructed: the lexeme of an integer
constant is accepted by `stoi`, the lexeme of a string constant is not empty
(the lexer gives it both quotes). -/
def tokenOK (t : Token) : Prop :=
  (t.tt = TokenType.T_ICONST → (stoi t.lexeme).isSome = true)
  ∧ (t.tt = TokenType.T_SCONST → t.lexeme.length ≠ 0)

/-- Every pending token can have its node constructed. -/
def Parseable (s : ParserState) : Prop := ∀ t ∈ s.pend, tokenOK t

/-- The measure of the tokens left, used to bound the fuel: two for each
token of the lexer, one for a token pushed back that is not the end marker. -/
def ParserState.mu (s : ParserState) : Nat :=
  2 * s.input.length
    + (if s.pushedBack = true ∧ s.tok.tt ≠ TokenType.T_DONE then 1 else 0)

/-- The value of a string constant token: `lexeme.substr(1, size - 2)`. -/
def stringConstantValue (lexeme : String) : String :=
  String.mk ((lexeme.data.drop 1).take (lexeme.length - 2))

/-- The binary node that `Expr` and `Term` build for the operator token `op`. -/
def binaryNode (op : Token) (t1 t2 : ParseTree) : ParseTree :=
  if op.tt = TokenType.T_PLUS then ParseTree.Addition op.lnum t1 t2
  else if op.tt = TokenType.T_MINUS then ParseTree.Subtraction op.lnum t1 t2
  else if op.tt = TokenType.T_STAR then ParseTree.Multiplication op.lnum t1 t2
  else ParseTree.Division op.lnum t1 t2

/-- The nonterminals of the expression grammar; the two tails are the
repetitions `(('*'|'/') Primary)*` and `(('+'|'-') Term)*`, entered with the
tree built so far. -/
inductive NT where
  | primary
  | term
  | termTail (acc : ParseTree)
  | expr
  | exprTail (acc : ParseTree)

/-- The expression grammar of the specification with the tree of each
derivation: the tokens are derived from the nonterminal, and the tree is the
one the rule builds, the repetitions folding their operands from left to
right. -/
inductive Derives : NT → List Token → ParseTree → Prop where
  | iconst (t : Token) (v : Int) :
      t.tt = TokenType.T_ICONST → stoi t.lexeme = some v →
      Derives NT.primary [t] (ParseTree.IntegerConstant t.lnum v)
  | sconst (t : Token) :
      t.tt = TokenType.T_SCONST → t.lexeme.length ≠ 0 →
      Derives NT.primary [t] (ParseTree.StringConstant t.lnum (stringConstantValue t.lexeme))
  | ident (t : Token) :
      t.tt = TokenType.T_ID →
      Derives NT.primary [t] (ParseTree.Identifier ⟨t.lnum, t.lexeme⟩)
  | paren (l r : Token) (ts : List Token) (e : ParseTree) :
      l.tt = TokenType.T_LPAREN → r.tt = TokenType.T_RPAREN → Derives NT.expr ts e →
      Derives NT.primary (l :: (ts ++ [r])) e
  | term (ts1 ts2 : List Token) (t1 t : ParseTree) :
      Derives NT.primary ts1 t1 → Derives (NT.termTail t1) ts2 t →
      Derives NT.term (ts1 ++ ts2) t
  | termEnd (acc : ParseTree) : Derives (NT.termTail acc) [] acc
  | termMore (op : Token) (ts1 ts2 : List Token) (acc t2 t : ParseTree) :
      (op.tt = TokenType.T_STAR ∨ op.tt = TokenType.T_SLASH) →
      Derives NT.primary ts1 t2 → Derives (NT.termTail (binaryNode op acc t2)) ts2 t →
      Derives (NT.termTail acc) (op :: (ts1 ++ ts2)) t
  | expr (ts1 ts2 : List Token) (t1 t : ParseTree) :
      Derives NT.term ts1 t1 → Derives (NT.exprTail t1) ts2 t →
      Derives NT.expr (ts1 ++ ts2) t
  | exprEnd (acc : ParseTree) : Derives (NT.exprTail acc) [] acc
  | exprMore (op : Token) (ts1 ts2 : List Token) (acc t2 t : ParseTree) :
      (op.tt = TokenType.T_PLUS ∨ op.tt = TokenType.T_MINUS) →
      Derives NT.term ts1 t2 → Derives (NT.exprTail (binaryNode op acc t2)) ts2 t →
      Derives (NT.exprTail acc) (op :: (ts1 ++ ts2)) t

/-- The rule `Stmt ::= Decl | Set | Print` with the tree of the statement. -/
inductive DerivesStmt : List Token → ParseTree → Prop where
  | decl (k id : Token) :
      (k.tt = TokenType.T_INT ∨ k.tt = TokenType.T_STRING) → id.tt = TokenType.T_ID →
      DerivesStmt [k, id]
        (ParseTree.VariableDeclaration k.lnum
          (if k.tt = TokenType.T_INT then TypeForNode.INT_TYPE else TypeForNode.STRING_TYPE)
          ⟨id.lnum, id.lexeme⟩)
  | set (k id : Token) (ts : List Token) (e : ParseTree) :
      k.tt = TokenType.T_SET → id.tt = TokenType.T_ID → Derives NT.expr ts e →
      DerivesStmt (k :: id :: ts) (ParseTree.VariableAssignment k.lnum ⟨id.lnum, id.lexeme⟩ e)
  | print (k : Token) (ts : List Token) (e : ParseTree) :
      (k.tt = TokenType.T_PRINT ∨ k.tt = TokenType.T_PRINTLN) → Derives NT.expr ts e →
      DerivesStmt (k :: ts) (ParseTree.PrintCommand k.lnum k.tt e)

/-- The rule `StmtList ::= Stmt ';' StmtList | ε` with the tree of the list,
the null pointer for the empty list. -/
inductive DerivesStmtList : List Token → Option ParseTree → Prop where
  | nil : DerivesStmtList [] none
  | cons (ts rest : List Token) (sc : Token) (stmt : ParseTree) (r : Option ParseTree) :
      DerivesStmt ts stmt → sc.tt = TokenType.T_SC → DerivesStmtList rest r →
      DerivesStmtList (ts ++ sc :: rest) (some (ParseTree.StatementList (some stmt) r))

/-- The nonterminals of the grammar on token kinds; the two tails are the
repetitions of `Term` and `Expr`. -/
inductive KNT where
  | primary | term | termTail | expr | exprTail | stmt | stmtList
  deriving DecidableEq, Repr

/-- The grammar of the specification on token kinds:
`StmtList ::= Stmt ';' StmtList | ε`, `Stmt ::= Decl | Set | Print`,
`Decl ::= ('int'|'string') Identifier`, `Set ::= 'set' Identifier Expr`,
`Print ::= ('print'|'println') Expr`, `Expr ::= Term (('+'|'-') Term)*`,
`Term ::= Primary (('*'|'/') Primary)*`,
`Primary ::= IntConst | StrConst | Identifier | '(' Expr ')'`. -/
inductive Grammar : KNT → List TokenType → Prop where
  | iconst : Grammar KNT.primary [TokenType.T_ICONST]
  | sconst : Grammar KNT.primary [TokenType.T_SCONST]
  | ident : Grammar KNT.primary [TokenType.T_ID]
  | paren (ks : List TokenType) :
      Grammar KNT.expr ks →
      Grammar KNT.primary (TokenType.T_LPAREN :: (ks ++ [TokenType.T_RPAREN]))
  | term (ks1 ks2 : List TokenType) :
      Grammar KNT.primary ks1 → Grammar KNT.termTail ks2 → Grammar KNT.term (ks1 ++ ks2)
  | termEnd : Grammar KNT.termTail []
  | termMore (op : TokenType) (ks1 ks2 : List TokenType) :
      (op = TokenType.T_STAR ∨ op = TokenType.T_SLASH) →
      Grammar KNT.primary ks1 → Grammar KNT.termTail ks2 →
      Grammar KNT.termTail (op :: (ks1 ++ ks2))
  | expr (ks1 ks2 : List TokenType) :
      Grammar KNT.term ks1 → Grammar KNT.exprTail ks2 → Grammar KNT.expr (ks1 ++ ks2)
  | exprEnd : Grammar KNT.exprTail []
  | exprMore (op : TokenType) (ks1 ks2 : List TokenType) :
      (op = TokenType.T_PLUS ∨ op = TokenType.T_MINUS) →
      Grammar KNT.term ks1 → Grammar KNT.exprTail ks2 →
      Grammar KNT.exprTail (op :: (ks1 ++ ks2))
  | decl (k : TokenType) :
      (k = TokenType.T_INT ∨ k = TokenType.T_STRING) →
      Grammar KNT.stmt [k, TokenType.T_ID]
  | set (ks : List TokenType) :
      Grammar KNT.expr ks → Grammar KNT.stmt (TokenType.T_SET :: TokenType.T_ID :: ks)
  | print (k : TokenType) (ks : List TokenType) :
      (k = TokenType.T_PRINT ∨ k = TokenType.T_PRINTLN) → Grammar KNT.expr ks →
      Grammar KNT.stmt (k :: ks)
  | listEnd : Grammar KNT.stmtList []
  | listMore (ks rest : List TokenType) :
      Grammar KNT.stmt ks → Grammar KNT.stmtList rest →
      Grammar KNT.stmtList (ks ++ TokenType.T_SC :: rest)

/-- The parsing functions, as tags; a loop carries the tree it was entered
with. -/
inductive Fn where
  | primary
  | term
  | termLoop (t1 : ParseTree)
  | expr
  | exprLoop (t1 : ParseTree)
  | decl
  | set
  | print
  | stmt
  | stmtList

/-- The calls of the parsing functions that return: `Runs f s tree s1` says
that the function `f`, called in the state `s`, returns the pointer `tree`
and leaves the state `s1`. One rule per path of the code through the
function. -/
inductive Runs : Fn → ParserState → Option ParseTree → ParserState → Prop where
  | iconst (s : ParserState) (v : Int) :
      s.getToken.1.tt = TokenType.T_ICONST → stoi s.getToken.1.lexeme = some v →
      Runs Fn.primary s (some (ParseTree.IntegerConstant s.getToken.1.lnum v)) s.getToken.2
  | sconst (s : ParserState) :
      s.getToken.1.tt = TokenType.T_SCONST → s.getToken.1.lexeme.length ≠ 0 →
      Runs Fn.primary s
        (some (ParseTree.StringConstant s.getToken.1.lnum
          (stringConstantValue s.getToken.1.lexeme))) s.getToken.2
  | ident (s : ParserState) :
      s.getToken.1.tt = TokenType.T_ID →
      Runs Fn.primary s
        (some (ParseTree.Identifier ⟨s.getToken.1.lnum, s.getToken.1.lexeme⟩)) s.getToken.2
  | paren (s s2 : ParserState) (e : Option ParseTree) :
      s.getToken.1.tt = TokenType.T_LPAREN → Runs Fn.expr s.getToken.2 e s2 →
      s2.getToken.1.tt = TokenType.T_RPAREN →
      Runs Fn.primary s e s2.getToken.2
  | parenMissing (s s2 : ParserState) (e : Option ParseTree) :
      s.getToken.1.tt = TokenType.T_LPAREN → Runs Fn.expr s.getToken.2 e s2 →
      s2.getToken.1.tt ≠ TokenType.T_RPAREN →
      Runs Fn.primary s none
        (syntaxError s2.getToken.1.lnum "right paren expected" s2.getToken.2)
  | primaryExpected (s : ParserState) :
      s.getToken.1.tt ≠ TokenType.T_ICONST → s.getToken.1.tt ≠ TokenType.T_SCONST →
      s.getToken.1.tt ≠ TokenType.T_ID → s.getToken.1.tt ≠ TokenType.T_LPAREN →
      Runs Fn.primary s none (syntaxError s.getToken.1.lnum "primary expected" s.getToken.2)
  | termLoopExit (s : ParserState) (t1 : ParseTree) :
      s.getToken.1.tt ≠ TokenType.T_STAR → s.getToken.1.tt ≠ TokenType.T_SLASH →
      Runs (Fn.termLoop t1) s (some t1) (s.getToken.2.pushbackToken s.getToken.1)
  | termLoopStep (s s2 s3 : ParserState) (t1 t2 : ParseTree) (res : Option ParseTree) :
      (s.getToken.1.tt = TokenType.T_STAR ∨ s.getToken.1.tt = TokenType.T_SLASH) →
      Runs Fn.primary s.getToken.2 (some t2) s2 →
      Runs (Fn.termLoop (binaryNode s.getToken.1 t1 t2)) s2 res s3 →
      Runs (Fn.termLoop t1) s res s3
  | termLoopFail (s s2 : ParserState) (t1 : ParseTree) :
      (s.getToken.1.tt = TokenType.T_STAR ∨ s.getToken.1.tt = TokenType.T_SLASH) →
      Runs Fn.primary s.getToken.2 none s2 →
      Runs (Fn.termLoop t1) s none
        (syntaxError s.getToken.1.lnum "term required after * or / operator" s2)
  | term (s s1 s2 : ParserState) (t1 : ParseTree) (res : Option ParseTree) :
      Runs Fn.primary s (some t1) s1 → Runs (Fn.termLoop t1) s1 res s2 →
      Runs Fn.term s res s2
  | termNull (s s1 : ParserState) :
      Runs Fn.primary s none s1 → Runs Fn.term s none s1
  | exprLoopExit (s : ParserState) (t1 : ParseTree) :
      s.getToken.1.tt ≠ TokenType.T_PLUS → s.getToken.1.tt ≠ TokenType.T_MINUS →
      Runs (Fn.exprLoop t1) s (some t1) (s.getToken.2.pushbackToken s.getToken.1)
  | exprLoopStep (s s2 s3 : ParserState) (t1 t2 : ParseTree) (res : Option ParseTree) :
      (s.getToken.1.tt = TokenType.T_PLUS ∨ s.getToken.1.tt = TokenType.T_MINUS) →
      Runs Fn.term s.getToken.2 (some t2) s2 →
      Runs (Fn.exprLoop (binaryNode s.getToken.1 t1 t2)) s2 res s3 →
      Runs (Fn.exprLoop t1) s res s3
  | exprLoopFail (s s2 : ParserState) (t1 : ParseTree) :
      (s.getToken.1.tt = TokenType.T_PLUS ∨ s.getToken.1.tt = TokenType.T_MINUS) →
      Runs Fn.term s.getToken.2 none s2 →
      Runs (Fn.exprLoop t1) s none
        (syntaxError s.getToken.1.lnum "expression required after + or - operator" s2)
  | expr (s s1 s2 : ParserState) (t1 : ParseTree) (res : Option ParseTree) :
      Runs Fn.term s (some t1) s1 → Runs (Fn.exprLoop t1) s1 res s2 →
      Runs Fn.expr s res s2
  | exprNull (s s1 : ParserState) :
      Runs Fn.term s none s1 → Runs Fn.expr s none s1
  | decl (s : ParserState) :
      s.getToken.2.getToken.1.tt = TokenType.T_ID →
      Runs Fn.decl s
        (some (ParseTree.VariableDeclaration s.getToken.1.lnum
          (if s.getToken.1.tt = TokenType.T_INT then TypeForNode.INT_TYPE
           else TypeForNode.STRING_TYPE)
          ⟨s.getToken.2.getToken.1.lnum, s.getToken.2.getToken.1.lexeme⟩))
        s.getToken.2.getToken.2
  | declFail (s : ParserState) :
      s.getToken.2.getToken.1.tt ≠ TokenType.T_ID →
      Runs Fn.decl s none
        (syntaxError s.getToken.2.getToken.1.lnum "declaration expected"
          (syntaxError s.getToken.2.getToken.1.lnum "identifier expected"
            s.getToken.2.getToken.2))
  | set (s s3 : ParserState) (e : ParseTree) :
      s.getToken.2.getToken.1.tt = TokenType.T_ID →
      Runs Fn.expr s.getToken.2.getToken.2 (some e) s3 →
      Runs Fn.set s
        (some (ParseTree.VariableAssignment s.getToken.1.lnum
          ⟨s.getToken.2.getToken.1.lnum, s.getToken.2.getToken.1.lexeme⟩ e)) s3
  | setNoExpr (s s3 : ParserState) :
      s.getToken.2.getToken.1.tt = TokenType.T_ID →
      Runs Fn.expr s.getToken.2.getToken.2 none s3 →
      Runs Fn.set s none
        (syntaxError s.getToken.2.getToken.1.lnum "expression required" s3)
  | setNoIdentifier (s : ParserState) :
      s.getToken.2.getToken.1.tt ≠ TokenType.T_ID →
      Runs Fn.set s none
        (syntaxError s.getToken.2.getToken.1.lnum "identifier expected"
          s.getToken.2.getToken.2)
  | print (s s2 : ParserState) (e : ParseTree) :
      Runs Fn.expr s.getToken.2 (some e) s2 →
      Runs Fn.print s
        (some (ParseTree.PrintCommand s.getToken.1.lnum s.getToken.1.tt e)) s2
  | printNoExpr (s s2 : ParserState) :
      Runs Fn.expr s.getToken.2 none s2 →
      Runs Fn.print s none (syntaxError s.getToken.1.lnum "expression required" s2)
  | stmtDecl (s s2 : ParserState) (res : Option ParseTree) :
      (s.getToken.1.tt = TokenType.T_INT ∨ s.getToken.1.tt = TokenType.T_STRING) →
      Runs Fn.decl (s.getToken.2.pushbackToken s.getToken.1) res s2 →
      Runs Fn.stmt s res s2
  | stmtSet (s s2 : ParserState) (res : Option ParseTree) :
      s.getToken.1.tt = TokenType.T_SET →
      Runs Fn.set (s.getToken.2.pushbackToken s.getToken.1) res s2 →
      Runs Fn.stmt s res s2
  | stmtPrint (s s2 : ParserState) (res : Option ParseTree) :
      (s.getToken.1.tt = TokenType.T_PRINT ∨ s.getToken.1.tt = TokenType.T_PRINTLN) →
      Runs Fn.print (s.getToken.2.pushbackToken s.getToken.1) res s2 →
      Runs Fn.stmt s res s2
  | stmtDone (s : ParserState) :
      s.getToken.1.tt = TokenType.T_DONE →
      Runs Fn.stmt s none (s.getToken.2.pushbackToken s.getToken.1)
  | stmtExpected (s : ParserState) :
      s.getToken.1.tt ≠ TokenType.T_INT → s.getToken.1.tt ≠ TokenType.T_STRING →
      s.getToken.1.tt ≠ TokenType.T_SET → s.getToken.1.tt ≠ TokenType.T_PRINT →
      s.getToken.1.tt ≠ TokenType.T_PRINTLN → s.getToken.1.tt ≠ TokenType.T_DONE →
      Runs Fn.stmt s none
        (syntaxError s.getToken.1.lnum "statement expected"
          (s.getToken.2.pushbackToken s.getToken.1))
  | listEnd (s s1 : ParserState) :
      Runs Fn.stmt s none s1 → Runs Fn.stmtList s none s1
  | listNoSemicolon (s s1 : ParserState) (stmt : ParseTree) :
      Runs Fn.stmt s (some stmt) s1 → s1.getToken.1.tt ≠ TokenType.T_SC →
      Runs Fn.stmtList s none
        (syntaxError s1.getToken.1.lnum "semicolon required" s1.getToken.2)
  | listCons (s s1 s3 : ParserState) (stmt : ParseTree) (rest : Option ParseTree) :
      Runs Fn.stmt s (some stmt) s1 → s1.getToken.1.tt = TokenType.T_SC →
      Runs Fn.stmtList s1.getToken.2 rest s3 →
      Runs Fn.stmtList s (some (ParseTree.StatementList (some stmt) rest)) s3

/-- The call of the function with the tag `f`, with the given fuel. -/
def Fn.call : Fn → Nat → ParserState → Parsed
  | Fn.primary, fuel, s => Primary fuel s
  | Fn.term, fuel, s => Term fuel s
  | Fn.termLoop t1, fuel, s => TermLoop fuel t1 s
  | Fn.expr, fuel, s => Expr fuel s
  | Fn.exprLoop t1, fuel, s => ExprLoop fuel t1 s
  | Fn.decl, _, s => Decl s
  | Fn.set, fuel, s => Set fuel s
  | Fn.print, fuel, s => Print fuel s
  | Fn.stmt, fuel, s => Stmt fuel s
  | Fn.stmtList, fuel, s => StmtList fuel s

/-- The fuel that is enough for a call of the function in a state of
measure `m`. -/
def Fn.need : Fn → Nat → Nat
  | Fn.primary, m => 4 * m + 1
  | Fn.term, m => 4 * m + 2
  | Fn.termLoop _, m => 4 * m + 1
  | Fn.expr, m => 4 * m + 3
  | Fn.exprLoop _, m => 4 * m + 1
  | Fn.decl, _ => 0
  | Fn.set, m => 4 * m + 3
  | Fn.print, m => 4 * m + 3
  | Fn.stmt, m => 4 * m + 3
  | Fn.stmtList, m => 4 * m + 4

/-- A call ended well: it did not run out of fuel, an exception left it only
if a pending token has no node, and when it returned it did so along a path of
the code, with no more tokens left than before and with each pending token
still having its node. -/
def Good (f : Fn) (s : ParserState) : Parsed → Prop
  | Parsed.outOfFuel => False
  | Parsed.thrown _ => ¬ Parseable s
  | Parsed.returned res s1 =>
    Runs f s res s1 ∧ s1.mu ≤ s.mu ∧ (Parseable s → Parseable s1)

/-- The output after the syntax error messages `msgs` (line and text of each)
were written in order. -/
def emitSyntaxErrors (msgs : List (Int × String)) (g : Globals) : Globals :=
  msgs.foldl (fun g0 m => error m.1 ("Syntax error " ++ m.2) g0) g

/-- Between the states `s` and `s1` exactly the syntax error messages `msgs`
were written, in order, and the parse-error flag of `s1` is set when it was
set in `s` or a message was written. -/
def Emits (s s1 : ParserState) (msgs : List (Int × String)) : Prop :=
  s1.g = emitSyntaxErrors msgs s.g ∧ s1.eofLine = s.eofLine
  ∧ (s1.hasParseErrors = true ↔ (s.hasParseErrors = true ∨ msgs ≠ []))

/-- The parsing function of a nonterminal of the expression grammar. -/
def NT.fn : NT → Fn
  | NT.primary => Fn.primary
  | NT.term => Fn.term
  | NT.termTail acc => Fn.termLoop acc
  | NT.expr => Fn.expr
  | NT.exprTail acc => Fn.exprLoop acc

/-- The kinds of token that may follow the tokens of a nonterminal for the
parsing function to stop there: `Term` and its loop stop at anything but `*`
and `/`, `Expr` and its loop at anything but the four operators. -/
def NT.follow : NT → TokenType → Prop
  | NT.primary, _ => True
  | NT.term, k => k ≠ TokenType.T_STAR ∧ k ≠ TokenType.T_SLASH
  | NT.termTail _, k => k ≠ TokenType.T_STAR ∧ k ≠ TokenType.T_SLASH
  | NT.expr, k =>
    k ≠ TokenType.T_PLUS ∧ k ≠ TokenType.T_MINUS ∧ k ≠ TokenType.T_STAR ∧ k ≠ TokenType.T_SLASH
  | NT.exprTail _, k =>
    k ≠ TokenType.T_PLUS ∧ k ≠ TokenType.T_MINUS ∧ k ≠ TokenType.T_STAR ∧ k ≠ TokenType.T_SLASH

/-- Between the states `s` and `s1` nothing was written and the parse-error
flag was not touched. -/
def Quiet (s s1 : ParserState) : Prop :=
  s1.g = s.g ∧ s1.eofLine = s.eofLine ∧ s1.hasParseErrors = s.hasParseErrors

/-- The call read the tokens `ts` at the front of `l`, they are derived with
the tree that the call returned, and the rest of `l` is left pending. -/
def Consumed (D : List Token → ParseTree → Prop) (l : List Token)
    (res : Option ParseTree) (s1 : ParserState) : Prop :=
  ∃ ts rem tree, res = some tree ∧ l = ts ++ rem ∧ D ts tree ∧ Pending s1 rem

/-- What a call of the function `f` that returned in the state `s1` with the
parse-error flag clear has done, when the tokens `l` were pending: it read
the tokens of its rule and returned their tree. `Decl`, `Set` and `Print`
rely on `Stmt` having seen their keyword; `Stmt` returns the null pointer at
the end of the input; `StmtList` reads all the tokens. -/
def Parses (f : Fn) (l : List Token) (res : Option ParseTree) (s1 : ParserState) : Prop :=
  match f with
  | Fn.primary => Consumed (Derives NT.primary) l res s1
  | Fn.term => Consumed (Derives NT.term) l res s1
  | Fn.termLoop t1 => Consumed (Derives (NT.termTail t1)) l res s1
  | Fn.expr => Consumed (Derives NT.expr) l res s1
  | Fn.exprLoop t1 => Consumed (Derives (NT.exprTail t1)) l res s1
  | Fn.decl =>
    (nextKind l = TokenType.T_INT ∨ nextKind l = TokenType.T_STRING) →
      Consumed DerivesStmt l res s1
  | Fn.set => nextKind l = TokenType.T_SET → Consumed DerivesStmt l res s1
  | Fn.print =>
    (nextKind l = TokenType.T_PRINT ∨ nextKind l = TokenType.T_PRINTLN) →
      Consumed DerivesStmt l res s1
  | Fn.stmt => (res = none ∧ l = [] ∧ Pending s1 []) ∨ Consumed DerivesStmt l res s1
  | Fn.stmtList => DerivesStmtList l res ∧ Pending s1 []

/-- The nonterminal on token kinds of a nonterminal of the expression
grammar. -/
def NT.knt : NT → KNT
  | NT.primary => KNT.primary
  | NT.term => KNT.term
  | NT.termTail _ => KNT.termTail
  | NT.expr => KNT.expr
  | NT.exprTail _ => KNT.exprTail

/-- The kinds of the tokens. -/
def kinds (ts : List Token) : List TokenType := ts.map (fun t => t.tt)

/-- The tokens have a derivation with a tree from the nonterminal, for a
repetition whatever tree it is entered with. -/
def Realises (k : KNT) (ts : List Token) : Prop :=
  match k with
  | KNT.primary => ∃ tree, Derives NT.primary ts tree
  | KNT.term => ∃ tree, Derives NT.term ts tree
  | KNT.termTail => ∀ acc, ∃ tree, Derives (NT.termTail acc) ts tree
  | KNT.expr => ∃ tree, Derives NT.expr ts tree
  | KNT.exprTail => ∀ acc, ∃ tree, Derives (NT.exprTail acc) ts tree
  | KNT.stmt => ∃ tree, DerivesStmt ts tree
  | KNT.stmtList => ∃ r, DerivesStmtList ts r

instance tokenOK.decidable : DecidablePred tokenOK := fun t => by
  unfold tokenOK
  infer_instance

/-- The tokens of a chain of operands after the first: each operator
followed by the tokens of its operand. An item is the operator token, the
tokens of the operand and the tree of the operand. -/
def chainTokens : List (Token × List Token × ParseTree) → List Token
  | [] => []
  | r :: rest => r.1 :: (r.2.1 ++ chainTokens rest)

/-- The left fold `(((p0 op1 p1) op2 p2) ... opn pn)` of the operand trees. -/
def leftFold (p0 : ParseTree) (rest : List (Token × List Token × ParseTree)) : ParseTree :=
  rest.foldl (fun acc r => binaryNode r.1 acc r.2.2) p0

/-- The tokens of `print 99999999999 )`, all on the first line. -/
def tokensPrintHuge : List Token :=
  [⟨TokenType.T_PRINT, "print", 0⟩, ⟨TokenType.T_ICONST, "99999999999", 0⟩,
   ⟨TokenType.T_RPAREN, ")", 0⟩]

/-- The tokens of `print 1 + 2;`. -/
def tokensPrintSum : List Token :=
  [⟨TokenType.T_PRINT, "print", 0⟩, ⟨TokenType.T_ICONST, "1", 0⟩,
   ⟨TokenType.T_PLUS, "+", 0⟩, ⟨TokenType.T_ICONST, "2", 0⟩, ⟨TokenType.T_SC, ";", 0⟩]

/-- The tokens of `int x; 5`. -/
def tokensDeclThenFive : List Token :=
  [⟨TokenType.T_INT, "int", 0⟩, ⟨TokenType.T_ID, "x", 0⟩, ⟨TokenType.T_SC, ";", 0⟩,
   ⟨TokenType.T_ICONST, "5", 0⟩]

/-- The tokens of `int 5;`. -/
def tokensIntFive : List Token :=
  [⟨TokenType.T_INT, "int", 0⟩, ⟨TokenType.T_ICONST, "5", 0⟩, ⟨TokenType.T_SC, ";", 0⟩]

/-- The tokens of `print ;`. -/
def tokensPrintNothing : List Token :=
  [⟨TokenType.T_PRINT, "print", 0⟩, ⟨TokenType.T_SC, ";", 0⟩]

/-- The identifier token of the name `x` on the first line. -/
def idToken (x : String) : Token := ⟨TokenType.T_ID, x, 0⟩

/-- The node of the identifier `x` on the first line. -/
def idNode (x : String) : ParseTree := ParseTree.Identifier ⟨0, x⟩

/-- The tokens of `a - b - c`. -/
def tokensSubSub : List Token :=
  [idToken "a", ⟨TokenType.T_MINUS, "-", 0⟩, idToken "b", ⟨TokenType.T_MINUS, "-", 0⟩,
   idToken "c"]

/-- The tokens of `a + b * c`. -/
def tokensAddMul : List Token :=
  [idToken "a", ⟨TokenType.T_PLUS, "+", 0⟩, idToken "b", ⟨TokenType.T_STAR, "*", 0⟩,
   idToken "c"]

/-- The decimal number that a run of digit characters denotes: each digit
counts its value times the power of ten of its place. -/
def decimalNumber : List Char → Nat
  | [] => 0
  | d :: ds => (d.toNat - 48) * 10 ^ ds.length + decimalNumber ds

/-- The token of the integer constant `99999999999` on the first line. -/
def tokenHuge : Token := ⟨TokenType.T_ICONST, "99999999999", 0⟩

/-- Each name bound in the value table `S` holds a value whose tag is
`INT_TYPE` or `STRING_TYPE` and is the type that the type table `T` records
for the name. -/
def wellTyped (T : Table TypeForNode) (S : Table Value) : Bool :=
  S.all fun kv =>
    match Table.find S kv.1 with
    | some v =>
      decide (Table.find T kv.1 = some v.type)
        && decide (v.type = TypeForNode.INT_TYPE ∨ v.type = TypeForNode.STRING_TYPE)
    | none => true

/-- The statement `string s`. -/
def declStringS : ParseTree :=
  ParseTree.VariableDeclaration 0 TypeForNode.STRING_TYPE ⟨0, "s"⟩

/-- The statement `set s 2 * "ab"`. -/
def setSRepeat : ParseTree :=
  ParseTree.VariableAssignment 0 ⟨0, "s"⟩
    (ParseTree.Multiplication 0 (ParseTree.IntegerConstant 0 2) (ParseTree.StringConstant 0 "ab"))

/-- The program `int x; string s; set s 2 * "ab"; set x 6; set x x/0; print s;`. -/
def progTyped : ParseTree :=
  ParseTree.StatementList (some declIntX)
    (some (ParseTree.StatementList (some declStringS)
      (some (ParseTree.StatementList (some setSRepeat)
        (some (ParseTree.StatementList (some setX6)
          (some (ParseTree.StatementList (some setXDivZero)
            (some (ParseTree.StatementList
              (some (ParseTree.PrintCommand 0 TokenType.T_PRINT
                (ParseTree.Identifier ⟨0, "s"⟩))) none))))))))))

/-- What a value of an expression may be: of the expected type `t` or
`Error`, and in any case an integer, a string or `Error`. -/
def Typed (t : TypeForNode) (v : Value) : Prop :=
  (v.type = t ∨ v.type = TypeForNode.ERROR_TYPE)
  ∧ (v.type = TypeForNode.INT_TYPE ∨ v.type = TypeForNode.STRING_TYPE
      ∨ v.type = TypeForNode.ERROR_TYPE)

/-- The tokens `l` begin with a statement and its semicolon. -/
def StatementAhead (l : List Token) : Prop :=
  ∃ ts sc rest stmt, l = ts ++ sc :: rest ∧ DerivesStmt ts stmt ∧ sc.tt = TokenType.T_SC

/-! ### The messages of the semantic check -/

/-- A message of the semantic check: the use of an identifier that is not in
the type table, the declaration of a name that is in it already, the type
error of an operation and the type error of an assignment, each with the line
that is written. -/
inductive CheckMessage where
  | usedBeforeDeclared (id : Identifier)
  | alreadyDeclared (linenumber : Int) (name : String)
  | operationTypeError (linenumber : Int)
  | assignmentTypeError (linenumber : Int)
  deriving DecidableEq, Repr

/-- The line number that is given to `error` for the message. -/
def CheckMessage.line : CheckMessage → Int
  | .usedBeforeDeclared id => id.linenumber
  | .alreadyDeclared n _ => n
  | .operationTypeError n => n
  | .assignmentTypeError n => n

/-- The text of the message. -/
def CheckMessage.text : CheckMessage → String
  | .usedBeforeDeclared id => "variable " ++ id.identifier ++ " is used before being declared"
  | .alreadyDeclared _ name => "variable " ++ name ++ " was already declared"
  | .operationTypeError _ => "type error"
  | .assignmentTypeError _ => "type error"

/-- The message makes the check fail: every message but the type error of an
operation, for which the code does not set `hasErrors`. -/
def CheckMessage.setsFlag : CheckMessage → Bool
  | .operationTypeError _ => false
  | _ => true

/-- The identifier of a `used before being declared` message. -/
def CheckMessage.usedIdentifier : CheckMessage → Option Identifier
  | .usedBeforeDeclared id => some id
  | _ => none

/-- The line and the name of an `already declared` message. -/
def CheckMessage.declaration : CheckMessage → Option (Int × String)
  | .alreadyDeclared n name => some (n, name)
  | _ => none

/-- The output `out` after the messages were written in order, one diagnostic
line each. -/
def writeMessages (file : Option String) (msgs : List CheckMessage) (out : String) : String :=
  msgs.foldl (fun o m => o ++ diagnosticLine file m.line m.text) out

/-- The type table after the nodes of the tree were visited in the order of
the check: a `VariableDeclaration` of a name that is absent records the name
with the declared type, nothing else changes the table. -/
def ParseTree.tableAfter : ParseTree → Table TypeForNode → Table TypeForNode
  | .StatementList (some l) (some r), T => r.tableAfter (l.tableAfter T)
  | .StatementList (some l) none, T => l.tableAfter T
  | .StatementList none (some r), T => r.tableAfter T
  | .StatementList none none, T => T
  | .Addition _ l r, T => r.tableAfter (l.tableAfter T)
  | .Subtraction _ l r, T => r.tableAfter (l.tableAfter T)
  | .Multiplication _ l r, T => r.tableAfter (l.tableAfter T)
  | .Division _ l r, T => r.tableAfter (l.tableAfter T)
  | .IntegerConstant _ _, T => T
  | .StringConstant _ _, T => T
  | .Identifier _, T => T
  | .VariableDeclaration _ t id, T =>
    match Table.find T id.identifier with
    | some _ => T
    | none => Table.assign T id.identifier t
  | .VariableAssignment _ _ e, T => e.tableAfter T
  | .PrintCommand _ _ e, T => e.tableAfter T

/-- The occurrences of an identifier in use position (an operand of an
expression, the operand of a print command, the target of an assignment) in
the order in which the check visits them, each with the fact whether its name
is in the type table when the occurrence is visited. The identifier of a
declaration is not in use position. -/
def ParseTree.uses : ParseTree → Table TypeForNode → List (Interp.Identifier × Bool)
  | .StatementList (some l) (some r), T => l.uses T ++ r.uses (l.tableAfter T)
  | .StatementList (some l) none, T => l.uses T
  | .StatementList none (some r), T => r.uses T
  | .StatementList none none, _ => []
  | .Addition _ l r, T => l.uses T ++ r.uses (l.tableAfter T)
  | .Subtraction _ l r, T => l.uses T ++ r.uses (l.tableAfter T)
  | .Multiplication _ l r, T => l.uses T ++ r.uses (l.tableAfter T)
  | .Division _ l r, T => l.uses T ++ r.uses (l.tableAfter T)
  | .IntegerConstant _ _, _ => []
  | .StringConstant _ _, _ => []
  | .Identifier id, T => [(id, (Table.find T id.identifier).isSome)]
  | .VariableDeclaration _ _ _, _ => []
  | .VariableAssignment _ id e, T => (id, (Table.find T id.identifier).isSome) :: e.uses T
  | .PrintCommand _ _ e, T => e.uses T

/-- The `VariableDeclaration` nodes of a tree in the order in which the check
visits them: the line and the name of each. -/
def ParseTree.declarations : ParseTree → List (Int × String)
  | .StatementList (some l) (some r) => l.declarations ++ r.declarations
  | .StatementList (some l) none => l.declarations
  | .StatementList none (some r) => r.declarations
  | .StatementList none none => []
  | .Addition _ l r => l.declarations ++ r.declarations
  | .Subtraction _ l r => l.declarations ++ r.declarations
  | .Multiplication _ l r => l.declarations ++ r.declarations
  | .Division _ l r => l.declarations ++ r.declarations
  | .IntegerConstant _ _ => []
  | .StringConstant _ _ => []
  | .Identifier _ => []
  | .VariableDeclaration n _ id => [(n, id.identifier)]
  | .VariableAssignment _ _ e => e.declarations
  | .PrintCommand _ _ e => e.declarations

/-- The type error of an operation: the message when the static type of the
node is `ERROR_TYPE` under the type table `T`. -/
def operationMessages (op : ParseTree) (T : Table TypeForNode) : List CheckMessage :=
  if op.GetType T = TypeForNode.ERROR_TYPE then [CheckMessage.operationTypeError op.getLineNumber]
  else []

/-- The type error of an assignment: the message when the target is in the
type table `T` with a type that is not the static type of the expression. -/
def assignmentMessages (id : Identifier) (e : ParseTree) (T : Table TypeForNode) :
    List CheckMessage :=
  match Table.find T id.identifier with
  | some t =>
    if e.GetType T ≠ t then [CheckMessage.assignmentTypeError e.getLineNumber] else []
  | none => []

/-- The messages that the rules of the semantic check give for a tree and a
type table, in the order of the visit: one `used before being declared` for
each identifier in use position whose name is absent when it is visited, one
`already declared` for each declaration of a name that is present, the type
error of each operation after the messages of its operands, and the type error
of an assignment after the messages of its expression. -/
def ParseTree.checkMessages : ParseTree → Table TypeForNode → List CheckMessage
  | .StatementList (some l) (some r), T => l.checkMessages T ++ r.checkMessages (l.tableAfter T)
  | .StatementList (some l) none, T => l.checkMessages T
  | .StatementList none (some r), T => r.checkMessages T
  | .StatementList none none, _ => []
  | .Addition n l r, T =>
    l.checkMessages T ++ r.checkMessages (l.tableAfter T)
      ++ operationMessages (.Addition n l r) (r.tableAfter (l.tableAfter T))
  | .Subtraction n l r, T =>
    l.checkMessages T ++ r.checkMessages (l.tableAfter T)
      ++ operationMessages (.Subtraction n l r) (r.tableAfter (l.tableAfter T))
  | .Multiplication n l r, T =>
    l.checkMessages T ++ r.checkMessages (l.tableAfter T)
      ++ operationMessages (.Multiplication n l r) (r.tableAfter (l.tableAfter T))
  | .Division n l r, T =>
    l.checkMessages T ++ r.checkMessages (l.tableAfter T)
      ++ operationMessages (.Division n l r) (r.tableAfter (l.tableAfter T))
  | .IntegerConstant _ _, _ => []
  | .StringConstant _ _, _ => []
  | .Identifier id, T =>
    if (Table.find T id.identifier).isSome then [] else [CheckMessage.usedBeforeDeclared id]
  | .VariableDeclaration n _ id, T =>
    if (Table.find T id.identifier).isSome then [CheckMessage.alreadyDeclared n id.identifier]
    else []
  | .VariableAssignment _ id e, T =>
    (if (Table.find T id.identifier).isSome then [] else [CheckMessage.usedBeforeDeclared id])
      ++ e.checkMessages T ++ assignmentMessages id e (e.tableAfter T)
  | .PrintCommand _ _ e, T => e.checkMessages T

/-- Between the checker states `c` and `c1` exactly the messages `msgs` were
written, in order, `hasErrors` was set when one of them makes the check fail,
the type table became `T1`, and nothing else changed. -/
def Checked (c c1 : SemanticCheck) (msgs : List CheckMessage) (T1 : Table TypeForNode) :
    Prop :=
  c1.g.cout = writeMessages c.g.theInputFileName msgs c.g.cout
  ∧ c1.g.theInputFileName = c.g.theInputFileName
  ∧ c1.g.symbolTable = c.g.symbolTable
  ∧ c1.g.typeTable = T1
  ∧ c1.hasErrors = (c.hasErrors || msgs.any CheckMessage.setsFlag)

/-! ### Type preservation along the evaluation -/

/-- The call returned, it left a value table that is typed by `T`, and, for an
expression of the static type `t`, it returned a value of the type `t` or
`Error`. -/
def returnedTyped (T : Table TypeForNode) (t : Option TypeForNode) :
    Option (Value × Globals) → Bool
  | none => false
  | some r =>
    wellTyped T r.2.symbolTable
      && (match t with
          | none => true
          | some ty => decide (r.1.type = ty ∨ r.1.type = TypeForNode.ERROR_TYPE))

/-- The property `pl` of the call of the left operand and `pr` of the call of
the right operand, for the two operand calls of a binary node as
`evalOperands` makes them: in the given order, the second call from the
globals that the first one left, and no second call when the first one does
not return. -/
def operandsPreserve (leftFirst : Bool) (pl pr : Globals → Bool)
    (el er : Globals → Option (Value × Globals)) (g : Globals) : Bool :=
  if leftFirst then
    pl g && (match el g with
      | none => true
      | some a => pr a.2)
  else
    pr g && (match er g with
      | none => true
      | some b => pl b.2)

/-- Types are preserved while the built program evaluates the tree from the
globals `g`, the operands in the order `o`: the value table is typed by `T`
before every node that is evaluated; every node whose children returned
returns itself, with a typed value table and, for an expression, with a value
of its static type or `Error`, the one exception being a `Division` whose
operands are the integers `INT_MIN` and `-1`, where the evaluation stops; and a
declaration binds the default value of its declared type. The recursion
follows `EvaluateIn` call by call: the same children, in the same order, from
the same intermediate globals, and no call on the part that is not
evaluated. -/
def ParseTree.preservesTypesIn (o : OperandOrder) (T : Table TypeForNode) :
    ParseTree → Globals → Bool
  | .StatementList (some l) (some r), g =>
    l.preservesTypesIn o T g
      && (match l.EvaluateIn o g with
          | none => true
          | some a =>
            if a.1.type ≠ TypeForNode.EMPTY_TYPE then true else r.preservesTypesIn o T a.2)
  | .StatementList (some l) none, g => l.preservesTypesIn o T g
  | .StatementList none (some r), g => r.preservesTypesIn o T g
  | .StatementList none none, _ => true
  | .Addition n l r, g =>
    wellTyped T g.symbolTable
      && operandsPreserve o.addition (l.preservesTypesIn o T) (r.preservesTypesIn o T)
          (l.EvaluateIn o) (r.EvaluateIn o) g
      && (match evalOperands o.addition (l.EvaluateIn o) (r.EvaluateIn o) g with
          | none => true
          | some _ =>
            returnedTyped T (some ((ParseTree.Addition n l r).GetType T))
              ((ParseTree.Addition n l r).EvaluateIn o g))
  | .Subtraction n l r, g =>
    wellTyped T g.symbolTable
      && operandsPreserve o.subtraction (l.preservesTypesIn o T) (r.preservesTypesIn o T)
          (l.EvaluateIn o) (r.EvaluateIn o) g
      && (match evalOperands o.subtraction (l.EvaluateIn o) (r.EvaluateIn o) g with
          | none => true
          | some _ =>
            returnedTyped T (some ((ParseTree.Subtraction n l r).GetType T))
              ((ParseTree.Subtraction n l r).EvaluateIn o g))
  | .Multiplication n l r, g =>
    wellTyped T g.symbolTable
      && operandsPreserve o.multiplication (l.preservesTypesIn o T) (r.preservesTypesIn o T)
          (l.EvaluateIn o) (r.EvaluateIn o) g
      && (match evalOperands o.multiplication (l.EvaluateIn o) (r.EvaluateIn o) g with
          | none => true
          | some _ =>
            returnedTyped T (some ((ParseTree.Multiplication n l r).GetType T))
              ((ParseTree.Multiplication n l r).EvaluateIn o g))
  | .Division n l r, g =>
    wellTyped T g.symbolTable
      && operandsPreserve o.division (l.preservesTypesIn o T) (r.preservesTypesIn o T)
          (l.EvaluateIn o) (r.EvaluateIn o) g
      && (match evalOperands o.division (l.EvaluateIn o) (r.EvaluateIn o) g with
          | none => true
          | some (a, b, _) =>
            if a.type = TypeForNode.INT_TYPE ∧ b.type = TypeForNode.INT_TYPE
                ∧ a.intValue = INT_MIN ∧ b.intValue = -1 then
              ((ParseTree.Division n l r).EvaluateIn o g).isNone
            else
              returnedTyped T (some ((ParseTree.Division n l r).GetType T))
                ((ParseTree.Division n l r).EvaluateIn o g))
  | .IntegerConstant n v, g =>
    wellTyped T g.symbolTable
      && returnedTyped T (some TypeForNode.INT_TYPE)
          ((ParseTree.IntegerConstant n v).EvaluateIn o g)
  | .StringConstant n v, g =>
    wellTyped T g.symbolTable
      && returnedTyped T (some TypeForNode.STRING_TYPE)
          ((ParseTree.StringConstant n v).EvaluateIn o g)
  | .Identifier id, g =>
    wellTyped T g.symbolTable
      && returnedTyped T (some ((ParseTree.Identifier id).GetType T))
          ((ParseTree.Identifier id).EvaluateIn o g)
  | .VariableDeclaration n t id, g =>
    wellTyped T g.symbolTable
      && returnedTyped T none ((ParseTree.VariableDeclaration n t id).EvaluateIn o g)
      && (match (ParseTree.VariableDeclaration n t id).EvaluateIn o g with
          | none => false
          | some r =>
            decide (Table.find r.2.symbolTable id.identifier
              = some (if t = TypeForNode.INT_TYPE then Value.Integer 0 else Value.String "")))
  | .VariableAssignment n id e, g =>
    wellTyped T g.symbolTable && e.preservesTypesIn o T g
      && (match e.EvaluateIn o g with
          | none => true
          | some _ =>
            returnedTyped T none ((ParseTree.VariableAssignment n id e).EvaluateIn o g))
  | .PrintCommand n tok e, g =>
    wellTyped T g.symbolTable && e.preservesTypesIn o T g
      && (match e.EvaluateIn o g with
          | none => true
          | some _ =>
            returnedTyped T none ((ParseTree.PrintCommand n tok e).EvaluateIn o g))

/-- The statement `print (0-2147483647-1)/(0-1)`. -/
def printMinOverMinusOne : ParseTree :=
  ParseTree.PrintCommand 0 TokenType.T_PRINT
    (ParseTree.Division 0
      (ParseTree.Subtraction 0
        (ParseTree.Subtraction 0 (ParseTree.IntegerConstant 0 0)
          (ParseTree.IntegerConstant 0 2147483647))
        (ParseTree.IntegerConstant 0 1))
      (ParseTree.Subtraction 0 (ParseTree.IntegerConstant 0 0) (ParseTree.IntegerConstant 0 1)))

/-- The program `print (0-2147483647-1)/(0-1);`. -/
def progMinOverMinusOne : ParseTree :=
  ParseTree.StatementList (some printMinOverMinusOne) none

/-! ## Properties of the value operators -/

theorem wrapInt_of_isInt32 (x : Int) (h : isInt32 x) : wrapInt x = x := by
  unfold isInt32 at h
  unfold wrapInt
  omega

theorem isInt32_wrapInt (x : Int) : isInt32 (wrapInt x) := by
  unfold isInt32 wrapInt
  omega

theorem repeatString_length (n : Nat) (s : String) :
    (repeatString n s).length = n * s.length := by
  induction n with
  | zero => simp [repeatString]
  | succ k ih =>
    simp only [repeatString, String.length_append, ih]
    ring

theorem repeatLoop_eq_aux (s : String) :
    ∀ (m : Nat) (c : Int) (acc : String), isInt32 c → (c % 4294967296).toNat = m →
      repeatLoop c s acc = acc ++ repeatString m s := by
  intro m
  induction m with
  | zero =>
    intro c acc hc hm
    have h0 : c = 0 := by
      unfold isInt32 at hc
      omega
    rw [repeatLoop, if_pos h0]
    simp [repeatString]
  | succ k ih =>
    intro c acc hc hm
    have h0 : ¬ c = 0 := by
      intro h
      rw [h] at hm
      simp at hm
    rw [repeatLoop, if_neg h0]
    have hstep : ((wrapInt (c - 1)) % 4294967296).toNat = k := by
      unfold isInt32 at hc
      unfold wrapInt
      omega
    rw [ih (wrapInt (c - 1)) (acc ++ s) (isInt32_wrapInt _) hstep]
    simp [repeatString, String.append_assoc]

/-- The loop of `operator*` appends as many copies as the unsigned reading of
the count says. -/
theorem repeatLoop_eq (c : Int) (s acc : String) (hc : isInt32 c) :
    repeatLoop c s acc = acc ++ repeatString (c % 4294967296).toNat s :=
  repeatLoop_eq_aux s _ c acc hc rfl

theorem tdiv_isInt32 (a b : Int) (ha : isInt32 a) (hb : b ≠ 0)
    (hne : ¬ (a = INT_MIN ∧ b = -1)) : isInt32 (Int.tdiv a b) := by
  unfold isInt32 at *
  unfold INT_MIN at hne
  by_cases h1 : b = 1
  · subst h1
    simpa using ha
  by_cases h2 : b = -1
  · subst h2
    have h3 : ¬ a = -2147483648 := fun h => hne ⟨h, rfl⟩
    have h4 : Int.tdiv a (-1) = -a := by
      rw [show (-1 : Int) = -(1 : Int) from rfl, Int.tdiv_neg, Int.tdiv_one]
    rw [h4]
    omega
  have hq : (Int.tdiv a b).natAbs = a.natAbs / b.natAbs := Int.natAbs_tdiv a b
  have hb2 : 2 ≤ b.natAbs := by omega
  have hle : a.natAbs / b.natAbs ≤ a.natAbs / 2 :=
    Nat.div_le_div_left hb2 (by decide)
  omega

/-- C6, the claim as stated fails where the quotient leaves the 32-bit range:
`INT_MIN / -1` is not the value `Integer(2147483648)`. -/
theorem div_integer_overflow :
    isInt32 (-2147483648) ∧ isInt32 (-1) ∧ (-1 : Int) ≠ 0 ∧
    Value.div (Value.Integer (-2147483648)) (Value.Integer (-1))
      ≠ Value.Integer (Int.tdiv (-2147483648) (-1)) := by
  decide

/-- C6, amended: for 32-bit integers `a` and `b` other than the pair
`INT_MIN`, `-1`, the operator `/` on `Integer(a)` and `Integer(b)` returns
`Integer(q)` with `q` the quotient truncated toward zero when `b` is not 0,
and returns the `Error` value with message `DIVIDE BY ZERO` when `b` is 0. -/
theorem div_integer (a b : Int) (ha : isInt32 a) :
    (b ≠ 0 → ¬ (a = INT_MIN ∧ b = -1) →
      Value.div (Value.Integer a) (Value.Integer b) = Value.Integer (Int.tdiv a b))
    ∧ (b = 0 →
      Value.div (Value.Integer a) (Value.Integer b) = Value.Error "DIVIDE BY ZERO") := by
  constructor
  · intro h0 hne
    have hr := tdiv_isInt32 a b ha h0 hne
    simp [Value.div, Value.Integer, h0, intDiv, wrapInt_of_isInt32 _ hr]
  · intro h0
    simp [Value.div, Value.Integer, h0]

theorem div_integer_witness :
    Value.div (Value.Integer (-7)) (Value.Integer 2) = Value.Integer (-3)
    ∧ Value.div (Value.Integer 5) (Value.Integer 0) = Value.Error "DIVIDE BY ZERO" :=
  ⟨(div_integer (-7) 2 (by decide)).1 (by decide) (by decide),
   (div_integer 5 0 (by decide)).2 rfl⟩

theorem strFind_some (v : List Char) :
    ∀ (u : List Char) (pos : Nat), strFind u v = some pos →
      occursAt u v (u.take pos) (u.drop (pos + v.length))
      ∧ ∀ p q, occursAt u v p q → pos ≤ p.length := by
  intro u
  induction u with
  | nil =>
    intro pos h
    unfold strFind at h
    split_ifs at h with hv
    subst hv
    cases h
    simp [occursAt]
  | cons c u ih =>
    intro pos h
    unfold strFind at h
    split_ifs at h with hp
    · cases h
      have hp2 : v <+: c :: u := List.isPrefixOf_iff_prefix.mp hp
      obtain ⟨t, ht⟩ := hp2
      refine ⟨?_, fun _ _ _ => Nat.zero_le _⟩
      unfold occursAt
      rw [← ht]
      simp
    · cases hf : strFind u v with
      | none => simp [hf] at h
      | some k =>
        simp [hf] at h
        subst h
        obtain ⟨h1, h2⟩ := ih k hf
        constructor
        · unfold occursAt at h1 ⊢
          have : k + 1 + v.length = (k + v.length) + 1 := by omega
          rw [this, List.take_succ_cons, List.drop_succ_cons]
          simp only [List.cons_append]
          rw [← h1]
        · intro p q hpq
          cases p with
          | nil =>
            exfalso
            apply hp
            apply List.isPrefixOf_iff_prefix.mpr
            exact ⟨q, by simpa [occursAt] using hpq.symm⟩
          | cons d p2 =>
            have hu : occursAt u v p2 q := by
              unfold occursAt at hpq ⊢
              simp only [List.cons_append, List.cons.injEq] at hpq
              exact hpq.2
            have := h2 p2 q hu
            simp
            omega

theorem strFind_none (v : List Char) :
    ∀ (u : List Char), strFind u v = none → ∀ p q, ¬ occursAt u v p q := by
  intro u
  induction u with
  | nil =>
    intro h p q hpq
    unfold strFind at h
    split_ifs at h with hv
    apply hv
    unfold occursAt at hpq
    have h3 := congrArg List.length hpq
    simp at h3
    exact List.eq_nil_of_length_eq_zero (by omega)
  | cons c u ih =>
    intro h p q hpq
    unfold strFind at h
    split_ifs at h with hp
    cases hf : strFind u v with
    | some k => simp [hf] at h
    | none =>
      cases p with
      | nil =>
        apply hp
        apply List.isPrefixOf_iff_prefix.mpr
        exact ⟨q, by simpa [occursAt] using hpq.symm⟩
      | cons d p2 =>
        apply ih hf p2 q
        unfold occursAt at hpq ⊢
        simp only [List.cons_append, List.cons.injEq] at hpq
        exact hpq.2

theorem strFind_nil (u : List Char) : strFind u [] = some 0 := by
  cases u <;> simp [strFind, List.isPrefixOf]

/-- C7: on `String(u)` and `String(v)` the operator `/` removes the first
occurrence of `v` from `u`: when `v` occurs in `u` the result is
`String(p ++ q)` for the decomposition `u = p ++ v ++ q` with the shortest `p`,
of length `|u| - |v|`; when `v` does not occur the result is `String(u)`
unchanged; an empty `v` leaves `u` unchanged. -/
theorem div_string (u v : String) :
    ((∃ p q, occursAt u.data v.data p q) →
      ∃ p q, occursAt u.data v.data p q
        ∧ (∀ p2 q2, occursAt u.data v.data p2 q2 → p.length ≤ p2.length)
        ∧ Value.div (Value.String u) (Value.String v) = Value.String (String.mk (p ++ q))
        ∧ (String.mk (p ++ q)).length = u.length - v.length)
    ∧ ((¬ ∃ p q, occursAt u.data v.data p q) →
        Value.div (Value.String u) (Value.String v) = Value.String u)
    ∧ (v = "" → Value.div (Value.String u) (Value.String v) = Value.String u) := by
  refine ⟨?_, ?_, ?_⟩
  · intro hocc
    cases hf : strFind u.data v.data with
    | none =>
      obtain ⟨p, q, hpq⟩ := hocc
      exact absurd hpq (strFind_none _ _ hf p q)
    | some pos =>
      obtain ⟨h1, h2⟩ := strFind_some _ _ _ hf
      refine ⟨_, _, h1, ?_, ?_, ?_⟩
      · intro p2 q2 h3
        exact le_trans (by simp) (h2 p2 q2 h3)
      · simp [Value.div, Value.String, hf, strErase]
      · have h3 := congrArg List.length h1
        simp only [occursAt, List.length_append] at h3
        simp only [String.length, List.length_append]
        omega
  · intro hno
    cases hf : strFind u.data v.data with
    | none => simp [Value.div, Value.String, hf]
    | some pos =>
      exact absurd ⟨_, _, (strFind_some _ _ _ hf).1⟩ hno
  · intro hv
    subst hv
    have hf : strFind u.data [] = some 0 := strFind_nil _
    simp [Value.div, Value.String, hf, strErase]

theorem div_string_witness :
    (∃ p q, occursAt "hello world".data "world".data p q
        ∧ (∀ p2 q2, occursAt "hello world".data "world".data p2 q2 → p.length ≤ p2.length)
        ∧ Value.div (Value.String "hello world") (Value.String "world")
            = Value.String (String.mk (p ++ q))
        ∧ (String.mk (p ++ q)).length = "hello world".length - "world".length)
    ∧ Value.div (Value.String "hello world") (Value.String "world") = Value.String "hello "
    ∧ Value.div (Value.String "hello") (Value.String "world") = Value.String "hello"
    ∧ Value.div (Value.String "hello") (Value.String "") = Value.String "hello" :=
  ⟨(div_string "hello world" "world").1 ⟨"hello ".data, [], by decide⟩,
   by decide,
   (div_string "hello" "world").2.1
     (fun h => h.elim fun p h2 => h2.elim fun q h3 => strFind_none _ _ (by decide) p q h3),
   (div_string "hello" "").2.2 rfl⟩

/-- C8: for an integer count `n` with `0 ≤ n` (an `int`, so `n ≤ INT_MAX`) and
a text `s`, both `Integer(n) * String(s)` and `String(s) * Integer(n)` are
`String` of `s` repeated `n` times, a text of length `n * |s|`. -/
theorem mul_repeat (n : Int) (s : String) (h0 : 0 ≤ n) (hn : n ≤ INT_MAX) :
    Value.mul (Value.Integer n) (Value.String s) = Value.String (repeatString n.toNat s)
    ∧ Value.mul (Value.String s) (Value.Integer n) = Value.String (repeatString n.toNat s)
    ∧ (repeatString n.toNat s).length = n.toNat * s.length := by
  unfold INT_MAX at hn
  have hc : isInt32 n := by
    unfold isInt32
    omega
  have hm : (n % 4294967296).toNat = n.toNat := by omega
  have hl : repeatLoop n s "" = repeatString n.toNat s := by
    rw [repeatLoop_eq n s "" hc, hm]
    simp
  refine ⟨?_, ?_, repeatString_length _ _⟩
  · simp [Value.mul, Value.Integer, Value.String, hl]
  · simp [Value.mul, Value.Integer, Value.String, hl]

theorem mul_repeat_witness :
    Value.mul (Value.Integer 3) (Value.String "ab") = Value.String "ababab"
    ∧ Value.mul (Value.String "ab") (Value.Integer 3) = Value.String "ababab"
    ∧ ("ababab" : String).length = 3 * ("ab" : String).length :=
  mul_repeat 3 "ab" (by decide) (by decide)

/-- C9, the code at a negative count: for `Integer(-1)` and `String("a")`
the loop `while (count--)` runs its body, in both operand orders, and the
product is the text of 4294967295 copies of `a`, not the empty text. -/
theorem mul_negative_count :
    Value.mul (Value.Integer (-1)) (Value.String "a")
      = Value.String (repeatString 4294967295 "a")
    ∧ Value.mul (Value.String "a") (Value.Integer (-1))
      = Value.String (repeatString 4294967295 "a")
    ∧ Value.mul (Value.Integer (-1)) (Value.String "a") ≠ Value.String ""
    ∧ Value.mul (Value.String "a") (Value.Integer (-1)) ≠ Value.String "" := by
  have hm : ((-1 : Int) % 4294967296).toNat = 4294967295 := by decide
  have hl : repeatLoop (-1) "a" "" = repeatString 4294967295 "a" := by
    rw [repeatLoop_eq (-1) "a" "" (by decide), hm, String.empty_append]
  have hne : Value.String (repeatString 4294967295 "a") ≠ Value.String "" := by
    intro h
    have h2 := congrArg (fun v => v.stringValue.length) h
    simp only [Value.String, repeatString_length] at h2
    revert h2
    decide
  have e1 : Value.mul (Value.Integer (-1)) (Value.String "a")
      = Value.String (repeatString 4294967295 "a") := by
    rw [← hl]
    simp [Value.mul, Value.Integer, Value.String]
  have e2 : Value.mul (Value.String "a") (Value.Integer (-1))
      = Value.String (repeatString 4294967295 "a") := by
    rw [← hl]
    simp [Value.mul, Value.Integer, Value.String]
  exact ⟨e1, e2, by rw [e1]; exact hne, by rw [e2]; exact hne⟩

/-- The quotient is undefined exactly on two integers `INT_MIN` and `-1`;
everywhere else `operator/` returns the value of `Value.div`. -/
theorem operatorDiv_eq (u v : Value) :
    Value.operatorDiv u v
      = if u.type = TypeForNode.INT_TYPE ∧ v.type = TypeForNode.INT_TYPE
          ∧ u.intValue = INT_MIN ∧ v.intValue = -1 then none
        else some (Value.div u v) := by
  unfold Value.operatorDiv Value.div intQuotient
  by_cases h1 : u.type = TypeForNode.INT_TYPE ∧ v.type = TypeForNode.INT_TYPE
  · by_cases h0 : v.intValue = 0
    · have hne : ¬ v.intValue = -1 := by omega
      simp [h1, h0]
    · by_cases hp : u.intValue = INT_MIN ∧ v.intValue = -1
      · simp [h1, hp]
      · simp [h1, h0, hp]
  · by_cases h2 : u.type = TypeForNode.STRING_TYPE ∧ v.type = TypeForNode.STRING_TYPE
    · have h1a : ¬ (u.type = TypeForNode.INT_TYPE ∧ v.type = TypeForNode.INT_TYPE
          ∧ u.intValue = INT_MIN ∧ v.intValue = -1) := fun h => h1 ⟨h.1, h.2.1⟩
      simp only [h1, h2, h1a, and_self, if_true, if_false]
      cases strFind u.stringValue.data v.stringValue.data <;> rfl
    · have h1a : ¬ (u.type = TypeForNode.INT_TYPE ∧ v.type = TypeForNode.INT_TYPE
          ∧ u.intValue = INT_MIN ∧ v.intValue = -1) := fun h => h1 ⟨h.1, h.2.1⟩
      simp only [h1, h2, h1a, if_false]

theorem operatorDiv_some (u v w : Value) (h : Value.operatorDiv u v = some w) :
    w = Value.div u v := by
  rw [operatorDiv_eq] at h
  split_ifs at h
  exact (Option.some.inj h).symm

/-- C10: the four value operators return an `Error` exactly outside their
defined operand combinations. `+` is not `Error` iff both operands are
`Integer` (the result is the `int` sum, which is the sum whenever that is a
32-bit integer) or both are `String` (the concatenation, left operand first);
`-` iff both are `Integer` (the `int` difference, likewise); `*` iff the tags
are (Integer, Integer), (Integer, String) or (String, Integer). `/` returns a
value except on the two integers `INT_MIN` and `-1`, where the quotient is
undefined and the call does not return; it returns a value that is not
`Error` iff both operands are `String`, or both are `Integer` with a divisor
that is not 0 (and are not that pair); it returns an `Error` iff the operands
are outside these combinations. An `Error` or `Empty` operand makes each of
the four return `Error`. -/
theorem operators_error_iff (u v : Value) :
    ((Value.add u v).type ≠ TypeForNode.ERROR_TYPE ↔
        (u.type = TypeForNode.INT_TYPE ∧ v.type = TypeForNode.INT_TYPE)
        ∨ (u.type = TypeForNode.STRING_TYPE ∧ v.type = TypeForNode.STRING_TYPE))
    ∧ (u.type = TypeForNode.INT_TYPE ∧ v.type = TypeForNode.INT_TYPE →
        Value.add u v = Value.Integer (intAdd u.intValue v.intValue))
    ∧ (u.type = TypeForNode.INT_TYPE ∧ v.type = TypeForNode.INT_TYPE →
        isInt32 (u.intValue + v.intValue) →
        Value.add u v = Value.Integer (u.intValue + v.intValue))
    ∧ (u.type = TypeForNode.STRING_TYPE ∧ v.type = TypeForNode.STRING_TYPE →
        Value.add u v = Value.String (u.stringValue ++ v.stringValue))
    ∧ ((Value.sub u v).type ≠ TypeForNode.ERROR_TYPE ↔
        (u.type = TypeForNode.INT_TYPE ∧ v.type = TypeForNode.INT_TYPE))
    ∧ (u.type = TypeForNode.INT_TYPE ∧ v.type = TypeForNode.INT_TYPE →
        Value.sub u v = Value.Integer (intSub u.intValue v.intValue))
    ∧ (u.type = TypeForNode.INT_TYPE ∧ v.type = TypeForNode.INT_TYPE →
        isInt32 (u.intValue - v.intValue) →
        Value.sub u v = Value.Integer (u.intValue - v.intValue))
    ∧ ((Value.mul u v).type ≠ TypeForNode.ERROR_TYPE ↔
        (u.type = TypeForNode.INT_TYPE ∧ v.type = TypeForNode.INT_TYPE)
        ∨ (u.type = TypeForNode.INT_TYPE ∧ v.type = TypeForNode.STRING_TYPE)
        ∨ (u.type = TypeForNode.STRING_TYPE ∧ v.type = TypeForNode.INT_TYPE))
    ∧ (Value.operatorDiv u v = none ↔
        u.type = TypeForNode.INT_TYPE ∧ v.type = TypeForNode.INT_TYPE
        ∧ u.intValue = INT_MIN ∧ v.intValue = -1)
    ∧ ((∃ w, Value.operatorDiv u v = some w ∧ w.type ≠ TypeForNode.ERROR_TYPE) ↔
        ((u.type = TypeForNode.STRING_TYPE ∧ v.type = TypeForNode.STRING_TYPE)
          ∨ (u.type = TypeForNode.INT_TYPE ∧ v.type = TypeForNode.INT_TYPE ∧ v.intValue ≠ 0))
        ∧ ¬ (u.type = TypeForNode.INT_TYPE ∧ v.type = TypeForNode.INT_TYPE
              ∧ u.intValue = INT_MIN ∧ v.intValue = -1))
    ∧ ((∃ w, Value.operatorDiv u v = some w ∧ w.type = TypeForNode.ERROR_TYPE) ↔
        ¬ ((u.type = TypeForNode.STRING_TYPE ∧ v.type = TypeForNode.STRING_TYPE)
          ∨ (u.type = TypeForNode.INT_TYPE ∧ v.type = TypeForNode.INT_TYPE
              ∧ v.intValue ≠ 0)))
    ∧ ((u.type = TypeForNode.ERROR_TYPE ∨ u.type = TypeForNode.EMPTY_TYPE
          ∨ v.type = TypeForNode.ERROR_TYPE ∨ v.type = TypeForNode.EMPTY_TYPE) →
        (Value.add u v).type = TypeForNode.ERROR_TYPE
        ∧ (Value.sub u v).type = TypeForNode.ERROR_TYPE
        ∧ (Value.mul u v).type = TypeForNode.ERROR_TYPE
        ∧ ∃ w, Value.operatorDiv u v = some w ∧ w.type = TypeForNode.ERROR_TYPE) := by
  have hdiv : (Value.div u v).type ≠ TypeForNode.ERROR_TYPE ↔
      (u.type = TypeForNode.STRING_TYPE ∧ v.type = TypeForNode.STRING_TYPE)
      ∨ (u.type = TypeForNode.INT_TYPE ∧ v.type = TypeForNode.INT_TYPE ∧ v.intValue ≠ 0) := by
    obtain ⟨tu, iu, su⟩ := u
    obtain ⟨tv, iv, sv⟩ := v
    cases tu <;> cases tv <;>
      simp only [Value.div, Value.Integer, Value.String, Value.Error] <;>
      by_cases h0 : iv = 0 <;> cases strFind su.data sv.data <;> simp [h0]
  have hop := operatorDiv_eq u v
  obtain ⟨tu, iu, su⟩ := u
  obtain ⟨tv, iv, sv⟩ := v
  refine ⟨?_, ?_, ?_, ?_, ?_, ?_, ?_, ?_, ?_, ?_, ?_, ?_⟩
  · cases tu <;> cases tv <;> simp [Value.add, Value.Integer, Value.String, Value.Error]
  · rintro ⟨h1, h2⟩
    simp only at h1 h2
    subst h1 h2
    simp [Value.add]
  · rintro ⟨h1, h2⟩ hr
    simp only at h1 h2 hr
    subst h1 h2
    simp [Value.add, intAdd, wrapInt_of_isInt32 _ hr]
  · rintro ⟨h1, h2⟩
    simp only at h1 h2
    subst h1 h2
    simp [Value.add]
  · cases tu <;> cases tv <;> simp [Value.sub, Value.Integer, Value.Error]
  · rintro ⟨h1, h2⟩
    simp only at h1 h2
    subst h1 h2
    simp [Value.sub]
  · rintro ⟨h1, h2⟩ hr
    simp only at h1 h2 hr
    subst h1 h2
    simp [Value.sub, intSub, wrapInt_of_isInt32 _ hr]
  · cases tu <;> cases tv <;> simp [Value.mul, Value.Integer, Value.String, Value.Error]
  · rw [hop]
    split_ifs with hp
    · simp only [true_iff]
      exact hp
    · simp only [false_iff]
      exact hp
  · rw [hop]
    split_ifs with hp
    · constructor
      · rintro ⟨w, hw, _⟩
        cases hw
      · rintro ⟨_, hn⟩
        exact absurd hp hn
    · constructor
      · rintro ⟨w, hw, hne⟩
        cases hw
        exact ⟨hdiv.mp hne, hp⟩
      · rintro ⟨hc, _⟩
        exact ⟨_, rfl, hdiv.mpr hc⟩
  · rw [hop]
    split_ifs with hp
    · simp only [false_and, exists_false, false_iff, not_not]
      refine Or.inr ⟨hp.1, hp.2.1, ?_⟩
      have := hp.2.2.2
      simp only at this
      simp only [this]
      decide
    · constructor
      · rintro ⟨w, hw, he⟩
        cases hw
        intro hc
        exact hdiv.mpr hc he
      · intro hc
        refine ⟨_, rfl, ?_⟩
        by_contra hne
        exact hc (hdiv.mp hne)
  · intro h
    simp only at h
    rw [hop]
    cases tu <;> cases tv <;>
      simp [Value.add, Value.sub, Value.mul, Value.div, Value.Error] at h ⊢

theorem operators_error_iff_witness :
    Value.add (Value.Integer 2) (Value.Integer 3) = Value.Integer 5
    ∧ Value.add (Value.String "ab") (Value.String "cd") = Value.String "abcd"
    ∧ Value.sub (Value.Integer 2) (Value.Integer 3) = Value.Integer (-1)
    ∧ Value.operatorDiv (Value.Integer (-2147483648)) (Value.Integer (-1)) = none
    ∧ ((Value.add (Value.Integer 2) (Value.String "a")).type = TypeForNode.ERROR_TYPE
      ∧ (Value.sub (Value.Integer 2) Value.Empty).type = TypeForNode.ERROR_TYPE
      ∧ (Value.mul (Value.Integer 2) Value.Empty).type = TypeForNode.ERROR_TYPE
      ∧ ∃ w, Value.operatorDiv (Value.Integer 2) Value.Empty = some w
          ∧ w.type = TypeForNode.ERROR_TYPE) :=
  ⟨(operators_error_iff (Value.Integer 2) (Value.Integer 3)).2.2.1 ⟨rfl, rfl⟩ (by decide),
   (operators_error_iff (Value.String "ab") (Value.String "cd")).2.2.2.1 ⟨rfl, rfl⟩,
   (operators_error_iff (Value.Integer 2) (Value.Integer 3)).2.2.2.2.2.2.1 ⟨rfl, rfl⟩
     (by decide),
   (operators_error_iff (Value.Integer (-2147483648)) (Value.Integer (-1))).2.2.2.2.2.2.2.2.1.mpr
     ⟨rfl, rfl, rfl, rfl⟩,
   ⟨by decide,
    ((operators_error_iff (Value.Integer 2) Value.Empty).2.2.2.2.2.2.2.2.2.2.2
      (Or.inr (Or.inr (Or.inr rfl)))).2⟩⟩

/-! ## Properties of evaluation -/

theorem stmtList_stops (post : List ParseTree) (sk : ParseTree) :
    ∀ (pre : List ParseTree) (tree : ParseTree) (g : Globals),
      stmtListTree (pre ++ sk :: post) = some tree →
      allEmpty pre g = true →
      (sk.Evaluate (evalAll pre g)).1.type ≠ TypeForNode.EMPTY_TYPE →
      tree.Evaluate g = (Value.Error "", evalAll (pre ++ [sk]) g) := by
  intro pre
  induction pre with
  | nil =>
    intro tree g ht _ hk
    simp only [List.nil_append, stmtListTree, Option.some.injEq] at ht
    subst ht
    simp only [evalAll] at hk
    cases stmtListTree post <;> simp [ParseTree.Evaluate, evalAll, hk]
  | cons p pre ih =>
    intro tree g ht hall hk
    simp only [List.cons_append, stmtListTree, Option.some.injEq] at ht
    subst ht
    simp only [allEmpty, Bool.and_eq_true, decide_eq_true_eq] at hall
    simp only [evalAll] at hk
    cases hr : stmtListTree (pre ++ sk :: post) with
    | none => cases pre <;> simp [stmtListTree] at hr
    | some t =>
      have := ih t (p.Evaluate g).2 hr hall.2 hk
      simp [ParseTree.Evaluate, evalAll, hall.1, this]

theorem stmtList_completes :
    ∀ (ss : List ParseTree) (tree : ParseTree) (g : Globals),
      stmtListTree ss = some tree →
      allEmpty ss g = true →
      tree.Evaluate g = (Value.Empty, evalAll ss g) := by
  intro ss
  induction ss with
  | nil =>
    intro tree g ht
    simp [stmtListTree] at ht
  | cons p ss ih =>
    intro tree g ht hall
    simp only [stmtListTree, Option.some.injEq] at ht
    subst ht
    simp only [allEmpty, Bool.and_eq_true, decide_eq_true_eq] at hall
    cases hr : stmtListTree ss with
    | none =>
      cases ss with
      | nil => simp [ParseTree.Evaluate, evalAll, hall.1]
      | cons q qs => simp [stmtListTree] at hr
    | some t =>
      have := ih t (p.Evaluate g).2 hr hall.2
      simp [ParseTree.Evaluate, evalAll, hall.1, this]

/-- C1: for the tree of a statement list `s1; ...; sn` and any globals: when
`sk` is the first statement that yields a value that is not `Empty` (the
statements before it, evaluated in order, all yield `Empty`), the list
evaluates to `Error` and the globals, value table and output, are those
reached by evaluating `s1..sk` and nothing else; when every statement yields
`Empty`, the list evaluates to `Empty` after evaluating them all. -/
theorem statementList_evaluate (ss : List ParseTree) (tree : ParseTree) (g : Globals)
    (ht : stmtListTree ss = some tree) :
    (∀ pre sk post, ss = pre ++ sk :: post → allEmpty pre g = true →
        (sk.Evaluate (evalAll pre g)).1.type ≠ TypeForNode.EMPTY_TYPE →
        tree.Evaluate g = (Value.Error "", evalAll (pre ++ [sk]) g))
    ∧ (allEmpty ss g = true → tree.Evaluate g = (Value.Empty, evalAll ss g)) := by
  constructor
  · intro pre sk post hss hall hk
    subst hss
    exact stmtList_stops post sk pre tree g ht hall hk
  · intro hall
    exact stmtList_completes ss tree g ht hall

theorem statementList_evaluate_witness :
    progDivZero.Evaluate (Globals.initial none)
      = (Value.Error "", evalAll ([declIntX, setX6] ++ [setXDivZero]) (Globals.initial none))
    ∧ progDivZero.Evaluate (Globals.initial none)
      = (Value.Error "", ⟨none, [("x", Value.Integer 6)], [], "1:DIVIDE BY ZERO\n"⟩)
    ∧ progPrintFive.Evaluate (Globals.initial none)
      = (Value.Empty, evalAll [declIntX, setX5, printlnX] (Globals.initial none)) :=
  ⟨(statementList_evaluate [declIntX, setX6, setXDivZero, printlnX] progDivZero
      (Globals.initial none) rfl).1 [declIntX, setX6] setXDivZero [printlnX] rfl
      (by decide) (by decide),
   by decide,
   (statementList_evaluate [declIntX, setX5, printlnX] progPrintFive
      (Globals.initial none) rfl).2 (by decide)⟩

/-! ## Properties of the semantic check -/

theorem checkOperation_hasErrors (op : ParseTree) (c : SemanticCheck) :
    (SemanticCheck.checkOperation op c).hasErrors = c.hasErrors := by
  unfold SemanticCheck.checkOperation
  split_ifs <;> rfl

/-- C2, the code on `print 1 + "a";`: the check of the ill-typed `Addition`
writes `1:type error` and leaves `hasErrors` false, so `isErrorFree()` is
true and `main` goes on to `Evaluate`; on `println "ran"; print 1 + "a";`
the output of the evaluation follows the diagnostic. -/
theorem typeError_operation_flag_clear :
    progTypeError.accept ⟨false, Globals.initial none⟩
      = ⟨false, ⟨none, [], [], "1:type error\n"⟩⟩
    ∧ (progTypeError.accept ⟨false, Globals.initial none⟩).isErrorFree = true
    ∧ checkAndRun progTypeError (Globals.initial none)
      = (progTypeError.Evaluate ⟨none, [], [], "1:type error\n"⟩).2
    ∧ (progTypeErrorRan.accept ⟨false, Globals.initial none⟩).isErrorFree = true
    ∧ (checkAndRun progTypeErrorRan (Globals.initial none)).cout = "1:type error\nran\n" := by
  decide

/-! ## Properties of assignments and print statements -/

theorem find_assign_self {α : Type} (k : String) (v : α) :
    ∀ (t : Table α), Table.find (Table.assign t k v) k = some v := by
  intro t
  induction t with
  | nil => simp [Table.assign, Table.find]
  | cons b t ih =>
    obtain ⟨k1, v1⟩ := b
    by_cases h : k1 = k
    · simp [Table.assign, Table.find, h]
    · simp [Table.assign, Table.find, h, ih]

theorem find_assign_ne {α : Type} (k m : String) (v : α) (hm : m ≠ k) :
    ∀ (t : Table α), Table.find (Table.assign t k v) m = Table.find t m := by
  intro t
  induction t with
  | nil =>
    have : ¬ k = m := fun h => hm h.symm
    simp [Table.assign, Table.find, this]
  | cons b t ih =>
    obtain ⟨k1, v1⟩ := b
    by_cases h : k1 = k
    · have h2 : ¬ k = m := fun h3 => hm h3.symm
      have h3 : ¬ k1 = m := fun h4 => h2 (h ▸ h4)
      simp [Table.assign, Table.find, h, h2, h3]
    · by_cases h2 : k1 = m
      · subst h2
        simp [Table.assign, Table.find, h]
      · simp [Table.assign, Table.find, h, h2, ih]

theorem reportDivision_symbolTable (n : Int) (v : Value) (g : Globals) :
    (reportDivision n v g).symbolTable = g.symbolTable := by
  unfold reportDivision error
  split_ifs <;> rfl

theorem reportDivision_cout (n : Int) (v : Value) (g : Globals)
    (h : v.type ≠ TypeForNode.ERROR_TYPE) : (reportDivision n v g).cout = g.cout := by
  unfold reportDivision
  simp [h]

theorem operand_types (u v : Value) :
    ((Value.add u v).type ≠ TypeForNode.ERROR_TYPE →
      u.type ≠ TypeForNode.ERROR_TYPE ∧ v.type ≠ TypeForNode.ERROR_TYPE)
    ∧ ((Value.sub u v).type ≠ TypeForNode.ERROR_TYPE →
      u.type ≠ TypeForNode.ERROR_TYPE ∧ v.type ≠ TypeForNode.ERROR_TYPE)
    ∧ ((Value.mul u v).type ≠ TypeForNode.ERROR_TYPE →
      u.type ≠ TypeForNode.ERROR_TYPE ∧ v.type ≠ TypeForNode.ERROR_TYPE)
    ∧ ((Value.div u v).type ≠ TypeForNode.ERROR_TYPE →
      u.type ≠ TypeForNode.ERROR_TYPE ∧ v.type ≠ TypeForNode.ERROR_TYPE) := by
  obtain ⟨tu, iu, su⟩ := u
  obtain ⟨tv, iv, sv⟩ := v
  refine ⟨?_, ?_, ?_, ?_⟩ <;> cases tu <;> cases tv <;>
    simp [Value.add, Value.sub, Value.mul, Value.div, Value.Error]

/-- Evaluating an expression whose identifiers are all bound leaves the value
table as it was. -/
theorem expr_symbolTable : ∀ (e : ParseTree) (g : Globals), e.isExpr = true →
    e.identifiersBound g.symbolTable = true → (e.Evaluate g).2.symbolTable = g.symbolTable
  | .Addition _ l r, g, he, hb => by
    simp only [ParseTree.isExpr, ParseTree.identifiersBound, Bool.and_eq_true] at he hb
    have h1 := expr_symbolTable l g he.1 hb.1
    have h2 := expr_symbolTable r (l.Evaluate g).2 he.2 (by rw [h1]; exact hb.2)
    simp only [ParseTree.Evaluate, h2, h1]
  | .Subtraction _ l r, g, he, hb => by
    simp only [ParseTree.isExpr, ParseTree.identifiersBound, Bool.and_eq_true] at he hb
    have h1 := expr_symbolTable l g he.1 hb.1
    have h2 := expr_symbolTable r (l.Evaluate g).2 he.2 (by rw [h1]; exact hb.2)
    simp only [ParseTree.Evaluate, h2, h1]
  | .Multiplication _ l r, g, he, hb => by
    simp only [ParseTree.isExpr, ParseTree.identifiersBound, Bool.and_eq_true] at he hb
    have h1 := expr_symbolTable l g he.1 hb.1
    have h2 := expr_symbolTable r (l.Evaluate g).2 he.2 (by rw [h1]; exact hb.2)
    simp only [ParseTree.Evaluate, h2, h1]
  | .Division _ l r, g, he, hb => by
    simp only [ParseTree.isExpr, ParseTree.identifiersBound, Bool.and_eq_true] at he hb
    have h1 := expr_symbolTable l g he.1 hb.1
    have h2 := expr_symbolTable r (l.Evaluate g).2 he.2 (by rw [h1]; exact hb.2)
    simp only [ParseTree.Evaluate, reportDivision_symbolTable, h2, h1]
  | .IntegerConstant _ _, g, _, _ => by simp [ParseTree.Evaluate]
  | .StringConstant _ _, g, _, _ => by simp [ParseTree.Evaluate]
  | .Identifier id, g, _, hb => by
    simp only [ParseTree.identifiersBound] at hb
    cases hf : Table.find g.symbolTable id.identifier with
    | none => simp [hf] at hb
    | some v => simp [ParseTree.Evaluate, Identifier.Evaluate, Table.index, hf]
  | .StatementList _ _, g, he, _ => by simp [ParseTree.isExpr] at he
  | .VariableDeclaration _ _ _, g, he, _ => by simp [ParseTree.isExpr] at he
  | .VariableAssignment _ _ _, g, he, _ => by simp [ParseTree.isExpr] at he
  | .PrintCommand _ _ _, g, he, _ => by simp [ParseTree.isExpr] at he

/-- Evaluating an expression to a value that is not `Error` writes nothing. -/
theorem expr_cout : ∀ (e : ParseTree) (g : Globals), e.isExpr = true →
    (e.Evaluate g).1.type ≠ TypeForNode.ERROR_TYPE → (e.Evaluate g).2.cout = g.cout
  | .Addition _ l r, g, he, hv => by
    simp only [ParseTree.isExpr, Bool.and_eq_true] at he
    simp only [ParseTree.Evaluate] at hv ⊢
    have ht := (operand_types _ _).1 hv
    rw [expr_cout r _ he.2 ht.2, expr_cout l g he.1 ht.1]
  | .Subtraction _ l r, g, he, hv => by
    simp only [ParseTree.isExpr, Bool.and_eq_true] at he
    simp only [ParseTree.Evaluate] at hv ⊢
    have ht := (operand_types _ _).2.1 hv
    rw [expr_cout r _ he.2 ht.2, expr_cout l g he.1 ht.1]
  | .Multiplication _ l r, g, he, hv => by
    simp only [ParseTree.isExpr, Bool.and_eq_true] at he
    simp only [ParseTree.Evaluate] at hv ⊢
    have ht := (operand_types _ _).2.2.1 hv
    rw [expr_cout r _ he.2 ht.2, expr_cout l g he.1 ht.1]
  | .Division _ l r, g, he, hv => by
    simp only [ParseTree.isExpr, Bool.and_eq_true] at he
    simp only [ParseTree.Evaluate] at hv ⊢
    have ht := (operand_types _ _).2.2.2 hv
    rw [reportDivision_cout _ _ _ hv, expr_cout r _ he.2 ht.2, expr_cout l g he.1 ht.1]
  | .IntegerConstant _ _, g, _, _ => by simp [ParseTree.Evaluate]
  | .StringConstant _ _, g, _, _ => by simp [ParseTree.Evaluate]
  | .Identifier id, g, _, _ => by
    simp only [ParseTree.Evaluate, Identifier.Evaluate]
  | .StatementList _ _, g, he, _ => by simp [ParseTree.isExpr] at he
  | .VariableDeclaration _ _ _, g, he, _ => by simp [ParseTree.isExpr] at he
  | .VariableAssignment _ _ _, g, he, _ => by simp [ParseTree.isExpr] at he
  | .PrintCommand _ _ _, g, he, _ => by simp [ParseTree.isExpr] at he

/-- C4, the claim as stated fails on a value table in which an identifier of
the expression is unbound: evaluating `set x y` from the empty table yields
no `Error` and binds `y` as well, and `set x y + 1` yields `Error` and
leaves `y` bound, because `symbolTable[identifier]` inserts the name it does
not find. -/
theorem assignment_unbound_operand :
    ((ParseTree.Identifier ⟨0, "y"⟩).Evaluate (Globals.initial none)).1.type
        ≠ TypeForNode.ERROR_TYPE
    ∧ "y" ≠ "x"
    ∧ Table.find (setXFromY.Evaluate (Globals.initial none)).2.symbolTable "y"
        ≠ Table.find (Globals.initial none).symbolTable "y"
    ∧ ((ParseTree.Addition 0 (ParseTree.Identifier ⟨0, "y"⟩)
          (ParseTree.IntegerConstant 0 1)).Evaluate (Globals.initial none)).1.type
        = TypeForNode.ERROR_TYPE
    ∧ (setXFromYPlusOne.Evaluate (Globals.initial none)).1 = Value.Error ""
    ∧ (setXFromYPlusOne.Evaluate (Globals.initial none)).2.symbolTable
        ≠ (Globals.initial none).symbolTable := by
  decide

/-- C4, amended: for every assignment `set n e` and every value table in
which each identifier of the expression `e` is bound: if `e` evaluates to a
value that is not `Error`, the statement yields `Empty`, the resulting table
binds `n` to exactly that value and every other name as before; if `e`
evaluates to `Error`, the statement yields `Error` and the value table is
exactly as it was. -/
theorem assignment_evaluate (line : Int) (id : Identifier) (e : ParseTree) (g : Globals)
    (he : e.isExpr = true) (hb : e.identifiersBound g.symbolTable = true) :
    ((e.Evaluate g).1.type ≠ TypeForNode.ERROR_TYPE →
      ((ParseTree.VariableAssignment line id e).Evaluate g).1 = Value.Empty
      ∧ Table.find ((ParseTree.VariableAssignment line id e).Evaluate g).2.symbolTable
          id.identifier = some (e.Evaluate g).1
      ∧ ∀ m, m ≠ id.identifier →
          Table.find ((ParseTree.VariableAssignment line id e).Evaluate g).2.symbolTable m
            = Table.find g.symbolTable m)
    ∧ ((e.Evaluate g).1.type = TypeForNode.ERROR_TYPE →
      ((ParseTree.VariableAssignment line id e).Evaluate g).1 = Value.Error ""
      ∧ ((ParseTree.VariableAssignment line id e).Evaluate g).2.symbolTable
          = g.symbolTable) := by
  have hs := expr_symbolTable e g he hb
  constructor
  · intro hv
    simp only [ParseTree.Evaluate, hv, ne_eq, not_false_eq_true, if_true, hs, true_and]
    exact ⟨find_assign_self _ _ _, fun m hm => find_assign_ne _ _ _ hm _⟩
  · intro hv
    simp [ParseTree.Evaluate, hv, hs]

theorem assignment_evaluate_witness :
    ((setX6.Evaluate (declIntX.Evaluate (Globals.initial none)).2).1 = Value.Empty
      ∧ Table.find (setX6.Evaluate (declIntX.Evaluate (Globals.initial none)).2).2.symbolTable
          "x" = some (Value.Integer 6)
      ∧ ∀ m, m ≠ "x" →
          Table.find (setX6.Evaluate (declIntX.Evaluate (Globals.initial none)).2).2.symbolTable m
            = Table.find (declIntX.Evaluate (Globals.initial none)).2.symbolTable m)
    ∧ (setXDivZero.Evaluate (evalAll [declIntX, setX6] (Globals.initial none))).1
        = Value.Error ""
    ∧ (setXDivZero.Evaluate (evalAll [declIntX, setX6] (Globals.initial none))).2.symbolTable
        = [("x", Value.Integer 6)] :=
  ⟨(assignment_evaluate 0 ⟨0, "x"⟩ (ParseTree.IntegerConstant 0 6)
      (declIntX.Evaluate (Globals.initial none)).2 rfl rfl).1 (by decide),
   (assignment_evaluate 0 ⟨0, "x"⟩
      (ParseTree.Division 0 (ParseTree.Identifier ⟨0, "x"⟩) (ParseTree.IntegerConstant 0 0))
      (evalAll [declIntX, setX6] (Globals.initial none)) rfl rfl).2 (by decide)⟩

/-- C5: for every print statement with expression `e`: if `e` evaluates to an
`Integer` the statement appends the decimal text of the number to the output,
if `e` evaluates to a `String` it appends that text as it is, in both cases
followed by a newline exactly when the keyword is `println`, and the statement
yields `Empty`; if `e` evaluates to `Error` the statement yields `Error` and
adds nothing to what the evaluation of `e` left. -/
theorem print_evaluate (line : Int) (tok : TokenType) (e : ParseTree) (g : Globals)
    (he : e.isExpr = true) :
    ((e.Evaluate g).1.type = TypeForNode.INT_TYPE →
      (ParseTree.PrintCommand line tok e).Evaluate g
        = (Value.Empty,
            { (e.Evaluate g).2 with
              cout := g.cout ++ toString (e.Evaluate g).1.intValue
                ++ (if tok = TokenType.T_PRINTLN then "\n" else "") }))
    ∧ ((e.Evaluate g).1.type = TypeForNode.STRING_TYPE →
      (ParseTree.PrintCommand line tok e).Evaluate g
        = (Value.Empty,
            { (e.Evaluate g).2 with
              cout := g.cout ++ (e.Evaluate g).1.stringValue
                ++ (if tok = TokenType.T_PRINTLN then "\n" else "") }))
    ∧ ((e.Evaluate g).1.type = TypeForNode.ERROR_TYPE →
      (ParseTree.PrintCommand line tok e).Evaluate g = (Value.Error "", (e.Evaluate g).2)) := by
  refine ⟨?_, ?_, ?_⟩
  · intro hv
    have hne : (e.Evaluate g).1.type ≠ TypeForNode.ERROR_TYPE := by simp [hv]
    have hc := expr_cout e g he hne
    simp [ParseTree.Evaluate, hv, printValue, hc]
  · intro hv
    have hne : (e.Evaluate g).1.type ≠ TypeForNode.ERROR_TYPE := by simp [hv]
    have hc := expr_cout e g he hne
    simp [ParseTree.Evaluate, hv, printValue, hc]
  · intro hv
    simp [ParseTree.Evaluate, hv]

theorem print_evaluate_witness :
    printlnX.Evaluate (evalAll [declIntX, setX5] (Globals.initial none))
      = (Value.Empty, ⟨none, [("x", Value.Integer 5)], [], "5\n"⟩)
    ∧ (checkAndRun progPrintFive (Globals.initial none)).cout = "5\n"
    ∧ printOnePlusA.Evaluate (Globals.initial none)
      = (Value.Error "", Globals.initial none) :=
  ⟨(print_evaluate 0 TokenType.T_PRINTLN (ParseTree.Identifier ⟨0, "x"⟩)
      (evalAll [declIntX, setX5] (Globals.initial none)) rfl).1 (by decide),
   by decide,
   (print_evaluate 0 TokenType.T_PRINT
      (ParseTree.Addition 0 (ParseTree.IntegerConstant 0 1) (ParseTree.StringConstant 0 "a"))
      (Globals.initial none) rfl).2.2 (by decide)⟩

/-! ## The semantic check guards the reads of evaluation -/

theorem error_tables (n : Int) (m : String) (g : Globals) :
    (error n m g).typeTable = g.typeTable ∧ (error n m g).symbolTable = g.symbolTable := by
  unfold error
  exact ⟨rfl, rfl⟩

theorem visitIdentifier_ok (id : Identifier) (c : SemanticCheck)
    (h : (SemanticCheck.visitIdentifier id c).hasErrors = false) :
    (Table.find c.g.typeTable id.identifier).isSome = true
    ∧ SemanticCheck.visitIdentifier id c = c := by
  unfold SemanticCheck.visitIdentifier at h ⊢
  cases hf : Table.find c.g.typeTable id.identifier with
  | none => simp [hf] at h
  | some t => simp

theorem visitIdentifier_sticky (id : Identifier) (c : SemanticCheck)
    (h : c.hasErrors = true) : (SemanticCheck.visitIdentifier id c).hasErrors = true := by
  unfold SemanticCheck.visitIdentifier
  split <;> simp [h]

theorem checkOperation_typeTable (op : ParseTree) (c : SemanticCheck) :
    (SemanticCheck.checkOperation op c).g.typeTable = c.g.typeTable := by
  unfold SemanticCheck.checkOperation
  split_ifs
  · exact (error_tables _ _ _).1
  · rfl

theorem checkAssignment_ok (id : Identifier) (e : ParseTree) (c : SemanticCheck)
    (h : (SemanticCheck.checkAssignment id e c).hasErrors = false) :
    c.hasErrors = false
    ∧ (SemanticCheck.checkAssignment id e c).g.typeTable = c.g.typeTable := by
  unfold SemanticCheck.checkAssignment at h ⊢
  cases hf : Table.find c.g.typeTable id.identifier with
  | none =>
    simp only [hf] at h
    exact ⟨h, rfl⟩
  | some t =>
    simp only [hf] at h ⊢
    by_cases ht : e.GetType c.g.typeTable = t
    · simp only [ht, ne_eq, not_true_eq_false, if_false] at h ⊢
      exact ⟨h, trivial⟩
    · simp [ht] at h

/-- Once set, the member `hasErrors` stays set. -/
theorem accept_sticky : ∀ (t : ParseTree) (c : SemanticCheck), c.hasErrors = true →
    (t.accept c).hasErrors = true
  | .StatementList none none, c, h => by simpa [ParseTree.accept] using h
  | .StatementList (some l) none, c, h => by
    simpa [ParseTree.accept] using accept_sticky l c h
  | .StatementList none (some r), c, h => by
    simpa [ParseTree.accept] using accept_sticky r c h
  | .StatementList (some l) (some r), c, h => by
    simpa [ParseTree.accept] using accept_sticky r _ (accept_sticky l c h)
  | .Addition n l r, c, h => by
    simp only [ParseTree.accept, checkOperation_hasErrors]
    exact accept_sticky r _ (accept_sticky l c h)
  | .Subtraction n l r, c, h => by
    simp only [ParseTree.accept, checkOperation_hasErrors]
    exact accept_sticky r _ (accept_sticky l c h)
  | .Multiplication n l r, c, h => by
    simp only [ParseTree.accept, checkOperation_hasErrors]
    exact accept_sticky r _ (accept_sticky l c h)
  | .Division n l r, c, h => by
    simp only [ParseTree.accept, checkOperation_hasErrors]
    exact accept_sticky r _ (accept_sticky l c h)
  | .IntegerConstant _ _, c, h => by simpa [ParseTree.accept] using h
  | .StringConstant _ _, c, h => by simpa [ParseTree.accept] using h
  | .Identifier id, c, h => by
    simpa [ParseTree.accept] using visitIdentifier_sticky id c h
  | .VariableDeclaration n t id, c, h => by
    simp only [ParseTree.accept, SemanticCheck.visitDeclaration]
    split <;> simp [h]
  | .VariableAssignment n id e, c, h => by
    have h1 := accept_sticky e _ (visitIdentifier_sticky id c h)
    simp only [ParseTree.accept]
    cases h2 : (SemanticCheck.checkAssignment id e
        (e.accept (SemanticCheck.visitIdentifier id c))).hasErrors with
    | true => rfl
    | false => rw [(checkAssignment_ok _ _ _ h2).1] at h1; cases h1
  | .PrintCommand n tok e, c, h => by
    simpa [ParseTree.accept] using accept_sticky e c h

theorem accept_clear_before (t : ParseTree) (c : SemanticCheck)
    (h : (t.accept c).hasErrors = false) : c.hasErrors = false := by
  cases hc : c.hasErrors with
  | false => rfl
  | true => rw [accept_sticky t c hc] at h; cases h

/-- The check of an expression leaves the type table as it was. -/
theorem expr_accept_typeTable : ∀ (e : ParseTree) (c : SemanticCheck), e.isExpr = true →
    (e.accept c).g.typeTable = c.g.typeTable
  | .Addition _ l r, c, he => by
    simp only [ParseTree.isExpr, Bool.and_eq_true] at he
    simp only [ParseTree.accept, checkOperation_typeTable]
    rw [expr_accept_typeTable r _ he.2, expr_accept_typeTable l c he.1]
  | .Subtraction _ l r, c, he => by
    simp only [ParseTree.isExpr, Bool.and_eq_true] at he
    simp only [ParseTree.accept, checkOperation_typeTable]
    rw [expr_accept_typeTable r _ he.2, expr_accept_typeTable l c he.1]
  | .Multiplication _ l r, c, he => by
    simp only [ParseTree.isExpr, Bool.and_eq_true] at he
    simp only [ParseTree.accept, checkOperation_typeTable]
    rw [expr_accept_typeTable r _ he.2, expr_accept_typeTable l c he.1]
  | .Division _ l r, c, he => by
    simp only [ParseTree.isExpr, Bool.and_eq_true] at he
    simp only [ParseTree.accept, checkOperation_typeTable]
    rw [expr_accept_typeTable r _ he.2, expr_accept_typeTable l c he.1]
  | .IntegerConstant _ _, c, _ => by simp [ParseTree.accept]
  | .StringConstant _ _, c, _ => by simp [ParseTree.accept]
  | .Identifier id, c, _ => by
    simp only [ParseTree.accept, SemanticCheck.visitIdentifier]
    split
    · exact (error_tables _ _ _).1
    · rfl
  | .StatementList _ _, c, he => by simp [ParseTree.isExpr] at he
  | .VariableDeclaration _ _ _, c, he => by simp [ParseTree.isExpr] at he
  | .VariableAssignment _ _ _, c, he => by simp [ParseTree.isExpr] at he
  | .PrintCommand _ _ _, c, he => by simp [ParseTree.isExpr] at he

/-- An expression that the check passes without error has each of its
identifiers in the type table, hence in a value table that covers it. -/
theorem expr_checked_bound (S : Table Value) : ∀ (e : ParseTree) (c : SemanticCheck),
    e.isExpr = true → (e.accept c).hasErrors = false → covers c.g.typeTable S →
    e.identifiersBound S = true
  | .Addition _ l r, c, he, h, hc => by
    simp only [ParseTree.isExpr, Bool.and_eq_true] at he
    simp only [ParseTree.accept, checkOperation_hasErrors] at h
    have hl := accept_clear_before r _ h
    have h1 := expr_checked_bound S l c he.1 hl hc
    have h2 := expr_checked_bound S r (l.accept c) he.2 h
      (by rw [expr_accept_typeTable l c he.1]; exact hc)
    simp [ParseTree.identifiersBound, h1, h2]
  | .Subtraction _ l r, c, he, h, hc => by
    simp only [ParseTree.isExpr, Bool.and_eq_true] at he
    simp only [ParseTree.accept, checkOperation_hasErrors] at h
    have hl := accept_clear_before r _ h
    have h1 := expr_checked_bound S l c he.1 hl hc
    have h2 := expr_checked_bound S r (l.accept c) he.2 h
      (by rw [expr_accept_typeTable l c he.1]; exact hc)
    simp [ParseTree.identifiersBound, h1, h2]
  | .Multiplication _ l r, c, he, h, hc => by
    simp only [ParseTree.isExpr, Bool.and_eq_true] at he
    simp only [ParseTree.accept, checkOperation_hasErrors] at h
    have hl := accept_clear_before r _ h
    have h1 := expr_checked_bound S l c he.1 hl hc
    have h2 := expr_checked_bound S r (l.accept c) he.2 h
      (by rw [expr_accept_typeTable l c he.1]; exact hc)
    simp [ParseTree.identifiersBound, h1, h2]
  | .Division _ l r, c, he, h, hc => by
    simp only [ParseTree.isExpr, Bool.and_eq_true] at he
    simp only [ParseTree.accept, checkOperation_hasErrors] at h
    have hl := accept_clear_before r _ h
    have h1 := expr_checked_bound S l c he.1 hl hc
    have h2 := expr_checked_bound S r (l.accept c) he.2 h
      (by rw [expr_accept_typeTable l c he.1]; exact hc)
    simp [ParseTree.identifiersBound, h1, h2]
  | .IntegerConstant _ _, c, _, _, _ => by simp [ParseTree.identifiersBound]
  | .StringConstant _ _, c, _, _, _ => by simp [ParseTree.identifiersBound]
  | .Identifier id, c, _, h, hc => by
    simp only [ParseTree.accept] at h
    simp only [ParseTree.identifiersBound]
    exact hc _ (visitIdentifier_ok id c h).1
  | .StatementList _ _, c, he, _, _ => by simp [ParseTree.isExpr] at he
  | .VariableDeclaration _ _ _, c, he, _, _ => by simp [ParseTree.isExpr] at he
  | .VariableAssignment _ _ _, c, he, _, _ => by simp [ParseTree.isExpr] at he
  | .PrintCommand _ _ _, c, he, _, _ => by simp [ParseTree.isExpr] at he

/-- An expression whose identifiers are all bound makes no read of an unbound
name when it is evaluated. -/
theorem expr_readsOnlyBound : ∀ (e : ParseTree) (g : Globals), e.isExpr = true →
    e.identifiersBound g.symbolTable = true → e.readsOnlyBound g = true
  | .Addition _ l r, g, he, hb => by
    simp only [ParseTree.isExpr, ParseTree.identifiersBound, Bool.and_eq_true] at he hb
    have h1 := expr_readsOnlyBound l g he.1 hb.1
    have h2 := expr_readsOnlyBound r (l.Evaluate g).2 he.2
      (by rw [expr_symbolTable l g he.1 hb.1]; exact hb.2)
    simp [ParseTree.readsOnlyBound, h1, h2]
  | .Subtraction _ l r, g, he, hb => by
    simp only [ParseTree.isExpr, ParseTree.identifiersBound, Bool.and_eq_true] at he hb
    have h1 := expr_readsOnlyBound l g he.1 hb.1
    have h2 := expr_readsOnlyBound r (l.Evaluate g).2 he.2
      (by rw [expr_symbolTable l g he.1 hb.1]; exact hb.2)
    simp [ParseTree.readsOnlyBound, h1, h2]
  | .Multiplication _ l r, g, he, hb => by
    simp only [ParseTree.isExpr, ParseTree.identifiersBound, Bool.and_eq_true] at he hb
    have h1 := expr_readsOnlyBound l g he.1 hb.1
    have h2 := expr_readsOnlyBound r (l.Evaluate g).2 he.2
      (by rw [expr_symbolTable l g he.1 hb.1]; exact hb.2)
    simp [ParseTree.readsOnlyBound, h1, h2]
  | .Division _ l r, g, he, hb => by
    simp only [ParseTree.isExpr, ParseTree.identifiersBound, Bool.and_eq_true] at he hb
    have h1 := expr_readsOnlyBound l g he.1 hb.1
    have h2 := expr_readsOnlyBound r (l.Evaluate g).2 he.2
      (by rw [expr_symbolTable l g he.1 hb.1]; exact hb.2)
    simp [ParseTree.readsOnlyBound, h1, h2]
  | .IntegerConstant _ _, g, _, _ => by simp [ParseTree.readsOnlyBound]
  | .StringConstant _ _, g, _, _ => by simp [ParseTree.readsOnlyBound]
  | .Identifier id, g, _, hb => by
    simpa [ParseTree.readsOnlyBound, ParseTree.identifiersBound] using hb
  | .StatementList _ _, g, he, _ => by simp [ParseTree.isExpr] at he
  | .VariableDeclaration _ _ _, g, he, _ => by simp [ParseTree.isExpr] at he
  | .VariableAssignment _ _ _, g, he, _ => by simp [ParseTree.isExpr] at he
  | .PrintCommand _ _ _, g, he, _ => by simp [ParseTree.isExpr] at he

theorem covers_assign (T : Table TypeForNode) (S : Table Value) (k : String) (v : Value)
    (hc : covers T S) : covers T (Table.assign S k v) := by
  intro m hm
  by_cases h : m = k
  · subst h
    simp [find_assign_self]
  · rw [find_assign_ne k m v h]
    exact hc m hm

theorem covers_declare (T : Table TypeForNode) (S : Table Value) (k : String)
    (t : TypeForNode) (v : Value) (hc : covers T S) :
    covers (Table.assign T k t) (Table.assign S k v) := by
  intro m hm
  by_cases h : m = k
  · subst h
    simp [find_assign_self]
  · rw [find_assign_ne k m t h] at hm
    rw [find_assign_ne k m v h]
    exact hc m hm

/-- A statement that the check passes without error reads no unbound name, and
after it the value table still covers the type table. -/
theorem stmt_checked : ∀ (s : ParseTree) (c : SemanticCheck) (g : Globals),
    s.isStmt = true → (s.accept c).hasErrors = false →
    covers c.g.typeTable g.symbolTable →
    s.readsOnlyBound g = true
    ∧ covers (s.accept c).g.typeTable (s.Evaluate g).2.symbolTable
  | .VariableDeclaration n t id, c, g, _, h, hc => by
    simp only [ParseTree.accept, SemanticCheck.visitDeclaration] at h ⊢
    cases hf : Table.find c.g.typeTable id.identifier with
    | some t2 => simp [hf] at h
    | none =>
      simp only [ParseTree.readsOnlyBound, ParseTree.Evaluate, true_and]
      exact covers_declare _ _ _ _ _ hc
  | .VariableAssignment n id e, c, g, hs, h, hc => by
    simp only [ParseTree.isStmt] at hs
    simp only [ParseTree.accept] at h ⊢
    obtain ⟨h1, hT⟩ := checkAssignment_ok _ _ _ h
    have h0 := accept_clear_before e _ h1
    obtain ⟨_, hceq⟩ := visitIdentifier_ok id c h0
    rw [hceq] at h1 hT
    rw [hceq, hT, expr_accept_typeTable e c hs]
    have hb := expr_checked_bound g.symbolTable e c hs h1 hc
    refine ⟨by simpa [ParseTree.readsOnlyBound] using expr_readsOnlyBound e g hs hb, ?_⟩
    have hsym := expr_symbolTable e g hs hb
    simp only [ParseTree.Evaluate]
    split_ifs
    · simpa [hsym] using covers_assign _ _ _ _ hc
    · simpa [hsym] using hc
  | .PrintCommand n tok e, c, g, hs, h, hc => by
    simp only [ParseTree.isStmt, Bool.and_eq_true] at hs
    simp only [ParseTree.accept] at h ⊢
    rw [expr_accept_typeTable e c hs.2]
    have hb := expr_checked_bound g.symbolTable e c hs.2 h hc
    refine ⟨by simpa [ParseTree.readsOnlyBound] using expr_readsOnlyBound e g hs.2 hb, ?_⟩
    have hsym := expr_symbolTable e g hs.2 hb
    simp only [ParseTree.Evaluate]
    split_ifs <;> simpa [hsym] using hc
  | .StatementList _ _, c, g, hs, _, _ => by simp [ParseTree.isStmt] at hs
  | .Addition _ _ _, c, g, hs, _, _ => by simp [ParseTree.isStmt] at hs
  | .Subtraction _ _ _, c, g, hs, _, _ => by simp [ParseTree.isStmt] at hs
  | .Multiplication _ _ _, c, g, hs, _, _ => by simp [ParseTree.isStmt] at hs
  | .Division _ _ _, c, g, hs, _, _ => by simp [ParseTree.isStmt] at hs
  | .IntegerConstant _ _, c, g, hs, _, _ => by simp [ParseTree.isStmt] at hs
  | .StringConstant _ _, c, g, hs, _, _ => by simp [ParseTree.isStmt] at hs
  | .Identifier _, c, g, hs, _, _ => by simp [ParseTree.isStmt] at hs

theorem stmtList_checked :
    ∀ (ss : List ParseTree) (tree : ParseTree) (c : SemanticCheck) (g : Globals),
      (∀ s ∈ ss, s.isStmt = true) → stmtListTree ss = some tree →
      (tree.accept c).hasErrors = false → covers c.g.typeTable g.symbolTable →
      tree.readsOnlyBound g = true := by
  intro ss
  induction ss with
  | nil =>
    intro tree c g _ ht
    simp [stmtListTree] at ht
  | cons p ss ih =>
    intro tree c g hs ht h hc
    simp only [stmtListTree, Option.some.injEq] at ht
    subst ht
    have hp : p.isStmt = true := hs p (List.mem_cons_self _ _)
    cases hr : stmtListTree ss with
    | none =>
      rw [hr] at h
      simp only [ParseTree.accept] at h
      have := (stmt_checked p c g hp h hc).1
      simp [ParseTree.readsOnlyBound, this]
    | some t =>
      rw [hr] at h
      simp only [ParseTree.accept] at h
      have h1 := accept_clear_before t _ h
      obtain ⟨hr1, hc1⟩ := stmt_checked p c g hp h1 hc
      have h2 := ih t (p.accept c) (p.Evaluate g).2
        (fun s hmem => hs s (List.mem_cons_of_mem _ hmem)) hr h hc1
      simp [ParseTree.readsOnlyBound, hr1, h2]

/-- C3: for every program that the parser builds (a list of declarations,
assignments and print statements), when the semantic check started from an
empty type table ends error free, the evaluation that `main` then starts
(from the empty value table, and from any other one as well) makes no call of
`Identifier::Evaluate` on a name that is unbound in the value table. -/
theorem checked_program_reads_bound (ss : List ParseTree) (tree : ParseTree) (g0 : Globals)
    (hs : ∀ s ∈ ss, s.isStmt = true) (ht : stmtListTree ss = some tree)
    (hT : g0.typeTable = [])
    (hfree : (tree.accept ⟨false, g0⟩).isErrorFree = true) :
    tree.readsOnlyBound (tree.accept ⟨false, g0⟩).g = true := by
  have h : (tree.accept ⟨false, g0⟩).hasErrors = false := by
    simpa [SemanticCheck.isErrorFree] using hfree
  apply stmtList_checked ss tree ⟨false, g0⟩ _ hs ht h
  intro k hk
  rw [hT] at hk
  simp [Table.find] at hk

theorem checked_program_reads_bound_witness :
    (progPrintFive.accept ⟨false, Globals.initial none⟩).isErrorFree = true
    ∧ progPrintFive.readsOnlyBound (progPrintFive.accept ⟨false, Globals.initial none⟩).g = true
    ∧ (progPrintUndeclared.accept ⟨false, Globals.initial none⟩).isErrorFree = false
    ∧ progPrintUndeclared.readsOnlyBound (Globals.initial none) = false :=
  ⟨by decide,
   checked_program_reads_bound [declIntX, setX5, printlnX] progPrintFive (Globals.initial none)
     (by decide) rfl rfl (by decide),
   by decide, by decide⟩

/-! ## Properties of the static types and of the checks of `SemanticCheck` -/

/-- C11: for all static types of the left and the right child, `GetType` of a
binary node is the entry of the reference table: `Addition` and `Division`
give the left type when both types are equal and the ill-typed marker
otherwise; `Subtraction` gives integer when both are integer and the ill-typed
marker otherwise; `Multiplication` gives the right type when the left is
integer, string when the left is string and the right integer, and the
ill-typed marker otherwise. -/
theorem binary_getType (kind : BinaryKind) (n : Int) (l r : ParseTree)
    (T : Table TypeForNode) :
    (kind.node n l r).GetType T = referenceType kind (l.GetType T) (r.GetType T)
    ∧ (l.GetType T = r.GetType T →
        (ParseTree.Addition n l r).GetType T = l.GetType T
        ∧ (ParseTree.Division n l r).GetType T = l.GetType T)
    ∧ (l.GetType T ≠ r.GetType T →
        (ParseTree.Addition n l r).GetType T = TypeForNode.ERROR_TYPE
        ∧ (ParseTree.Division n l r).GetType T = TypeForNode.ERROR_TYPE)
    ∧ (l.GetType T = TypeForNode.INT_TYPE ∧ r.GetType T = TypeForNode.INT_TYPE →
        (ParseTree.Subtraction n l r).GetType T = TypeForNode.INT_TYPE)
    ∧ (¬ (l.GetType T = TypeForNode.INT_TYPE ∧ r.GetType T = TypeForNode.INT_TYPE) →
        (ParseTree.Subtraction n l r).GetType T = TypeForNode.ERROR_TYPE)
    ∧ (l.GetType T = TypeForNode.INT_TYPE →
        (ParseTree.Multiplication n l r).GetType T = r.GetType T)
    ∧ (l.GetType T = TypeForNode.STRING_TYPE ∧ r.GetType T = TypeForNode.INT_TYPE →
        (ParseTree.Multiplication n l r).GetType T = TypeForNode.STRING_TYPE)
    ∧ (l.GetType T ≠ TypeForNode.INT_TYPE →
        ¬ (l.GetType T = TypeForNode.STRING_TYPE ∧ r.GetType T = TypeForNode.INT_TYPE) →
        (ParseTree.Multiplication n l r).GetType T = TypeForNode.ERROR_TYPE) := by
  refine ⟨?_, ?_, ?_, ?_, ?_, ?_, ?_, ?_⟩
  · cases kind <;> simp only [BinaryKind.node, ParseTree.GetType] <;>
      cases l.GetType T <;> cases r.GetType T <;> simp [referenceType]
  · intro h
    simp [ParseTree.GetType, h]
  · intro h
    simp [ParseTree.GetType, h]
  · intro h
    simp [ParseTree.GetType, h]
  · intro h
    simp [ParseTree.GetType, h]
  · intro h
    simp [ParseTree.GetType, h]
  · intro h
    simp [ParseTree.GetType, h]
  · intro h1 h2
    simp [ParseTree.GetType, h1, h2]

theorem binary_getType_witness :
    (ParseTree.Multiplication 0 (ParseTree.IntegerConstant 0 3)
        (ParseTree.StringConstant 0 "ab")).GetType [] = TypeForNode.STRING_TYPE
    ∧ (ParseTree.Multiplication 0 (ParseTree.IntegerConstant 0 3)
        (ParseTree.IntegerConstant 0 4)).GetType [] = TypeForNode.INT_TYPE
    ∧ (ParseTree.Multiplication 0 (ParseTree.StringConstant 0 "a")
        (ParseTree.StringConstant 0 "b")).GetType [] = TypeForNode.ERROR_TYPE
    ∧ (ParseTree.Subtraction 0 (ParseTree.StringConstant 0 "a")
        (ParseTree.StringConstant 0 "b")).GetType [] = TypeForNode.ERROR_TYPE
    ∧ ((ParseTree.Addition 0 (ParseTree.StringConstant 0 "a")
          (ParseTree.StringConstant 0 "b")).GetType [] = TypeForNode.STRING_TYPE
      ∧ (ParseTree.Division 0 (ParseTree.StringConstant 0 "a")
          (ParseTree.StringConstant 0 "b")).GetType [] = TypeForNode.STRING_TYPE) :=
  ⟨(binary_getType BinaryKind.multiplication 0 (ParseTree.IntegerConstant 0 3)
      (ParseTree.StringConstant 0 "ab") []).2.2.2.2.2.1 rfl,
   (binary_getType BinaryKind.multiplication 0 (ParseTree.IntegerConstant 0 3)
      (ParseTree.IntegerConstant 0 4) []).2.2.2.2.2.1 rfl,
   (binary_getType BinaryKind.multiplication 0 (ParseTree.StringConstant 0 "a")
      (ParseTree.StringConstant 0 "b") []).2.2.2.2.2.2.2 (by decide) (by decide),
   (binary_getType BinaryKind.subtraction 0 (ParseTree.StringConstant 0 "a")
      (ParseTree.StringConstant 0 "b") []).2.2.2.2.1 (by decide),
   (binary_getType BinaryKind.addition 0 (ParseTree.StringConstant 0 "a")
      (ParseTree.StringConstant 0 "b") []).2.1 rfl⟩

theorem error_eq (n : Int) (m : String) (g : Globals) :
    error n m g = { g with cout := g.cout ++ diagnosticLine g.theInputFileName n m } := by
  unfold error diagnosticLine
  simp only [String.append_assoc]

/-- The checker never removes an entry of the type table and never changes
the type recorded for a name. -/
theorem accept_typeTable_mono (k : String) (v : TypeForNode) :
    ∀ (t : ParseTree) (c : SemanticCheck), Table.find c.g.typeTable k = some v →
      Table.find (t.accept c).g.typeTable k = some v
  | .StatementList none none, c, h => by simpa [ParseTree.accept] using h
  | .StatementList (some l) none, c, h => by
    simpa [ParseTree.accept] using accept_typeTable_mono k v l c h
  | .StatementList none (some r), c, h => by
    simpa [ParseTree.accept] using accept_typeTable_mono k v r c h
  | .StatementList (some l) (some r), c, h => by
    simpa [ParseTree.accept] using
      accept_typeTable_mono k v r _ (accept_typeTable_mono k v l c h)
  | .Addition n l r, c, h => by
    simp only [ParseTree.accept, checkOperation_typeTable]
    exact accept_typeTable_mono k v r _ (accept_typeTable_mono k v l c h)
  | .Subtraction n l r, c, h => by
    simp only [ParseTree.accept, checkOperation_typeTable]
    exact accept_typeTable_mono k v r _ (accept_typeTable_mono k v l c h)
  | .Multiplication n l r, c, h => by
    simp only [ParseTree.accept, checkOperation_typeTable]
    exact accept_typeTable_mono k v r _ (accept_typeTable_mono k v l c h)
  | .Division n l r, c, h => by
    simp only [ParseTree.accept, checkOperation_typeTable]
    exact accept_typeTable_mono k v r _ (accept_typeTable_mono k v l c h)
  | .IntegerConstant _ _, c, h => by simpa [ParseTree.accept] using h
  | .StringConstant _ _, c, h => by simpa [ParseTree.accept] using h
  | .Identifier id, c, h => by
    simp only [ParseTree.accept, SemanticCheck.visitIdentifier]
    split
    · rw [(error_tables _ _ _).1]; exact h
    · exact h
  | .VariableDeclaration n t id, c, h => by
    simp only [ParseTree.accept, SemanticCheck.visitDeclaration]
    split
    · rw [(error_tables _ _ _).1]; exact h
    · rename_i hf
      have hk : k ≠ id.identifier := by
        intro hk
        rw [hk, hf] at h
        cases h
      simpa [find_assign_ne _ _ _ hk] using h
  | .VariableAssignment n id e, c, h => by
    have h1 : Table.find (SemanticCheck.visitIdentifier id c).g.typeTable k = some v := by
      simp only [SemanticCheck.visitIdentifier]
      split
      · rw [(error_tables _ _ _).1]; exact h
      · exact h
    have h2 := accept_typeTable_mono k v e _ h1
    simp only [ParseTree.accept, SemanticCheck.checkAssignment]
    split
    · split_ifs
      · rw [(error_tables _ _ _).1]; exact h2
      · exact h2
    · exact h2
  | .PrintCommand n tok e, c, h => by
    simpa [ParseTree.accept] using accept_typeTable_mono k v e c h

/-- C12: the check of a `VariableDeclaration` of the name `n` with the type
`t`: when `n` is already in the type table, exactly one `was already declared`
line is written, `hasErrors` is set and the table is as it was; when `n` is
absent, nothing is written, and the table is the old one with `n` mapped to `t`
and every other name as before. No check of any tree removes an entry or
changes the type recorded for a name. -/
theorem declaration_check (line : Int) (t : TypeForNode) (id : Identifier)
    (c : SemanticCheck) :
    (∀ t0, Table.find c.g.typeTable id.identifier = some t0 →
      (ParseTree.VariableDeclaration line t id).accept c
        = ⟨true, { c.g with
            cout := c.g.cout ++ diagnosticLine c.g.theInputFileName line
              ("variable " ++ id.identifier ++ " was already declared") }⟩)
    ∧ (Table.find c.g.typeTable id.identifier = none →
      (ParseTree.VariableDeclaration line t id).accept c
        = ⟨c.hasErrors,
            { c.g with typeTable := Table.assign c.g.typeTable id.identifier t }⟩
      ∧ Table.find (Table.assign c.g.typeTable id.identifier t) id.identifier = some t
      ∧ ∀ m, m ≠ id.identifier →
          Table.find (Table.assign c.g.typeTable id.identifier t) m
            = Table.find c.g.typeTable m)
    ∧ (∀ (tree : ParseTree) (c0 : SemanticCheck) (k : String) (v : TypeForNode),
        Table.find c0.g.typeTable k = some v →
        Table.find (tree.accept c0).g.typeTable k = some v) := by
  refine ⟨?_, ?_, ?_⟩
  · intro t0 h
    simp [ParseTree.accept, SemanticCheck.visitDeclaration, h, error_eq]
  · intro h
    refine ⟨?_, find_assign_self _ _ _, fun m hm => find_assign_ne _ _ _ hm _⟩
    simp [ParseTree.accept, SemanticCheck.visitDeclaration, h]
  · intro tree c0 k v h
    exact accept_typeTable_mono k v tree c0 h

theorem declaration_check_witness :
    (declIntX.accept (declIntX.accept ⟨false, Globals.initial none⟩)
        = ⟨true, ⟨none, [], [("x", TypeForNode.INT_TYPE)],
            "1:variable x was already declared\n"⟩⟩)
    ∧ declIntX.accept ⟨false, Globals.initial none⟩
        = ⟨false, ⟨none, [], [("x", TypeForNode.INT_TYPE)], ""⟩⟩
    ∧ progDeclaredTwice.accept ⟨false, Globals.initial none⟩
        = ⟨true, ⟨none, [], [("x", TypeForNode.INT_TYPE)],
            "1:variable x was already declared\n"⟩⟩
    ∧ checkAndRun progDeclaredTwice (Globals.initial none)
        = ⟨none, [], [("x", TypeForNode.INT_TYPE)], "1:variable x was already declared\n"⟩ :=
  ⟨(declaration_check 0 TypeForNode.INT_TYPE ⟨0, "x"⟩
      (declIntX.accept ⟨false, Globals.initial none⟩)).1 TypeForNode.INT_TYPE rfl,
   ((declaration_check 0 TypeForNode.INT_TYPE ⟨0, "x"⟩
      ⟨false, Globals.initial none⟩).2.1 rfl).1,
   by decide, by decide⟩

theorem visitIdentifier_absent (id : Identifier) (c : SemanticCheck)
    (h : Table.find c.g.typeTable id.identifier = none) :
    SemanticCheck.visitIdentifier id c
      = ⟨true, { c.g with
          cout := c.g.cout ++ diagnosticLine c.g.theInputFileName id.linenumber
            ("variable " ++ id.identifier ++ " is used before being declared") }⟩ := by
  simp [SemanticCheck.visitIdentifier, h, error_eq]

theorem visitIdentifier_present (id : Identifier) (c : SemanticCheck) (t : TypeForNode)
    (h : Table.find c.g.typeTable id.identifier = some t) :
    SemanticCheck.visitIdentifier id c = c := by
  simp [SemanticCheck.visitIdentifier, h]

/-- The check of an expression sets `hasErrors` exactly when one of its
identifiers is not in the type table. -/
theorem expr_accept_hasErrors : ∀ (e : ParseTree) (c : SemanticCheck), e.isExpr = true →
    (e.accept c).hasErrors = (c.hasErrors || !e.identifiersDeclared c.g.typeTable)
  | .Addition _ l r, c, he => by
    simp only [ParseTree.isExpr, Bool.and_eq_true] at he
    simp only [ParseTree.accept, checkOperation_hasErrors, ParseTree.identifiersDeclared]
    rw [expr_accept_hasErrors r _ he.2, expr_accept_hasErrors l c he.1,
      expr_accept_typeTable l c he.1]
    cases c.hasErrors <;> cases l.identifiersDeclared c.g.typeTable <;>
      cases r.identifiersDeclared c.g.typeTable <;> rfl
  | .Subtraction _ l r, c, he => by
    simp only [ParseTree.isExpr, Bool.and_eq_true] at he
    simp only [ParseTree.accept, checkOperation_hasErrors, ParseTree.identifiersDeclared]
    rw [expr_accept_hasErrors r _ he.2, expr_accept_hasErrors l c he.1,
      expr_accept_typeTable l c he.1]
    cases c.hasErrors <;> cases l.identifiersDeclared c.g.typeTable <;>
      cases r.identifiersDeclared c.g.typeTable <;> rfl
  | .Multiplication _ l r, c, he => by
    simp only [ParseTree.isExpr, Bool.and_eq_true] at he
    simp only [ParseTree.accept, checkOperation_hasErrors, ParseTree.identifiersDeclared]
    rw [expr_accept_hasErrors r _ he.2, expr_accept_hasErrors l c he.1,
      expr_accept_typeTable l c he.1]
    cases c.hasErrors <;> cases l.identifiersDeclared c.g.typeTable <;>
      cases r.identifiersDeclared c.g.typeTable <;> rfl
  | .Division _ l r, c, he => by
    simp only [ParseTree.isExpr, Bool.and_eq_true] at he
    simp only [ParseTree.accept, checkOperation_hasErrors, ParseTree.identifiersDeclared]
    rw [expr_accept_hasErrors r _ he.2, expr_accept_hasErrors l c he.1,
      expr_accept_typeTable l c he.1]
    cases c.hasErrors <;> cases l.identifiersDeclared c.g.typeTable <;>
      cases r.identifiersDeclared c.g.typeTable <;> rfl
  | .IntegerConstant _ _, c, _ => by simp [ParseTree.accept, ParseTree.identifiersDeclared]
  | .StringConstant _ _, c, _ => by simp [ParseTree.accept, ParseTree.identifiersDeclared]
  | .Identifier id, c, _ => by
    simp only [ParseTree.accept, ParseTree.identifiersDeclared,
      SemanticCheck.visitIdentifier]
    cases hf : Table.find c.g.typeTable id.identifier <;> simp
  | .StatementList _ _, c, he => by simp [ParseTree.isExpr] at he
  | .VariableDeclaration _ _ _, c, he => by simp [ParseTree.isExpr] at he
  | .VariableAssignment _ _ _, c, he => by simp [ParseTree.isExpr] at he
  | .PrintCommand _ _ _, c, he => by simp [ParseTree.isExpr] at he

theorem Checked.nothing (c : SemanticCheck) : Checked c c [] c.g.typeTable := by
  simp [Checked, writeMessages]

theorem Checked.followedBy {c c1 c2 : SemanticCheck} {m1 m2 : List CheckMessage}
    {T1 T2 : Table TypeForNode} (h1 : Checked c c1 m1 T1) (h2 : Checked c1 c2 m2 T2) :
    Checked c c2 (m1 ++ m2) T2 := by
  obtain ⟨a1, a2, a3, a4, a5⟩ := h1
  obtain ⟨b1, b2, b3, b4, b5⟩ := h2
  refine ⟨?_, ?_, ?_, b4, ?_⟩
  · rw [b1, a1, a2]
    simp [writeMessages, List.foldl_append]
  · rw [b2, a2]
  · rw [b3, a3]
  · rw [b5, a5, List.any_append, Bool.or_assoc]

theorem checked_error (c : SemanticCheck) (m : CheckMessage) :
    Checked c ⟨c.hasErrors || m.setsFlag, error m.line m.text c.g⟩ [m] c.g.typeTable := by
  simp [Checked, writeMessages, error_eq]

theorem checked_visitIdentifier (id : Identifier) (c : SemanticCheck) :
    Checked c (SemanticCheck.visitIdentifier id c)
      (if (Table.find c.g.typeTable id.identifier).isSome then []
        else [CheckMessage.usedBeforeDeclared id]) c.g.typeTable := by
  unfold SemanticCheck.visitIdentifier
  cases hf : Table.find c.g.typeTable id.identifier with
  | none =>
    have := checked_error c (CheckMessage.usedBeforeDeclared id)
    simpa [CheckMessage.setsFlag, CheckMessage.line, CheckMessage.text] using this
  | some t => simpa using Checked.nothing c

theorem checked_visitDeclaration (n : Int) (t : TypeForNode) (id : Identifier)
    (c : SemanticCheck) :
    Checked c (SemanticCheck.visitDeclaration n t id c)
      (if (Table.find c.g.typeTable id.identifier).isSome then
        [CheckMessage.alreadyDeclared n id.identifier] else [])
      (match Table.find c.g.typeTable id.identifier with
        | some _ => c.g.typeTable
        | none => Table.assign c.g.typeTable id.identifier t) := by
  unfold SemanticCheck.visitDeclaration
  cases hf : Table.find c.g.typeTable id.identifier with
  | none => simp [Checked, writeMessages]
  | some t =>
    have := checked_error c (CheckMessage.alreadyDeclared n id.identifier)
    simpa [CheckMessage.setsFlag, CheckMessage.line, CheckMessage.text] using this

theorem checked_checkOperation (op : ParseTree) (c : SemanticCheck) :
    Checked c (SemanticCheck.checkOperation op c) (operationMessages op c.g.typeTable)
      c.g.typeTable := by
  unfold SemanticCheck.checkOperation operationMessages
  split_ifs with h
  · have := checked_error c (CheckMessage.operationTypeError op.getLineNumber)
    simpa [CheckMessage.setsFlag, CheckMessage.line, CheckMessage.text] using this
  · exact Checked.nothing c

theorem checked_checkAssignment (id : Identifier) (e : ParseTree) (c : SemanticCheck) :
    Checked c (SemanticCheck.checkAssignment id e c) (assignmentMessages id e c.g.typeTable)
      c.g.typeTable := by
  unfold SemanticCheck.checkAssignment assignmentMessages
  cases hf : Table.find c.g.typeTable id.identifier with
  | none => exact Checked.nothing c
  | some t =>
    simp only
    split_ifs with h
    · have := checked_error c (CheckMessage.assignmentTypeError e.getLineNumber)
      simpa [CheckMessage.setsFlag, CheckMessage.line, CheckMessage.text] using this
    · exact Checked.nothing c

/-- The check of a tree writes the messages that the rules give for the tree
and the type table, sets `hasErrors` when one of them makes the check fail,
and leaves the type table with the new declarations. -/
theorem accept_messages : ∀ (t : ParseTree) (c : SemanticCheck),
    Checked c (t.accept c) (t.checkMessages c.g.typeTable) (t.tableAfter c.g.typeTable)
  | .StatementList none none, c => by
    simpa [ParseTree.accept, ParseTree.checkMessages, ParseTree.tableAfter] using Checked.nothing c
  | .StatementList (some l) none, c => by
    simpa [ParseTree.accept, ParseTree.checkMessages, ParseTree.tableAfter]
      using accept_messages l c
  | .StatementList none (some r), c => by
    simpa [ParseTree.accept, ParseTree.checkMessages, ParseTree.tableAfter]
      using accept_messages r c
  | .StatementList (some l) (some r), c => by
    have h1 := accept_messages l c
    have h2 := accept_messages r (l.accept c)
    rw [h1.2.2.2.1] at h2
    simpa [ParseTree.accept, ParseTree.checkMessages, ParseTree.tableAfter] using h1.followedBy h2
  | .Addition n l r, c => by
    have h1 := accept_messages l c
    have h2 := accept_messages r (l.accept c)
    rw [h1.2.2.2.1] at h2
    have h3 := checked_checkOperation (.Addition n l r) (r.accept (l.accept c))
    rw [h2.2.2.2.1] at h3
    simpa [ParseTree.accept, ParseTree.checkMessages, ParseTree.tableAfter]
      using (h1.followedBy h2).followedBy h3
  | .Subtraction n l r, c => by
    have h1 := accept_messages l c
    have h2 := accept_messages r (l.accept c)
    rw [h1.2.2.2.1] at h2
    have h3 := checked_checkOperation (.Subtraction n l r) (r.accept (l.accept c))
    rw [h2.2.2.2.1] at h3
    simpa [ParseTree.accept, ParseTree.checkMessages, ParseTree.tableAfter]
      using (h1.followedBy h2).followedBy h3
  | .Multiplication n l r, c => by
    have h1 := accept_messages l c
    have h2 := accept_messages r (l.accept c)
    rw [h1.2.2.2.1] at h2
    have h3 := checked_checkOperation (.Multiplication n l r) (r.accept (l.accept c))
    rw [h2.2.2.2.1] at h3
    simpa [ParseTree.accept, ParseTree.checkMessages, ParseTree.tableAfter]
      using (h1.followedBy h2).followedBy h3
  | .Division n l r, c => by
    have h1 := accept_messages l c
    have h2 := accept_messages r (l.accept c)
    rw [h1.2.2.2.1] at h2
    have h3 := checked_checkOperation (.Division n l r) (r.accept (l.accept c))
    rw [h2.2.2.2.1] at h3
    simpa [ParseTree.accept, ParseTree.checkMessages, ParseTree.tableAfter]
      using (h1.followedBy h2).followedBy h3
  | .IntegerConstant _ _, c => by
    simpa [ParseTree.accept, ParseTree.checkMessages, ParseTree.tableAfter] using Checked.nothing c
  | .StringConstant _ _, c => by
    simpa [ParseTree.accept, ParseTree.checkMessages, ParseTree.tableAfter] using Checked.nothing c
  | .Identifier id, c => by
    simpa [ParseTree.accept, ParseTree.checkMessages, ParseTree.tableAfter]
      using checked_visitIdentifier id c
  | .VariableDeclaration n t id, c => by
    simpa [ParseTree.accept, ParseTree.checkMessages, ParseTree.tableAfter]
      using checked_visitDeclaration n t id c
  | .VariableAssignment n id e, c => by
    have h1 := checked_visitIdentifier id c
    have h2 := accept_messages e (SemanticCheck.visitIdentifier id c)
    rw [h1.2.2.2.1] at h2
    have h3 := checked_checkAssignment id e (e.accept (SemanticCheck.visitIdentifier id c))
    rw [h2.2.2.2.1] at h3
    simpa [ParseTree.accept, ParseTree.checkMessages, ParseTree.tableAfter]
      using (h1.followedBy h2).followedBy h3
  | .PrintCommand _ _ e, c => by
    simpa [ParseTree.accept, ParseTree.checkMessages, ParseTree.tableAfter]
      using accept_messages e c
theorem operationMessages_filterMap (op : ParseTree) (T : Table TypeForNode) :
    (operationMessages op T).filterMap CheckMessage.usedIdentifier = []
    ∧ (operationMessages op T).filterMap CheckMessage.declaration = [] := by
  unfold operationMessages
  split_ifs <;> simp [CheckMessage.usedIdentifier, CheckMessage.declaration]

theorem assignmentMessages_filterMap (id : Identifier) (e : ParseTree)
    (T : Table TypeForNode) :
    (assignmentMessages id e T).filterMap CheckMessage.usedIdentifier = []
    ∧ (assignmentMessages id e T).filterMap CheckMessage.declaration = [] := by
  unfold assignmentMessages
  cases Table.find T id.identifier with
  | none => simp
  | some t =>
    simp only
    split_ifs <;> simp [CheckMessage.usedIdentifier, CheckMessage.declaration]

/-- The `used before being declared` messages of a tree are those of the
occurrences in use position whose name is absent at the visit, one each, in
the order of the visit. -/
theorem messages_used : ∀ (t : ParseTree) (T : Table TypeForNode),
    (t.checkMessages T).filterMap CheckMessage.usedIdentifier
      = ((t.uses T).filter (fun u => !u.2)).map (·.1)
  | .StatementList none none, T => by simp [ParseTree.checkMessages, ParseTree.uses]
  | .StatementList (some l) none, T => by
    simpa [ParseTree.checkMessages, ParseTree.uses] using messages_used l T
  | .StatementList none (some r), T => by
    simpa [ParseTree.checkMessages, ParseTree.uses] using messages_used r T
  | .StatementList (some l) (some r), T => by
    simp only [ParseTree.checkMessages, ParseTree.uses, List.filterMap_append,
      List.filter_append, List.map_append, messages_used l T, messages_used r _]
  | .Addition n l r, T => by
    simp only [ParseTree.checkMessages, ParseTree.uses, List.filterMap_append,
      List.filter_append, List.map_append, messages_used l T, messages_used r _,
      (operationMessages_filterMap _ _).1, List.append_nil]
  | .Subtraction n l r, T => by
    simp only [ParseTree.checkMessages, ParseTree.uses, List.filterMap_append,
      List.filter_append, List.map_append, messages_used l T, messages_used r _,
      (operationMessages_filterMap _ _).1, List.append_nil]
  | .Multiplication n l r, T => by
    simp only [ParseTree.checkMessages, ParseTree.uses, List.filterMap_append,
      List.filter_append, List.map_append, messages_used l T, messages_used r _,
      (operationMessages_filterMap _ _).1, List.append_nil]
  | .Division n l r, T => by
    simp only [ParseTree.checkMessages, ParseTree.uses, List.filterMap_append,
      List.filter_append, List.map_append, messages_used l T, messages_used r _,
      (operationMessages_filterMap _ _).1, List.append_nil]
  | .IntegerConstant _ _, T => by simp [ParseTree.checkMessages, ParseTree.uses]
  | .StringConstant _ _, T => by simp [ParseTree.checkMessages, ParseTree.uses]
  | .Identifier id, T => by
    cases hf : Table.find T id.identifier <;>
      simp [ParseTree.checkMessages, ParseTree.uses, hf, CheckMessage.usedIdentifier]
  | .VariableDeclaration n t id, T => by
    cases hf : Table.find T id.identifier <;>
      simp [ParseTree.checkMessages, ParseTree.uses, hf, CheckMessage.declaration,
        CheckMessage.usedIdentifier]
  | .VariableAssignment n id e, T => by
    have he := messages_used e T
    cases hf : Table.find T id.identifier <;>
      simp [ParseTree.checkMessages, ParseTree.uses, hf, CheckMessage.usedIdentifier,
        List.filterMap_append, (assignmentMessages_filterMap _ _ _).1, he]
  | .PrintCommand _ _ e, T => by
    simpa [ParseTree.checkMessages, ParseTree.uses] using messages_used e T

theorem declarations_names : ∀ (t : ParseTree),
    t.declaredNames = t.declarations.map (·.2)
  | .StatementList none none => by simp [ParseTree.declaredNames, ParseTree.declarations]
  | .StatementList (some l) none => by
    simpa [ParseTree.declaredNames, ParseTree.declarations] using declarations_names l
  | .StatementList none (some r) => by
    simpa [ParseTree.declaredNames, ParseTree.declarations] using declarations_names r
  | .StatementList (some l) (some r) => by
    simp [ParseTree.declaredNames, ParseTree.declarations, declarations_names l,
      declarations_names r]
  | .Addition _ l r => by
    simp [ParseTree.declaredNames, ParseTree.declarations, declarations_names l,
      declarations_names r]
  | .Subtraction _ l r => by
    simp [ParseTree.declaredNames, ParseTree.declarations, declarations_names l,
      declarations_names r]
  | .Multiplication _ l r => by
    simp [ParseTree.declaredNames, ParseTree.declarations, declarations_names l,
      declarations_names r]
  | .Division _ l r => by
    simp [ParseTree.declaredNames, ParseTree.declarations, declarations_names l,
      declarations_names r]
  | .IntegerConstant _ _ => by simp [ParseTree.declaredNames, ParseTree.declarations]
  | .StringConstant _ _ => by simp [ParseTree.declaredNames, ParseTree.declarations]
  | .Identifier _ => by simp [ParseTree.declaredNames, ParseTree.declarations]
  | .VariableDeclaration _ _ _ => by simp [ParseTree.declaredNames, ParseTree.declarations]
  | .VariableAssignment _ _ e => by
    simpa [ParseTree.declaredNames, ParseTree.declarations] using declarations_names e
  | .PrintCommand _ _ e => by
    simpa [ParseTree.declaredNames, ParseTree.declarations] using declarations_names e

/-- When every name that the tree declares is in the type table already, the
`already declared` messages of the tree are those of its `VariableDeclaration`
nodes, one each, in the order of the visit, and the table stays as it is. -/
theorem messages_redeclared : ∀ (t : ParseTree) (T : Table TypeForNode),
    (∀ p ∈ t.declarations, (Table.find T p.2).isSome = true) →
    (t.checkMessages T).filterMap CheckMessage.declaration = t.declarations
    ∧ t.tableAfter T = T
  | .StatementList none none, T, _ => by
    simp [ParseTree.checkMessages, ParseTree.declarations, ParseTree.tableAfter]
  | .StatementList (some l) none, T, h => by
    simpa [ParseTree.checkMessages, ParseTree.declarations, ParseTree.tableAfter]
      using messages_redeclared l T (fun p hp => h p (by simpa [ParseTree.declarations] using hp))
  | .StatementList none (some r), T, h => by
    simpa [ParseTree.checkMessages, ParseTree.declarations, ParseTree.tableAfter]
      using messages_redeclared r T (fun p hp => h p (by simpa [ParseTree.declarations] using hp))
  | .StatementList (some l) (some r), T, h => by
    have h1 := messages_redeclared l T
      (fun p hp => h p (by simp [ParseTree.declarations, hp]))
    have h2 := messages_redeclared r T
      (fun p hp => h p (by simp [ParseTree.declarations, hp]))
    simp only [ParseTree.checkMessages, ParseTree.declarations, ParseTree.tableAfter,
      List.filterMap_append, h1.2, h1.1, h2.1, h2.2, and_self]
  | .Addition n l r, T, h => by
    have h1 := messages_redeclared l T
      (fun p hp => h p (by simp [ParseTree.declarations, hp]))
    have h2 := messages_redeclared r T
      (fun p hp => h p (by simp [ParseTree.declarations, hp]))
    simp only [ParseTree.checkMessages, ParseTree.declarations, ParseTree.tableAfter,
      List.filterMap_append, h1.2, h1.1, h2.1, h2.2, (operationMessages_filterMap _ _).2,
      List.append_nil, and_self]
  | .Subtraction n l r, T, h => by
    have h1 := messages_redeclared l T
      (fun p hp => h p (by simp [ParseTree.declarations, hp]))
    have h2 := messages_redeclared r T
      (fun p hp => h p (by simp [ParseTree.declarations, hp]))
    simp only [ParseTree.checkMessages, ParseTree.declarations, ParseTree.tableAfter,
      List.filterMap_append, h1.2, h1.1, h2.1, h2.2, (operationMessages_filterMap _ _).2,
      List.append_nil, and_self]
  | .Multiplication n l r, T, h => by
    have h1 := messages_redeclared l T
      (fun p hp => h p (by simp [ParseTree.declarations, hp]))
    have h2 := messages_redeclared r T
      (fun p hp => h p (by simp [ParseTree.declarations, hp]))
    simp only [ParseTree.checkMessages, ParseTree.declarations, ParseTree.tableAfter,
      List.filterMap_append, h1.2, h1.1, h2.1, h2.2, (operationMessages_filterMap _ _).2,
      List.append_nil, and_self]
  | .Division n l r, T, h => by
    have h1 := messages_redeclared l T
      (fun p hp => h p (by simp [ParseTree.declarations, hp]))
    have h2 := messages_redeclared r T
      (fun p hp => h p (by simp [ParseTree.declarations, hp]))
    simp only [ParseTree.checkMessages, ParseTree.declarations, ParseTree.tableAfter,
      List.filterMap_append, h1.2, h1.1, h2.1, h2.2, (operationMessages_filterMap _ _).2,
      List.append_nil, and_self]
  | .IntegerConstant _ _, T, _ => by
    simp [ParseTree.checkMessages, ParseTree.declarations, ParseTree.tableAfter]
  | .StringConstant _ _, T, _ => by
    simp [ParseTree.checkMessages, ParseTree.declarations, ParseTree.tableAfter]
  | .Identifier id, T, _ => by
    cases hf : Table.find T id.identifier <;>
      simp [ParseTree.checkMessages, ParseTree.declarations, ParseTree.tableAfter, hf,
        CheckMessage.declaration]
  | .VariableDeclaration n t id, T, h => by
    have := h (n, id.identifier) (by simp [ParseTree.declarations])
    obtain ⟨t0, ht0⟩ := Option.isSome_iff_exists.mp this
    simp [ParseTree.checkMessages, ParseTree.declarations, ParseTree.tableAfter, ht0,
      CheckMessage.declaration]
  | .VariableAssignment n id e, T, h => by
    have he := messages_redeclared e T
      (fun p hp => h p (by simpa [ParseTree.declarations] using hp))
    cases hf : Table.find T id.identifier <;>
      simp [ParseTree.checkMessages, ParseTree.declarations, ParseTree.tableAfter, hf,
        CheckMessage.declaration, List.filterMap_append,
        (assignmentMessages_filterMap _ _ _).2, he.1, he.2]
  | .PrintCommand _ _ e, T, h => by
    simpa [ParseTree.checkMessages, ParseTree.declarations, ParseTree.tableAfter]
      using messages_redeclared e T
        (fun p hp => h p (by simpa [ParseTree.declarations] using hp))

/-- The check of an expression leaves the type table as it is. -/
theorem expr_tableAfter (e : ParseTree) (T : Table TypeForNode) (he : e.isExpr = true) :
    e.tableAfter T = T := by
  have h1 := (accept_messages e ⟨false, ⟨none, [], T, ""⟩⟩).2.2.2.1
  have h2 := expr_accept_typeTable e ⟨false, ⟨none, [], T, ""⟩⟩ he
  rw [← h1, h2]

/-- C13: for every tree and every type table, the check writes the messages
that the rules give for the tree, in the order of the visit (statement lists,
print commands, operands and assignment targets included), and among them
exactly one `is used before being declared` message for each occurrence of an
identifier in use position whose name is absent from the type table when the
occurrence is visited, and none for an occurrence whose name is present;
`hasErrors` is set when there is such an occurrence. At the visit itself: when
the name is absent, the one line is written and `hasErrors` is set, and for a
target the rest of the check of the assignment is the check of its expression
alone, with no `type error` for the assignment itself; when the name is
present, the visit writes nothing and changes nothing. Over a whole
expression `hasErrors` is set exactly when one of its identifiers is absent. -/
theorem identifier_use_check (id : Identifier) (c : SemanticCheck) :
    (Table.find c.g.typeTable id.identifier = none →
      (ParseTree.Identifier id).accept c
        = ⟨true, { c.g with
            cout := c.g.cout ++ diagnosticLine c.g.theInputFileName id.linenumber
              ("variable " ++ id.identifier ++ " is used before being declared") }⟩
      ∧ ∀ (line : Int) (e : ParseTree), e.isExpr = true →
          (ParseTree.VariableAssignment line id e).accept c
            = e.accept ⟨true, { c.g with
                cout := c.g.cout ++ diagnosticLine c.g.theInputFileName id.linenumber
                  ("variable " ++ id.identifier ++ " is used before being declared") }⟩
          ∧ (ParseTree.VariableAssignment line id e).checkMessages c.g.typeTable
            = CheckMessage.usedBeforeDeclared id :: e.checkMessages c.g.typeTable)
    ∧ (∀ t, Table.find c.g.typeTable id.identifier = some t →
      (ParseTree.Identifier id).accept c = c
      ∧ ∀ (line : Int) (e : ParseTree),
          (ParseTree.VariableAssignment line id e).accept c
            = SemanticCheck.checkAssignment id e (e.accept c))
    ∧ (∀ (e : ParseTree) (c0 : SemanticCheck), e.isExpr = true →
        (e.accept c0).hasErrors
          = (c0.hasErrors || !e.identifiersDeclared c0.g.typeTable))
    ∧ (∀ (t : ParseTree) (c0 : SemanticCheck),
        (t.accept c0).g.cout
          = writeMessages c0.g.theInputFileName (t.checkMessages c0.g.typeTable) c0.g.cout
        ∧ (t.accept c0).hasErrors
          = (c0.hasErrors || (t.checkMessages c0.g.typeTable).any CheckMessage.setsFlag)
        ∧ (t.checkMessages c0.g.typeTable).filterMap CheckMessage.usedIdentifier
          = ((t.uses c0.g.typeTable).filter (fun u => !u.2)).map (·.1)
        ∧ ((∃ u ∈ t.uses c0.g.typeTable, u.2 = false) → (t.accept c0).hasErrors = true)) := by
  refine ⟨?_, ?_, ?_, ?_⟩
  · intro h
    refine ⟨by simp [ParseTree.accept, visitIdentifier_absent id c h], ?_⟩
    intro line e he
    constructor
    · simp only [ParseTree.accept, visitIdentifier_absent id c h]
      have hT := expr_accept_typeTable e
        ⟨true, { c.g with
            cout := c.g.cout ++ diagnosticLine c.g.theInputFileName id.linenumber
              ("variable " ++ id.identifier ++ " is used before being declared") }⟩ he
      simp only at hT
      simp [SemanticCheck.checkAssignment, hT, h]
    · simp [ParseTree.checkMessages, h, assignmentMessages, expr_tableAfter e _ he]
  · intro t h
    refine ⟨by simp [ParseTree.accept, visitIdentifier_present id c t h], ?_⟩
    intro line e
    simp [ParseTree.accept, visitIdentifier_present id c t h]
  · intro e c0 he
    exact expr_accept_hasErrors e c0 he
  · intro t c0
    obtain ⟨h1, _, _, _, h5⟩ := accept_messages t c0
    refine ⟨h1, h5, messages_used t _, ?_⟩
    rintro ⟨u, hu, hf⟩
    rw [h5]
    have hm : u.1 ∈ (t.checkMessages c0.g.typeTable).filterMap CheckMessage.usedIdentifier := by
      rw [messages_used]
      exact List.mem_map.mpr ⟨u, List.mem_filter.mpr ⟨hu, by simp [hf]⟩, rfl⟩
    obtain ⟨m, hm1, hm2⟩ := List.mem_filterMap.mp hm
    have : (t.checkMessages c0.g.typeTable).any CheckMessage.setsFlag = true := by
      rw [List.any_eq_true]
      refine ⟨m, hm1, ?_⟩
      cases m with
      | usedBeforeDeclared id0 => rfl
      | alreadyDeclared n0 k0 => simp [CheckMessage.usedIdentifier] at hm2
      | operationTypeError n0 => simp [CheckMessage.usedIdentifier] at hm2
      | assignmentTypeError n0 => simp [CheckMessage.usedIdentifier] at hm2
    simp [this]

theorem identifier_use_check_witness :
    ((ParseTree.Identifier ⟨0, "y"⟩).accept ⟨false, Globals.initial none⟩
        = ⟨true, ⟨none, [], [], "1:variable y is used before being declared\n"⟩⟩
      ∧ ∀ (line : Int) (e : ParseTree), e.isExpr = true →
          (ParseTree.VariableAssignment line ⟨0, "y"⟩ e).accept ⟨false, Globals.initial none⟩
            = e.accept
                ⟨true, ⟨none, [], [], "1:variable y is used before being declared\n"⟩⟩
          ∧ (ParseTree.VariableAssignment line ⟨0, "y"⟩ e).checkMessages []
            = CheckMessage.usedBeforeDeclared ⟨0, "y"⟩ :: e.checkMessages [])
    ∧ ((progSetUndeclared.accept ⟨false, Globals.initial none⟩).g.cout
        = writeMessages none (progSetUndeclared.checkMessages []) ""
      ∧ progSetUndeclared.checkMessages [] = [CheckMessage.usedBeforeDeclared ⟨0, "y"⟩]
      ∧ progSetUndeclared.uses [] = [(⟨0, "y"⟩, false)])
    ∧ progSetUndeclared.accept ⟨false, Globals.initial none⟩
        = ⟨true, ⟨none, [], [], "1:variable y is used before being declared\n"⟩⟩
    ∧ checkAndRun progSetUndeclared (Globals.initial none)
        = ⟨none, [], [], "1:variable y is used before being declared\n"⟩
    ∧ (ParseTree.Identifier ⟨0, "x"⟩).accept (declIntX.accept ⟨false, Globals.initial none⟩)
        = declIntX.accept ⟨false, Globals.initial none⟩ :=
  ⟨(identifier_use_check ⟨0, "y"⟩ ⟨false, Globals.initial none⟩).1 rfl,
   ⟨((identifier_use_check ⟨0, "y"⟩ ⟨false, Globals.initial none⟩).2.2.2
      progSetUndeclared ⟨false, Globals.initial none⟩).1, by decide, by decide⟩,
   by decide, by decide,
   ((identifier_use_check ⟨0, "x"⟩ (declIntX.accept ⟨false, Globals.initial none⟩)).2.1
      TypeForNode.INT_TYPE rfl).1⟩

/-- C14: for an assignment `set n e` whose target is in the type table with
the declared type `t`: when the static type of `e` differs from `t` the check
writes one `type error` line, at the line of `e`, after the check of `e`, and
sets `hasErrors`; when the static type of `e` is `t` the check of the
assignment is the check of `e` and nothing more. An ill-typed `e` differs from
each of the two types a declaration can record. -/
theorem assignment_type_check (line : Int) (id : Identifier) (e : ParseTree)
    (c : SemanticCheck) (t : TypeForNode) (he : e.isExpr = true)
    (hn : Table.find c.g.typeTable id.identifier = some t) :
    (e.GetType c.g.typeTable ≠ t →
      (ParseTree.VariableAssignment line id e).accept c
        = ⟨true, { (e.accept c).g with
            cout := (e.accept c).g.cout
              ++ diagnosticLine (e.accept c).g.theInputFileName e.getLineNumber
                  "type error" }⟩)
    ∧ (e.GetType c.g.typeTable = t →
      (ParseTree.VariableAssignment line id e).accept c = e.accept c)
    ∧ ((t = TypeForNode.INT_TYPE ∨ t = TypeForNode.STRING_TYPE) →
      e.GetType c.g.typeTable = TypeForNode.ERROR_TYPE → e.GetType c.g.typeTable ≠ t) := by
  have hT := expr_accept_typeTable e c he
  refine ⟨?_, ?_, ?_⟩
  · intro h
    simp [ParseTree.accept, visitIdentifier_present id c t hn,
      SemanticCheck.checkAssignment, hT, hn, h, error_eq]
  · intro h
    simp [ParseTree.accept, visitIdentifier_present id c t hn,
      SemanticCheck.checkAssignment, hT, hn, h]
  · intro ht h
    rw [h]
    rcases ht with ht | ht <;> rw [ht] <;> decide

theorem assignment_type_check_witness :
    setXHi.accept (declIntX.accept ⟨false, Globals.initial none⟩)
      = ⟨true, ⟨none, [], [("x", TypeForNode.INT_TYPE)], "1:type error\n"⟩⟩
    ∧ setX5.accept (declIntX.accept ⟨false, Globals.initial none⟩)
      = declIntX.accept ⟨false, Globals.initial none⟩
    ∧ checkAndRun progAssignTypeError (Globals.initial none)
      = ⟨none, [], [("x", TypeForNode.INT_TYPE)], "1:type error\n"⟩ :=
  ⟨(assignment_type_check 0 ⟨0, "x"⟩ (ParseTree.StringConstant 0 "hi")
      (declIntX.accept ⟨false, Globals.initial none⟩) TypeForNode.INT_TYPE rfl rfl).1
      (by decide),
   (assignment_type_check 0 ⟨0, "x"⟩ (ParseTree.IntegerConstant 0 5)
      (declIntX.accept ⟨false, Globals.initial none⟩) TypeForNode.INT_TYPE rfl rfl).2.1
      (by decide),
   by decide⟩

theorem visitIdentifier_typeTable (id : Identifier) (c : SemanticCheck) :
    (SemanticCheck.visitIdentifier id c).g.typeTable = c.g.typeTable := by
  simp only [SemanticCheck.visitIdentifier]
  split
  · exact (error_tables _ _ _).1
  · rfl

theorem checkAssignment_typeTable (id : Identifier) (e : ParseTree) (c : SemanticCheck) :
    (SemanticCheck.checkAssignment id e c).g.typeTable = c.g.typeTable := by
  simp only [SemanticCheck.checkAssignment]
  split
  · split_ifs
    · exact (error_tables _ _ _).1
    · rfl
  · rfl

theorem checkAssignment_sticky (id : Identifier) (e : ParseTree) (c : SemanticCheck)
    (h : c.hasErrors = true) : (SemanticCheck.checkAssignment id e c).hasErrors = true := by
  simp only [SemanticCheck.checkAssignment]
  split
  · split_ifs
    · rfl
    · exact h
  · exact h

/-- A run of the checker over a tree whose declared names are all in the type
table already: each declaration is reported, the table stays as it is, and
`hasErrors` is set as soon as the tree has a declaration. -/
theorem accept_redeclared : ∀ (t : ParseTree) (c : SemanticCheck),
    (∀ n ∈ t.declaredNames, (Table.find c.g.typeTable n).isSome = true) →
    t.flagsEveryDeclaration c = true
    ∧ (t.accept c).g.typeTable = c.g.typeTable
    ∧ (t.declaredNames ≠ [] → (t.accept c).hasErrors = true)
  | .StatementList none none, c, _ => by
    simp [ParseTree.flagsEveryDeclaration, ParseTree.accept, ParseTree.declaredNames]
  | .StatementList (some l) none, c, h => by
    have hl := accept_redeclared l c (fun n hn => h n (by simpa [ParseTree.declaredNames] using hn))
    simpa [ParseTree.flagsEveryDeclaration, ParseTree.accept, ParseTree.declaredNames]
      using hl
  | .StatementList none (some r), c, h => by
    have hr := accept_redeclared r c (fun n hn => h n (by simpa [ParseTree.declaredNames] using hn))
    simpa [ParseTree.flagsEveryDeclaration, ParseTree.accept, ParseTree.declaredNames]
      using hr
  | .StatementList (some l) (some r), c, h => by
    have hl := accept_redeclared l c
      (fun n hn => h n (by simp [ParseTree.declaredNames, hn]))
    have hr := accept_redeclared r (l.accept c)
      (fun n hn => by rw [hl.2.1]; exact h n (by simp [ParseTree.declaredNames, hn]))
    refine ⟨by simp [ParseTree.flagsEveryDeclaration, hl.1, hr.1],
      by simp only [ParseTree.accept]; rw [hr.2.1, hl.2.1], ?_⟩
    intro hne
    simp only [ParseTree.accept]
    by_cases hl0 : l.declaredNames = []
    · exact hr.2.2 (by simpa [ParseTree.declaredNames, hl0] using hne)
    · exact accept_sticky r _ (hl.2.2 hl0)
  | .Addition _ l r, c, h => by
    have hl := accept_redeclared l c
      (fun n hn => h n (by simp [ParseTree.declaredNames, hn]))
    have hr := accept_redeclared r (l.accept c)
      (fun n hn => by rw [hl.2.1]; exact h n (by simp [ParseTree.declaredNames, hn]))
    refine ⟨by simp [ParseTree.flagsEveryDeclaration, hl.1, hr.1],
      by simp only [ParseTree.accept, checkOperation_typeTable]; rw [hr.2.1, hl.2.1], ?_⟩
    intro hne
    simp only [ParseTree.accept, checkOperation_hasErrors]
    by_cases hl0 : l.declaredNames = []
    · exact hr.2.2 (by simpa [ParseTree.declaredNames, hl0] using hne)
    · exact accept_sticky r _ (hl.2.2 hl0)
  | .Subtraction _ l r, c, h => by
    have hl := accept_redeclared l c
      (fun n hn => h n (by simp [ParseTree.declaredNames, hn]))
    have hr := accept_redeclared r (l.accept c)
      (fun n hn => by rw [hl.2.1]; exact h n (by simp [ParseTree.declaredNames, hn]))
    refine ⟨by simp [ParseTree.flagsEveryDeclaration, hl.1, hr.1],
      by simp only [ParseTree.accept, checkOperation_typeTable]; rw [hr.2.1, hl.2.1], ?_⟩
    intro hne
    simp only [ParseTree.accept, checkOperation_hasErrors]
    by_cases hl0 : l.declaredNames = []
    · exact hr.2.2 (by simpa [ParseTree.declaredNames, hl0] using hne)
    · exact accept_sticky r _ (hl.2.2 hl0)
  | .Multiplication _ l r, c, h => by
    have hl := accept_redeclared l c
      (fun n hn => h n (by simp [ParseTree.declaredNames, hn]))
    have hr := accept_redeclared r (l.accept c)
      (fun n hn => by rw [hl.2.1]; exact h n (by simp [ParseTree.declaredNames, hn]))
    refine ⟨by simp [ParseTree.flagsEveryDeclaration, hl.1, hr.1],
      by simp only [ParseTree.accept, checkOperation_typeTable]; rw [hr.2.1, hl.2.1], ?_⟩
    intro hne
    simp only [ParseTree.accept, checkOperation_hasErrors]
    by_cases hl0 : l.declaredNames = []
    · exact hr.2.2 (by simpa [ParseTree.declaredNames, hl0] using hne)
    · exact accept_sticky r _ (hl.2.2 hl0)
  | .Division _ l r, c, h => by
    have hl := accept_redeclared l c
      (fun n hn => h n (by simp [ParseTree.declaredNames, hn]))
    have hr := accept_redeclared r (l.accept c)
      (fun n hn => by rw [hl.2.1]; exact h n (by simp [ParseTree.declaredNames, hn]))
    refine ⟨by simp [ParseTree.flagsEveryDeclaration, hl.1, hr.1],
      by simp only [ParseTree.accept, checkOperation_typeTable]; rw [hr.2.1, hl.2.1], ?_⟩
    intro hne
    simp only [ParseTree.accept, checkOperation_hasErrors]
    by_cases hl0 : l.declaredNames = []
    · exact hr.2.2 (by simpa [ParseTree.declaredNames, hl0] using hne)
    · exact accept_sticky r _ (hl.2.2 hl0)
  | .IntegerConstant _ _, c, _ => by
    simp [ParseTree.flagsEveryDeclaration, ParseTree.accept, ParseTree.declaredNames]
  | .StringConstant _ _, c, _ => by
    simp [ParseTree.flagsEveryDeclaration, ParseTree.accept, ParseTree.declaredNames]
  | .Identifier id, c, _ => by
    simp [ParseTree.flagsEveryDeclaration, ParseTree.accept, ParseTree.declaredNames,
      visitIdentifier_typeTable]
  | .VariableDeclaration n t id, c, h => by
    have hp := h id.identifier (by simp [ParseTree.declaredNames])
    cases hf : Table.find c.g.typeTable id.identifier with
    | none => simp [hf] at hp
    | some t0 =>
      simp [ParseTree.flagsEveryDeclaration, ParseTree.accept,
        SemanticCheck.visitDeclaration, hf, (error_tables _ _ _).1]
  | .VariableAssignment n id e, c, h => by
    have he := accept_redeclared e (SemanticCheck.visitIdentifier id c)
      (fun n hn => by
        rw [visitIdentifier_typeTable]
        exact h n (by simpa [ParseTree.declaredNames] using hn))
    refine ⟨by simpa [ParseTree.flagsEveryDeclaration] using he.1, ?_, ?_⟩
    · simp only [ParseTree.accept, checkAssignment_typeTable]
      rw [he.2.1, visitIdentifier_typeTable]
    · intro hne
      simp only [ParseTree.accept]
      exact checkAssignment_sticky _ _ _
        (he.2.2 (by simpa [ParseTree.declaredNames] using hne))
  | .PrintCommand n tok e, c, h => by
    have he := accept_redeclared e c
      (fun n hn => h n (by simpa [ParseTree.declaredNames] using hn))
    simpa [ParseTree.flagsEveryDeclaration, ParseTree.accept, ParseTree.declaredNames]
      using he

theorem accept_typeTable_isSome (k : String) (t : ParseTree) (c : SemanticCheck)
    (h : (Table.find c.g.typeTable k).isSome = true) :
    (Table.find (t.accept c).g.typeTable k).isSome = true := by
  cases hf : Table.find c.g.typeTable k with
  | none => simp [hf] at h
  | some v => simp [accept_typeTable_mono k v t c hf]

/-- After a run of the checker every name that the tree declares is in the
type table. -/
theorem accept_declares : ∀ (t : ParseTree) (c : SemanticCheck),
    ∀ n ∈ t.declaredNames, (Table.find (t.accept c).g.typeTable n).isSome = true
  | .StatementList none none, c, n, hn => by simp [ParseTree.declaredNames] at hn
  | .StatementList (some l) none, c, n, hn => by
    simp only [ParseTree.declaredNames, List.append_nil] at hn
    simpa [ParseTree.accept] using accept_declares l c n hn
  | .StatementList none (some r), c, n, hn => by
    simp only [ParseTree.declaredNames, List.nil_append] at hn
    simpa [ParseTree.accept] using accept_declares r c n hn
  | .StatementList (some l) (some r), c, n, hn => by
    simp only [ParseTree.declaredNames, List.mem_append] at hn
    simp only [ParseTree.accept]
    rcases hn with hn | hn
    · exact accept_typeTable_isSome n r _ (accept_declares l c n hn)
    · exact accept_declares r _ n hn
  | .Addition _ l r, c, n, hn => by
    simp only [ParseTree.declaredNames, List.mem_append] at hn
    simp only [ParseTree.accept, checkOperation_typeTable]
    rcases hn with hn | hn
    · exact accept_typeTable_isSome n r _ (accept_declares l c n hn)
    · exact accept_declares r _ n hn
  | .Subtraction _ l r, c, n, hn => by
    simp only [ParseTree.declaredNames, List.mem_append] at hn
    simp only [ParseTree.accept, checkOperation_typeTable]
    rcases hn with hn | hn
    · exact accept_typeTable_isSome n r _ (accept_declares l c n hn)
    · exact accept_declares r _ n hn
  | .Multiplication _ l r, c, n, hn => by
    simp only [ParseTree.declaredNames, List.mem_append] at hn
    simp only [ParseTree.accept, checkOperation_typeTable]
    rcases hn with hn | hn
    · exact accept_typeTable_isSome n r _ (accept_declares l c n hn)
    · exact accept_declares r _ n hn
  | .Division _ l r, c, n, hn => by
    simp only [ParseTree.declaredNames, List.mem_append] at hn
    simp only [ParseTree.accept, checkOperation_typeTable]
    rcases hn with hn | hn
    · exact accept_typeTable_isSome n r _ (accept_declares l c n hn)
    · exact accept_declares r _ n hn
  | .IntegerConstant _ _, c, n, hn => by simp [ParseTree.declaredNames] at hn
  | .StringConstant _ _, c, n, hn => by simp [ParseTree.declaredNames] at hn
  | .Identifier _, c, n, hn => by simp [ParseTree.declaredNames] at hn
  | .VariableDeclaration line t id, c, n, hn => by
    simp only [ParseTree.declaredNames, List.mem_singleton] at hn
    subst hn
    simp only [ParseTree.accept, SemanticCheck.visitDeclaration]
    cases hf : Table.find c.g.typeTable id.identifier with
    | none => simp [find_assign_self]
    | some t0 => simp [(error_tables _ _ _).1, hf]
  | .VariableAssignment line id e, c, n, hn => by
    simp only [ParseTree.declaredNames] at hn
    simp only [ParseTree.accept, checkAssignment_typeTable]
    exact accept_declares e _ n hn
  | .PrintCommand line tok e, c, n, hn => by
    simp only [ParseTree.declaredNames] at hn
    simpa [ParseTree.accept] using accept_declares e c n hn

/-- C15: for every tree and every initial type table, after one run of the
checker over the tree, a second run over the same tree on the tables as the
first run left them (with the same visitor or a new one) writes the messages
that the rules give, and among them exactly one `was already declared`
message, with its line and its name, for each `VariableDeclaration` node of
the tree, in the order of the visit; every visit of a declaration finds the
name in the type table, the type table stays as it was, and the second run is
not error free whenever the tree has a declaration. -/
theorem second_run_flags_declarations (t : ParseTree) (c : SemanticCheck) (b : Bool) :
    (t.accept ⟨b, (t.accept c).g⟩).g.cout
      = writeMessages (t.accept c).g.theInputFileName
          (t.checkMessages (t.accept c).g.typeTable) (t.accept c).g.cout
    ∧ (t.checkMessages (t.accept c).g.typeTable).filterMap CheckMessage.declaration
      = t.declarations
    ∧ t.flagsEveryDeclaration ⟨b, (t.accept c).g⟩ = true
    ∧ (t.accept ⟨b, (t.accept c).g⟩).g.typeTable = (t.accept c).g.typeTable
    ∧ (t.declarations ≠ [] →
      (t.accept ⟨b, (t.accept c).g⟩).isErrorFree = false) := by
  have hd : ∀ n ∈ t.declaredNames, (Table.find (t.accept c).g.typeTable n).isSome = true :=
    fun n hn => accept_declares t c n hn
  have h := accept_redeclared t ⟨b, (t.accept c).g⟩ hd
  have hm := messages_redeclared t (t.accept c).g.typeTable (fun p hp => hd p.2 (by
    rw [declarations_names]
    exact List.mem_map.mpr ⟨p, hp, rfl⟩))
  refine ⟨(accept_messages t ⟨b, (t.accept c).g⟩).1, hm.1, h.1, h.2.1, ?_⟩
  intro hne
  have hne2 : t.declaredNames ≠ [] := by
    rw [declarations_names]
    simpa using hne
  simp [SemanticCheck.isErrorFree, h.2.2 hne2]

theorem second_run_flags_declarations_witness :
    (progPrintFive.accept ⟨false, Globals.initial none⟩).isErrorFree = true
    ∧ (progPrintFive.accept
        ⟨false, (progPrintFive.accept ⟨false, Globals.initial none⟩).g⟩).isErrorFree = false
    ∧ progPrintFive.accept ⟨false, (progPrintFive.accept ⟨false, Globals.initial none⟩).g⟩
        = ⟨true, ⟨none, [], [("x", TypeForNode.INT_TYPE)],
            "1:variable x was already declared\n"⟩⟩
    ∧ progPrintFive.checkMessages [("x", TypeForNode.INT_TYPE)]
        = [CheckMessage.alreadyDeclared 0 "x"]
    ∧ progPrintFive.declarations = [(0, "x")]
    ∧ progPrintFive.flagsEveryDeclaration ⟨false, Globals.initial none⟩ = false :=
  ⟨by decide,
   (second_run_flags_declarations progPrintFive ⟨false, Globals.initial none⟩ false).2.2.2.2
     (by decide),
   by decide, by decide, by decide, by decide⟩

/-! ## Properties of the lexer -/

theorem getTokenLoop_begin_lexeme (l1 l2 : String) :
    ∀ (cs : List Char) (ln : Int),
      getTokenLoop LexState.BEGIN l1 cs ln = getTokenLoop LexState.BEGIN l2 cs ln := by
  intro cs
  induction cs with
  | nil => intro ln; simp [getTokenLoop]
  | cons ch rest ih =>
    intro ln
    simp only [getTokenLoop]
    split_ifs <;> first | rfl | exact ih _

theorem lineAfter_append (ln : Int) (a b : List Char) :
    lineAfter ln (a ++ b) = lineAfter (lineAfter ln a) b := by
  simp [lineAfter, List.foldl_append]

theorem lineAfter_no_newline (ln : Int) :
    ∀ (cs : List Char), (∀ x ∈ cs, x ≠ '\n') → lineAfter ln cs = ln := by
  intro cs
  induction cs with
  | nil => intro _; rfl
  | cons ch rest ih =>
    intro h
    have h1 : ch ≠ '\n' := h ch (List.mem_cons_self _ _)
    have h2 := ih (fun x hx => h x (List.mem_cons_of_mem _ hx))
    simp only [lineAfter, List.foldl_cons, h1, if_false] at h2 ⊢
    exact h2

theorem getTokenLoop_comment (l : String) (tail : List Char) :
    ∀ (text : List Char) (ln : Int), (∀ x ∈ text, x ≠ '\n') →
      getTokenLoop LexState.INCOMMENT l (text ++ '\n' :: tail) ln
        = getTokenLoop LexState.BEGIN l tail (intAdd ln 1) := by
  intro text
  induction text with
  | nil =>
    intro ln _
    simp [getTokenLoop]
  | cons ch rest ih =>
    intro ln h
    have h1 : ch ≠ '\n' := h ch (List.mem_cons_self _ _)
    have h2 := ih ln (fun x hx => h x (List.mem_cons_of_mem _ hx))
    simp only [List.cons_append, getTokenLoop, h1, if_false, List.append_eq]
    exact h2

/-- Skipped text is read without a token: the scan goes on after it, in the
state `BEGIN`, with the newlines of the skipped text counted. -/
theorem getTokenLoop_skipped (tail : List Char) :
    ∀ (skip : List Char), Skipped skip → ∀ (l : String) (ln : Int),
      getTokenLoop LexState.BEGIN l (skip ++ tail) ln
        = getTokenLoop LexState.BEGIN l tail (lineAfter ln skip) := by
  intro skip hs
  induction hs with
  | nil => intro l ln; rfl
  | space ch rest hsp _ ih =>
    intro l ln
    simp only [List.cons_append, getTokenLoop, hsp, if_true, List.append_eq]
    rw [ih]
    rfl
  | comment text rest htext _ ih =>
    intro l ln
    have e : ('/' :: '/' :: (text ++ '\n' :: rest)) ++ tail
        = '/' :: '/' :: (text ++ '\n' :: (rest ++ tail)) := by simp
    have hl : lineAfter ln ('/' :: '/' :: (text ++ '\n' :: rest))
        = lineAfter (intAdd ln 1) rest := by
      have e2 : '/' :: '/' :: (text ++ '\n' :: rest)
          = ('/' :: '/' :: text) ++ ('\n' :: rest) := by simp
      rw [e2, lineAfter_append, lineAfter_no_newline ln ('/' :: '/' :: text)]
      · rfl
      · intro x hx
        simp only [List.mem_cons] at hx
        rcases hx with hx | hx | hx
        · rw [hx]; decide
        · rw [hx]; decide
        · exact htext x hx
    rw [e, hl]
    have h1 : isspace '/' = false := by decide
    have h2 : isalpha '/' = false := by decide
    have h3 : ¬ ('/' = quoteChar) := by decide
    have h4 : isdigit '/' = false := by decide
    have h5 : ¬ ('/' = '\n') := by decide
    simp only [getTokenLoop, h1, h2, h3, h4, h5, if_false, if_true, Bool.false_eq_true,
      ne_eq, not_true_eq_false]
    rw [getTokenLoop_comment _ _ text ln htext,
      getTokenLoop_begin_lexeme (String.singleton '/') l]
    exact ih l (intAdd ln 1)

theorem alnum_not_newline (x : Char) (h : (isalpha x || isdigit x) = true) : x ≠ '\n' := by
  intro hx
  rw [hx] at h
  revert h
  decide

theorem push_mk (l : List Char) (x : Char) : (String.mk l).push x = String.mk (l ++ [x]) :=
  rfl

/-- In the state `INID` a run of letters and digits that is followed by
another character is collected, and the character after it is put back. -/
theorem getTokenLoop_inid (c : Char) (rest : List Char)
    (hc : (isalpha c || isdigit c) = false) :
    ∀ (w : List Char) (l : List Char) (ln : Int),
      (∀ x ∈ w, (isalpha x || isdigit x) = true) →
      getTokenLoop LexState.INID (String.mk l) (w ++ c :: rest) ln
        = (id_or_kw (String.mk (l ++ w)) (lineAfter ln [c]),
            ⟨c :: rest, lineAfter ln [c]⟩) := by
  intro w
  induction w with
  | nil =>
    intro l ln _
    simp [getTokenLoop, hc, lineAfter]
  | cons x w ih =>
    intro l ln h
    have hx := h x (List.mem_cons_self _ _)
    have hn := alnum_not_newline x hx
    have h2 := ih (l ++ [x]) ln (fun y hy => h y (List.mem_cons_of_mem _ hy))
    simp only [List.cons_append, getTokenLoop, hn, if_false, hx, if_true, push_mk,
      List.append_eq]
    rw [h2]
    simp

theorem id_or_kw_kind (w : String) (ln : Int) :
    id_or_kw w ln = ⟨keywordKind w, w, ln⟩ := by
  unfold id_or_kw keywordKind kwmap
  simp only [Table.find]
  by_cases h1 : "int" = w
  · subst h1; rfl
  by_cases h2 : "string" = w
  · subst h2; rfl
  by_cases h3 : "set" = w
  · subst h3; rfl
  by_cases h4 : "print" = w
  · subst h4; rfl
  by_cases h5 : "println" = w
  · subst h5; rfl
  have g1 : ¬ w = "int" := fun h => h1 h.symm
  have g2 : ¬ w = "string" := fun h => h2 h.symm
  have g3 : ¬ w = "set" := fun h => h3 h.symm
  have g4 : ¬ w = "print" := fun h => h4 h.symm
  have g5 : ¬ w = "println" := fun h => h5 h.symm
  simp [h1, h2, h3, h4, h5, g1, g2, g3, g4, g5]

/-- C20: for an input that is skipped text (whitespace and line comments), then
a letter `c0`, then a run `w` of letters and digits, then a character `c`
that is neither (so `c0 :: w` is the maximal run), `getToken` returns the
token whose lexeme is exactly that run and whose kind is the keyword kind when
the run is exactly one of `int`, `string`, `set`, `print`, `println` and the
identifier kind otherwise; the character `c` and what follows it stay in the
stream. -/
theorem getToken_identifier (skip w rest : List Char) (c0 c : Char) (ln : Int)
    (hskip : Skipped skip) (h0 : isalpha c0 = true)
    (hw : ∀ x ∈ w, (isalpha x || isdigit x) = true)
    (hc : (isalpha c || isdigit c) = false) :
    (getToken ⟨skip ++ c0 :: (w ++ c :: rest), ln⟩).1.lexeme = String.mk (c0 :: w)
    ∧ (getToken ⟨skip ++ c0 :: (w ++ c :: rest), ln⟩).1.tt
        = keywordKind (String.mk (c0 :: w))
    ∧ (getToken ⟨skip ++ c0 :: (w ++ c :: rest), ln⟩).2.chars = c :: rest := by
  have hsp : isspace c0 = false := by
    cases hs : isspace c0 with
    | false => rfl
    | true =>
      exfalso
      simp only [isspace, Bool.or_eq_true, decide_eq_true_eq] at hs
      rcases hs with ((((hs | hs) | hs) | hs) | hs) | hs <;>
        (rw [hs] at h0; revert h0; decide)
  have hn : c0 ≠ '\n' := alnum_not_newline c0 (by simp [h0])
  have e : getToken ⟨skip ++ c0 :: (w ++ c :: rest), ln⟩
      = (id_or_kw (String.mk (c0 :: w)) (lineAfter (lineAfter ln skip) [c]),
          ⟨c :: rest, lineAfter (lineAfter ln skip) [c]⟩) := by
    unfold getToken
    simp only
    rw [getTokenLoop_skipped _ skip hskip]
    simp only [getTokenLoop, hn, if_false, hsp, h0, if_true, Bool.false_eq_true]
    have := getTokenLoop_inid c rest hc w [c0] (lineAfter ln skip) hw
    simpa [String.singleton] using this
  rw [e, id_or_kw_kind]
  exact ⟨rfl, rfl, rfl⟩

theorem getToken_identifier_witness :
    ((getToken ⟨"  // c\n printx+1".data, 0⟩).1.lexeme = "printx"
      ∧ (getToken ⟨"  // c\n printx+1".data, 0⟩).1.tt = TokenType.T_ID
      ∧ (getToken ⟨"  // c\n printx+1".data, 0⟩).2.chars = "+1".data)
    ∧ ((getToken ⟨"println x;".data, 0⟩).1.lexeme = "println"
      ∧ (getToken ⟨"println x;".data, 0⟩).1.tt = TokenType.T_PRINTLN
      ∧ (getToken ⟨"println x;".data, 0⟩).2.chars = " x;".data)
    ∧ (getToken ⟨"Int x;".data, 0⟩).1.tt = TokenType.T_ID :=
  ⟨getToken_identifier "  // c\n ".data "rintx".data "1".data 'p' '+' 0
      (Skipped.space _ _ (by decide) (Skipped.space _ _ (by decide)
        (Skipped.comment " c".data " ".data (by decide)
          (Skipped.space _ _ (by decide) Skipped.nil))))
      (by decide) (by decide) (by decide),
   getToken_identifier [] "rintln".data "x;".data 'p' ' ' 0 Skipped.nil
      (by decide) (by decide) (by decide),
   (getToken_identifier [] "nt".data "x;".data 'I' ' ' 0 Skipped.nil
      (by decide) (by decide) (by decide)).2.1⟩

/-! ## Properties of the parser -/

theorem getToken_fields (s : ParserState) :
    s.getToken.2.eofLine = s.eofLine ∧ s.getToken.2.hasParseErrors = s.hasParseErrors
    ∧ s.getToken.2.g = s.g ∧ s.getToken.2.pushedBack = false := by
  unfold ParserState.getToken
  by_cases hp : s.pushedBack = true
  · simp [hp]
  · cases hi : s.input with
    | nil => simp [hp]
    | cons t ts => simp [hp]

theorem getToken_mu (s : ParserState) :
    s.getToken.2.mu ≤ s.mu
    ∧ (s.getToken.1.tt ≠ TokenType.T_DONE → s.getToken.2.mu < s.mu)
    ∧ (s.getToken.2.pushbackToken s.getToken.1).mu ≤ s.mu := by
  unfold ParserState.getToken ParserState.pushbackToken ParserState.mu
  by_cases hp : s.pushedBack = true
  · by_cases hd : s.tok.tt = TokenType.T_DONE <;> simp [hp, hd]
  · cases hi : s.input with
    | nil => simp [hp, hi]
    | cons t ts =>
      simp only [hp, if_false, hi, List.length_cons, Bool.false_eq_true, false_and]
      refine ⟨by omega, fun _ => by omega, ?_⟩
      split_ifs <;> omega

theorem syntaxError_fields (line : Int) (text : String) (s : ParserState) :
    (syntaxError line text s).mu = s.mu
    ∧ (syntaxError line text s).pend = s.pend
    ∧ (syntaxError line text s).hasParseErrors = true
    ∧ (syntaxError line text s).eofLine = s.eofLine
    ∧ (syntaxError line text s).g = error line ("Syntax error " ++ text) s.g := by
  simp [syntaxError, ParserState.mu, ParserState.pend]

theorem getToken_parseable (s : ParserState) (h : Parseable s) :
    tokenOK s.getToken.1 ∧ Parseable s.getToken.2
    ∧ Parseable (s.getToken.2.pushbackToken s.getToken.1) := by
  unfold Parseable at *
  unfold ParserState.getToken ParserState.pushbackToken
  by_cases hp : s.pushedBack = true
  · simp only [ParserState.pend, hp, if_true] at h ⊢
    refine ⟨h _ (List.mem_cons_self _ _), ?_, ?_⟩
    · intro t ht
      simp only [Bool.false_eq_true, if_false] at ht
      exact h t (List.mem_cons_of_mem _ ht)
    · intro t ht
      simpa using h t ht
  · cases hi : s.input with
    | nil =>
      simp only [ParserState.pend, hp, hi, if_false, Bool.false_eq_true] at h ⊢
      refine ⟨by simp [tokenOK], ?_, ?_⟩
      · intro t ht
        simp at ht
      · intro t ht
        simp only [if_true, List.mem_singleton] at ht
        subst ht
        simp [tokenOK]
    | cons t ts =>
      simp only [ParserState.pend, hp, hi, if_false, Bool.false_eq_true] at h ⊢
      refine ⟨h _ (List.mem_cons_self _ _), ?_, ?_⟩
      · intro t2 ht
        exact h t2 (List.mem_cons_of_mem _ ht)
      · intro t2 ht
        simpa using h t2 ht

theorem syntaxError_parseable (line : Int) (text : String) (s : ParserState)
    (h : Parseable s) : Parseable (syntaxError line text s) := by
  unfold Parseable at *
  rw [(syntaxError_fields line text s).2.1]
  exact h

theorem binaryNode_mul (op : Token) (t1 t2 : ParseTree)
    (h : op.tt = TokenType.T_STAR ∨ op.tt = TokenType.T_SLASH) :
    (if op.tt = TokenType.T_STAR then ParseTree.Multiplication op.lnum t1 t2
      else ParseTree.Division op.lnum t1 t2) = binaryNode op t1 t2 := by
  unfold binaryNode
  rcases h with h | h <;> simp [h]

theorem binaryNode_add (op : Token) (t1 t2 : ParseTree)
    (h : op.tt = TokenType.T_PLUS ∨ op.tt = TokenType.T_MINUS) :
    (if op.tt = TokenType.T_PLUS then ParseTree.Addition op.lnum t1 t2
      else ParseTree.Subtraction op.lnum t1 t2) = binaryNode op t1 t2 := by
  unfold binaryNode
  rcases h with h | h <;> simp [h]

theorem good_primary_step (fuel : Nat)
    (ihE : ∀ s, Fn.need Fn.expr s.mu ≤ fuel → Good Fn.expr s (Expr fuel s))
    (s : ParserState) (hf : Fn.need Fn.primary s.mu ≤ fuel + 1) :
    Good Fn.primary s (Primary (fuel + 1) s) := by
  have hm := getToken_mu s
  simp only [Fn.need] at hf ihE
  simp only [Primary]
  by_cases h1 : s.getToken.1.tt = TokenType.T_ICONST
  · simp only [h1, if_true]
    cases hst : stoi s.getToken.1.lexeme with
    | none =>
      simp only [Good]
      intro hp
      have := (getToken_parseable s hp).1.1 h1
      simp [hst] at this
    | some v =>
      simp only [Good]
      exact ⟨Runs.iconst s v h1 hst, hm.1, fun hp => (getToken_parseable s hp).2.1⟩
  by_cases h2 : s.getToken.1.tt = TokenType.T_SCONST
  · simp only [h2, if_true]
    have hne : ¬ (TokenType.T_SCONST = TokenType.T_ICONST) := by decide
    simp only [hne, if_false]
    by_cases hl : s.getToken.1.lexeme.length = 0
    · simp only [hl, if_true, Good]
      intro hp
      exact (getToken_parseable s hp).1.2 h2 hl
    · simp only [hl, if_false, Good]
      exact ⟨Runs.sconst s h2 hl, hm.1, fun hp => (getToken_parseable s hp).2.1⟩
  by_cases h3 : s.getToken.1.tt = TokenType.T_ID
  · simp only [h1, h2, h3, if_true, if_false, Good]
    exact ⟨Runs.ident s h3, hm.1, fun hp => (getToken_parseable s hp).2.1⟩
  by_cases h4 : s.getToken.1.tt = TokenType.T_LPAREN
  · simp only [h1, h2, h3, h4, if_true, if_false]
    have hlt : s.getToken.2.mu < s.mu := hm.2.1 (by rw [h4]; decide)
    have hE := ihE s.getToken.2 (by omega)
    cases hr : Expr fuel s.getToken.2 with
    | outOfFuel => simp [hr, Good] at hE
    | thrown s1 =>
      simp only [hr, Good] at hE ⊢
      exact fun hp => hE (getToken_parseable s hp).2.1
    | returned e s2 =>
      simp only [hr, Good] at hE ⊢
      obtain ⟨hrun, hmu, hpar⟩ := hE
      have hm2 := getToken_mu s2
      by_cases h5 : s2.getToken.1.tt = TokenType.T_RPAREN
      · simp only [h5, if_true, Good]
        exact ⟨Runs.paren s s2 e h4 hrun h5, by omega,
          fun hp => (getToken_parseable s2 (hpar (getToken_parseable s hp).2.1)).2.1⟩
      · simp only [h5, if_false, Good]
        refine ⟨Runs.parenMissing s s2 e h4 hrun h5, ?_, ?_⟩
        · rw [(syntaxError_fields _ _ _).1]; omega
        · exact fun hp => syntaxError_parseable _ _ _
            (getToken_parseable s2 (hpar (getToken_parseable s hp).2.1)).2.1
  · simp only [h1, h2, h3, h4, if_false, Good]
    refine ⟨Runs.primaryExpected s h1 h2 h3 h4, ?_, ?_⟩
    · rw [(syntaxError_fields _ _ _).1]; exact hm.1
    · exact fun hp => syntaxError_parseable _ _ _ (getToken_parseable s hp).2.1

theorem good_termLoop_step (fuel : Nat)
    (ihP : ∀ s, Fn.need Fn.primary s.mu ≤ fuel → Good Fn.primary s (Primary fuel s))
    (ihL : ∀ t1 s, Fn.need (Fn.termLoop t1) s.mu ≤ fuel →
      Good (Fn.termLoop t1) s (TermLoop fuel t1 s))
    (t1 : ParseTree) (s : ParserState) (hf : Fn.need (Fn.termLoop t1) s.mu ≤ fuel + 1) :
    Good (Fn.termLoop t1) s (TermLoop (fuel + 1) t1 s) := by
  have hm := getToken_mu s
  simp only [Fn.need] at hf ihP ihL
  simp only [TermLoop]
  by_cases hop : s.getToken.1.tt ≠ TokenType.T_STAR ∧ s.getToken.1.tt ≠ TokenType.T_SLASH
  · simp only [hop, and_self, if_true, Good, ne_eq, not_false_eq_true]
    exact ⟨Runs.termLoopExit s t1 hop.1 hop.2, hm.2.2,
      fun hp => (getToken_parseable s hp).2.2⟩
  · have hop2 : s.getToken.1.tt = TokenType.T_STAR ∨ s.getToken.1.tt = TokenType.T_SLASH := by
      by_cases h : s.getToken.1.tt = TokenType.T_STAR
      · exact Or.inl h
      · right
        by_contra h2
        exact hop ⟨h, h2⟩
    simp only [hop, if_false]
    have hlt : s.getToken.2.mu < s.mu :=
      hm.2.1 (by rcases hop2 with h | h <;> rw [h] <;> decide)
    have hP := ihP s.getToken.2 (by omega)
    cases hr : Primary fuel s.getToken.2 with
    | outOfFuel => simp [hr, Good] at hP
    | thrown s1 =>
      simp only [hr, Good] at hP ⊢
      exact fun hp => hP (getToken_parseable s hp).2.1
    | returned res s2 =>
      simp only [hr, Good] at hP
      obtain ⟨hrun, hmu, hpar⟩ := hP
      cases res with
      | none =>
        simp only [Good]
        refine ⟨Runs.termLoopFail s s2 t1 hop2 hrun, ?_, ?_⟩
        · rw [(syntaxError_fields _ _ _).1]; omega
        · exact fun hp => syntaxError_parseable _ _ _ (hpar (getToken_parseable s hp).2.1)
      | some t2 =>
        simp only [binaryNode_mul _ t1 t2 hop2]
        have hL := ihL (binaryNode s.getToken.1 t1 t2) s2 (by omega)
        cases hr2 : TermLoop fuel (binaryNode s.getToken.1 t1 t2) s2 with
        | outOfFuel => simp [hr2, Good] at hL
        | thrown s3 =>
          simp only [hr2, Good] at hL ⊢
          exact fun hp => hL (hpar (getToken_parseable s hp).2.1)
        | returned res3 s3 =>
          simp only [hr2, Good] at hL ⊢
          obtain ⟨hrun3, hmu3, hpar3⟩ := hL
          exact ⟨Runs.termLoopStep s s2 s3 t1 t2 res3 hop2 hrun hrun3, by omega,
            fun hp => hpar3 (hpar (getToken_parseable s hp).2.1)⟩

theorem good_term_step (fuel : Nat)
    (ihP : ∀ s, Fn.need Fn.primary s.mu ≤ fuel → Good Fn.primary s (Primary fuel s))
    (ihL : ∀ t1 s, Fn.need (Fn.termLoop t1) s.mu ≤ fuel →
      Good (Fn.termLoop t1) s (TermLoop fuel t1 s))
    (s : ParserState) (hf : Fn.need Fn.term s.mu ≤ fuel + 1) :
    Good Fn.term s (Term (fuel + 1) s) := by
  simp only [Fn.need] at hf ihP ihL
  simp only [Term]
  have hP := ihP s (by omega)
  cases hr : Primary fuel s with
  | outOfFuel => simp [hr, Good] at hP
  | thrown s1 =>
    simp only [hr, Good] at hP ⊢
    exact hP
  | returned res s1 =>
    simp only [hr, Good] at hP
    obtain ⟨hrun, hmu, hpar⟩ := hP
    cases res with
    | none =>
      simp only [Good]
      exact ⟨Runs.termNull s s1 hrun, hmu, hpar⟩
    | some t1 =>
      simp only
      have hL := ihL t1 s1 (by omega)
      cases hr2 : TermLoop fuel t1 s1 with
      | outOfFuel => simp [hr2, Good] at hL
      | thrown s3 =>
        simp only [hr2, Good] at hL ⊢
        exact fun hp => hL (hpar hp)
      | returned res3 s3 =>
        simp only [hr2, Good] at hL ⊢
        obtain ⟨hrun3, hmu3, hpar3⟩ := hL
        exact ⟨Runs.term s s1 s3 t1 res3 hrun hrun3, by omega, fun hp => hpar3 (hpar hp)⟩

theorem good_exprLoop_step (fuel : Nat)
    (ihT : ∀ s, Fn.need Fn.term s.mu ≤ fuel → Good Fn.term s (Term fuel s))
    (ihL : ∀ t1 s, Fn.need (Fn.exprLoop t1) s.mu ≤ fuel →
      Good (Fn.exprLoop t1) s (ExprLoop fuel t1 s))
    (t1 : ParseTree) (s : ParserState) (hf : Fn.need (Fn.exprLoop t1) s.mu ≤ fuel + 1) :
    Good (Fn.exprLoop t1) s (ExprLoop (fuel + 1) t1 s) := by
  have hm := getToken_mu s
  simp only [Fn.need] at hf ihT ihL
  simp only [ExprLoop]
  by_cases hop : s.getToken.1.tt ≠ TokenType.T_PLUS ∧ s.getToken.1.tt ≠ TokenType.T_MINUS
  · simp only [hop, and_self, if_true, Good, ne_eq, not_false_eq_true]
    exact ⟨Runs.exprLoopExit s t1 hop.1 hop.2, hm.2.2,
      fun hp => (getToken_parseable s hp).2.2⟩
  · have hop2 : s.getToken.1.tt = TokenType.T_PLUS ∨ s.getToken.1.tt = TokenType.T_MINUS := by
      by_cases h : s.getToken.1.tt = TokenType.T_PLUS
      · exact Or.inl h
      · right
        by_contra h2
        exact hop ⟨h, h2⟩
    simp only [hop, if_false]
    have hlt : s.getToken.2.mu < s.mu :=
      hm.2.1 (by rcases hop2 with h | h <;> rw [h] <;> decide)
    have hT := ihT s.getToken.2 (by omega)
    cases hr : Term fuel s.getToken.2 with
    | outOfFuel => simp [hr, Good] at hT
    | thrown s1 =>
      simp only [hr, Good] at hT ⊢
      exact fun hp => hT (getToken_parseable s hp).2.1
    | returned res s2 =>
      simp only [hr, Good] at hT
      obtain ⟨hrun, hmu, hpar⟩ := hT
      cases res with
      | none =>
        simp only [Good]
        refine ⟨Runs.exprLoopFail s s2 t1 hop2 hrun, ?_, ?_⟩
        · rw [(syntaxError_fields _ _ _).1]; omega
        · exact fun hp => syntaxError_parseable _ _ _ (hpar (getToken_parseable s hp).2.1)
      | some t2 =>
        simp only [binaryNode_add _ t1 t2 hop2]
        have hL := ihL (binaryNode s.getToken.1 t1 t2) s2 (by omega)
        cases hr2 : ExprLoop fuel (binaryNode s.getToken.1 t1 t2) s2 with
        | outOfFuel => simp [hr2, Good] at hL
        | thrown s3 =>
          simp only [hr2, Good] at hL ⊢
          exact fun hp => hL (hpar (getToken_parseable s hp).2.1)
        | returned res3 s3 =>
          simp only [hr2, Good] at hL ⊢
          obtain ⟨hrun3, hmu3, hpar3⟩ := hL
          exact ⟨Runs.exprLoopStep s s2 s3 t1 t2 res3 hop2 hrun hrun3, by omega,
            fun hp => hpar3 (hpar (getToken_parseable s hp).2.1)⟩

theorem good_expr_step (fuel : Nat)
    (ihT : ∀ s, Fn.need Fn.term s.mu ≤ fuel → Good Fn.term s (Term fuel s))
    (ihL : ∀ t1 s, Fn.need (Fn.exprLoop t1) s.mu ≤ fuel →
      Good (Fn.exprLoop t1) s (ExprLoop fuel t1 s))
    (s : ParserState) (hf : Fn.need Fn.expr s.mu ≤ fuel + 1) :
    Good Fn.expr s (Expr (fuel + 1) s) := by
  simp only [Fn.need] at hf ihT ihL
  simp only [Expr]
  have hT := ihT s (by omega)
  cases hr : Term fuel s with
  | outOfFuel => simp [hr, Good] at hT
  | thrown s1 =>
    simp only [hr, Good] at hT ⊢
    exact hT
  | returned res s1 =>
    simp only [hr, Good] at hT
    obtain ⟨hrun, hmu, hpar⟩ := hT
    cases res with
    | none =>
      simp only [Good]
      exact ⟨Runs.exprNull s s1 hrun, hmu, hpar⟩
    | some t1 =>
      simp only
      have hL := ihL t1 s1 (by omega)
      cases hr2 : ExprLoop fuel t1 s1 with
      | outOfFuel => simp [hr2, Good] at hL
      | thrown s3 =>
        simp only [hr2, Good] at hL ⊢
        exact fun hp => hL (hpar hp)
      | returned res3 s3 =>
        simp only [hr2, Good] at hL ⊢
        obtain ⟨hrun3, hmu3, hpar3⟩ := hL
        exact ⟨Runs.expr s s1 s3 t1 res3 hrun hrun3, by omega, fun hp => hpar3 (hpar hp)⟩

/-- With enough fuel each of the five expression functions ends well. -/
theorem good_expression_level : ∀ (fuel : Nat),
    (∀ s, Fn.need Fn.primary s.mu ≤ fuel → Good Fn.primary s (Primary fuel s))
    ∧ (∀ t1 s, Fn.need (Fn.termLoop t1) s.mu ≤ fuel →
        Good (Fn.termLoop t1) s (TermLoop fuel t1 s))
    ∧ (∀ s, Fn.need Fn.term s.mu ≤ fuel → Good Fn.term s (Term fuel s))
    ∧ (∀ t1 s, Fn.need (Fn.exprLoop t1) s.mu ≤ fuel →
        Good (Fn.exprLoop t1) s (ExprLoop fuel t1 s))
    ∧ (∀ s, Fn.need Fn.expr s.mu ≤ fuel → Good Fn.expr s (Expr fuel s)) := by
  intro fuel
  induction fuel with
  | zero =>
    refine ⟨?_, ?_, ?_, ?_, ?_⟩ <;> intros <;> simp [Fn.need] at *
  | succ fuel ih =>
    obtain ⟨ihP, ihTL, ihT, ihEL, ihE⟩ := ih
    exact ⟨good_primary_step fuel ihE, good_termLoop_step fuel ihP ihTL,
      good_term_step fuel ihP ihTL, good_exprLoop_step fuel ihT ihEL,
      good_expr_step fuel ihT ihEL⟩

theorem pending_cons (s : ParserState) (t : Token) (l : List Token)
    (h : Pending s (t :: l)) :
    s.getToken.1 = t ∧ Pending s.getToken.2 l := by
  unfold Pending at h
  rcases h with h | h
  · unfold ParserState.pend at h
    unfold ParserState.getToken Pending ParserState.pend
    by_cases hp : s.pushedBack = true
    · simp only [hp, if_true, List.cons.injEq] at h
      simp [hp, h.1, h.2]
    · simp only [hp, if_false, Bool.false_eq_true] at h
      simp [hp, h]
  · simp at h

theorem pending_nil (s : ParserState) (h : Pending s []) :
    s.getToken.1 = s.doneToken ∧ Pending s.getToken.2 [] := by
  unfold Pending at h
  rcases h with h | h
  · unfold ParserState.pend at h
    unfold ParserState.getToken Pending ParserState.pend
    by_cases hp : s.pushedBack = true
    · simp [hp] at h
    · simp only [hp, if_false, Bool.false_eq_true] at h
      simp [hp, h, ParserState.doneToken]
  · obtain ⟨_, hp, ht, hi⟩ := h
    unfold ParserState.getToken Pending ParserState.pend
    simp [hp, ht, hi]

theorem pending_kind (s : ParserState) (l : List Token) (h : Pending s l) :
    s.getToken.1.tt = nextKind l := by
  cases l with
  | nil => rw [(pending_nil s h).1]; rfl
  | cons t l => rw [(pending_cons s t l h).1]; rfl

theorem pending_pushback (s : ParserState) (l : List Token) (h : Pending s l) :
    Pending (s.getToken.2.pushbackToken s.getToken.1) l := by
  have hf := (getToken_fields s).2.2.2
  cases l with
  | nil =>
    obtain ⟨h1, h2⟩ := pending_nil s h
    unfold Pending at h2 ⊢
    right
    rcases h2 with h2 | h2
    · unfold ParserState.pend at h2
      simp only [hf, if_false, Bool.false_eq_true] at h2
      simp [ParserState.pushbackToken, h1, ParserState.doneToken, h2, (getToken_fields s).1]
    · rw [hf] at h2
      simp at h2
  | cons t l =>
    obtain ⟨h1, h2⟩ := pending_cons s t l h
    unfold Pending at h2 ⊢
    left
    rcases h2 with h2 | h2
    · unfold ParserState.pend at h2 ⊢
      simp only [hf, if_false, Bool.false_eq_true] at h2
      simp [ParserState.pushbackToken, h1, h2]
    · rw [hf] at h2
      simp at h2

theorem pending_syntaxError (line : Int) (text : String) (s : ParserState) (l : List Token)
    (h : Pending s l) : Pending (syntaxError line text s) l := by
  unfold Pending at *
  rw [(syntaxError_fields line text s).2.1]
  simpa [syntaxError, ParserState.doneToken] using h

theorem pushback_fields (t : Token) (s : ParserState) :
    (s.pushbackToken t).eofLine = s.eofLine
    ∧ (s.pushbackToken t).hasParseErrors = s.hasParseErrors
    ∧ (s.pushbackToken t).g = s.g := by
  simp [ParserState.pushbackToken]

theorem pending_initial (toks : List Token) (eofLine : Int) (g : Globals) :
    Pending (ParserState.initial toks eofLine g) toks := by
  left
  rfl

theorem parseable_initial (toks : List Token) (eofLine : Int) (g : Globals)
    (h : ∀ t ∈ toks, tokenOK t) : Parseable (ParserState.initial toks eofLine g) := h

theorem mu_initial (toks : List Token) (eofLine : Int) (g : Globals) :
    (ParserState.initial toks eofLine g).mu = 2 * toks.length := by
  simp [ParserState.initial, ParserState.mu]

theorem checkIdentifier_id (id : Token) (s : ParserState) (h : id.tt = TokenType.T_ID) :
    checkIdentifier id s = (some ⟨id.lnum, id.lexeme⟩, s) := by
  simp [checkIdentifier, h]

theorem checkIdentifier_other (id : Token) (s : ParserState) (h : id.tt ≠ TokenType.T_ID) :
    checkIdentifier id s = (none, syntaxError id.lnum "identifier expected" s) := by
  simp [checkIdentifier, h]

theorem good_decl (s : ParserState) : Good Fn.decl s (Decl s) := by
  have hm := getToken_mu s
  have hm2 := getToken_mu s.getToken.2
  unfold Decl
  by_cases hid : s.getToken.2.getToken.1.tt = TokenType.T_ID
  · simp only [checkIdentifier_id _ _ hid, Good]
    exact ⟨Runs.decl s hid, by omega,
      fun hp => (getToken_parseable _ (getToken_parseable s hp).2.1).2.1⟩
  · simp only [checkIdentifier_other _ _ hid, Good]
    refine ⟨Runs.declFail s hid, ?_, ?_⟩
    · rw [(syntaxError_fields _ _ _).1, (syntaxError_fields _ _ _).1]; omega
    · exact fun hp => syntaxError_parseable _ _ _ (syntaxError_parseable _ _ _
        (getToken_parseable _ (getToken_parseable s hp).2.1).2.1)

theorem good_set (fuel : Nat) (s : ParserState) (hf : Fn.need Fn.set s.mu ≤ fuel) :
    Good Fn.set s (Set fuel s) := by
  have hm := getToken_mu s
  have hm2 := getToken_mu s.getToken.2
  simp only [Fn.need] at hf
  unfold Set
  by_cases hid : s.getToken.2.getToken.1.tt = TokenType.T_ID
  · simp only [checkIdentifier_id _ _ hid]
    have hE := (good_expression_level fuel).2.2.2.2 s.getToken.2.getToken.2
      (by simp only [Fn.need]; omega)
    cases hr : Expr fuel s.getToken.2.getToken.2 with
    | outOfFuel => simp [hr, Good] at hE
    | thrown s1 =>
      simp only [hr, Good] at hE ⊢
      exact fun hp => hE (getToken_parseable _ (getToken_parseable s hp).2.1).2.1
    | returned res s3 =>
      simp only [hr, Good] at hE
      obtain ⟨hrun, hmu, hpar⟩ := hE
      cases res with
      | none =>
        simp only [Good]
        refine ⟨Runs.setNoExpr s s3 hid hrun, ?_, ?_⟩
        · rw [(syntaxError_fields _ _ _).1]; omega
        · exact fun hp => syntaxError_parseable _ _ _
            (hpar (getToken_parseable _ (getToken_parseable s hp).2.1).2.1)
      | some e =>
        simp only [Good]
        exact ⟨Runs.set s s3 e hid hrun, by omega,
          fun hp => hpar (getToken_parseable _ (getToken_parseable s hp).2.1).2.1⟩
  · simp only [checkIdentifier_other _ _ hid, Good]
    refine ⟨Runs.setNoIdentifier s hid, ?_, ?_⟩
    · rw [(syntaxError_fields _ _ _).1]; omega
    · exact fun hp => syntaxError_parseable _ _ _
        (getToken_parseable _ (getToken_parseable s hp).2.1).2.1

theorem good_print (fuel : Nat) (s : ParserState) (hf : Fn.need Fn.print s.mu ≤ fuel) :
    Good Fn.print s (Print fuel s) := by
  have hm := getToken_mu s
  simp only [Fn.need] at hf
  simp only [Print]
  have hE := (good_expression_level fuel).2.2.2.2 s.getToken.2
    (by simp only [Fn.need]; omega)
  cases hr : Expr fuel s.getToken.2 with
  | outOfFuel => simp [hr, Good] at hE
  | thrown s1 =>
    simp only [hr, Good] at hE ⊢
    exact fun hp => hE (getToken_parseable s hp).2.1
  | returned res s3 =>
    simp only [hr, Good] at hE
    obtain ⟨hrun, hmu, hpar⟩ := hE
    cases res with
    | none =>
      simp only [Good]
      refine ⟨Runs.printNoExpr s s3 hrun, ?_, ?_⟩
      · rw [(syntaxError_fields _ _ _).1]; omega
      · exact fun hp => syntaxError_parseable _ _ _ (hpar (getToken_parseable s hp).2.1)
    | some e =>
      simp only [Good]
      exact ⟨Runs.print s s3 e hrun, by omega,
        fun hp => hpar (getToken_parseable s hp).2.1⟩

theorem good_stmt (fuel : Nat) (s : ParserState) (hf : Fn.need Fn.stmt s.mu ≤ fuel) :
    Good Fn.stmt s (Stmt fuel s) := by
  have hm := getToken_mu s
  simp only [Fn.need] at hf
  unfold Stmt
  by_cases h1 : s.getToken.1.tt = TokenType.T_INT ∨ s.getToken.1.tt = TokenType.T_STRING
  · simp only [h1, if_true]
    have hD := good_decl (s.getToken.2.pushbackToken s.getToken.1)
    cases hr : Decl (s.getToken.2.pushbackToken s.getToken.1) with
    | outOfFuel => simp [hr, Good] at hD
    | thrown s1 =>
      simp only [hr, Good] at hD ⊢
      exact fun hp => hD (getToken_parseable s hp).2.2
    | returned res s3 =>
      simp only [hr, Good] at hD ⊢
      obtain ⟨hrun, hmu, hpar⟩ := hD
      exact ⟨Runs.stmtDecl s s3 res h1 hrun, by omega,
        fun hp => hpar (getToken_parseable s hp).2.2⟩
  by_cases h2 : s.getToken.1.tt = TokenType.T_SET
  · simp only [h1, h2, if_true, if_false]
    have hD := good_set fuel (s.getToken.2.pushbackToken s.getToken.1)
      (by simp only [Fn.need]; omega)
    cases hr : Set fuel (s.getToken.2.pushbackToken s.getToken.1) with
    | outOfFuel => simp [hr, Good] at hD
    | thrown s1 =>
      simp only [hr, Good] at hD ⊢
      exact fun hp => hD (getToken_parseable s hp).2.2
    | returned res s3 =>
      simp only [hr, Good] at hD ⊢
      obtain ⟨hrun, hmu, hpar⟩ := hD
      exact ⟨Runs.stmtSet s s3 res h2 hrun, by omega,
        fun hp => hpar (getToken_parseable s hp).2.2⟩
  by_cases h3 : s.getToken.1.tt = TokenType.T_PRINT ∨ s.getToken.1.tt = TokenType.T_PRINTLN
  · simp only [h1, h2, h3, if_true, if_false]
    have hD := good_print fuel (s.getToken.2.pushbackToken s.getToken.1)
      (by simp only [Fn.need]; omega)
    cases hr : Print fuel (s.getToken.2.pushbackToken s.getToken.1) with
    | outOfFuel => simp [hr, Good] at hD
    | thrown s1 =>
      simp only [hr, Good] at hD ⊢
      exact fun hp => hD (getToken_parseable s hp).2.2
    | returned res s3 =>
      simp only [hr, Good] at hD ⊢
      obtain ⟨hrun, hmu, hpar⟩ := hD
      exact ⟨Runs.stmtPrint s s3 res h3 hrun, by omega,
        fun hp => hpar (getToken_parseable s hp).2.2⟩
  by_cases h4 : s.getToken.1.tt = TokenType.T_DONE
  · simp only [h1, h2, h3, h4, if_true, if_false, Good]
    exact ⟨Runs.stmtDone s h4, hm.2.2, fun hp => (getToken_parseable s hp).2.2⟩
  · simp only [h1, h2, h3, h4, if_false, Good]
    refine ⟨Runs.stmtExpected s (fun h => h1 (Or.inl h)) (fun h => h1 (Or.inr h)) h2
      (fun h => h3 (Or.inl h)) (fun h => h3 (Or.inr h)) h4, ?_, ?_⟩
    · rw [(syntaxError_fields _ _ _).1]; exact hm.2.2
    · exact fun hp => syntaxError_parseable _ _ _ (getToken_parseable s hp).2.2

theorem good_stmtList : ∀ (fuel : Nat) (s : ParserState),
    Fn.need Fn.stmtList s.mu ≤ fuel → Good Fn.stmtList s (StmtList fuel s) := by
  intro fuel
  induction fuel with
  | zero => intro s hf; simp [Fn.need] at hf
  | succ fuel ih =>
    intro s hf
    simp only [Fn.need] at hf
    simp only [StmtList]
    have hS := good_stmt fuel s (by simp only [Fn.need]; omega)
    cases hr : Stmt fuel s with
    | outOfFuel => simp [hr, Good] at hS
    | thrown s1 =>
      simp only [hr, Good] at hS ⊢
      exact hS
    | returned res s1 =>
      simp only [hr, Good] at hS
      obtain ⟨hrun, hmu, hpar⟩ := hS
      cases res with
      | none =>
        simp only [Good]
        exact ⟨Runs.listEnd s s1 hrun, hmu, hpar⟩
      | some stmt =>
        simp only
        have hm := getToken_mu s1
        by_cases hsc : s1.getToken.1.tt = TokenType.T_SC
        · simp only [hsc, if_true]
          have hlt : s1.getToken.2.mu < s1.mu := hm.2.1 (by rw [hsc]; decide)
          have hL := ih s1.getToken.2 (by simp only [Fn.need]; omega)
          cases hr2 : StmtList fuel s1.getToken.2 with
          | outOfFuel => simp [hr2, Good] at hL
          | thrown s3 =>
            simp only [hr2, Good] at hL ⊢
            exact fun hp => hL (getToken_parseable _ (hpar hp)).2.1
          | returned rest s3 =>
            simp only [hr2, Good] at hL ⊢
            obtain ⟨hrun3, hmu3, hpar3⟩ := hL
            exact ⟨Runs.listCons s s1 s3 stmt rest hrun hsc hrun3, by omega,
              fun hp => hpar3 (getToken_parseable _ (hpar hp)).2.1⟩
        · simp only [hsc, if_false, Good]
          refine ⟨Runs.listNoSemicolon s s1 stmt hrun hsc, ?_, ?_⟩
          · rw [(syntaxError_fields _ _ _).1]; omega
          · exact fun hp => syntaxError_parseable _ _ _ (getToken_parseable _ (hpar hp)).2.1

/-- With enough fuel every call of a parsing function ends well. -/
theorem good_call (f : Fn) (fuel : Nat) (s : ParserState) (hf : f.need s.mu ≤ fuel) :
    Good f s (f.call fuel s) := by
  cases f with
  | primary => exact (good_expression_level fuel).1 s hf
  | term => exact (good_expression_level fuel).2.2.1 s hf
  | termLoop t1 => exact (good_expression_level fuel).2.1 t1 s hf
  | expr => exact (good_expression_level fuel).2.2.2.2 s hf
  | exprLoop t1 => exact (good_expression_level fuel).2.2.2.1 t1 s hf
  | decl => exact good_decl s
  | set => exact good_set fuel s hf
  | print => exact good_print fuel s hf
  | stmt => exact good_stmt fuel s hf
  | stmtList => exact good_stmtList fuel s hf

/-- A call with enough fuel in a state whose pending tokens all have a node
returns, along a path of the code. -/
theorem call_returns (f : Fn) (fuel : Nat) (s : ParserState) (hf : f.need s.mu ≤ fuel)
    (hp : Parseable s) :
    ∃ res s1, f.call fuel s = Parsed.returned res s1 ∧ Runs f s res s1 := by
  have h := good_call f fuel s hf
  cases hr : f.call fuel s with
  | outOfFuel => simp [hr, Good] at h
  | thrown s1 =>
    simp only [hr, Good] at h
    exact absurd hp h
  | returned res s1 =>
    simp only [hr, Good] at h
    exact ⟨res, s1, rfl, h.1⟩

theorem getToken_flag (s : ParserState) :
    s.getToken.2.hasParseErrors = s.hasParseErrors := (getToken_fields s).2.1

theorem pushback_flag (t : Token) (s : ParserState) :
    (s.pushbackToken t).hasParseErrors = s.hasParseErrors := rfl

theorem syntaxError_flag (line : Int) (text : String) (s : ParserState) :
    (syntaxError line text s).hasParseErrors = true := rfl

/-- A function other than `StmtList` that reported a syntax error returned the
null pointer, and a function below `Stmt` that returned the null pointer
reported a syntax error. -/
theorem runs_null {f : Fn} {s s1 : ParserState} {res : Option ParseTree}
    (h : Runs f s res s1) :
    s.hasParseErrors = false →
    (f ≠ Fn.stmtList → s1.hasParseErrors = true → res = none)
    ∧ (f ≠ Fn.stmtList → f ≠ Fn.stmt → res = none → s1.hasParseErrors = true) := by
  induction h <;>
    simp_all [getToken_flag, pushback_flag, syntaxError_flag]

theorem emits_get (s : ParserState) : Emits s s.getToken.2 [] := by
  have h := getToken_fields s
  simp [Emits, emitSyntaxErrors, h.1, h.2.1, h.2.2.1]

theorem emits_pushback (t : Token) (s : ParserState) : Emits s (s.pushbackToken t) [] := by
  simp [Emits, emitSyntaxErrors, ParserState.pushbackToken]

theorem emits_error (line : Int) (text : String) (s : ParserState) :
    Emits s (syntaxError line text s) [(line, text)] := by
  simp [Emits, emitSyntaxErrors, syntaxError]

theorem Emits.trans {s s1 s2 : ParserState} {m1 m2 : List (Int × String)}
    (h1 : Emits s s1 m1) (h2 : Emits s1 s2 m2) : Emits s s2 (m1 ++ m2) := by
  obtain ⟨a1, b1, c1⟩ := h1
  obtain ⟨a2, b2, c2⟩ := h2
  refine ⟨?_, by rw [b2, b1], ?_⟩
  · rw [a2, a1]
    simp [emitSyntaxErrors, List.foldl_append]
  · rw [c2, c1]
    simp only [ne_eq, List.append_eq_nil, not_and_or]
    tauto

/-- A call that returns wrote a list of syntax error messages and nothing
else, and set the parse-error flag exactly when it wrote one. -/
theorem runs_emits {f : Fn} {s s1 : ParserState} {res : Option ParseTree}
    (h : Runs f s res s1) : ∃ msgs, Emits s s1 msgs := by
  induction h with
  | iconst s v h1 h2 => exact ⟨_, emits_get s⟩
  | sconst s h1 h2 => exact ⟨_, emits_get s⟩
  | ident s h1 => exact ⟨_, emits_get s⟩
  | paren s s2 e h1 hr h2 ih =>
    obtain ⟨m, ih⟩ := ih
    exact ⟨_, (emits_get s).trans (ih.trans (emits_get s2))⟩
  | parenMissing s s2 e h1 hr h2 ih =>
    obtain ⟨m, ih⟩ := ih
    exact ⟨_, (emits_get s).trans (ih.trans ((emits_get s2).trans (emits_error _ _ _)))⟩
  | primaryExpected s h1 h2 h3 h4 => exact ⟨_, (emits_get s).trans (emits_error _ _ _)⟩
  | termLoopExit s t1 h1 h2 => exact ⟨_, (emits_get s).trans (emits_pushback _ _)⟩
  | termLoopStep s s2 s3 t1 t2 res h1 hr1 hr2 ih1 ih2 =>
    obtain ⟨m1, ih1⟩ := ih1
    obtain ⟨m2, ih2⟩ := ih2
    exact ⟨_, (emits_get s).trans (ih1.trans ih2)⟩
  | termLoopFail s s2 t1 h1 hr ih =>
    obtain ⟨m, ih⟩ := ih
    exact ⟨_, (emits_get s).trans (ih.trans (emits_error _ _ _))⟩
  | term s s1 s2 t1 res hr1 hr2 ih1 ih2 =>
    obtain ⟨m1, ih1⟩ := ih1
    obtain ⟨m2, ih2⟩ := ih2
    exact ⟨_, ih1.trans ih2⟩
  | termNull s s1 hr ih => exact ih
  | exprLoopExit s t1 h1 h2 => exact ⟨_, (emits_get s).trans (emits_pushback _ _)⟩
  | exprLoopStep s s2 s3 t1 t2 res h1 hr1 hr2 ih1 ih2 =>
    obtain ⟨m1, ih1⟩ := ih1
    obtain ⟨m2, ih2⟩ := ih2
    exact ⟨_, (emits_get s).trans (ih1.trans ih2)⟩
  | exprLoopFail s s2 t1 h1 hr ih =>
    obtain ⟨m, ih⟩ := ih
    exact ⟨_, (emits_get s).trans (ih.trans (emits_error _ _ _))⟩
  | expr s s1 s2 t1 res hr1 hr2 ih1 ih2 =>
    obtain ⟨m1, ih1⟩ := ih1
    obtain ⟨m2, ih2⟩ := ih2
    exact ⟨_, ih1.trans ih2⟩
  | exprNull s s1 hr ih => exact ih
  | decl s h1 => exact ⟨_, (emits_get s).trans (emits_get _)⟩
  | declFail s h1 =>
    exact ⟨_, (emits_get s).trans ((emits_get _).trans
      ((emits_error _ _ _).trans (emits_error _ _ _)))⟩
  | set s s3 e h1 hr ih =>
    obtain ⟨m, ih⟩ := ih
    exact ⟨_, (emits_get s).trans ((emits_get _).trans ih)⟩
  | setNoExpr s s3 h1 hr ih =>
    obtain ⟨m, ih⟩ := ih
    exact ⟨_, (emits_get s).trans ((emits_get _).trans (ih.trans (emits_error _ _ _)))⟩
  | setNoIdentifier s h1 =>
    exact ⟨_, (emits_get s).trans ((emits_get _).trans (emits_error _ _ _))⟩
  | print s s2 e hr ih =>
    obtain ⟨m, ih⟩ := ih
    exact ⟨_, (emits_get s).trans ih⟩
  | printNoExpr s s2 hr ih =>
    obtain ⟨m, ih⟩ := ih
    exact ⟨_, (emits_get s).trans (ih.trans (emits_error _ _ _))⟩
  | stmtDecl s s2 res h1 hr ih =>
    obtain ⟨m, ih⟩ := ih
    exact ⟨_, (emits_get s).trans ((emits_pushback _ _).trans ih)⟩
  | stmtSet s s2 res h1 hr ih =>
    obtain ⟨m, ih⟩ := ih
    exact ⟨_, (emits_get s).trans ((emits_pushback _ _).trans ih)⟩
  | stmtPrint s s2 res h1 hr ih =>
    obtain ⟨m, ih⟩ := ih
    exact ⟨_, (emits_get s).trans ((emits_pushback _ _).trans ih)⟩
  | stmtDone s h1 => exact ⟨_, (emits_get s).trans (emits_pushback _ _)⟩
  | stmtExpected s h1 h2 h3 h4 h5 h6 =>
    exact ⟨_, (emits_get s).trans ((emits_pushback _ _).trans (emits_error _ _ _))⟩
  | listEnd s s1 hr ih => exact ih
  | listNoSemicolon s s1 stmt hr h1 ih =>
    obtain ⟨m, ih⟩ := ih
    exact ⟨_, ih.trans ((emits_get s1).trans (emits_error _ _ _))⟩
  | listCons s s1 s3 stmt rest hr1 h1 hr2 ih1 ih2 =>
    obtain ⟨m1, ih1⟩ := ih1
    obtain ⟨m2, ih2⟩ := ih2
    exact ⟨_, ih1.trans ((emits_get s1).trans ih2)⟩

set_option linter.unusedTactic false in
set_option linter.unreachableTactic false in
/-- The calls are deterministic: a call has one result and one final state. -/
theorem runs_det {f : Fn} {s s1 : ParserState} {r1 : Option ParseTree}
    (h1 : Runs f s r1 s1) :
    ∀ (r2 : Option ParseTree) (s2 : ParserState), Runs f s r2 s2 → r1 = r2 ∧ s1 = s2 := by
  induction h1 with
  | termLoopStep s s2 s3 t1 t2 res h1 hr1 hr2 ih1 ih2 =>
    intro r2 s2b h2
    cases h2 <;> first
      | (simp_all; done)
      | (obtain ⟨e1, e2⟩ := ih1 _ _ ‹Runs Fn.primary _ _ _›; simp_all; done)
      | (obtain ⟨e1, e2⟩ := ih1 _ _ ‹Runs Fn.primary _ _ _›
         cases e1
         subst e2
         exact ih2 _ _ ‹Runs (Fn.termLoop _) _ _ _›)
      | (obtain ⟨e1, e2⟩ := ih1 _ _ ‹Runs Fn.primary _ _ _›
         cases e1
         subst e2
         obtain ⟨e3, e4⟩ := ih2 _ _ ‹Runs (Fn.termLoop _) _ _ _›
         subst e3
         subst e4
         exact ⟨rfl, rfl⟩)
  | term s s1 s2 t1 res hr1 hr2 ih1 ih2 =>
    intro r2 s2b h2
    cases h2 <;> first
      | (simp_all; done)
      | (obtain ⟨e1, e2⟩ := ih1 _ _ ‹Runs Fn.primary _ _ _›; simp_all; done)
      | (obtain ⟨e1, e2⟩ := ih1 _ _ ‹Runs Fn.primary _ _ _›
         cases e1
         subst e2
         exact ih2 _ _ ‹Runs (Fn.termLoop _) _ _ _›)
      | (obtain ⟨e1, e2⟩ := ih1 _ _ ‹Runs Fn.primary _ _ _›
         cases e1
         subst e2
         obtain ⟨e3, e4⟩ := ih2 _ _ ‹Runs (Fn.termLoop _) _ _ _›
         subst e3
         subst e4
         exact ⟨rfl, rfl⟩)
  | exprLoopStep s s2 s3 t1 t2 res h1 hr1 hr2 ih1 ih2 =>
    intro r2 s2b h2
    cases h2 <;> first
      | (simp_all; done)
      | (obtain ⟨e1, e2⟩ := ih1 _ _ ‹Runs Fn.term _ _ _›; simp_all; done)
      | (obtain ⟨e1, e2⟩ := ih1 _ _ ‹Runs Fn.term _ _ _›
         cases e1
         subst e2
         exact ih2 _ _ ‹Runs (Fn.exprLoop _) _ _ _›)
      | (obtain ⟨e1, e2⟩ := ih1 _ _ ‹Runs Fn.term _ _ _›
         cases e1
         subst e2
         obtain ⟨e3, e4⟩ := ih2 _ _ ‹Runs (Fn.exprLoop _) _ _ _›
         subst e3
         subst e4
         exact ⟨rfl, rfl⟩)
  | expr s s1 s2 t1 res hr1 hr2 ih1 ih2 =>
    intro r2 s2b h2
    cases h2 <;> first
      | (simp_all; done)
      | (obtain ⟨e1, e2⟩ := ih1 _ _ ‹Runs Fn.term _ _ _›; simp_all; done)
      | (obtain ⟨e1, e2⟩ := ih1 _ _ ‹Runs Fn.term _ _ _›
         cases e1
         subst e2
         exact ih2 _ _ ‹Runs (Fn.exprLoop _) _ _ _›)
      | (obtain ⟨e1, e2⟩ := ih1 _ _ ‹Runs Fn.term _ _ _›
         cases e1
         subst e2
         obtain ⟨e3, e4⟩ := ih2 _ _ ‹Runs (Fn.exprLoop _) _ _ _›
         subst e3
         subst e4
         exact ⟨rfl, rfl⟩)
  | listCons s s1 s3 stmt rest hr1 h1 hr2 ih1 ih2 =>
    intro r2 s2b h2
    cases h2 <;> first
      | (simp_all; done)
      | (obtain ⟨e1, e2⟩ := ih1 _ _ ‹Runs Fn.stmt _ _ _›; simp_all; done)
      | (obtain ⟨e1, e2⟩ := ih1 _ _ ‹Runs Fn.stmt _ _ _›
         cases e1
         subst e2
         exact ih2 _ _ ‹Runs Fn.stmtList _ _ _›)
      | (obtain ⟨e1, e2⟩ := ih1 _ _ ‹Runs Fn.stmt _ _ _›
         cases e1
         subst e2
         obtain ⟨e3, e4⟩ := ih2 _ _ ‹Runs Fn.stmtList _ _ _›
         subst e3
         subst e4
         exact ⟨rfl, rfl⟩)
  | paren s s2 e h1 hr h2 ih =>
    intro r2 s2b h2
    cases h2 <;> first
      | (simp_all; done)
      | (obtain ⟨e1, e2⟩ := ih _ _ ‹Runs Fn.expr _ _ _›; simp_all; done)
      | (obtain ⟨e1, e2⟩ := ih _ _ ‹Runs Fn.expr _ _ _›
         cases e1
         subst e2
         exact ⟨rfl, rfl⟩)
      | (obtain ⟨e1, e2⟩ := ih _ _ ‹Runs Fn.expr _ _ _›
         subst e2
         exact ⟨rfl, rfl⟩)
  | parenMissing s s2 e h1 hr h2 ih =>
    intro r2 s2b h2
    cases h2 <;> first
      | (simp_all; done)
      | (obtain ⟨e1, e2⟩ := ih _ _ ‹Runs Fn.expr _ _ _›; simp_all; done)
      | (obtain ⟨e1, e2⟩ := ih _ _ ‹Runs Fn.expr _ _ _›
         cases e1
         subst e2
         exact ⟨rfl, rfl⟩)
      | (obtain ⟨e1, e2⟩ := ih _ _ ‹Runs Fn.expr _ _ _›
         subst e2
         exact ⟨rfl, rfl⟩)
  | termLoopFail s s2 t1 h1 hr ih =>
    intro r2 s2b h2
    cases h2 <;> first
      | (simp_all; done)
      | (obtain ⟨e1, e2⟩ := ih _ _ ‹Runs Fn.primary _ _ _›; simp_all; done)
      | (obtain ⟨e1, e2⟩ := ih _ _ ‹Runs Fn.primary _ _ _›
         cases e1
         subst e2
         exact ⟨rfl, rfl⟩)
      | (obtain ⟨e1, e2⟩ := ih _ _ ‹Runs Fn.primary _ _ _›
         subst e2
         exact ⟨rfl, rfl⟩)
  | termNull s s1 hr ih =>
    intro r2 s2b h2
    cases h2 <;> first
      | (simp_all; done)
      | (obtain ⟨e1, e2⟩ := ih _ _ ‹Runs Fn.primary _ _ _›; simp_all; done)
      | (obtain ⟨e1, e2⟩ := ih _ _ ‹Runs Fn.primary _ _ _›
         cases e1
         subst e2
         exact ⟨rfl, rfl⟩)
      | (obtain ⟨e1, e2⟩ := ih _ _ ‹Runs Fn.primary _ _ _›
         subst e2
         exact ⟨rfl, rfl⟩)
  | exprLoopFail s s2 t1 h1 hr ih =>
    intro r2 s2b h2
    cases h2 <;> first
      | (simp_all; done)
      | (obtain ⟨e1, e2⟩ := ih _ _ ‹Runs Fn.term _ _ _›; simp_all; done)
      | (obtain ⟨e1, e2⟩ := ih _ _ ‹Runs Fn.term _ _ _›
         cases e1
         subst e2
         exact ⟨rfl, rfl⟩)
      | (obtain ⟨e1, e2⟩ := ih _ _ ‹Runs Fn.term _ _ _›
         subst e2
         exact ⟨rfl, rfl⟩)
  | exprNull s s1 hr ih =>
    intro r2 s2b h2
    cases h2 <;> first
      | (simp_all; done)
      | (obtain ⟨e1, e2⟩ := ih _ _ ‹Runs Fn.term _ _ _›; simp_all; done)
      | (obtain ⟨e1, e2⟩ := ih _ _ ‹Runs Fn.term _ _ _›
         cases e1
         subst e2
         exact ⟨rfl, rfl⟩)
      | (obtain ⟨e1, e2⟩ := ih _ _ ‹Runs Fn.term _ _ _›
         subst e2
         exact ⟨rfl, rfl⟩)
  | set s s3 e h1 hr ih =>
    intro r2 s2b h2
    cases h2 <;> first
      | (simp_all; done)
      | (obtain ⟨e1, e2⟩ := ih _ _ ‹Runs Fn.expr _ _ _›; simp_all; done)
      | (obtain ⟨e1, e2⟩ := ih _ _ ‹Runs Fn.expr _ _ _›
         cases e1
         subst e2
         exact ⟨rfl, rfl⟩)
      | (obtain ⟨e1, e2⟩ := ih _ _ ‹Runs Fn.expr _ _ _›
         subst e2
         exact ⟨rfl, rfl⟩)
  | setNoExpr s s3 h1 hr ih =>
    intro r2 s2b h2
    cases h2 <;> first
      | (simp_all; done)
      | (obtain ⟨e1, e2⟩ := ih _ _ ‹Runs Fn.expr _ _ _›; simp_all; done)
      | (obtain ⟨e1, e2⟩ := ih _ _ ‹Runs Fn.expr _ _ _›
         cases e1
         subst e2
         exact ⟨rfl, rfl⟩)
      | (obtain ⟨e1, e2⟩ := ih _ _ ‹Runs Fn.expr _ _ _›
         subst e2
         exact ⟨rfl, rfl⟩)
  | print s s2 e hr ih =>
    intro r2 s2b h2
    cases h2 <;> first
      | (simp_all; done)
      | (obtain ⟨e1, e2⟩ := ih _ _ ‹Runs Fn.expr _ _ _›; simp_all; done)
      | (obtain ⟨e1, e2⟩ := ih _ _ ‹Runs Fn.expr _ _ _›
         cases e1
         subst e2
         exact ⟨rfl, rfl⟩)
      | (obtain ⟨e1, e2⟩ := ih _ _ ‹Runs Fn.expr _ _ _›
         subst e2
         exact ⟨rfl, rfl⟩)
  | printNoExpr s s2 hr ih =>
    intro r2 s2b h2
    cases h2 <;> first
      | (simp_all; done)
      | (obtain ⟨e1, e2⟩ := ih _ _ ‹Runs Fn.expr _ _ _›; simp_all; done)
      | (obtain ⟨e1, e2⟩ := ih _ _ ‹Runs Fn.expr _ _ _›
         cases e1
         subst e2
         exact ⟨rfl, rfl⟩)
      | (obtain ⟨e1, e2⟩ := ih _ _ ‹Runs Fn.expr _ _ _›
         subst e2
         exact ⟨rfl, rfl⟩)
  | stmtDecl s s2 res h1 hr ih =>
    intro r2 s2b h2
    cases h2 <;> first
      | (simp_all; done)
      | (obtain ⟨e1, e2⟩ := ih _ _ ‹Runs Fn.decl _ _ _›; simp_all; done)
      | (obtain ⟨e1, e2⟩ := ih _ _ ‹Runs Fn.decl _ _ _›
         cases e1
         subst e2
         exact ⟨rfl, rfl⟩)
      | (obtain ⟨e1, e2⟩ := ih _ _ ‹Runs Fn.decl _ _ _›
         subst e2
         exact ⟨rfl, rfl⟩)
      | (rename_i ha hb; rcases h1 with h | h <;> rcases ha with h' | h' <;> simp [h] at h')
  | stmtSet s s2 res h1 hr ih =>
    intro r2 s2b h2
    cases h2 <;> first
      | (simp_all; done)
      | (obtain ⟨e1, e2⟩ := ih _ _ ‹Runs Fn.set _ _ _›; simp_all; done)
      | (obtain ⟨e1, e2⟩ := ih _ _ ‹Runs Fn.set _ _ _›
         cases e1
         subst e2
         exact ⟨rfl, rfl⟩)
      | (obtain ⟨e1, e2⟩ := ih _ _ ‹Runs Fn.set _ _ _›
         subst e2
         exact ⟨rfl, rfl⟩)
  | stmtPrint s s2 res h1 hr ih =>
    intro r2 s2b h2
    cases h2 <;> first
      | (simp_all; done)
      | (obtain ⟨e1, e2⟩ := ih _ _ ‹Runs Fn.print _ _ _›; simp_all; done)
      | (obtain ⟨e1, e2⟩ := ih _ _ ‹Runs Fn.print _ _ _›
         cases e1
         subst e2
         exact ⟨rfl, rfl⟩)
      | (obtain ⟨e1, e2⟩ := ih _ _ ‹Runs Fn.print _ _ _›
         subst e2
         exact ⟨rfl, rfl⟩)
      | (rename_i ha hb; rcases h1 with h | h <;> rcases ha with h' | h' <;> simp [h] at h')
  | listEnd s s1 hr ih =>
    intro r2 s2b h2
    cases h2 <;> first
      | (simp_all; done)
      | (obtain ⟨e1, e2⟩ := ih _ _ ‹Runs Fn.stmt _ _ _›; simp_all; done)
      | (obtain ⟨e1, e2⟩ := ih _ _ ‹Runs Fn.stmt _ _ _›
         cases e1
         subst e2
         exact ⟨rfl, rfl⟩)
      | (obtain ⟨e1, e2⟩ := ih _ _ ‹Runs Fn.stmt _ _ _›
         subst e2
         exact ⟨rfl, rfl⟩)
  | listNoSemicolon s s1 stmt hr h1 ih =>
    intro r2 s2b h2
    cases h2 <;> first
      | (simp_all; done)
      | (obtain ⟨e1, e2⟩ := ih _ _ ‹Runs Fn.stmt _ _ _›; simp_all; done)
      | (obtain ⟨e1, e2⟩ := ih _ _ ‹Runs Fn.stmt _ _ _›
         cases e1
         subst e2
         exact ⟨rfl, rfl⟩)
      | (obtain ⟨e1, e2⟩ := ih _ _ ‹Runs Fn.stmt _ _ _›
         subst e2
         exact ⟨rfl, rfl⟩)
  | _ =>
    intro r2 s2b h2
    cases h2 <;> simp_all

theorem fuel_succ (fuel m : Nat) (h : m + 1 ≤ fuel) : ∃ k, fuel = k + 1 :=
  ⟨fuel - 1, by omega⟩

/-- A call that returns along a path of the code is what the function
computes with enough fuel, and it leaves no more tokens than it found. -/
theorem runs_call {f : Fn} {s s1 : ParserState} {res : Option ParseTree}
    (h : Runs f s res s1) :
    s1.mu ≤ s.mu ∧ ∀ fuel, f.need s.mu ≤ fuel → f.call fuel s = Parsed.returned res s1 := by
  induction h with
  | iconst s v h1 h2 =>
    refine ⟨(getToken_mu s).1, fun fuel hf => ?_⟩
    obtain ⟨k, rfl⟩ := fuel_succ fuel _ hf
    simp [Fn.call, Primary, h1, h2]
  | sconst s h1 h2 =>
    refine ⟨(getToken_mu s).1, fun fuel hf => ?_⟩
    obtain ⟨k, rfl⟩ := fuel_succ fuel _ hf
    simp [Fn.call, Primary, h1, h2, stringConstantValue]
  | ident s h1 =>
    refine ⟨(getToken_mu s).1, fun fuel hf => ?_⟩
    obtain ⟨k, rfl⟩ := fuel_succ fuel _ hf
    simp [Fn.call, Primary, h1]
  | paren s s2 e h1 hr h2 ih =>
    obtain ⟨hmu, ih⟩ := ih
    have hm := getToken_mu s
    have hm2 := getToken_mu s2
    have hlt : s.getToken.2.mu < s.mu := hm.2.1 (by rw [h1]; decide)
    refine ⟨by omega, fun fuel hf => ?_⟩
    obtain ⟨k, rfl⟩ := fuel_succ fuel _ hf
    simp only [Fn.need, Fn.call] at hf ih ⊢
    have hc := ih k (by omega)
    simp [Primary, h1, hc, h2]
  | parenMissing s s2 e h1 hr h2 ih =>
    obtain ⟨hmu, ih⟩ := ih
    have hm := getToken_mu s
    have hm2 := getToken_mu s2
    have hlt : s.getToken.2.mu < s.mu := hm.2.1 (by rw [h1]; decide)
    refine ⟨by rw [(syntaxError_fields _ _ _).1]; omega, fun fuel hf => ?_⟩
    obtain ⟨k, rfl⟩ := fuel_succ fuel _ hf
    simp only [Fn.need, Fn.call] at hf ih ⊢
    have hc := ih k (by omega)
    simp [Primary, h1, hc, h2]
  | primaryExpected s h1 h2 h3 h4 =>
    refine ⟨by rw [(syntaxError_fields _ _ _).1]; exact (getToken_mu s).1, fun fuel hf => ?_⟩
    obtain ⟨k, rfl⟩ := fuel_succ fuel _ hf
    simp [Fn.call, Primary, h1, h2, h3, h4]
  | termLoopExit s t1 h1 h2 =>
    refine ⟨(getToken_mu s).2.2, fun fuel hf => ?_⟩
    obtain ⟨k, rfl⟩ := fuel_succ fuel _ hf
    simp [Fn.call, TermLoop, h1, h2]
  | termLoopStep s s2 s3 t1 t2 res h1 hr1 hr2 ih1 ih2 =>
    obtain ⟨hmu1, ih1⟩ := ih1
    obtain ⟨hmu2, ih2⟩ := ih2
    have hm := getToken_mu s
    have hlt : s.getToken.2.mu < s.mu :=
      hm.2.1 (by rcases h1 with h | h <;> rw [h] <;> decide)
    refine ⟨by omega, fun fuel hf => ?_⟩
    obtain ⟨k, rfl⟩ := fuel_succ fuel _ hf
    simp only [Fn.need, Fn.call] at hf ih1 ih2 ⊢
    have hc1 := ih1 k (by omega)
    have hc2 := ih2 k (by omega)
    have hop : ¬ (s.getToken.1.tt ≠ TokenType.T_STAR ∧ s.getToken.1.tt ≠ TokenType.T_SLASH) := by
      rcases h1 with h | h <;> simp [h]
    simp only [TermLoop, hop, if_false, hc1, binaryNode_mul _ t1 t2 h1, hc2]
  | termLoopFail s s2 t1 h1 hr ih =>
    obtain ⟨hmu, ih⟩ := ih
    have hm := getToken_mu s
    have hlt : s.getToken.2.mu < s.mu :=
      hm.2.1 (by rcases h1 with h | h <;> rw [h] <;> decide)
    refine ⟨by rw [(syntaxError_fields _ _ _).1]; omega, fun fuel hf => ?_⟩
    obtain ⟨k, rfl⟩ := fuel_succ fuel _ hf
    simp only [Fn.need, Fn.call] at hf ih ⊢
    have hc := ih k (by omega)
    have hop : ¬ (s.getToken.1.tt ≠ TokenType.T_STAR ∧ s.getToken.1.tt ≠ TokenType.T_SLASH) := by
      rcases h1 with h | h <;> simp [h]
    simp only [TermLoop, hop, if_false, hc]
  | term s s1 s2 t1 res hr1 hr2 ih1 ih2 =>
    obtain ⟨hmu1, ih1⟩ := ih1
    obtain ⟨hmu2, ih2⟩ := ih2
    refine ⟨by omega, fun fuel hf => ?_⟩
    obtain ⟨k, rfl⟩ := fuel_succ fuel _ hf
    simp only [Fn.need, Fn.call] at hf ih1 ih2 ⊢
    have hc1 := ih1 k (by omega)
    have hc2 := ih2 k (by omega)
    simp only [Term, hc1, hc2]
  | termNull s s1 hr ih =>
    obtain ⟨hmu, ih⟩ := ih
    refine ⟨hmu, fun fuel hf => ?_⟩
    obtain ⟨k, rfl⟩ := fuel_succ fuel _ hf
    simp only [Fn.need, Fn.call] at hf ih ⊢
    have hc := ih k (by omega)
    simp only [Term, hc]
  | exprLoopExit s t1 h1 h2 =>
    refine ⟨(getToken_mu s).2.2, fun fuel hf => ?_⟩
    obtain ⟨k, rfl⟩ := fuel_succ fuel _ hf
    simp [Fn.call, ExprLoop, h1, h2]
  | exprLoopStep s s2 s3 t1 t2 res h1 hr1 hr2 ih1 ih2 =>
    obtain ⟨hmu1, ih1⟩ := ih1
    obtain ⟨hmu2, ih2⟩ := ih2
    have hm := getToken_mu s
    have hlt : s.getToken.2.mu < s.mu :=
      hm.2.1 (by rcases h1 with h | h <;> rw [h] <;> decide)
    refine ⟨by omega, fun fuel hf => ?_⟩
    obtain ⟨k, rfl⟩ := fuel_succ fuel _ hf
    simp only [Fn.need, Fn.call] at hf ih1 ih2 ⊢
    have hc1 := ih1 k (by omega)
    have hc2 := ih2 k (by omega)
    have hop : ¬ (s.getToken.1.tt ≠ TokenType.T_PLUS ∧ s.getToken.1.tt ≠ TokenType.T_MINUS) := by
      rcases h1 with h | h <;> simp [h]
    simp only [ExprLoop, hop, if_false, hc1, binaryNode_add _ t1 t2 h1, hc2]
  | exprLoopFail s s2 t1 h1 hr ih =>
    obtain ⟨hmu, ih⟩ := ih
    have hm := getToken_mu s
    have hlt : s.getToken.2.mu < s.mu :=
      hm.2.1 (by rcases h1 with h | h <;> rw [h] <;> decide)
    refine ⟨by rw [(syntaxError_fields _ _ _).1]; omega, fun fuel hf => ?_⟩
    obtain ⟨k, rfl⟩ := fuel_succ fuel _ hf
    simp only [Fn.need, Fn.call] at hf ih ⊢
    have hc := ih k (by omega)
    have hop : ¬ (s.getToken.1.tt ≠ TokenType.T_PLUS ∧ s.getToken.1.tt ≠ TokenType.T_MINUS) := by
      rcases h1 with h | h <;> simp [h]
    simp only [ExprLoop, hop, if_false, hc]
  | expr s s1 s2 t1 res hr1 hr2 ih1 ih2 =>
    obtain ⟨hmu1, ih1⟩ := ih1
    obtain ⟨hmu2, ih2⟩ := ih2
    refine ⟨by omega, fun fuel hf => ?_⟩
    obtain ⟨k, rfl⟩ := fuel_succ fuel _ hf
    simp only [Fn.need, Fn.call] at hf ih1 ih2 ⊢
    have hc1 := ih1 k (by omega)
    have hc2 := ih2 k (by omega)
    simp only [Expr, hc1, hc2]
  | exprNull s s1 hr ih =>
    obtain ⟨hmu, ih⟩ := ih
    refine ⟨hmu, fun fuel hf => ?_⟩
    obtain ⟨k, rfl⟩ := fuel_succ fuel _ hf
    simp only [Fn.need, Fn.call] at hf ih ⊢
    have hc := ih k (by omega)
    simp only [Expr, hc]
  | decl s h1 =>
    have hm := getToken_mu s
    have hm2 := getToken_mu s.getToken.2
    refine ⟨by omega, fun fuel hf => ?_⟩
    simp only [Fn.call, Decl, checkIdentifier_id _ _ h1]
  | declFail s h1 =>
    have hm := getToken_mu s
    have hm2 := getToken_mu s.getToken.2
    refine ⟨by rw [(syntaxError_fields _ _ _).1, (syntaxError_fields _ _ _).1]; omega,
      fun fuel hf => ?_⟩
    simp only [Fn.call, Decl, checkIdentifier_other _ _ h1]
  | set s s3 e h1 hr ih =>
    obtain ⟨hmu, ih⟩ := ih
    have hm := getToken_mu s
    have hm2 := getToken_mu s.getToken.2
    refine ⟨by omega, fun fuel hf => ?_⟩
    simp only [Fn.need, Fn.call] at hf ih ⊢
    have hc := ih fuel (by omega)
    simp only [Set, checkIdentifier_id _ _ h1, hc]
  | setNoExpr s s3 h1 hr ih =>
    obtain ⟨hmu, ih⟩ := ih
    have hm := getToken_mu s
    have hm2 := getToken_mu s.getToken.2
    refine ⟨by rw [(syntaxError_fields _ _ _).1]; omega, fun fuel hf => ?_⟩
    simp only [Fn.need, Fn.call] at hf ih ⊢
    have hc := ih fuel (by omega)
    simp only [Set, checkIdentifier_id _ _ h1, hc]
  | setNoIdentifier s h1 =>
    have hm := getToken_mu s
    have hm2 := getToken_mu s.getToken.2
    refine ⟨by rw [(syntaxError_fields _ _ _).1]; omega, fun fuel hf => ?_⟩
    simp only [Fn.call, Set, checkIdentifier_other _ _ h1]
  | print s s2 e hr ih =>
    obtain ⟨hmu, ih⟩ := ih
    have hm := getToken_mu s
    refine ⟨by omega, fun fuel hf => ?_⟩
    simp only [Fn.need, Fn.call] at hf ih ⊢
    have hc := ih fuel (by omega)
    simp only [Print, hc]
  | printNoExpr s s2 hr ih =>
    obtain ⟨hmu, ih⟩ := ih
    have hm := getToken_mu s
    refine ⟨by rw [(syntaxError_fields _ _ _).1]; omega, fun fuel hf => ?_⟩
    simp only [Fn.need, Fn.call] at hf ih ⊢
    have hc := ih fuel (by omega)
    simp only [Print, hc]
  | stmtDecl s s2 res h1 hr ih =>
    obtain ⟨hmu, ih⟩ := ih
    have hm := getToken_mu s
    refine ⟨by omega, fun fuel hf => ?_⟩
    simp only [Fn.need, Fn.call] at hf ih ⊢
    have hc := ih fuel (by omega)
    simp only [Stmt, h1, if_true, hc]
  | stmtSet s s2 res h1 hr ih =>
    obtain ⟨hmu, ih⟩ := ih
    have hm := getToken_mu s
    refine ⟨by omega, fun fuel hf => ?_⟩
    simp only [Fn.need, Fn.call] at hf ih ⊢
    have hc := ih fuel (by omega)
    simp [Stmt, h1, hc]
  | stmtPrint s s2 res h1 hr ih =>
    obtain ⟨hmu, ih⟩ := ih
    have hm := getToken_mu s
    refine ⟨by omega, fun fuel hf => ?_⟩
    simp only [Fn.need, Fn.call] at hf ih ⊢
    have hc := ih fuel (by omega)
    rcases h1 with h | h <;> simp [Stmt, h, hc]
  | stmtDone s h1 =>
    refine ⟨(getToken_mu s).2.2, fun fuel hf => ?_⟩
    simp [Fn.call, Stmt, h1]
  | stmtExpected s h1 h2 h3 h4 h5 h6 =>
    refine ⟨by rw [(syntaxError_fields _ _ _).1]; exact (getToken_mu s).2.2, fun fuel hf => ?_⟩
    simp [Fn.call, Stmt, h1, h2, h3, h4, h5, h6]
  | listEnd s s1 hr ih =>
    obtain ⟨hmu, ih⟩ := ih
    refine ⟨hmu, fun fuel hf => ?_⟩
    obtain ⟨k, rfl⟩ := fuel_succ fuel _ hf
    simp only [Fn.need, Fn.call] at hf ih ⊢
    have hc := ih k (by omega)
    simp only [StmtList, hc]
  | listNoSemicolon s s1 stmt hr h1 ih =>
    obtain ⟨hmu, ih⟩ := ih
    have hm := getToken_mu s1
    refine ⟨by rw [(syntaxError_fields _ _ _).1]; omega, fun fuel hf => ?_⟩
    obtain ⟨k, rfl⟩ := fuel_succ fuel _ hf
    simp only [Fn.need, Fn.call] at hf ih ⊢
    have hc := ih k (by omega)
    simp only [StmtList, hc, h1, if_false]
  | listCons s s1 s3 stmt rest hr1 h1 hr2 ih1 ih2 =>
    obtain ⟨hmu1, ih1⟩ := ih1
    obtain ⟨hmu2, ih2⟩ := ih2
    have hm := getToken_mu s1
    have hlt : s1.getToken.2.mu < s1.mu := hm.2.1 (by rw [h1]; decide)
    refine ⟨by omega, fun fuel hf => ?_⟩
    obtain ⟨k, rfl⟩ := fuel_succ fuel _ hf
    simp only [Fn.need, Fn.call] at hf ih1 ih2 ⊢
    have hc1 := ih1 k (by omega)
    have hc2 := ih2 k (by omega)
    simp only [StmtList, hc1, h1, if_true, hc2]

theorem quiet_get (s : ParserState) : Quiet s s.getToken.2 := by
  have h := getToken_fields s
  exact ⟨h.2.2.1, h.1, h.2.1⟩

theorem quiet_pushback (t : Token) (s : ParserState) : Quiet s (s.pushbackToken t) :=
  ⟨rfl, rfl, rfl⟩

theorem Quiet.andThen {s s1 s2 : ParserState} (h1 : Quiet s s1) (h2 : Quiet s1 s2) :
    Quiet s s2 :=
  ⟨h2.1.trans h1.1, h2.2.1.trans h1.2.1, h2.2.2.trans h1.2.2⟩

theorem exprTail_follow {nt : NT} {ts : List Token} {t : ParseTree} (h : Derives nt ts t) :
    ∀ (acc : ParseTree) (rem : List Token), nt = NT.exprTail acc →
      NT.follow NT.expr (nextKind rem) → NT.follow NT.term (nextKind (ts ++ rem)) := by
  intro acc rem hnt hf
  cases h with
  | exprEnd a =>
    simp only [NT.follow, List.nil_append] at hf ⊢
    exact ⟨hf.2.2.1, hf.2.2.2⟩
  | exprMore op ts1 ts2 a t2 t hop h1 h2 =>
    simp only [NT.follow, List.cons_append, nextKind]
    rcases hop with h | h <;> simp [h]
  | _ => cases hnt

/-- The tokens of a derivation are read by the parsing function of the
nonterminal, which returns the tree of the derivation without a message and
leaves the tokens that followed. -/
theorem derives_runs {nt : NT} {ts : List Token} {tree : ParseTree}
    (h : Derives nt ts tree) :
    ∀ (s : ParserState) (rem : List Token), Pending s (ts ++ rem) →
      nt.follow (nextKind rem) →
      ∃ s1, Runs nt.fn s (some tree) s1 ∧ Pending s1 rem ∧ Quiet s s1 := by
  induction h with
  | iconst t v h1 h2 =>
    intro s rem hp _
    obtain ⟨ht, hp1⟩ := pending_cons s t rem hp
    subst ht
    exact ⟨_, Runs.iconst s v h1 h2, hp1, quiet_get s⟩
  | sconst t h1 h2 =>
    intro s rem hp _
    obtain ⟨ht, hp1⟩ := pending_cons s t rem hp
    subst ht
    exact ⟨_, Runs.sconst s h1 h2, hp1, quiet_get s⟩
  | ident t h1 =>
    intro s rem hp _
    obtain ⟨ht, hp1⟩ := pending_cons s t rem hp
    subst ht
    exact ⟨_, Runs.ident s h1, hp1, quiet_get s⟩
  | paren l r ts e hl hr hd ih =>
    intro s rem hp _
    have hl2 : (l :: (ts ++ [r])) ++ rem = l :: (ts ++ r :: rem) := by simp
    rw [hl2] at hp
    obtain ⟨ht, hp1⟩ := pending_cons s l _ hp
    subst ht
    obtain ⟨s2, hrun, hp2, hq2⟩ := ih s.getToken.2 (r :: rem) hp1
      (by simp [NT.follow, nextKind, hr])
    obtain ⟨ht2, hp3⟩ := pending_cons s2 r rem hp2
    subst ht2
    exact ⟨_, Runs.paren s s2 (some e) hl hrun hr, hp3,
      (quiet_get s).andThen (hq2.andThen (quiet_get s2))⟩
  | term ts1 ts2 t1 t hd1 hd2 ih1 ih2 =>
    intro s rem hp hf
    rw [List.append_assoc] at hp
    obtain ⟨s1, hrun1, hp1, hq1⟩ := ih1 s (ts2 ++ rem) hp trivial
    obtain ⟨s2, hrun2, hp2, hq2⟩ := ih2 s1 rem hp1 hf
    exact ⟨s2, Runs.term s s1 s2 t1 (some t) hrun1 hrun2, hp2, hq1.andThen hq2⟩
  | termEnd acc =>
    intro s rem hp hf
    rw [List.nil_append] at hp
    have hk := pending_kind s rem hp
    simp only [NT.follow] at hf
    rw [← hk] at hf
    exact ⟨_, Runs.termLoopExit s acc hf.1 hf.2, pending_pushback s rem hp,
      (quiet_get s).andThen (quiet_pushback _ _)⟩
  | termMore op ts1 ts2 acc t2 t hop hd1 hd2 ih1 ih2 =>
    intro s rem hp hf
    have hl2 : (op :: (ts1 ++ ts2)) ++ rem = op :: (ts1 ++ (ts2 ++ rem)) := by simp
    rw [hl2] at hp
    obtain ⟨ht, hp1⟩ := pending_cons s op _ hp
    subst ht
    obtain ⟨s2, hrun1, hp2, hq2⟩ := ih1 s.getToken.2 (ts2 ++ rem) hp1 trivial
    obtain ⟨s3, hrun2, hp3, hq3⟩ := ih2 s2 rem hp2 hf
    exact ⟨s3, Runs.termLoopStep s s2 s3 acc t2 (some t) hop hrun1 hrun2, hp3,
      (quiet_get s).andThen (hq2.andThen hq3)⟩
  | expr ts1 ts2 t1 t hd1 hd2 ih1 ih2 =>
    intro s rem hp hf
    rw [List.append_assoc] at hp
    obtain ⟨s1, hrun1, hp1, hq1⟩ := ih1 s (ts2 ++ rem) hp
      (exprTail_follow hd2 t1 rem rfl hf)
    obtain ⟨s2, hrun2, hp2, hq2⟩ := ih2 s1 rem hp1 hf
    exact ⟨s2, Runs.expr s s1 s2 t1 (some t) hrun1 hrun2, hp2, hq1.andThen hq2⟩
  | exprEnd acc =>
    intro s rem hp hf
    rw [List.nil_append] at hp
    have hk := pending_kind s rem hp
    simp only [NT.follow] at hf
    rw [← hk] at hf
    exact ⟨_, Runs.exprLoopExit s acc hf.1 hf.2.1, pending_pushback s rem hp,
      (quiet_get s).andThen (quiet_pushback _ _)⟩
  | exprMore op ts1 ts2 acc t2 t hop hd1 hd2 ih1 ih2 =>
    intro s rem hp hf
    have hl2 : (op :: (ts1 ++ ts2)) ++ rem = op :: (ts1 ++ (ts2 ++ rem)) := by simp
    rw [hl2] at hp
    obtain ⟨ht, hp1⟩ := pending_cons s op _ hp
    subst ht
    obtain ⟨s2, hrun1, hp2, hq2⟩ := ih1 s.getToken.2 (ts2 ++ rem) hp1
      (exprTail_follow hd2 _ rem rfl hf)
    obtain ⟨s3, hrun2, hp3, hq3⟩ := ih2 s2 rem hp2 hf
    exact ⟨s3, Runs.exprLoopStep s s2 s3 acc t2 (some t) hop hrun1 hrun2, hp3,
      (quiet_get s).andThen (hq2.andThen hq3)⟩

/-- The tokens of a statement are read by `Stmt`, which returns the tree of
the statement without a message. -/
theorem derivesStmt_runs {ts : List Token} {stmt : ParseTree} (h : DerivesStmt ts stmt) :
    ∀ (s : ParserState) (rem : List Token), Pending s (ts ++ rem) →
      NT.follow NT.expr (nextKind rem) →
      ∃ s1, Runs Fn.stmt s (some stmt) s1 ∧ Pending s1 rem ∧ Quiet s s1 := by
  intro s rem hp hf
  have hq0 : Quiet s (s.getToken.2.pushbackToken s.getToken.1) :=
    (quiet_get s).andThen (quiet_pushback _ _)
  cases h with
  | decl k id hk hid =>
    have hl2 : [k, id] ++ rem = k :: id :: rem := rfl
    rw [hl2] at hp
    have hp0 := pending_pushback s _ hp
    obtain ⟨e0, _⟩ := pending_cons s k _ hp
    obtain ⟨e1, hp1⟩ := pending_cons _ k _ hp0
    obtain ⟨e2, hp2⟩ := pending_cons _ id _ hp1
    have hrun := Runs.decl (s.getToken.2.pushbackToken s.getToken.1) (by rw [e2]; exact hid)
    rw [e1, e2] at hrun
    exact ⟨_, Runs.stmtDecl s _ _ (by rw [e0]; exact hk) hrun, hp2,
      hq0.andThen ((quiet_get _).andThen (quiet_get _))⟩
  | set k id ts e hk hid hd =>
    have hl2 : (k :: id :: ts) ++ rem = k :: id :: (ts ++ rem) := rfl
    rw [hl2] at hp
    have hp0 := pending_pushback s _ hp
    obtain ⟨e0, _⟩ := pending_cons s k _ hp
    obtain ⟨e1, hp1⟩ := pending_cons _ k _ hp0
    obtain ⟨e2, hp2⟩ := pending_cons _ id _ hp1
    obtain ⟨s3, hrun3, hp3, hq3⟩ := derives_runs hd _ rem hp2 hf
    have hrun := Runs.set (s.getToken.2.pushbackToken s.getToken.1) s3 e
      (by rw [e2]; exact hid) hrun3
    rw [e1, e2] at hrun
    exact ⟨_, Runs.stmtSet s _ _ (by rw [e0]; exact hk) hrun, hp3,
      hq0.andThen ((quiet_get _).andThen ((quiet_get _).andThen hq3))⟩
  | print k ts e hk hd =>
    have hl2 : (k :: ts) ++ rem = k :: (ts ++ rem) := rfl
    rw [hl2] at hp
    have hp0 := pending_pushback s _ hp
    obtain ⟨e0, _⟩ := pending_cons s k _ hp
    obtain ⟨e1, hp1⟩ := pending_cons _ k _ hp0
    obtain ⟨s3, hrun3, hp3, hq3⟩ := derives_runs hd _ rem hp1 hf
    have hrun := Runs.print (s.getToken.2.pushbackToken s.getToken.1) s3 e hrun3
    rw [e1] at hrun
    exact ⟨_, Runs.stmtPrint s _ _ (by rw [e0]; exact hk) hrun, hp3,
      hq0.andThen ((quiet_get _).andThen hq3)⟩

/-- The tokens of a statement list, followed by the end of the input, are
read by `StmtList`, which returns the tree of the list without a message. -/
theorem derivesStmtList_runs {ts : List Token} {r : Option ParseTree}
    (h : DerivesStmtList ts r) :
    ∀ (s : ParserState), Pending s ts →
      ∃ s1, Runs Fn.stmtList s r s1 ∧ Pending s1 [] ∧ Quiet s s1 := by
  induction h with
  | nil =>
    intro s hp
    have hk := pending_kind s [] hp
    exact ⟨_, Runs.listEnd s _ (Runs.stmtDone s hk), pending_pushback s [] hp,
      (quiet_get s).andThen (quiet_pushback _ _)⟩
  | cons ts rest sc stmt r hd hsc hl ih =>
    intro s hp
    obtain ⟨s1, hrun1, hp1, hq1⟩ := derivesStmt_runs hd s (sc :: rest) hp
      (by simp [NT.follow, nextKind, hsc])
    obtain ⟨e1, hp2⟩ := pending_cons s1 sc rest hp1
    obtain ⟨s3, hrun3, hp3, hq3⟩ := ih s1.getToken.2 hp2
    exact ⟨s3, Runs.listCons s s1 s3 stmt r hrun1 (by rw [e1]; exact hsc) hrun3, hp3,
      hq1.andThen ((quiet_get s1).andThen hq3)⟩

theorem pending_pop (s : ParserState) (l : List Token) (h : Pending s l)
    (hk : s.getToken.1.tt ≠ TokenType.T_DONE) :
    ∃ rem, l = s.getToken.1 :: rem ∧ Pending s.getToken.2 rem := by
  cases l with
  | nil =>
    exfalso
    apply hk
    rw [(pending_nil s h).1]
    rfl
  | cons t rem =>
    obtain ⟨e, hp⟩ := pending_cons s t rem h
    exact ⟨rem, by rw [e], hp⟩

theorem runs_flag_clear {f : Fn} {s s1 : ParserState} {res : Option ParseTree}
    (h : Runs f s res s1) (hc : s1.hasParseErrors = false) : s.hasParseErrors = false := by
  obtain ⟨msgs, _, _, hiff⟩ := runs_emits h
  cases hs : s.hasParseErrors with
  | false => rfl
  | true =>
    have := hiff.2 (Or.inl hs)
    rw [hc] at this
    cases this

/-- A call that returns with the parse-error flag clear has read the tokens
of its rule and returned their tree. -/
theorem runs_sound {f : Fn} {s s1 : ParserState} {res : Option ParseTree}
    (h : Runs f s res s1) :
    s1.hasParseErrors = false → ∀ (l : List Token), Pending s l →
      (∀ t ∈ l, t.tt ≠ TokenType.T_DONE) → Parses f l res s1 := by
  induction h with
  | iconst s v h1 h2 =>
    intro hc l hp hnd
    obtain ⟨rem, e, hp1⟩ := pending_pop s l hp (by rw [h1]; decide)
    exact ⟨[s.getToken.1], rem, _, rfl, by rw [e]; rfl, Derives.iconst _ v h1 h2, hp1⟩
  | sconst s h1 h2 =>
    intro hc l hp hnd
    obtain ⟨rem, e, hp1⟩ := pending_pop s l hp (by rw [h1]; decide)
    exact ⟨[s.getToken.1], rem, _, rfl, by rw [e]; rfl, Derives.sconst _ h1 h2, hp1⟩
  | ident s h1 =>
    intro hc l hp hnd
    obtain ⟨rem, e, hp1⟩ := pending_pop s l hp (by rw [h1]; decide)
    exact ⟨[s.getToken.1], rem, _, rfl, by rw [e]; rfl, Derives.ident _ h1, hp1⟩
  | paren s s2 e h1 hr h2 ih =>
    intro hc l hp hnd
    rw [getToken_flag] at hc
    obtain ⟨rem0, e0, hp0⟩ := pending_pop s l hp (by rw [h1]; decide)
    have hnd0 : ∀ t ∈ rem0, t.tt ≠ TokenType.T_DONE :=
      fun t ht => hnd t (by rw [e0]; exact List.mem_cons_of_mem _ ht)
    obtain ⟨ts, rem1, tree, e1, e2, hd, hp1⟩ := ih hc rem0 hp0 hnd0
    obtain ⟨rem2, e3, hp2⟩ := pending_pop s2 rem1 hp1 (by rw [h2]; decide)
    refine ⟨s.getToken.1 :: (ts ++ [s2.getToken.1]), rem2, tree, e1, ?_,
      Derives.paren _ _ ts tree h1 h2 hd, hp2⟩
    rw [e0, e2, e3]
    simp
  | parenMissing s s2 e h1 hr h2 ih => intro hc; simp [syntaxError_flag] at hc
  | primaryExpected s h1 h2 h3 h4 => intro hc; simp [syntaxError_flag] at hc
  | termLoopExit s t1 h1 h2 =>
    intro hc l hp hnd
    exact ⟨[], l, t1, rfl, rfl, Derives.termEnd t1, pending_pushback s l hp⟩
  | termLoopStep s s2 s3 t1 t2 res h1 hr1 hr2 ih1 ih2 =>
    intro hc l hp hnd
    have hc2 := runs_flag_clear hr2 hc
    obtain ⟨rem0, e0, hp0⟩ := pending_pop s l hp
      (by rcases h1 with h | h <;> rw [h] <;> decide)
    have hnd0 : ∀ t ∈ rem0, t.tt ≠ TokenType.T_DONE :=
      fun t ht => hnd t (by rw [e0]; exact List.mem_cons_of_mem _ ht)
    obtain ⟨ts1, rem1, tree1, e1, e2, hd1, hp1⟩ := ih1 hc2 rem0 hp0 hnd0
    cases e1
    have hnd1 : ∀ t ∈ rem1, t.tt ≠ TokenType.T_DONE :=
      fun t ht => hnd0 t (by rw [e2]; exact List.mem_append_right _ ht)
    obtain ⟨ts2, rem2, tree2, e3, e4, hd2, hp2⟩ := ih2 hc rem1 hp1 hnd1
    refine ⟨s.getToken.1 :: (ts1 ++ ts2), rem2, tree2, e3, ?_,
      Derives.termMore _ ts1 ts2 t1 _ tree2 h1 hd1 hd2, hp2⟩
    rw [e0, e2, e4]
    simp
  | termLoopFail s s2 t1 h1 hr ih => intro hc; simp [syntaxError_flag] at hc
  | term s s1 s2 t1 res hr1 hr2 ih1 ih2 =>
    intro hc l hp hnd
    have hc1 := runs_flag_clear hr2 hc
    obtain ⟨ts1, rem1, tree1, e1, e2, hd1, hp1⟩ := ih1 hc1 l hp hnd
    cases e1
    have hnd1 : ∀ t ∈ rem1, t.tt ≠ TokenType.T_DONE :=
      fun t ht => hnd t (by rw [e2]; exact List.mem_append_right _ ht)
    obtain ⟨ts2, rem2, tree2, e3, e4, hd2, hp2⟩ := ih2 hc rem1 hp1 hnd1
    refine ⟨ts1 ++ ts2, rem2, tree2, e3, ?_, Derives.term ts1 ts2 _ tree2 hd1 hd2, hp2⟩
    rw [e2, e4]
    simp
  | termNull s s1 hr ih =>
    intro hc l hp hnd
    obtain ⟨_, _, _, e1, _⟩ := ih hc l hp hnd
    cases e1
  | exprLoopExit s t1 h1 h2 =>
    intro hc l hp hnd
    exact ⟨[], l, t1, rfl, rfl, Derives.exprEnd t1, pending_pushback s l hp⟩
  | exprLoopStep s s2 s3 t1 t2 res h1 hr1 hr2 ih1 ih2 =>
    intro hc l hp hnd
    have hc2 := runs_flag_clear hr2 hc
    obtain ⟨rem0, e0, hp0⟩ := pending_pop s l hp
      (by rcases h1 with h | h <;> rw [h] <;> decide)
    have hnd0 : ∀ t ∈ rem0, t.tt ≠ TokenType.T_DONE :=
      fun t ht => hnd t (by rw [e0]; exact List.mem_cons_of_mem _ ht)
    obtain ⟨ts1, rem1, tree1, e1, e2, hd1, hp1⟩ := ih1 hc2 rem0 hp0 hnd0
    cases e1
    have hnd1 : ∀ t ∈ rem1, t.tt ≠ TokenType.T_DONE :=
      fun t ht => hnd0 t (by rw [e2]; exact List.mem_append_right _ ht)
    obtain ⟨ts2, rem2, tree2, e3, e4, hd2, hp2⟩ := ih2 hc rem1 hp1 hnd1
    refine ⟨s.getToken.1 :: (ts1 ++ ts2), rem2, tree2, e3, ?_,
      Derives.exprMore _ ts1 ts2 t1 _ tree2 h1 hd1 hd2, hp2⟩
    rw [e0, e2, e4]
    simp
  | exprLoopFail s s2 t1 h1 hr ih => intro hc; simp [syntaxError_flag] at hc
  | expr s s1 s2 t1 res hr1 hr2 ih1 ih2 =>
    intro hc l hp hnd
    have hc1 := runs_flag_clear hr2 hc
    obtain ⟨ts1, rem1, tree1, e1, e2, hd1, hp1⟩ := ih1 hc1 l hp hnd
    cases e1
    have hnd1 : ∀ t ∈ rem1, t.tt ≠ TokenType.T_DONE :=
      fun t ht => hnd t (by rw [e2]; exact List.mem_append_right _ ht)
    obtain ⟨ts2, rem2, tree2, e3, e4, hd2, hp2⟩ := ih2 hc rem1 hp1 hnd1
    refine ⟨ts1 ++ ts2, rem2, tree2, e3, ?_, Derives.expr ts1 ts2 _ tree2 hd1 hd2, hp2⟩
    rw [e2, e4]
    simp
  | exprNull s s1 hr ih =>
    intro hc l hp hnd
    obtain ⟨_, _, _, e1, _⟩ := ih hc l hp hnd
    cases e1
  | decl s h1 =>
    intro hc l hp hnd hk
    rw [← pending_kind s l hp] at hk
    obtain ⟨rem0, e0, hp0⟩ := pending_pop s l hp
      (by rcases hk with h | h <;> rw [h] <;> decide)
    obtain ⟨rem1, e1, hp1⟩ := pending_pop _ rem0 hp0 (by rw [h1]; decide)
    exact ⟨[s.getToken.1, s.getToken.2.getToken.1], rem1, _, rfl, by rw [e0, e1]; rfl,
      DerivesStmt.decl _ _ hk h1, hp1⟩
  | declFail s h1 => intro hc; simp [syntaxError_flag] at hc
  | set s s3 e h1 hr ih =>
    intro hc l hp hnd hk
    rw [← pending_kind s l hp] at hk
    obtain ⟨rem0, e0, hp0⟩ := pending_pop s l hp (by rw [hk]; decide)
    obtain ⟨rem1, e1, hp1⟩ := pending_pop _ rem0 hp0 (by rw [h1]; decide)
    have hnd1 : ∀ t ∈ rem1, t.tt ≠ TokenType.T_DONE :=
      fun t ht => hnd t (by
        rw [e0, e1]
        exact List.mem_cons_of_mem _ (List.mem_cons_of_mem _ ht))
    obtain ⟨ts, rem2, tree, e2, e3, hd, hp2⟩ := ih hc rem1 hp1 hnd1
    cases e2
    refine ⟨s.getToken.1 :: s.getToken.2.getToken.1 :: ts, rem2, _, rfl, ?_,
      DerivesStmt.set _ _ ts _ hk h1 hd, hp2⟩
    rw [e0, e1, e3]
    rfl
  | setNoExpr s s3 h1 hr ih => intro hc; simp [syntaxError_flag] at hc
  | setNoIdentifier s h1 => intro hc; simp [syntaxError_flag] at hc
  | print s s2 e hr ih =>
    intro hc l hp hnd hk
    rw [← pending_kind s l hp] at hk
    obtain ⟨rem0, e0, hp0⟩ := pending_pop s l hp
      (by rcases hk with h | h <;> rw [h] <;> decide)
    have hnd0 : ∀ t ∈ rem0, t.tt ≠ TokenType.T_DONE :=
      fun t ht => hnd t (by rw [e0]; exact List.mem_cons_of_mem _ ht)
    obtain ⟨ts, rem2, tree, e2, e3, hd, hp2⟩ := ih hc rem0 hp0 hnd0
    cases e2
    refine ⟨s.getToken.1 :: ts, rem2, _, rfl, ?_, DerivesStmt.print _ ts _ hk hd, hp2⟩
    rw [e0, e3]
    rfl
  | printNoExpr s s2 hr ih => intro hc; simp [syntaxError_flag] at hc
  | stmtDecl s s2 res h1 hr ih =>
    intro hc l hp hnd
    right
    exact ih hc l (pending_pushback s l hp) hnd (by rw [← pending_kind s l hp]; exact h1)
  | stmtSet s s2 res h1 hr ih =>
    intro hc l hp hnd
    right
    exact ih hc l (pending_pushback s l hp) hnd (by rw [← pending_kind s l hp]; exact h1)
  | stmtPrint s s2 res h1 hr ih =>
    intro hc l hp hnd
    right
    exact ih hc l (pending_pushback s l hp) hnd (by rw [← pending_kind s l hp]; exact h1)
  | stmtDone s h1 =>
    intro hc l hp hnd
    left
    have hl : l = [] := by
      cases l with
      | nil => rfl
      | cons t rem =>
        exfalso
        apply hnd t (List.mem_cons_self _ _)
        rw [← (pending_cons s t rem hp).1]
        exact h1
    subst hl
    exact ⟨rfl, rfl, pending_pushback s [] hp⟩
  | stmtExpected s h1 h2 h3 h4 h5 h6 => intro hc; simp [syntaxError_flag] at hc
  | listEnd s s1 hr ih =>
    intro hc l hp hnd
    rcases ih hc l hp hnd with ⟨_, hl, hp1⟩ | ⟨_, _, _, e1, _⟩
    · subst hl
      exact ⟨DerivesStmtList.nil, hp1⟩
    · cases e1
  | listNoSemicolon s s1 stmt hr h1 ih => intro hc; simp [syntaxError_flag] at hc
  | listCons s s1 s3 stmt rest hr1 h1 hr2 ih1 ih2 =>
    intro hc l hp hnd
    have hc2 := runs_flag_clear hr2 hc
    have hc1 : s1.hasParseErrors = false := by rw [← getToken_flag]; exact hc2
    rcases ih1 hc1 l hp hnd with ⟨e1, _⟩ | ⟨ts, rem1, tree, e1, e2, hd, hp1⟩
    · cases e1
    · cases e1
      obtain ⟨rem2, e3, hp2⟩ := pending_pop s1 rem1 hp1 (by rw [h1]; decide)
      have hnd2 : ∀ t ∈ rem2, t.tt ≠ TokenType.T_DONE :=
        fun t ht => hnd t (by
          rw [e2, e3]
          exact List.mem_append_right _ (List.mem_cons_of_mem _ ht))
      obtain ⟨hd2, hp3⟩ := ih2 hc rem2 hp2 hnd2
      refine ⟨?_, hp3⟩
      rw [e2, e3]
      exact DerivesStmtList.cons ts rem2 _ _ rest hd h1 hd2

theorem kinds_cons (t : Token) (ts : List Token) : kinds (t :: ts) = t.tt :: kinds ts := rfl

theorem kinds_append (ts1 ts2 : List Token) : kinds (ts1 ++ ts2) = kinds ts1 ++ kinds ts2 := by
  simp [kinds]

theorem kinds_cons_inv (ts : List Token) (k : TokenType) (ks : List TokenType)
    (h : kinds ts = k :: ks) : ∃ t rest, ts = t :: rest ∧ t.tt = k ∧ kinds rest = ks := by
  cases ts with
  | nil => simp [kinds] at h
  | cons t rest =>
    simp only [kinds, List.map_cons, List.cons.injEq] at h
    exact ⟨t, rest, rfl, h.1, h.2⟩

theorem kinds_nil_inv (ts : List Token) (h : kinds ts = []) : ts = [] := by
  cases ts with
  | nil => rfl
  | cons t rest => simp [kinds] at h

theorem kinds_append_inv (ts : List Token) (ks1 ks2 : List TokenType)
    (h : kinds ts = ks1 ++ ks2) :
    ∃ ts1 ts2, ts = ts1 ++ ts2 ∧ kinds ts1 = ks1 ∧ kinds ts2 = ks2 := by
  induction ks1 generalizing ts with
  | nil => exact ⟨[], ts, rfl, rfl, h⟩
  | cons k ks ih =>
    obtain ⟨t, rest, e, hk, hr⟩ := kinds_cons_inv ts k (ks ++ ks2) h
    obtain ⟨ts1, ts2, e1, h1, h2⟩ := ih rest hr
    exact ⟨t :: ts1, ts2, by rw [e, e1]; rfl, by rw [kinds_cons, hk, h1], h2⟩

/-- The kinds of the tokens of a derivation with a tree are derived in the
grammar on token kinds. -/
theorem derives_grammar {nt : NT} {ts : List Token} {tree : ParseTree}
    (h : Derives nt ts tree) : Grammar nt.knt (kinds ts) := by
  induction h with
  | iconst t v h1 h2 =>
    simp only [kinds, List.map_cons, List.map_nil, h1]
    exact Grammar.iconst
  | sconst t h1 h2 =>
    simp only [kinds, List.map_cons, List.map_nil, h1]
    exact Grammar.sconst
  | ident t h1 =>
    simp only [kinds, List.map_cons, List.map_nil, h1]
    exact Grammar.ident
  | paren l r ts e hl hr hd ih =>
    have e1 : kinds (l :: (ts ++ [r]))
        = TokenType.T_LPAREN :: (kinds ts ++ [TokenType.T_RPAREN]) := by
      simp [kinds, hl, hr]
    rw [e1]
    exact Grammar.paren _ ih
  | term ts1 ts2 t1 t hd1 hd2 ih1 ih2 =>
    rw [kinds_append]
    exact Grammar.term _ _ ih1 ih2
  | termEnd acc => exact Grammar.termEnd
  | termMore op ts1 ts2 acc t2 t hop hd1 hd2 ih1 ih2 =>
    rw [kinds_cons, kinds_append]
    exact Grammar.termMore _ _ _ hop ih1 ih2
  | expr ts1 ts2 t1 t hd1 hd2 ih1 ih2 =>
    rw [kinds_append]
    exact Grammar.expr _ _ ih1 ih2
  | exprEnd acc => exact Grammar.exprEnd
  | exprMore op ts1 ts2 acc t2 t hop hd1 hd2 ih1 ih2 =>
    rw [kinds_cons, kinds_append]
    exact Grammar.exprMore _ _ _ hop ih1 ih2

theorem derivesStmt_grammar {ts : List Token} {tree : ParseTree}
    (h : DerivesStmt ts tree) : Grammar KNT.stmt (kinds ts) := by
  cases h with
  | decl k id hk hid =>
    have e1 : kinds [k, id] = [k.tt, TokenType.T_ID] := by simp [kinds, hid]
    rw [e1]
    exact Grammar.decl _ hk
  | set k id ts e hk hid hd =>
    have e1 : kinds (k :: id :: ts) = TokenType.T_SET :: TokenType.T_ID :: kinds ts := by
      simp [kinds, hk, hid]
    rw [e1]
    exact Grammar.set _ (derives_grammar hd)
  | print k ts e hk hd =>
    rw [kinds_cons]
    exact Grammar.print _ _ hk (derives_grammar hd)

theorem derivesStmtList_grammar {ts : List Token} {r : Option ParseTree}
    (h : DerivesStmtList ts r) : Grammar KNT.stmtList (kinds ts) := by
  induction h with
  | nil => exact Grammar.listEnd
  | cons ts rest sc stmt r hd hsc hl ih =>
    rw [kinds_append, kinds_cons, hsc]
    exact Grammar.listMore _ _ (derivesStmt_grammar hd) ih

/-- Tokens whose kinds are derived in the grammar, and whose constants have
a node, have a derivation with a tree. -/
theorem grammar_realises {k : KNT} {ks : List TokenType} (h : Grammar k ks) :
    ∀ (ts : List Token), kinds ts = ks → (∀ t ∈ ts, tokenOK t) → Realises k ts := by
  induction h with
  | iconst =>
    intro ts hk hok
    obtain ⟨t, rest, e, ht, hr⟩ := kinds_cons_inv ts _ _ hk
    have hn := kinds_nil_inv rest hr
    subst hn
    subst e
    have hs := (hok t (List.mem_cons_self _ _)).1 ht
    obtain ⟨v, hv⟩ := Option.isSome_iff_exists.mp hs
    exact ⟨_, Derives.iconst t v ht hv⟩
  | sconst =>
    intro ts hk hok
    obtain ⟨t, rest, e, ht, hr⟩ := kinds_cons_inv ts _ _ hk
    have hn := kinds_nil_inv rest hr
    subst hn
    subst e
    exact ⟨_, Derives.sconst t ht ((hok t (List.mem_cons_self _ _)).2 ht)⟩
  | ident =>
    intro ts hk hok
    obtain ⟨t, rest, e, ht, hr⟩ := kinds_cons_inv ts _ _ hk
    have hn := kinds_nil_inv rest hr
    subst hn
    subst e
    exact ⟨_, Derives.ident t ht⟩
  | paren ks hg ih =>
    intro ts hk hok
    obtain ⟨l, rest, e, hl, hr⟩ := kinds_cons_inv ts _ _ hk
    obtain ⟨ts1, ts2, e1, h1, h2⟩ := kinds_append_inv rest _ _ hr
    obtain ⟨r, rest2, e2, hr2, hr3⟩ := kinds_cons_inv ts2 _ _ h2
    have hn := kinds_nil_inv rest2 hr3
    subst hn
    subst e2
    subst e1
    subst e
    obtain ⟨tree, hd⟩ := ih ts1 h1 (fun t ht => hok t (by simp [ht]))
    exact ⟨tree, Derives.paren l r ts1 tree hl hr2 hd⟩
  | term ks1 ks2 hg1 hg2 ih1 ih2 =>
    intro ts hk hok
    obtain ⟨ts1, ts2, e1, h1, h2⟩ := kinds_append_inv ts _ _ hk
    subst e1
    obtain ⟨t1, hd1⟩ := ih1 ts1 h1 (fun t ht => hok t (by simp [ht]))
    obtain ⟨t, hd2⟩ := ih2 ts2 h2 (fun t ht => hok t (by simp [ht])) t1
    exact ⟨t, Derives.term ts1 ts2 t1 t hd1 hd2⟩
  | termEnd =>
    intro ts hk hok acc
    have hn := kinds_nil_inv ts hk
    subst hn
    exact ⟨acc, Derives.termEnd acc⟩
  | termMore op ks1 ks2 hop hg1 hg2 ih1 ih2 =>
    intro ts hk hok acc
    obtain ⟨o, rest, e, ho, hr⟩ := kinds_cons_inv ts _ _ hk
    obtain ⟨ts1, ts2, e1, h1, h2⟩ := kinds_append_inv rest _ _ hr
    subst e1
    subst e
    obtain ⟨t2, hd1⟩ := ih1 ts1 h1 (fun t ht => hok t (by simp [ht]))
    obtain ⟨t, hd2⟩ := ih2 ts2 h2 (fun t ht => hok t (by simp [ht])) (binaryNode o acc t2)
    exact ⟨t, Derives.termMore o ts1 ts2 acc t2 t (by rw [ho]; exact hop) hd1 hd2⟩
  | expr ks1 ks2 hg1 hg2 ih1 ih2 =>
    intro ts hk hok
    obtain ⟨ts1, ts2, e1, h1, h2⟩ := kinds_append_inv ts _ _ hk
    subst e1
    obtain ⟨t1, hd1⟩ := ih1 ts1 h1 (fun t ht => hok t (by simp [ht]))
    obtain ⟨t, hd2⟩ := ih2 ts2 h2 (fun t ht => hok t (by simp [ht])) t1
    exact ⟨t, Derives.expr ts1 ts2 t1 t hd1 hd2⟩
  | exprEnd =>
    intro ts hk hok acc
    have hn := kinds_nil_inv ts hk
    subst hn
    exact ⟨acc, Derives.exprEnd acc⟩
  | exprMore op ks1 ks2 hop hg1 hg2 ih1 ih2 =>
    intro ts hk hok acc
    obtain ⟨o, rest, e, ho, hr⟩ := kinds_cons_inv ts _ _ hk
    obtain ⟨ts1, ts2, e1, h1, h2⟩ := kinds_append_inv rest _ _ hr
    subst e1
    subst e
    obtain ⟨t2, hd1⟩ := ih1 ts1 h1 (fun t ht => hok t (by simp [ht]))
    obtain ⟨t, hd2⟩ := ih2 ts2 h2 (fun t ht => hok t (by simp [ht])) (binaryNode o acc t2)
    exact ⟨t, Derives.exprMore o ts1 ts2 acc t2 t (by rw [ho]; exact hop) hd1 hd2⟩
  | decl k hk0 =>
    intro ts hk hok
    obtain ⟨t, rest, e, ht, hr⟩ := kinds_cons_inv ts _ _ hk
    obtain ⟨id, rest2, e2, hid, hr2⟩ := kinds_cons_inv rest _ _ hr
    have hn := kinds_nil_inv rest2 hr2
    subst hn
    subst e2
    subst e
    exact ⟨_, DerivesStmt.decl t id (by rw [ht]; exact hk0) hid⟩
  | set ks hg ih =>
    intro ts hk hok
    obtain ⟨t, rest, e, ht, hr⟩ := kinds_cons_inv ts _ _ hk
    obtain ⟨id, rest2, e2, hid, hr2⟩ := kinds_cons_inv rest _ _ hr
    subst e2
    subst e
    obtain ⟨tree, hd⟩ := ih rest2 hr2 (fun t ht => hok t (by simp [ht]))
    exact ⟨_, DerivesStmt.set t id rest2 tree ht hid hd⟩
  | print k ks hk0 hg ih =>
    intro ts hk hok
    obtain ⟨t, rest, e, ht, hr⟩ := kinds_cons_inv ts _ _ hk
    subst e
    obtain ⟨tree, hd⟩ := ih rest hr (fun t ht => hok t (by simp [ht]))
    exact ⟨_, DerivesStmt.print t rest tree (by rw [ht]; exact hk0) hd⟩
  | listEnd =>
    intro ts hk hok
    have hn := kinds_nil_inv ts hk
    subst hn
    exact ⟨none, DerivesStmtList.nil⟩
  | listMore ks rest hg1 hg2 ih1 ih2 =>
    intro ts hk hok
    obtain ⟨ts1, ts2, e1, h1, h2⟩ := kinds_append_inv ts _ _ hk
    obtain ⟨sc, rest2, e2, hsc, hr2⟩ := kinds_cons_inv ts2 _ _ h2
    subst e2
    subst e1
    obtain ⟨stmt, hd1⟩ := ih1 ts1 h1 (fun t ht => hok t (by simp [ht]))
    obtain ⟨r, hd2⟩ := ih2 rest2 hr2 (fun t ht => hok t (by simp [ht]))
    exact ⟨_, DerivesStmtList.cons ts1 rest2 sc stmt r hd1 hsc hd2⟩

/-- No sequence of the grammar holds the kind of an error token or of the
end marker. -/
theorem grammar_kinds {k : KNT} {ks : List TokenType} (h : Grammar k ks) :
    TokenType.T_ERROR ∉ ks ∧ TokenType.T_DONE ∉ ks := by
  induction h with
  | termMore op ks1 ks2 hop hg1 hg2 ih1 ih2 => rcases hop with h | h <;> simp_all
  | exprMore op ks1 ks2 hop hg1 hg2 ih1 ih2 => rcases hop with h | h <;> simp_all
  | decl k hk => rcases hk with h | h <;> simp_all
  | print k ks hk hg ih => rcases hk with h | h <;> simp_all
  | _ => simp_all

/-- When a statement and its semicolon are pending, `Stmt` returns the tree of
the statement and the semicolon is read next. -/
theorem runs_stmt_ahead {s s1 : ParserState} {res : Option ParseTree}
    (h : Runs Fn.stmt s res s1) (ts rest : List Token) (sc : Token) (stmt : ParseTree)
    (hp : Pending s (ts ++ sc :: rest)) (hd : DerivesStmt ts stmt)
    (hsc : sc.tt = TokenType.T_SC) :
    res = some stmt ∧ s1.getToken.1.tt = TokenType.T_SC := by
  obtain ⟨s2, hrun, hp2, _⟩ := derivesStmt_runs hd s (sc :: rest) hp
    (by simp [NT.follow, nextKind, hsc])
  obtain ⟨e1, e2⟩ := runs_det h _ _ hrun
  subst e2
  exact ⟨e1, by rw [(pending_cons _ _ _ hp2).1]; exact hsc⟩

/-- `Stmt` returns the null pointer without a message exactly at the end of
the input. -/
theorem runs_stmt_null {f : Fn} {s s1 : ParserState} {res : Option ParseTree}
    (h : Runs f s res s1) :
    f = Fn.stmt → s.hasParseErrors = false →
      (res = none → (s1.hasParseErrors = true ↔ s.getToken.1.tt ≠ TokenType.T_DONE))
      ∧ (res ≠ none → s.getToken.1.tt ≠ TokenType.T_DONE) := by
  induction h with
  | stmtDecl s s2 res h1 hr ih =>
    intro _ hc
    have hc2 : (s.getToken.2.pushbackToken s.getToken.1).hasParseErrors = false := by
      rw [pushback_flag, getToken_flag]; exact hc
    have hk : s.getToken.1.tt ≠ TokenType.T_DONE := by
      rcases h1 with h1 | h1 <;> rw [h1] <;> decide
    refine ⟨fun hn => ?_, fun _ => hk⟩
    have := (runs_null hr hc2).2 (by intro h; cases h) (by intro h; cases h) hn
    simp [this, hk]
  | stmtSet s s2 res h1 hr ih =>
    intro _ hc
    have hc2 : (s.getToken.2.pushbackToken s.getToken.1).hasParseErrors = false := by
      rw [pushback_flag, getToken_flag]; exact hc
    have hk : s.getToken.1.tt ≠ TokenType.T_DONE := by
      rw [h1]; decide
    refine ⟨fun hn => ?_, fun _ => hk⟩
    have := (runs_null hr hc2).2 (by intro h; cases h) (by intro h; cases h) hn
    simp [this, hk]
  | stmtPrint s s2 res h1 hr ih =>
    intro _ hc
    have hc2 : (s.getToken.2.pushbackToken s.getToken.1).hasParseErrors = false := by
      rw [pushback_flag, getToken_flag]; exact hc
    have hk : s.getToken.1.tt ≠ TokenType.T_DONE := by
      rcases h1 with h1 | h1 <;> rw [h1] <;> decide
    refine ⟨fun hn => ?_, fun _ => hk⟩
    have := (runs_null hr hc2).2 (by intro h; cases h) (by intro h; cases h) hn
    simp [this, hk]
  | stmtDone s h1 =>
    intro _ hc
    refine ⟨fun _ => ?_, fun hn => absurd rfl hn⟩
    rw [pushback_flag, getToken_flag, hc]
    simp [h1]
  | stmtExpected s h1 h2 h3 h4 h5 h6 =>
    intro _ _
    refine ⟨fun _ => ?_, fun hn => absurd rfl hn⟩
    simp [syntaxError_flag, h6]
  | _ => intro hf; cases hf

/-- The tree that `StmtList` returns is the tree of the statements, each with
its semicolon, at the front of the pending tokens, up to the place where no
statement with its semicolon follows; it is the null pointer when there is no
such statement, and the parse-error flag is set exactly when tokens are left
after them. -/
theorem runs_list_front {f : Fn} {s s1 : ParserState} {res : Option ParseTree}
    (h : Runs f s res s1) :
    f = Fn.stmtList → s.hasParseErrors = false → ∀ (l : List Token), Pending s l →
      (∀ t ∈ l, t.tt ≠ TokenType.T_DONE) →
      ∃ front back, l = front ++ back ∧ DerivesStmtList front res
        ∧ ¬ StatementAhead back
        ∧ (res = none ↔ front = [])
        ∧ (s1.hasParseErrors = true ↔ back ≠ []) := by
  induction h with
  | listEnd s s1 hr ih =>
    intro _ hc l hp hnd
    refine ⟨[], l, rfl, DerivesStmtList.nil, ?_, by simp, ?_⟩
    · rintro ⟨ts, sc, rest, stmt, e, hd, hsc⟩
      subst e
      have := (runs_stmt_ahead hr ts rest sc stmt hp hd hsc).1
      cases this
    · rw [(runs_stmt_null hr rfl hc).1 rfl]
      cases l with
      | nil =>
        rw [(pending_nil s hp).1]
        simp [ParserState.doneToken]
      | cons t rem =>
        rw [(pending_cons s t rem hp).1]
        simpa using hnd t (List.mem_cons_self _ _)
  | listNoSemicolon s s1 stmt hr h1 ih =>
    intro _ hc l hp hnd
    refine ⟨[], l, rfl, DerivesStmtList.nil, ?_, by simp, ?_⟩
    · rintro ⟨ts, sc, rest, stmt2, e, hd, hsc⟩
      subst e
      exact h1 (runs_stmt_ahead hr ts rest sc stmt2 hp hd hsc).2
    · have hk := (runs_stmt_null hr rfl hc).2 (by simp)
      have hl : l ≠ [] := by
        intro e
        subst e
        apply hk
        rw [(pending_nil s hp).1]
        rfl
      simp [syntaxError_flag, hl]
  | listCons s s1 s3 stmt rest hr1 h1 hr2 ih1 ih2 =>
    intro _ hc l hp hnd
    have hc1 : s1.hasParseErrors = false := by
      cases hs : s1.hasParseErrors with
      | false => rfl
      | true =>
        have := (runs_null hr1 hc).1 (by intro h; cases h) hs
        cases this
    rcases runs_sound hr1 hc1 l hp hnd with ⟨e1, _⟩ | ⟨ts, rem1, tree, e1, e2, hd, hp1⟩
    · cases e1
    · cases e1
      obtain ⟨rem2, e3, hp2⟩ := pending_pop s1 rem1 hp1 (by rw [h1]; decide)
      have hnd2 : ∀ t ∈ rem2, t.tt ≠ TokenType.T_DONE :=
        fun t ht => hnd t (by
          rw [e2, e3]
          exact List.mem_append_right _ (List.mem_cons_of_mem _ ht))
      obtain ⟨front, back, e4, hd2, hna, _, hflag⟩ :=
        ih2 rfl (by rw [getToken_flag]; exact hc1) rem2 hp2 hnd2
      refine ⟨ts ++ s1.getToken.1 :: front, back, ?_,
        DerivesStmtList.cons ts front _ _ rest hd h1 hd2, hna, by simp, hflag⟩
      rw [e2, e3, e4]
      simp
  | _ => intro hf; cases hf

/-- `Prog` returns on every token sequence whose constants have a node; it
writes syntax error messages and nothing else, and it leaves the parse-error
flag clear exactly when the kinds of the tokens are derived in the grammar. -/
theorem prog_total (toks : List Token) (eofLine : Int) (g : Globals)
    (hnd : ∀ t ∈ toks, t.tt ≠ TokenType.T_DONE) (hok : ∀ t ∈ toks, tokenOK t)
    (fuel : Nat) (hf : 8 * toks.length + 4 ≤ fuel) :
    ∃ tree s1 msgs,
      Prog fuel (ParserState.initial toks eofLine g) = Parsed.returned tree s1
      ∧ Runs Fn.stmtList (ParserState.initial toks eofLine g) tree s1
      ∧ Emits (ParserState.initial toks eofLine g) s1 msgs
      ∧ (s1.hasParseErrors = false ↔ Grammar KNT.stmtList (kinds toks)) := by
  have hneed : Fn.need Fn.stmtList (ParserState.initial toks eofLine g).mu ≤ fuel := by
    rw [mu_initial]
    simp only [Fn.need]
    omega
  obtain ⟨tree, s1, hcall, hrun⟩ := call_returns Fn.stmtList fuel _ hneed
    (parseable_initial toks eofLine g hok)
  obtain ⟨msgs, hem⟩ := runs_emits hrun
  refine ⟨tree, s1, msgs, hcall, hrun, hem, ?_, ?_⟩
  · intro hc
    exact derivesStmtList_grammar
      (runs_sound hrun hc toks (pending_initial toks eofLine g) hnd).1
  · intro hg
    obtain ⟨r, hd⟩ := grammar_realises hg toks rfl hok
    obtain ⟨s2, hrun2, _, hq⟩ := derivesStmtList_runs hd _ (pending_initial toks eofLine g)
    obtain ⟨_, e2⟩ := runs_det hrun r s2 hrun2
    rw [e2, hq.2.2]
    rfl

theorem grammar_list_semicolon {k : KNT} {ks : List TokenType} (h : Grammar k ks) :
    k = KNT.stmtList → ks = [] ∨ TokenType.T_SC ∈ ks := by
  intro hk
  cases h with
  | listEnd => exact Or.inl rfl
  | listMore ks rest hg1 hg2 => exact Or.inr (by simp)
  | _ => cases hk

theorem chain_exprTail (rest : List (Token × List Token × ParseTree)) :
    (∀ r ∈ rest, (r.1.tt = TokenType.T_PLUS ∨ r.1.tt = TokenType.T_MINUS)
      ∧ Derives NT.term r.2.1 r.2.2) →
    ∀ acc, Derives (NT.exprTail acc) (chainTokens rest) (leftFold acc rest) := by
  induction rest with
  | nil => intro _ acc; exact Derives.exprEnd acc
  | cons r rest ih =>
    intro h acc
    have hr := h r (List.mem_cons_self _ _)
    exact Derives.exprMore r.1 r.2.1 (chainTokens rest) acc r.2.2 _ hr.1 hr.2
      (ih (fun x hx => h x (List.mem_cons_of_mem _ hx)) (binaryNode r.1 acc r.2.2))

theorem chain_termTail (rest : List (Token × List Token × ParseTree)) :
    (∀ r ∈ rest, (r.1.tt = TokenType.T_STAR ∨ r.1.tt = TokenType.T_SLASH)
      ∧ Derives NT.primary r.2.1 r.2.2) →
    ∀ acc, Derives (NT.termTail acc) (chainTokens rest) (leftFold acc rest) := by
  induction rest with
  | nil => intro _ acc; exact Derives.termEnd acc
  | cons r rest ih =>
    intro h acc
    have hr := h r (List.mem_cons_self _ _)
    exact Derives.termMore r.1 r.2.1 (chainTokens rest) acc r.2.2 _ hr.1 hr.2
      (ih (fun x hx => h x (List.mem_cons_of_mem _ hx)) (binaryNode r.1 acc r.2.2))

/-- The tokens of a derivation are read by the parsing function within the
fuel of its measure: it returns the tree of the derivation. -/
theorem derives_call {nt : NT} {ts : List Token} {tree : ParseTree}
    (h : Derives nt ts tree) (s : ParserState) (rem : List Token)
    (hp : Pending s (ts ++ rem)) (hfo : nt.follow (nextKind rem))
    (fuel : Nat) (hf : nt.fn.need s.mu ≤ fuel) :
    ∃ s1, nt.fn.call fuel s = Parsed.returned (some tree) s1 ∧ Pending s1 rem
      ∧ Quiet s s1 := by
  obtain ⟨s1, hrun, hp1, hq⟩ := derives_runs h s rem hp hfo
  exact ⟨s1, (runs_call hrun).2 fuel hf, hp1, hq⟩

/-- C16, counterexample: the tokens of `print 99999999999 )` are not derived
from `Prog` in the grammar, yet the parse-error flag stays clear: the
constructor of the integer constant calls `stoi`, which throws
`std::out_of_range`, and the exception leaves `Prog` before any syntax error
is reported. -/
theorem stoi_exception_leaves_flag_clear :
    ¬ Grammar KNT.stmtList (kinds tokensPrintHuge)
    ∧ ∀ fuel, ∃ s1,
        Prog (fuel + 6) (ParserState.initial tokensPrintHuge 0 (Globals.initial none))
          = Parsed.thrown s1
        ∧ s1.hasParseErrors = false ∧ s1.g.cout = "" := by
  refine ⟨?_, fun fuel => ⟨_, rfl, rfl, rfl⟩⟩
  intro hg
  rcases grammar_list_semicolon hg rfl with h | h
  · exact absurd h (by decide)
  · exact absurd h (by decide)

/-- C16 (amended): for every token sequence before the end marker whose
integer constants are accepted by `stoi` and whose string constants have a
lexeme that is not empty, `Prog` returns, and it leaves the parse-error flag
clear if and only if the kinds of the tokens are derived from `StmtList` in
the grammar; in particular a sequence with an error token sets the flag. -/
theorem prog_flag_iff_grammar (toks : List Token) (eofLine : Int) (g : Globals)
    (hnd : ∀ t ∈ toks, t.tt ≠ TokenType.T_DONE) (hok : ∀ t ∈ toks, tokenOK t)
    (fuel : Nat) (hf : 8 * toks.length + 4 ≤ fuel) :
    ∃ tree s1,
      Prog fuel (ParserState.initial toks eofLine g) = Parsed.returned tree s1
      ∧ (s1.hasParseErrors = false ↔ Grammar KNT.stmtList (kinds toks))
      ∧ (TokenType.T_ERROR ∈ kinds toks → s1.hasParseErrors = true) := by
  obtain ⟨tree, s1, msgs, hcall, _, _, hiff⟩ := prog_total toks eofLine g hnd hok fuel hf
  refine ⟨tree, s1, hcall, hiff, fun he => ?_⟩
  cases hs : s1.hasParseErrors with
  | true => rfl
  | false => exact absurd he (grammar_kinds (hiff.1 hs)).1

theorem prog_flag_iff_grammar_witness :
    ∃ tree s1,
      Prog 44 (ParserState.initial tokensPrintSum 0 (Globals.initial none))
        = Parsed.returned tree s1
      ∧ (s1.hasParseErrors = false ↔ Grammar KNT.stmtList (kinds tokensPrintSum))
      ∧ (TokenType.T_ERROR ∈ kinds tokensPrintSum → s1.hasParseErrors = true) :=
  prog_flag_iff_grammar tokensPrintSum 0 (Globals.initial none) (by decide) (by decide) 44
    (by decide)

/-- C17: when the pending tokens are a chain `p0 op1 p1 ... opn pn` whose
operators are all `+` or `-` and whose operands are each the tokens of a
`Term`, `Expr` returns the left fold of the operand trees; when the operators
are all `*` or `/` and the operands are each the tokens of a `Primary`, `Term`
returns the left fold. An operand of `Expr` is the whole tree of a `Term`, so
a chain of `*` and `/` is one operand subtree of the enclosing `+` or `-`
node. -/
theorem expr_term_left_fold (s : ParserState) (first : List Token) (p0 : ParseTree)
    (rest : List (Token × List Token × ParseTree)) (rem : List Token) (fuel : Nat)
    (hp : Pending s ((first ++ chainTokens rest) ++ rem)) (hf : 4 * s.mu + 3 ≤ fuel) :
    (Derives NT.term first p0 →
      (∀ r ∈ rest, (r.1.tt = TokenType.T_PLUS ∨ r.1.tt = TokenType.T_MINUS)
        ∧ Derives NT.term r.2.1 r.2.2) →
      NT.follow NT.expr (nextKind rem) →
      ∃ s1, Expr fuel s = Parsed.returned (some (leftFold p0 rest)) s1 ∧ Pending s1 rem
        ∧ Quiet s s1)
    ∧ (Derives NT.primary first p0 →
      (∀ r ∈ rest, (r.1.tt = TokenType.T_STAR ∨ r.1.tt = TokenType.T_SLASH)
        ∧ Derives NT.primary r.2.1 r.2.2) →
      NT.follow NT.term (nextKind rem) →
      ∃ s1, Term fuel s = Parsed.returned (some (leftFold p0 rest)) s1 ∧ Pending s1 rem
        ∧ Quiet s s1) := by
  constructor
  · intro h0 hrest hfo
    exact derives_call (Derives.expr first (chainTokens rest) p0 _ h0
      (chain_exprTail rest hrest p0)) s rem hp hfo fuel hf
  · intro h0 hrest hfo
    exact derives_call (Derives.term first (chainTokens rest) p0 _ h0
      (chain_termTail rest hrest p0)) s rem hp hfo fuel (by simp only [NT.fn, Fn.need]; omega)

theorem expr_term_left_fold_witness :
    (∃ s1, Expr 43 (ParserState.initial tokensSubSub 0 (Globals.initial none))
        = Parsed.returned (some (ParseTree.Subtraction 0
            (ParseTree.Subtraction 0 (idNode "a") (idNode "b")) (idNode "c"))) s1
      ∧ Pending s1 [] ∧ Quiet (ParserState.initial tokensSubSub 0 (Globals.initial none)) s1)
    ∧ (∃ s1, Expr 43 (ParserState.initial tokensAddMul 0 (Globals.initial none))
        = Parsed.returned (some (ParseTree.Addition 0 (idNode "a")
            (ParseTree.Multiplication 0 (idNode "b") (idNode "c")))) s1
      ∧ Pending s1 [] ∧ Quiet (ParserState.initial tokensAddMul 0 (Globals.initial none)) s1) :=
  ⟨(expr_term_left_fold (ParserState.initial tokensSubSub 0 (Globals.initial none))
      [idToken "a"] (idNode "a")
      [(⟨TokenType.T_MINUS, "-", 0⟩, [idToken "b"], idNode "b"),
       (⟨TokenType.T_MINUS, "-", 0⟩, [idToken "c"], idNode "c")] [] 43
      (pending_initial tokensSubSub 0 (Globals.initial none)) (by decide)).1
      (Derives.term [idToken "a"] [] _ _ (Derives.ident (idToken "a") rfl)
        (Derives.termEnd _))
      (by
        intro r hr
        simp only [List.mem_cons, List.mem_singleton, List.not_mem_nil, or_false] at hr
        rcases hr with rfl | rfl
        · exact ⟨Or.inr rfl, Derives.term [idToken "b"] [] _ _
            (Derives.ident (idToken "b") rfl) (Derives.termEnd _)⟩
        · exact ⟨Or.inr rfl, Derives.term [idToken "c"] [] _ _
            (Derives.ident (idToken "c") rfl) (Derives.termEnd _)⟩)
      (by simp [NT.follow, nextKind]),
   (expr_term_left_fold (ParserState.initial tokensAddMul 0 (Globals.initial none))
      [idToken "a"] (idNode "a")
      [(⟨TokenType.T_PLUS, "+", 0⟩,
        [idToken "b", ⟨TokenType.T_STAR, "*", 0⟩, idToken "c"],
        ParseTree.Multiplication 0 (idNode "b") (idNode "c"))] [] 43
      (pending_initial tokensAddMul 0 (Globals.initial none)) (by decide)).1
      (Derives.term [idToken "a"] [] _ _ (Derives.ident (idToken "a") rfl)
        (Derives.termEnd _))
      (by
        intro r hr
        simp only [List.mem_singleton] at hr
        subst hr
        exact ⟨Or.inl rfl, Derives.term [idToken "b"]
          [⟨TokenType.T_STAR, "*", 0⟩, idToken "c"] _ _
          (Derives.ident (idToken "b") rfl)
          (Derives.termMore ⟨TokenType.T_STAR, "*", 0⟩ [idToken "c"] [] _ _ _
            (Or.inl rfl) (Derives.ident (idToken "c") rfl) (Derives.termEnd _))⟩)
      (by simp [NT.follow, nextKind])⟩

/-- C18, counterexample: the tokens of `int x; 5` are not derived in the
grammar and a syntax error is reported on them (`statement expected`, and the
parse-error flag is set), yet `Prog` returns a tree that is not null: the
list node of the declaration parsed before the error. -/
theorem prog_returns_partial_tree :
    ¬ Grammar KNT.stmtList (kinds tokensDeclThenFive)
    ∧ ∀ fuel, ∃ s1,
        Prog (fuel + 6) (ParserState.initial tokensDeclThenFive 0 (Globals.initial none))
          = Parsed.returned (some (ParseTree.StatementList
              (some (ParseTree.VariableDeclaration 0 TypeForNode.INT_TYPE ⟨0, "x"⟩)) none)) s1
        ∧ s1.hasParseErrors = true
        ∧ s1.g.cout = "1:Syntax error statement expected\n" := by
  refine ⟨?_, fun fuel => ⟨_, rfl, rfl, by decide⟩⟩
  intro hg
  obtain ⟨tree, s1, msgs, hcall, _, _, hiff⟩ :=
    prog_total tokensDeclThenFive 0 (Globals.initial none) (by decide) (by decide) 36
      (by decide)
  have hflag := hiff.2 hg
  have h2 : (match Prog 36 (ParserState.initial tokensDeclThenFive 0 (Globals.initial none))
      with
      | Parsed.returned _ s => s.hasParseErrors
      | _ => false) = true := rfl
  rw [hcall] at h2
  simp only at h2
  rw [h2] at hflag
  cases hflag

/-- C18 (amended): a call of a parsing function that starts with the
parse-error flag clear returns, having written a list of syntax error
messages and nothing else, and the parse-error flag is set exactly when a
message was written. Every function other than `StmtList` (and `Prog`, which
is `StmtList`) returns the null pointer when a syntax error was reported
during the call. `StmtList` returns the tree of the statements, each with its
semicolon, that it parsed at the front of the tokens, up to the place where
no statement with its semicolon follows: the tree is the null pointer only
when no statement with its semicolon is at the front, and a syntax error is
reported exactly when tokens are left after these statements, so that a tree
that is not null is returned together with a reported error. -/
theorem reported_error_null_below_list (f : Fn) (s : ParserState) (l : List Token)
    (fuel : Nat) (hf : f.need s.mu ≤ fuel) (hpar : Parseable s)
    (hc : s.hasParseErrors = false) (hp : Pending s l)
    (hnd : ∀ t ∈ l, t.tt ≠ TokenType.T_DONE) :
    ∃ res s1 msgs, f.call fuel s = Parsed.returned res s1
      ∧ s1.g = emitSyntaxErrors msgs s.g
      ∧ (s1.hasParseErrors = true ↔ msgs ≠ [])
      ∧ (f ≠ Fn.stmtList → s1.hasParseErrors = true → res = none)
      ∧ (f = Fn.stmtList →
          ∃ front back, l = front ++ back ∧ DerivesStmtList front res
            ∧ ¬ StatementAhead back
            ∧ (res = none ↔ front = [])
            ∧ (s1.hasParseErrors = true ↔ back ≠ [])) := by
  obtain ⟨res, s1, hcall, hrun⟩ := call_returns f fuel s hf hpar
  obtain ⟨msgs, hg, _, hflag⟩ := runs_emits hrun
  refine ⟨res, s1, msgs, hcall, hg, ?_, (runs_null hrun hc).1,
    fun hfl => runs_list_front hrun hfl hc l hp hnd⟩
  rw [hflag, hc]
  simp

theorem reported_error_null_below_list_witness :
    (∃ s1, Fn.call Fn.stmtList 36
        (ParserState.initial tokensDeclThenFive 0 (Globals.initial none))
      = Parsed.returned (some (ParseTree.StatementList
          (some (ParseTree.VariableDeclaration 0 TypeForNode.INT_TYPE ⟨0, "x"⟩)) none)) s1
      ∧ s1.hasParseErrors = true)
    ∧ ∃ res s1 msgs,
      Fn.call Fn.stmtList 36 (ParserState.initial tokensDeclThenFive 0 (Globals.initial none))
        = Parsed.returned res s1
      ∧ s1.g = emitSyntaxErrors msgs (ParserState.initial tokensDeclThenFive 0
          (Globals.initial none)).g
      ∧ (s1.hasParseErrors = true ↔ msgs ≠ [])
      ∧ (Fn.stmtList ≠ Fn.stmtList → s1.hasParseErrors = true → res = none)
      ∧ (Fn.stmtList = Fn.stmtList →
          ∃ front back, tokensDeclThenFive = front ++ back ∧ DerivesStmtList front res
            ∧ ¬ StatementAhead back
            ∧ (res = none ↔ front = [])
            ∧ (s1.hasParseErrors = true ↔ back ≠ [])) :=
  ⟨⟨_, rfl, rfl⟩,
   reported_error_null_below_list Fn.stmtList
    (ParserState.initial tokensDeclThenFive 0 (Globals.initial none)) tokensDeclThenFive 36
    (by decide) (parseable_initial _ _ _ (by decide)) rfl (pending_initial _ _ _)
    (by decide)⟩

/-- C19, counterexample: on the tokens of `int 5;` two syntax error messages
are written, `identifier expected` by `checkIdentifier` and then `declaration
expected` by its caller `Decl`; on the tokens of `print ;` two as well,
`primary expected` by `Primary` and then `expression required` by `Print`. -/
theorem two_messages_for_one_error :
    (∀ fuel, ∃ s1,
      Prog (fuel + 6) (ParserState.initial tokensIntFive 0 (Globals.initial none))
        = Parsed.returned none s1
      ∧ s1.g = emitSyntaxErrors [(0, "identifier expected"), (0, "declaration expected")]
          (Globals.initial none)
      ∧ s1.g.cout
        = "1:Syntax error identifier expected\n1:Syntax error declaration expected\n")
    ∧ (∀ fuel, ∃ s1,
      Prog (fuel + 6) (ParserState.initial tokensPrintNothing 0 (Globals.initial none))
        = Parsed.returned none s1
      ∧ s1.g = emitSyntaxErrors [(0, "primary expected"), (0, "expression required")]
          (Globals.initial none)
      ∧ s1.g.cout
        = "1:Syntax error primary expected\n1:Syntax error expression required\n") :=
  ⟨fun _ => ⟨_, rfl, rfl, by decide⟩, fun _ => ⟨_, rfl, rfl, by decide⟩⟩

/-- C19 (amended): for every token sequence that is not derived from `Prog`
in the grammar (its constants having a node), `Prog` returns with the
parse-error flag set after at least one syntax error message was written, and
it writes nothing but syntax error messages; a sequence that is derived
writes none. -/
theorem failed_parse_emits_messages (toks : List Token) (eofLine : Int) (g : Globals)
    (hnd : ∀ t ∈ toks, t.tt ≠ TokenType.T_DONE) (hok : ∀ t ∈ toks, tokenOK t)
    (fuel : Nat) (hf : 8 * toks.length + 4 ≤ fuel) :
    ∃ tree s1 msgs,
      Prog fuel (ParserState.initial toks eofLine g) = Parsed.returned tree s1
      ∧ s1.g = emitSyntaxErrors msgs g
      ∧ (msgs ≠ [] ↔ ¬ Grammar KNT.stmtList (kinds toks))
      ∧ (msgs ≠ [] ↔ s1.hasParseErrors = true) := by
  obtain ⟨tree, s1, msgs, hcall, _, hem, hiff⟩ := prog_total toks eofLine g hnd hok fuel hf
  obtain ⟨hg, _, hfl⟩ := hem
  have hfl2 : s1.hasParseErrors = true ↔ msgs ≠ [] := by
    rw [hfl]
    simp [ParserState.initial]
  refine ⟨tree, s1, msgs, hcall, hg, ?_, hfl2.symm⟩
  rw [← hiff, ← hfl2]
  simp

theorem failed_parse_emits_messages_witness :
    ∃ tree s1 msgs,
      Prog 28 (ParserState.initial tokensIntFive 0 (Globals.initial none))
        = Parsed.returned tree s1
      ∧ s1.g = emitSyntaxErrors msgs (Globals.initial none)
      ∧ (msgs ≠ [] ↔ ¬ Grammar KNT.stmtList (kinds tokensIntFive))
      ∧ (msgs ≠ [] ↔ s1.hasParseErrors = true) :=
  failed_parse_emits_messages tokensIntFive 0 (Globals.initial none) (by decide) (by decide)
    28 (by decide)

/-! ## Properties of the lexer: numbers, strings, comments, lines -/

theorem digit_not_alpha (c : Char) (h : isdigit c = true) : isalpha c = false := by
  simp only [isdigit, isalpha, Char.isDigit, Char.isAlpha, Char.isUpper, Char.isLower,
    Bool.and_eq_true, Bool.or_eq_false_iff, Bool.and_eq_false_iff, decide_eq_true_eq,
    decide_eq_false_iff_not, ge_iff_le, UInt32.le_def, BitVec.le_def, not_le] at *
  have h1 : (UInt32.toBitVec 48).toNat = 48 := rfl
  have h2 : (UInt32.toBitVec 57).toNat = 57 := rfl
  have h3 : (UInt32.toBitVec 65).toNat = 65 := rfl
  have h4 : (UInt32.toBitVec 90).toNat = 90 := rfl
  have h5 : (UInt32.toBitVec 97).toNat = 97 := rfl
  have h6 : (UInt32.toBitVec 122).toNat = 122 := rfl
  omega

theorem alpha_not_digit (c : Char) (h : isalpha c = true) : isdigit c = false := by
  cases hd : isdigit c with
  | false => rfl
  | true => rw [digit_not_alpha c hd] at h; cases h

theorem alnum_not_space (c : Char) (h : (isalpha c || isdigit c) = true) :
    isspace c = false := by
  cases hs : isspace c with
  | false => rfl
  | true =>
    exfalso
    simp only [isspace, Bool.or_eq_true, decide_eq_true_eq] at hs
    rcases hs with ((((hs | hs) | hs) | hs) | hs) | hs <;>
      (rw [hs] at h; revert h; decide)

theorem digit_not_quote (c : Char) (h : isdigit c = true) : c ≠ quoteChar := by
  intro hc
  rw [hc] at h
  revert h
  decide

/-- In the state `ININT` a run of digits that is followed by a letter gives
the error token of the digits and that one letter; what follows the letter
stays in the stream. -/
theorem getTokenLoop_inint_letter (c : Char) (rest : List Char) (hc : isalpha c = true) :
    ∀ (ds : List Char) (l : List Char) (ln : Int), (∀ x ∈ ds, isdigit x = true) →
      getTokenLoop LexState.ININT (String.mk l) (ds ++ c :: rest) ln
        = (⟨TokenType.T_ERROR, String.mk (l ++ ds ++ [c]), ln⟩, ⟨rest, ln⟩) := by
  intro ds
  induction ds with
  | nil =>
    intro l ln _
    have hn := alnum_not_newline c (by simp [hc])
    simp [getTokenLoop, hn, hc, alpha_not_digit c hc, push_mk]
  | cons x ds ih =>
    intro l ln h
    have hx := h x (List.mem_cons_self _ _)
    have hn := alnum_not_newline x (by simp [hx])
    have h2 := ih (l ++ [x]) ln (fun y hy => h y (List.mem_cons_of_mem _ hy))
    simp only [List.cons_append, getTokenLoop, hn, if_false, hx, if_true, push_mk,
      List.append_eq]
    rw [h2]
    simp

/-- In the state `ININT` a run of digits that is followed by a character that
is neither a digit nor a letter gives the integer constant of the digits; the
character is put back. -/
theorem getTokenLoop_inint_other (c : Char) (rest : List Char)
    (hc : (isalpha c || isdigit c) = false) :
    ∀ (ds : List Char) (l : List Char) (ln : Int), (∀ x ∈ ds, isdigit x = true) →
      getTokenLoop LexState.ININT (String.mk l) (ds ++ c :: rest) ln
        = (⟨TokenType.T_ICONST, String.mk (l ++ ds), lineAfter ln [c]⟩,
            ⟨c :: rest, lineAfter ln [c]⟩) := by
  simp only [Bool.or_eq_false_iff] at hc
  intro ds
  induction ds with
  | nil =>
    intro l ln _
    simp [getTokenLoop, hc.1, hc.2, lineAfter]
  | cons x ds ih =>
    intro l ln h
    have hx := h x (List.mem_cons_self _ _)
    have hn := alnum_not_newline x (by simp [hx])
    have h2 := ih (l ++ [x]) ln (fun y hy => h y (List.mem_cons_of_mem _ hy))
    simp only [List.cons_append, getTokenLoop, hn, if_false, hx, if_true, push_mk,
      List.append_eq]
    rw [h2]
    simp

/-- In the state `INSTRING` text without a quote and without a newline is
collected; a quote after it closes the string constant, a newline after it
ends an error token, and both are part of the lexeme. -/
theorem getTokenLoop_instring (rest : List Char) :
    ∀ (text : List Char) (l : List Char) (ln : Int),
      (∀ x ∈ text, x ≠ quoteChar ∧ x ≠ '\n') →
      getTokenLoop LexState.INSTRING (String.mk l) (text ++ quoteChar :: rest) ln
          = (⟨TokenType.T_SCONST, String.mk (l ++ text ++ [quoteChar]), ln⟩, ⟨rest, ln⟩)
      ∧ getTokenLoop LexState.INSTRING (String.mk l) (text ++ '\n' :: rest) ln
          = (⟨TokenType.T_ERROR, String.mk (l ++ text ++ ['\n']), intAdd ln 1⟩,
              ⟨rest, intAdd ln 1⟩) := by
  intro text
  induction text with
  | nil =>
    intro l ln _
    have hq : ¬ (quoteChar = '\n') := by decide
    constructor
    · simp [getTokenLoop, hq, push_mk]
    · simp [getTokenLoop, push_mk]
  | cons x text ih =>
    intro l ln h
    obtain ⟨hx1, hx2⟩ := h x (List.mem_cons_self _ _)
    obtain ⟨h1, h2⟩ := ih (l ++ [x]) ln (fun y hy => h y (List.mem_cons_of_mem _ hy))
    constructor
    · simp only [List.cons_append, getTokenLoop, hx1, hx2, if_false, push_mk,
        List.append_eq]
      rw [h1]
      simp
    · simp only [List.cons_append, getTokenLoop, hx1, hx2, if_false, push_mk,
        List.append_eq]
      rw [h2]
      simp

/-- The kind and the lexeme of the token, and the characters left in the
stream, do not depend on the line counter. -/
theorem getTokenLoop_line_independent :
    ∀ (cs : List Char) (st : LexState) (l : String) (ln1 ln2 : Int),
      (getTokenLoop st l cs ln1).1.tt = (getTokenLoop st l cs ln2).1.tt
      ∧ (getTokenLoop st l cs ln1).1.lexeme = (getTokenLoop st l cs ln2).1.lexeme
      ∧ (getTokenLoop st l cs ln1).2.chars = (getTokenLoop st l cs ln2).2.chars := by
  intro cs
  induction cs with
  | nil => intro st l ln1 ln2; simp [getTokenLoop]
  | cons ch rest ih =>
    intro st l ln1 ln2
    cases st <;> simp only [getTokenLoop] <;> split_ifs <;>
      first
        | exact ih _ _ _ _
        | exact ⟨rfl, rfl, rfl⟩
        | simp [id_or_kw_kind]

/-- C21, counterexample: on `3ab;` the error token is `3a`, the digit and
the first letter only; the next call returns the rest of the run, `b`, as an
identifier of its own. -/
theorem digits_letter_run_is_split :
    getToken ⟨"3ab;".data, 0⟩ = (⟨TokenType.T_ERROR, "3a", 0⟩, ⟨"b;".data, 0⟩)
    ∧ getToken ⟨"b;".data, 0⟩ = (⟨TokenType.T_ID, "b", 0⟩, ⟨";".data, 0⟩) := by
  decide

/-- C21 (amended): for an input that is skipped text, then a run of one or
more digits, then a letter, `getToken` returns one error token whose lexeme is
the digits and that first letter; the scan resumes right after the letter, so
that further letters and digits of the run are returned by the later calls. -/
theorem getToken_digits_letter (skip ds rest : List Char) (d0 c : Char) (ln : Int)
    (hskip : Skipped skip) (h0 : isdigit d0 = true)
    (hds : ∀ x ∈ ds, isdigit x = true) (hc : isalpha c = true) :
    getToken ⟨skip ++ d0 :: (ds ++ c :: rest), ln⟩
      = (⟨TokenType.T_ERROR, String.mk (d0 :: ds ++ [c]), lineAfter ln skip⟩,
          ⟨rest, lineAfter ln skip⟩) := by
  have hsp := alnum_not_space d0 (by simp [h0])
  have hn : d0 ≠ '\n' := alnum_not_newline d0 (by simp [h0])
  have ha := digit_not_alpha d0 h0
  have hq := digit_not_quote d0 h0
  unfold getToken
  simp only
  rw [getTokenLoop_skipped _ skip hskip]
  simp only [getTokenLoop, hn, if_false, hsp, ha, hq, h0, if_true, Bool.false_eq_true]
  have := getTokenLoop_inint_letter c rest hc ds [d0] (lineAfter ln skip) hds
  simpa [String.singleton] using this

theorem getToken_digits_letter_witness :
    getToken ⟨" 12x9 ".data, 0⟩ = (⟨TokenType.T_ERROR, "12x", 0⟩, ⟨"9 ".data, 0⟩) :=
  getToken_digits_letter " ".data "2".data "9 ".data '1' 'x' 0
    (Skipped.space _ _ (by decide) Skipped.nil) (by decide) (by decide) (by decide)

/-- C22: for an input that is skipped text, then a double quote, then text
without a double quote and without a newline: when a double quote follows,
`getToken` returns the string constant whose lexeme is the text from the
opening quote through the closing quote, every character in between kept, and
the scan resumes right after the closing quote; when a newline follows,
`getToken` returns the error token whose lexeme is the text consumed from the
opening quote through that newline. -/
theorem getToken_string (skip text rest : List Char) (ln : Int)
    (hskip : Skipped skip) (htext : ∀ x ∈ text, x ≠ quoteChar ∧ x ≠ '\n') :
    getToken ⟨skip ++ quoteChar :: (text ++ quoteChar :: rest), ln⟩
        = (⟨TokenType.T_SCONST, String.mk (quoteChar :: text ++ [quoteChar]),
              lineAfter ln skip⟩,
            ⟨rest, lineAfter ln skip⟩)
    ∧ getToken ⟨skip ++ quoteChar :: (text ++ '\n' :: rest), ln⟩
        = (⟨TokenType.T_ERROR, String.mk (quoteChar :: text ++ ['\n']),
              intAdd (lineAfter ln skip) 1⟩,
            ⟨rest, intAdd (lineAfter ln skip) 1⟩) := by
  have hsp : isspace quoteChar = false := by decide
  have hn : ¬ (quoteChar = '\n') := by decide
  have ha : isalpha quoteChar = false := by decide
  obtain ⟨h1, h2⟩ := getTokenLoop_instring rest text [quoteChar] (lineAfter ln skip) htext
  unfold getToken
  simp only
  rw [getTokenLoop_skipped _ skip hskip, getTokenLoop_skipped _ skip hskip]
  simp only [getTokenLoop, hn, if_false, hsp, ha, if_true, Bool.false_eq_true]
  constructor
  · simpa [String.singleton] using h1
  · simpa [String.singleton] using h2

theorem getToken_string_witness :
    getToken ⟨" \"a /+ b\" + 1".data, 0⟩
        = (⟨TokenType.T_SCONST, "\"a /+ b\"", 0⟩, ⟨" + 1".data, 0⟩)
    ∧ getToken ⟨" \"a /+ b\n + 1".data, 0⟩
        = (⟨TokenType.T_ERROR, "\"a /+ b\n", 1⟩, ⟨" + 1".data, 1⟩) :=
  getToken_string " ".data "a /+ b".data " + 1".data 0
    (Skipped.space _ _ (by decide) Skipped.nil) (by decide)

/-- C23: for every text `t` without a newline and every remaining input `r`,
`getToken` on `//`, `t`, a newline and `r` goes on as `getToken` on `r` with
the line counter one higher, so it returns the same kind and the same lexeme
as `getToken` on `r` from any line counter and leaves the same characters;
and on `/` followed by a character `c` other than `/` it returns the division
operator with the lexeme `/` and leaves `c` in the stream. -/
theorem getToken_slash (t r : List Char) (c : Char) (ln ln2 : Int)
    (ht : ∀ x ∈ t, x ≠ '\n') (hc : c ≠ '/') :
    (getToken ⟨'/' :: '/' :: (t ++ '\n' :: r), ln⟩ = getToken ⟨r, intAdd ln 1⟩
      ∧ (getToken ⟨'/' :: '/' :: (t ++ '\n' :: r), ln⟩).1.tt = (getToken ⟨r, ln2⟩).1.tt
      ∧ (getToken ⟨'/' :: '/' :: (t ++ '\n' :: r), ln⟩).1.lexeme
          = (getToken ⟨r, ln2⟩).1.lexeme
      ∧ (getToken ⟨'/' :: '/' :: (t ++ '\n' :: r), ln⟩).2.chars
          = (getToken ⟨r, ln2⟩).2.chars)
    ∧ getToken ⟨'/' :: c :: r, ln⟩
        = (⟨TokenType.T_SLASH, "/", lineAfter ln [c]⟩, ⟨c :: r, lineAfter ln [c]⟩) := by
  have e : getToken ⟨'/' :: '/' :: (t ++ '\n' :: r), ln⟩ = getToken ⟨r, intAdd ln 1⟩ := by
    have h := getTokenLoop_skipped r ('/' :: '/' :: (t ++ '\n' :: []))
      (Skipped.comment t [] ht Skipped.nil) "" ln
    have e1 : ('/' :: '/' :: (t ++ '\n' :: [])) ++ r = '/' :: '/' :: (t ++ '\n' :: r) := by
      simp
    have e2 : lineAfter ln ('/' :: '/' :: (t ++ '\n' :: [])) = intAdd ln 1 := by
      have e3 : '/' :: '/' :: (t ++ '\n' :: []) = ('/' :: '/' :: t) ++ ['\n'] := by simp
      rw [e3, lineAfter_append, lineAfter_no_newline ln ('/' :: '/' :: t)]
      · rfl
      · intro x hx
        simp only [List.mem_cons] at hx
        rcases hx with hx | hx | hx
        · rw [hx]; decide
        · rw [hx]; decide
        · exact ht x hx
    rw [e1, e2] at h
    exact h
  refine ⟨⟨e, ?_, ?_, ?_⟩, ?_⟩
  · rw [e]
    exact (getTokenLoop_line_independent r LexState.BEGIN "" (intAdd ln 1) ln2).1
  · rw [e]
    exact (getTokenLoop_line_independent r LexState.BEGIN "" (intAdd ln 1) ln2).2.1
  · rw [e]
    exact (getTokenLoop_line_independent r LexState.BEGIN "" (intAdd ln 1) ln2).2.2
  · have h1 : isspace '/' = false := by decide
    have h2 : isalpha '/' = false := by decide
    have h3 : ¬ ('/' = quoteChar) := by decide
    have h4 : isdigit '/' = false := by decide
    have h5 : ¬ ('/' = '\n') := by decide
    unfold getToken
    simp only [getTokenLoop, h1, h2, h3, h4, h5, if_false, if_true, Bool.false_eq_true,
      ne_eq, hc, not_false_eq_true, lineAfter, List.foldl_cons, List.foldl_nil]
    rfl

theorem getToken_slash_witness :
    (getToken ⟨"// a / b\nx;".data, 0⟩ = getToken ⟨"x;".data, 1⟩
      ∧ (getToken ⟨"// a / b\nx;".data, 0⟩).1.tt = (getToken ⟨"x;".data, 0⟩).1.tt
      ∧ (getToken ⟨"// a / b\nx;".data, 0⟩).1.lexeme = (getToken ⟨"x;".data, 0⟩).1.lexeme
      ∧ (getToken ⟨"// a / b\nx;".data, 0⟩).2.chars = (getToken ⟨"x;".data, 0⟩).2.chars)
    ∧ getToken ⟨"/ x;".data, 0⟩ = (⟨TokenType.T_SLASH, "/", 0⟩, ⟨" x;".data, 0⟩) :=
  getToken_slash " a / b".data "x;".data ' ' 0 0 (by decide) (by decide)

/-- C24, the code on `x`, newline, `;`: the newline that ends the identifier
is counted when it is read and then put back, and counted again when the next
call reads it. One newline was consumed, yet the line counter stands at 2; the
identifier of the first line records the line 1 (the second line) and the
semicolon of the second line records the line 2 (the third line). -/
theorem newline_counted_twice :
    getToken ⟨"x\n;".data, 0⟩ = (⟨TokenType.T_ID, "x", 1⟩, ⟨"\n;".data, 1⟩)
    ∧ getToken ⟨"\n;".data, 1⟩ = (⟨TokenType.T_SC, ";", 2⟩, ⟨[], 2⟩)
    ∧ lineAfter 0 "x\n;".data = 1 := by
  decide

/-- C25, the code on `abc` with no character after it: the three letters are
consumed and the end marker is returned in their place, so the identifier is
lost; the same on a number, on `/` and on an open string at the end of the
input. With one more character after it the identifier is returned. -/
theorem token_lost_at_end_of_input :
    getToken ⟨"abc".data, 0⟩ = (⟨TokenType.T_DONE, "", 0⟩, ⟨[], 0⟩)
    ∧ getToken ⟨"12".data, 0⟩ = (⟨TokenType.T_DONE, "", 0⟩, ⟨[], 0⟩)
    ∧ getToken ⟨"/".data, 0⟩ = (⟨TokenType.T_DONE, "", 0⟩, ⟨[], 0⟩)
    ∧ getToken ⟨"\"ab".data, 0⟩ = (⟨TokenType.T_DONE, "", 0⟩, ⟨[], 0⟩)
    ∧ getToken ⟨"abc ".data, 0⟩ = (⟨TokenType.T_ID, "abc", 0⟩, ⟨" ".data, 0⟩) := by
  decide

/-! ## The diagnostics of `Division` and the integer constants -/

theorem diagnosticLine_ne_empty (file : Option String) (n : Int) (m : String) :
    diagnosticLine file n m ≠ "" := by
  intro h
  have hl := congrArg String.length h
  unfold diagnosticLine at hl
  simp only [String.length_append] at hl
  have : "\n".length = 1 := rfl
  have h0 : "".length = 0 := rfl
  omega

theorem append_ne_self (s t : String) (h : t ≠ "") : s ++ t ≠ s := by
  intro he
  have hl := congrArg String.length he
  rw [String.length_append] at hl
  have h0 : t.length = 0 := by omega
  apply h
  exact String.ext (List.length_eq_zero.mp h0)

/-- The operator `/` returns an `Error` with a message exactly on two integers
with a right side 0, and the message is then `DIVIDE BY ZERO`. -/
theorem div_message (u v : Value) :
    ((u.type = TypeForNode.INT_TYPE ∧ v.type = TypeForNode.INT_TYPE ∧ v.intValue = 0) →
      Value.div u v = Value.Error "DIVIDE BY ZERO")
    ∧ (¬ (u.type = TypeForNode.INT_TYPE ∧ v.type = TypeForNode.INT_TYPE ∧ v.intValue = 0) →
      ¬ ((Value.div u v).type = TypeForNode.ERROR_TYPE
          ∧ (Value.div u v).stringValue.length > 0)) := by
  constructor
  · rintro ⟨h1, h2, h3⟩
    simp [Value.div, h1, h2, h3]
  · intro hn
    unfold Value.div
    by_cases h1 : u.type = TypeForNode.INT_TYPE ∧ v.type = TypeForNode.INT_TYPE
    · have h3 : v.intValue ≠ 0 := fun h => hn ⟨h1.1, h1.2, h⟩
      simp [h1, h3, Value.Integer]
    · simp only [h1, if_false]
      by_cases h2 : u.type = TypeForNode.STRING_TYPE ∧ v.type = TypeForNode.STRING_TYPE
      · simp only [h2, and_self, if_true]
        cases strFind u.stringValue.data v.stringValue.data with
        | none => simp [h2.1]
        | some pos => simp [Value.String]
      · simp only [h2, if_false]
        simp [Value.Error]

/-- The operator `/` returns an `Error` with a message exactly on two integers
with a right side 0, and the message is then `DIVIDE BY ZERO`. -/
theorem operatorDiv_message (u v : Value) :
    ((u.type = TypeForNode.INT_TYPE ∧ v.type = TypeForNode.INT_TYPE ∧ v.intValue = 0) →
      Value.operatorDiv u v = some (Value.Error "DIVIDE BY ZERO"))
    ∧ (¬ (u.type = TypeForNode.INT_TYPE ∧ v.type = TypeForNode.INT_TYPE ∧ v.intValue = 0) →
      ∀ w, Value.operatorDiv u v = some w →
        ¬ (w.type = TypeForNode.ERROR_TYPE ∧ w.stringValue.length > 0)) := by
  constructor
  · rintro ⟨h1, h2, h3⟩
    simp [Value.operatorDiv, h1, h2, h3]
  · intro hn w hw
    rw [operatorDiv_some u v w hw]
    exact (div_message u v).2 hn

/-- C26: evaluating a `Division` node, in whichever order the compiler
evaluates the two operands: when an operand does not return, the node does
not return; when the two children evaluate to integers and the right one is
0, the node returns `Error` and writes, after its children, the one line
`DIVIDE BY ZERO` with the line number of the node; in every other case, an
`Error` received from a child and mismatched operand types included, the node
writes nothing and changes nothing: it returns what `operator/` returns with
the globals as its children left them, and does not return when `operator/`
does not (the undefined quotient). So the node writes a diagnostic of its own
exactly when its children evaluate to integers with the right one 0, and the
division by zero of a nested node is reported once, by that node. -/
theorem division_diagnostic (o : OperandOrder) (n : Int) (l r : ParseTree) (g : Globals) :
    (evalOperands o.division (l.EvaluateIn o) (r.EvaluateIn o) g = none →
      (ParseTree.Division n l r).EvaluateIn o g = none)
    ∧ ∀ (a b : Value) (g2 : Globals),
      evalOperands o.division (l.EvaluateIn o) (r.EvaluateIn o) g = some (a, b, g2) →
      (a.type = TypeForNode.INT_TYPE ∧ b.type = TypeForNode.INT_TYPE ∧ b.intValue = 0 →
        (ParseTree.Division n l r).EvaluateIn o g
          = some (Value.Error "DIVIDE BY ZERO",
              { g2 with
                cout := g2.cout ++ diagnosticLine g2.theInputFileName n "DIVIDE BY ZERO" }))
      ∧ (¬ (a.type = TypeForNode.INT_TYPE ∧ b.type = TypeForNode.INT_TYPE ∧ b.intValue = 0) →
        (ParseTree.Division n l r).EvaluateIn o g
          = (Value.operatorDiv a b).map fun w => (w, g2))
      ∧ ((∃ res, (ParseTree.Division n l r).EvaluateIn o g = some res ∧ res.2.cout ≠ g2.cout)
          ↔ (a.type = TypeForNode.INT_TYPE ∧ b.type = TypeForNode.INT_TYPE
              ∧ b.intValue = 0)) := by
  constructor
  · intro h
    simp only [ParseTree.EvaluateIn, h]
  · intro a b g2 h
    have hA : (a.type = TypeForNode.INT_TYPE ∧ b.type = TypeForNode.INT_TYPE ∧ b.intValue = 0 →
        (ParseTree.Division n l r).EvaluateIn o g
          = some (Value.Error "DIVIDE BY ZERO",
              { g2 with
                cout := g2.cout
                  ++ diagnosticLine g2.theInputFileName n "DIVIDE BY ZERO" })) := by
      intro hc
      have hd := (operatorDiv_message a b).1 hc
      have hlen : ("DIVIDE BY ZERO".length = 0) = False := by decide
      simp only [ParseTree.EvaluateIn, h, hd, reportDivision, error_eq]
      simp [Value.Error, hlen]
    have hB : (¬ (a.type = TypeForNode.INT_TYPE ∧ b.type = TypeForNode.INT_TYPE
          ∧ b.intValue = 0) →
        (ParseTree.Division n l r).EvaluateIn o g
          = (Value.operatorDiv a b).map fun w => (w, g2)) := by
      intro hc
      simp only [ParseTree.EvaluateIn, h]
      cases hw : Value.operatorDiv a b with
      | none => rfl
      | some w =>
        have hd := (operatorDiv_message a b).2 hc w hw
        simp only [reportDivision, hd, if_false, Option.map_some']
    refine ⟨hA, hB, ?_⟩
    constructor
    · rintro ⟨res, hres, hne⟩
      by_contra hc
      rw [hB hc] at hres
      cases hw : Value.operatorDiv a b with
      | none => simp [hw] at hres
      | some w =>
        simp only [hw, Option.map_some', Option.some.injEq] at hres
        rw [← hres] at hne
        exact hne rfl
    · intro hc
      exact ⟨_, hA hc, append_ne_self _ _ (diagnosticLine_ne_empty _ _ _)⟩

theorem division_diagnostic_witness :
    (ParseTree.Division 2 (ParseTree.IntegerConstant 2 7)
        (ParseTree.IntegerConstant 2 0)).EvaluateIn OperandOrder.rightFirst
        (Globals.initial none)
      = some (Value.Error "DIVIDE BY ZERO", ⟨none, [], [], "3:DIVIDE BY ZERO\n"⟩)
    ∧ (ParseTree.Division 4
        (ParseTree.Division 2 (ParseTree.IntegerConstant 2 7) (ParseTree.IntegerConstant 2 0))
        (ParseTree.IntegerConstant 4 1)).EvaluateIn OperandOrder.rightFirst
        (Globals.initial none)
      = some (Value.Error "", ⟨none, [], [], "3:DIVIDE BY ZERO\n"⟩)
    ∧ (ParseTree.Division 4
        (ParseTree.Division 2 (ParseTree.IntegerConstant 2 7) (ParseTree.IntegerConstant 2 0))
        (ParseTree.IntegerConstant 4 1)).EvaluateIn OperandOrder.leftFirst
        (Globals.initial none)
      = some (Value.Error "", ⟨none, [], [], "3:DIVIDE BY ZERO\n"⟩)
    ∧ (ParseTree.Division 0 (ParseTree.IntegerConstant 0 7)
        (ParseTree.StringConstant 0 "a")).EvaluateIn OperandOrder.rightFirst
        (Globals.initial none)
      = some (Value.Error "", Globals.initial none)
    ∧ (ParseTree.Division 0 (ParseTree.IntegerConstant 0 (-2147483648))
        (ParseTree.IntegerConstant 0 (-1))).EvaluateIn OperandOrder.rightFirst
        (Globals.initial none)
      = none :=
  ⟨((division_diagnostic OperandOrder.rightFirst 2 (ParseTree.IntegerConstant 2 7)
      (ParseTree.IntegerConstant 2 0) (Globals.initial none)).2 _ _ _ rfl).1 (by decide),
   ((division_diagnostic OperandOrder.rightFirst 4
      (ParseTree.Division 2 (ParseTree.IntegerConstant 2 7) (ParseTree.IntegerConstant 2 0))
      (ParseTree.IntegerConstant 4 1) (Globals.initial none)).2
        (Value.Error "DIVIDE BY ZERO") (Value.Integer 1) ⟨none, [], [], "3:DIVIDE BY ZERO\n"⟩
        (by decide)).2.1 (by decide),
   ((division_diagnostic OperandOrder.leftFirst 4
      (ParseTree.Division 2 (ParseTree.IntegerConstant 2 7) (ParseTree.IntegerConstant 2 0))
      (ParseTree.IntegerConstant 4 1) (Globals.initial none)).2
        (Value.Error "DIVIDE BY ZERO") (Value.Integer 1) ⟨none, [], [], "3:DIVIDE BY ZERO\n"⟩
        (by decide)).2.1 (by decide),
   ((division_diagnostic OperandOrder.rightFirst 0 (ParseTree.IntegerConstant 0 7)
      (ParseTree.StringConstant 0 "a") (Globals.initial none)).2 _ _ _ rfl).2.1 (by decide),
   ((division_diagnostic OperandOrder.rightFirst 0 (ParseTree.IntegerConstant 0 (-2147483648))
      (ParseTree.IntegerConstant 0 (-1)) (Globals.initial none)).2 _ _ _ rfl).2.1 (by decide)⟩

theorem foldl_decimal (ds : List Char) :
    ∀ (a : Nat), ds.foldl (fun a ch => 10 * a + (ch.toNat - 48)) a
      = a * 10 ^ ds.length + decimalNumber ds := by
  induction ds with
  | nil => intro a; simp [decimalNumber]
  | cons d ds ih =>
    intro a
    simp only [List.foldl_cons, ih, decimalNumber, List.length_cons, pow_succ]
    ring

/-- The call `stoi` on a run of one or more digits: the number they denote
when it is a value of `int`, an exception otherwise. -/
theorem stoi_digits (d0 : Char) (ds : List Char) (h0 : isdigit d0 = true)
    (hds : ∀ x ∈ ds, isdigit x = true) :
    stoi (String.mk (d0 :: ds))
      = if (decimalNumber (d0 :: ds) : Int) ≤ INT_MAX then
          some (decimalNumber (d0 :: ds) : Int)
        else none := by
  have hsp := alnum_not_space d0 (by simp [h0])
  have hm : d0 ≠ '-' := by
    intro h; rw [h] at h0; revert h0; decide
  have hp : d0 ≠ '+' := by
    intro h; rw [h] at h0; revert h0; decide
  have htake : List.takeWhile isdigit (d0 :: ds) = d0 :: ds := by
    rw [List.takeWhile_eq_self_iff]
    intro x hx
    rcases List.mem_cons.mp hx with h | h
    · rw [h]; exact h0
    · exact hds x h
  have hdrop : List.dropWhile isspace (d0 :: ds) = d0 :: ds := by
    simp [List.dropWhile, hsp]
  have hnn : INT_MIN ≤ (decimalNumber (d0 :: ds) : Int) := by
    have : (0 : Int) ≤ (decimalNumber (d0 :: ds) : Int) := Int.ofNat_nonneg _
    unfold INT_MIN
    omega
  unfold stoi
  simp only [hdrop, List.head?_cons, Option.some.injEq, hm, hp, or_self, if_false, htake,
    decide_False, Bool.false_eq_true, foldl_decimal, zero_mul, zero_add, hnn, true_and,
    reduceCtorEq]

/-- C27, counterexample: the literal `99999999999` is a run of digits, yet
`stoi` throws on it (the number is not a value of `int`), so the constructor
of the `IntegerConstant` node raises and `Primary` is left by the exception:
no node, no value. -/
theorem huge_literal_throws :
    (∀ x ∈ tokenHuge.lexeme.data, isdigit x = true)
    ∧ stoi tokenHuge.lexeme = none
    ∧ ∀ fuel, ∃ s1,
        Primary (fuel + 1) (ParserState.initial [tokenHuge] 0 (Globals.initial none))
          = Parsed.thrown s1 := by
  refine ⟨by decide, rfl, fun fuel => ⟨_, rfl⟩⟩

/-- C27 (amended): for every lexeme of one or more decimal digits (leading
zeros allowed) whose number is at most `INT_MAX`, `stoi` returns that number,
so `Primary` builds the `IntegerConstant` node of the token without raising,
and the evaluation of the node returns `Integer(v)` for the decimal number
`v` of the lexeme and leaves the globals as they were; when the number is
above `INT_MAX`, `stoi` throws. -/
theorem integerConstant_evaluate (lexeme : String) (hne : lexeme.data ≠ [])
    (hd : ∀ x ∈ lexeme.data, isdigit x = true) :
    ((decimalNumber lexeme.data : Int) ≤ INT_MAX →
      stoi lexeme = some (decimalNumber lexeme.data : Int)
      ∧ (∀ (s : ParserState) (fuel : Nat), s.getToken.1.tt = TokenType.T_ICONST →
          s.getToken.1.lexeme = lexeme →
          Primary (fuel + 1) s
            = Parsed.returned
                (some (ParseTree.IntegerConstant s.getToken.1.lnum
                  (decimalNumber lexeme.data))) s.getToken.2)
      ∧ ∀ (line : Int) (g : Globals),
          (ParseTree.IntegerConstant line (decimalNumber lexeme.data)).Evaluate g
            = (Value.Integer (decimalNumber lexeme.data), g))
    ∧ (INT_MAX < (decimalNumber lexeme.data : Int) → stoi lexeme = none) := by
  obtain ⟨cs⟩ := lexeme
  cases cs with
  | nil => exact absurd rfl hne
  | cons d0 ds =>
    have h0 := hd d0 (List.mem_cons_self _ _)
    have hds : ∀ x ∈ ds, isdigit x = true := fun x hx => hd x (List.mem_cons_of_mem _ hx)
    have hs := stoi_digits d0 ds h0 hds
    constructor
    · intro hmax
      simp only [hmax, if_true] at hs
      refine ⟨hs, ?_, ?_⟩
      · intro s fuel ht hl
        simp only [Primary, ht, if_true, hl, hs]
      · intro line g
        simp [ParseTree.Evaluate]
    · intro hmax
      have : ¬ ((decimalNumber (d0 :: ds) : Int) ≤ INT_MAX) := not_le.mpr hmax
      simp only [this, if_false] at hs
      exact hs

theorem integerConstant_evaluate_witness :
    stoi "007" = some 7
    ∧ (∀ (s : ParserState) (fuel : Nat), s.getToken.1.tt = TokenType.T_ICONST →
        s.getToken.1.lexeme = "007" →
        Primary (fuel + 1) s
          = Parsed.returned (some (ParseTree.IntegerConstant s.getToken.1.lnum 7))
              s.getToken.2)
    ∧ ∀ (line : Int) (g : Globals),
        (ParseTree.IntegerConstant line 7).Evaluate g = (Value.Integer 7, g) :=
  (integerConstant_evaluate "007" (by decide) (by decide)).1 (by decide)

/-! ## Type preservation -/

theorem find_mem {α : Type} (k : String) (v : α) :
    ∀ (S : Table α), Table.find S k = some v → (k, v) ∈ S := by
  intro S
  induction S with
  | nil => intro h; simp [Table.find] at h
  | cons kv S ih =>
    obtain ⟨k1, v1⟩ := kv
    intro h
    simp only [Table.find] at h
    by_cases hk : k1 = k
    · simp only [hk, if_true, Option.some.injEq] at h
      subst hk
      subst h
      exact List.mem_cons_self _ _
    · simp only [hk, if_false] at h
      exact List.mem_cons_of_mem _ (ih h)

/-- The table is typed exactly when each lookup that succeeds returns a value
of the recorded type. -/
theorem wellTyped_iff (T : Table TypeForNode) (S : Table Value) :
    wellTyped T S = true ↔
      ∀ k v, Table.find S k = some v →
        Table.find T k = some v.type
        ∧ (v.type = TypeForNode.INT_TYPE ∨ v.type = TypeForNode.STRING_TYPE) := by
  unfold wellTyped
  rw [List.all_eq_true]
  constructor
  · intro h k v hf
    have := h (k, v) (find_mem k v S hf)
    simpa [hf] using this
  · intro h kv _
    cases hf : Table.find S kv.1 with
    | none => rfl
    | some v => simpa using h kv.1 v hf

theorem wellTyped_nil (T : Table TypeForNode) : wellTyped T [] = true := rfl

theorem wellTyped_assign (T : Table TypeForNode) (S : Table Value) (k : String) (v : Value)
    (hS : wellTyped T S = true) (hk : Table.find T k = some v.type)
    (hv : v.type = TypeForNode.INT_TYPE ∨ v.type = TypeForNode.STRING_TYPE) :
    wellTyped T (Table.assign S k v) = true := by
  rw [wellTyped_iff] at hS ⊢
  intro m w hf
  by_cases hm : m = k
  · subst hm
    rw [find_assign_self] at hf
    cases hf
    exact ⟨hk, hv⟩
  · rw [find_assign_ne k m v hm] at hf
    exact hS m w hf

theorem add_type (u v : Value) :
    (Value.add u v).type
      = if u.type = TypeForNode.INT_TYPE ∧ v.type = TypeForNode.INT_TYPE then
          TypeForNode.INT_TYPE
        else if u.type = TypeForNode.STRING_TYPE ∧ v.type = TypeForNode.STRING_TYPE then
          TypeForNode.STRING_TYPE
        else TypeForNode.ERROR_TYPE := by
  unfold Value.add
  split_ifs <;> rfl

theorem sub_type (u v : Value) :
    (Value.sub u v).type
      = if u.type = TypeForNode.INT_TYPE ∧ v.type = TypeForNode.INT_TYPE then
          TypeForNode.INT_TYPE
        else TypeForNode.ERROR_TYPE := by
  unfold Value.sub
  split_ifs <;> rfl

theorem mul_type (u v : Value) :
    (Value.mul u v).type
      = if u.type = TypeForNode.INT_TYPE ∧ v.type = TypeForNode.INT_TYPE then
          TypeForNode.INT_TYPE
        else if u.type = TypeForNode.INT_TYPE ∧ v.type = TypeForNode.STRING_TYPE then
          TypeForNode.STRING_TYPE
        else if v.type = TypeForNode.INT_TYPE ∧ u.type = TypeForNode.STRING_TYPE then
          TypeForNode.STRING_TYPE
        else TypeForNode.ERROR_TYPE := by
  unfold Value.mul
  split_ifs <;> rfl

theorem div_type (u v : Value) :
    (Value.div u v).type
      = if u.type = TypeForNode.INT_TYPE ∧ v.type = TypeForNode.INT_TYPE then
          (if v.intValue ≠ 0 then TypeForNode.INT_TYPE else TypeForNode.ERROR_TYPE)
        else if u.type = TypeForNode.STRING_TYPE ∧ v.type = TypeForNode.STRING_TYPE then
          TypeForNode.STRING_TYPE
        else TypeForNode.ERROR_TYPE := by
  unfold Value.div
  by_cases h1 : u.type = TypeForNode.INT_TYPE ∧ v.type = TypeForNode.INT_TYPE
  · simp only [h1, and_self, if_true]
    split_ifs <;> rfl
  · simp only [h1, if_false]
    by_cases h2 : u.type = TypeForNode.STRING_TYPE ∧ v.type = TypeForNode.STRING_TYPE
    · simp only [h2, and_self, if_true]
      cases strFind u.stringValue.data v.stringValue.data with
      | none => exact h2.1
      | some pos => rfl
    · simp only [h2, if_false]
      rfl

theorem add_typed (u v : Value) (ta tb : TypeForNode) (hu : Typed ta u) (hv : Typed tb v) :
    Typed (if ta = tb then ta else TypeForNode.ERROR_TYPE) (Value.add u v) := by
  unfold Typed at *
  rw [add_type]
  generalize u.type = ua at *
  generalize v.type = ub at *
  cases ua <;> cases ub <;> cases ta <;> cases tb <;> simp_all

theorem sub_typed (u v : Value) (ta tb : TypeForNode) (hu : Typed ta u) (hv : Typed tb v) :
    Typed (if ta = TypeForNode.INT_TYPE ∧ tb = TypeForNode.INT_TYPE then TypeForNode.INT_TYPE
      else TypeForNode.ERROR_TYPE) (Value.sub u v) := by
  unfold Typed at *
  rw [sub_type]
  generalize u.type = ua at *
  generalize v.type = ub at *
  cases ua <;> cases ub <;> cases ta <;> cases tb <;> simp_all

theorem mul_typed (u v : Value) (ta tb : TypeForNode) (hu : Typed ta u) (hv : Typed tb v) :
    Typed (if ta = TypeForNode.INT_TYPE then tb
      else if ta = TypeForNode.STRING_TYPE ∧ tb = TypeForNode.INT_TYPE then
        TypeForNode.STRING_TYPE
      else TypeForNode.ERROR_TYPE) (Value.mul u v) := by
  unfold Typed at *
  rw [mul_type]
  generalize u.type = ua at *
  generalize v.type = ub at *
  cases ua <;> cases ub <;> cases ta <;> cases tb <;> simp_all

theorem div_typed (u v : Value) (ta tb : TypeForNode) (hu : Typed ta u) (hv : Typed tb v) :
    Typed (if ta = tb then ta else TypeForNode.ERROR_TYPE) (Value.div u v) := by
  unfold Typed at *
  rw [div_type]
  generalize u.type = ua at *
  generalize v.type = ub at *
  by_cases hz : v.intValue ≠ 0 <;>
    cases ua <;> cases ub <;> cases ta <;> cases tb <;> simp_all

/-- The static type of an expression whose identifiers are all in the type
table does not change when the table gets more entries. -/
theorem getType_mono (T1 T2 : Table TypeForNode)
    (hm : ∀ k v, Table.find T1 k = some v → Table.find T2 k = some v) :
    ∀ (e : ParseTree), e.isExpr = true → e.identifiersDeclared T1 = true →
      e.GetType T1 = e.GetType T2
  | .Addition _ l r, he, hd => by
    simp only [ParseTree.isExpr, ParseTree.identifiersDeclared, Bool.and_eq_true] at he hd
    simp only [ParseTree.GetType, getType_mono T1 T2 hm l he.1 hd.1,
      getType_mono T1 T2 hm r he.2 hd.2]
  | .Subtraction _ l r, he, hd => by
    simp only [ParseTree.isExpr, ParseTree.identifiersDeclared, Bool.and_eq_true] at he hd
    simp only [ParseTree.GetType, getType_mono T1 T2 hm l he.1 hd.1,
      getType_mono T1 T2 hm r he.2 hd.2]
  | .Multiplication _ l r, he, hd => by
    simp only [ParseTree.isExpr, ParseTree.identifiersDeclared, Bool.and_eq_true] at he hd
    simp only [ParseTree.GetType, getType_mono T1 T2 hm l he.1 hd.1,
      getType_mono T1 T2 hm r he.2 hd.2]
  | .Division _ l r, he, hd => by
    simp only [ParseTree.isExpr, ParseTree.identifiersDeclared, Bool.and_eq_true] at he hd
    simp only [ParseTree.GetType, getType_mono T1 T2 hm l he.1 hd.1,
      getType_mono T1 T2 hm r he.2 hd.2]
  | .IntegerConstant _ _, _, _ => rfl
  | .StringConstant _ _, _, _ => rfl
  | .Identifier id, _, hd => by
    simp only [ParseTree.identifiersDeclared] at hd
    cases hf : Table.find T1 id.identifier with
    | none => simp [hf] at hd
    | some v => simp [ParseTree.GetType, Identifier.GetType, hf, hm _ v hf]
  | .StatementList _ _, he, _ => by simp [ParseTree.isExpr] at he
  | .VariableDeclaration _ _ _, he, _ => by simp [ParseTree.isExpr] at he
  | .VariableAssignment _ _ _, he, _ => by simp [ParseTree.isExpr] at he
  | .PrintCommand _ _ _, he, _ => by simp [ParseTree.isExpr] at he

theorem visitIdentifier_symbolTable (id : Identifier) (c : SemanticCheck) :
    (SemanticCheck.visitIdentifier id c).g.symbolTable = c.g.symbolTable := by
  unfold SemanticCheck.visitIdentifier
  split
  · exact (error_tables _ _ _).2
  · rfl

theorem checkOperation_symbolTable (op : ParseTree) (c : SemanticCheck) :
    (SemanticCheck.checkOperation op c).g.symbolTable = c.g.symbolTable := by
  unfold SemanticCheck.checkOperation
  split_ifs
  · exact (error_tables _ _ _).2
  · rfl

theorem checkAssignment_symbolTable (id : Identifier) (e : ParseTree) (c : SemanticCheck) :
    (SemanticCheck.checkAssignment id e c).g.symbolTable = c.g.symbolTable := by
  unfold SemanticCheck.checkAssignment
  split
  · split_ifs
    · exact (error_tables _ _ _).2
    · rfl
  · rfl

/-- The checker does not touch the value table. -/
theorem accept_symbolTable : ∀ (t : ParseTree) (c : SemanticCheck),
    (t.accept c).g.symbolTable = c.g.symbolTable
  | .StatementList none none, c => by simp [ParseTree.accept]
  | .StatementList (some l) none, c => by
    simpa [ParseTree.accept] using accept_symbolTable l c
  | .StatementList none (some r), c => by
    simpa [ParseTree.accept] using accept_symbolTable r c
  | .StatementList (some l) (some r), c => by
    simp only [ParseTree.accept]
    rw [accept_symbolTable r _, accept_symbolTable l c]
  | .Addition n l r, c => by
    simp only [ParseTree.accept, checkOperation_symbolTable]
    rw [accept_symbolTable r _, accept_symbolTable l c]
  | .Subtraction n l r, c => by
    simp only [ParseTree.accept, checkOperation_symbolTable]
    rw [accept_symbolTable r _, accept_symbolTable l c]
  | .Multiplication n l r, c => by
    simp only [ParseTree.accept, checkOperation_symbolTable]
    rw [accept_symbolTable r _, accept_symbolTable l c]
  | .Division n l r, c => by
    simp only [ParseTree.accept, checkOperation_symbolTable]
    rw [accept_symbolTable r _, accept_symbolTable l c]
  | .IntegerConstant _ _, c => by simp [ParseTree.accept]
  | .StringConstant _ _, c => by simp [ParseTree.accept]
  | .Identifier id, c => by
    simp only [ParseTree.accept, visitIdentifier_symbolTable]
  | .VariableDeclaration n t id, c => by
    simp only [ParseTree.accept, SemanticCheck.visitDeclaration]
    split
    · exact (error_tables _ _ _).2
    · rfl
  | .VariableAssignment n id e, c => by
    simp only [ParseTree.accept, checkAssignment_symbolTable]
    rw [accept_symbolTable e _, visitIdentifier_symbolTable]
  | .PrintCommand n tok e, c => by
    simpa [ParseTree.accept] using accept_symbolTable e c

theorem checkAssignment_type (id : Identifier) (e : ParseTree) (c : SemanticCheck)
    (h : (SemanticCheck.checkAssignment id e c).hasErrors = false) (t : TypeForNode)
    (hf : Table.find c.g.typeTable id.identifier = some t) :
    e.GetType c.g.typeTable = t := by
  unfold SemanticCheck.checkAssignment at h
  simp only [hf] at h
  by_contra hne
  simp [hne] at h

theorem evalOperands_some (b : Bool) (el er : Globals → Option (Value × Globals))
    (g : Globals) (a v : Value) (g2 : Globals)
    (h : evalOperands b el er g = some (a, v, g2)) :
    (b = true ∧ ∃ g1, el g = some (a, g1) ∧ er g1 = some (v, g2))
    ∨ (b = false ∧ ∃ g1, er g = some (v, g1) ∧ el g1 = some (a, g2)) := by
  unfold evalOperands at h
  cases b with
  | true =>
    left
    simp only [if_true] at h
    cases h1 : el g with
    | none => simp [h1] at h
    | some ra =>
      simp only [h1] at h
      cases h2 : er ra.2 with
      | none => simp [h2] at h
      | some rb =>
        simp only [h2, Option.some.injEq, Prod.mk.injEq] at h
        obtain ⟨e1, e2, e3⟩ := h
        subst e1 e2 e3
        exact ⟨rfl, ra.2, rfl, h2⟩
  | false =>
    right
    simp only [Bool.false_eq_true, if_false] at h
    cases h1 : er g with
    | none => simp [h1] at h
    | some rb =>
      simp only [h1] at h
      cases h2 : el rb.2 with
      | none => simp [h2] at h
      | some ra =>
        simp only [h2, Option.some.injEq, Prod.mk.injEq] at h
        obtain ⟨e1, e2, e3⟩ := h
        subst e1 e2 e3
        exact ⟨rfl, rb.2, rfl, h2⟩

/-- The two operand calls of a binary node, in either order, when each operand
preserves types and leaves the value table as it was. -/
theorem operands_types (T : Table TypeForNode) (o : OperandOrder) (b : Bool)
    (l r : ParseTree)
    (hl : ∀ g, wellTyped T g.symbolTable = true → l.identifiersBound g.symbolTable = true →
      l.preservesTypesIn o T g = true
      ∧ ∀ r0, l.EvaluateIn o g = some r0 →
          Typed (l.GetType T) r0.1 ∧ r0.2.symbolTable = g.symbolTable)
    (hr : ∀ g, wellTyped T g.symbolTable = true → r.identifiersBound g.symbolTable = true →
      r.preservesTypesIn o T g = true
      ∧ ∀ r0, r.EvaluateIn o g = some r0 →
          Typed (r.GetType T) r0.1 ∧ r0.2.symbolTable = g.symbolTable)
    (g : Globals) (hw : wellTyped T g.symbolTable = true)
    (hbl : l.identifiersBound g.symbolTable = true)
    (hbr : r.identifiersBound g.symbolTable = true) :
    operandsPreserve b (l.preservesTypesIn o T) (r.preservesTypesIn o T)
        (l.EvaluateIn o) (r.EvaluateIn o) g = true
    ∧ ∀ a v g2, evalOperands b (l.EvaluateIn o) (r.EvaluateIn o) g = some (a, v, g2) →
        Typed (l.GetType T) a ∧ Typed (r.GetType T) v ∧ g2.symbolTable = g.symbolTable := by
  constructor
  · unfold operandsPreserve
    cases b with
    | true =>
      simp only [if_true, (hl g hw hbl).1, Bool.true_and]
      cases h1 : l.EvaluateIn o g with
      | none => rfl
      | some ra =>
        have hs := ((hl g hw hbl).2 ra h1).2
        exact (hr ra.2 (by rw [hs]; exact hw) (by rw [hs]; exact hbr)).1
    | false =>
      simp only [Bool.false_eq_true, if_false, (hr g hw hbr).1, Bool.true_and]
      cases h1 : r.EvaluateIn o g with
      | none => rfl
      | some rb =>
        have hs := ((hr g hw hbr).2 rb h1).2
        exact (hl rb.2 (by rw [hs]; exact hw) (by rw [hs]; exact hbl)).1
  · intro a v g2 h
    rcases evalOperands_some _ _ _ _ _ _ _ h with ⟨_, g1, h1, h2⟩ | ⟨_, g1, h1, h2⟩
    · obtain ⟨t1, s1⟩ := (hl g hw hbl).2 _ h1
      simp only at t1 s1
      obtain ⟨t2, s2⟩ := (hr g1 (by rw [s1]; exact hw) (by rw [s1]; exact hbr)).2 _ h2
      simp only at t2 s2
      exact ⟨t1, t2, by rw [s2, s1]⟩
    · obtain ⟨t1, s1⟩ := (hr g hw hbr).2 _ h1
      simp only at t1 s1
      obtain ⟨t2, s2⟩ := (hl g1 (by rw [s1]; exact hw) (by rw [s1]; exact hbl)).2 _ h2
      simp only at t2 s2
      exact ⟨t2, t1, by rw [s2, s1]⟩

theorem returnedTyped_of_typed (T : Table TypeForNode) (t : TypeForNode) (v : Value)
    (g : Globals) (hv : Typed t v) (hw : wellTyped T g.symbolTable = true) :
    returnedTyped T (some t) (some (v, g)) = true := by
  simp only [returnedTyped, hw, Bool.true_and]
  exact decide_eq_true hv.1

/-- An expression whose identifiers are bound in a typed value table preserves
types, in whichever order its operands are evaluated; when its evaluation
returns, the value is of the static type of the expression or `Error`, and the
value table is as it was. -/
theorem exprIn_types (T : Table TypeForNode) (o : OperandOrder) :
    ∀ (e : ParseTree) (g : Globals), e.isExpr = true → wellTyped T g.symbolTable = true →
      e.identifiersBound g.symbolTable = true →
      e.preservesTypesIn o T g = true
      ∧ ∀ r0, e.EvaluateIn o g = some r0 →
          Typed (e.GetType T) r0.1 ∧ r0.2.symbolTable = g.symbolTable
  | .Addition n l r, g, he, hw, hb => by
    simp only [ParseTree.isExpr, ParseTree.identifiersBound, Bool.and_eq_true] at he hb
    obtain ⟨hop, hty⟩ := operands_types T o o.addition l r
      (fun g1 hw1 hb1 => exprIn_types T o l g1 he.1 hw1 hb1)
      (fun g1 hw1 hb1 => exprIn_types T o r g1 he.2 hw1 hb1) g hw hb.1 hb.2
    constructor
    · simp only [ParseTree.preservesTypesIn, hw, hop, Bool.true_and]
      cases hev : evalOperands o.addition (l.EvaluateIn o) (r.EvaluateIn o) g with
      | none => rfl
      | some p =>
        obtain ⟨a, v, g2⟩ := p
        obtain ⟨h1, h2, h3⟩ := hty a v g2 hev
        simp only [ParseTree.EvaluateIn, hev, ParseTree.GetType]
        exact returnedTyped_of_typed T _ _ _ (add_typed _ _ _ _ h1 h2) (by rw [h3]; exact hw)
    · intro r0 hr0
      simp only [ParseTree.EvaluateIn] at hr0
      cases hev : evalOperands o.addition (l.EvaluateIn o) (r.EvaluateIn o) g with
      | none => simp [hev] at hr0
      | some p =>
        obtain ⟨a, v, g2⟩ := p
        obtain ⟨h1, h2, h3⟩ := hty a v g2 hev
        simp only [hev, Option.some.injEq] at hr0
        subst hr0
        simp only [ParseTree.GetType]
        exact ⟨add_typed _ _ _ _ h1 h2, h3⟩
  | .Subtraction n l r, g, he, hw, hb => by
    simp only [ParseTree.isExpr, ParseTree.identifiersBound, Bool.and_eq_true] at he hb
    obtain ⟨hop, hty⟩ := operands_types T o o.subtraction l r
      (fun g1 hw1 hb1 => exprIn_types T o l g1 he.1 hw1 hb1)
      (fun g1 hw1 hb1 => exprIn_types T o r g1 he.2 hw1 hb1) g hw hb.1 hb.2
    constructor
    · simp only [ParseTree.preservesTypesIn, hw, hop, Bool.true_and]
      cases hev : evalOperands o.subtraction (l.EvaluateIn o) (r.EvaluateIn o) g with
      | none => rfl
      | some p =>
        obtain ⟨a, v, g2⟩ := p
        obtain ⟨h1, h2, h3⟩ := hty a v g2 hev
        simp only [ParseTree.EvaluateIn, hev, ParseTree.GetType]
        exact returnedTyped_of_typed T _ _ _ (sub_typed _ _ _ _ h1 h2) (by rw [h3]; exact hw)
    · intro r0 hr0
      simp only [ParseTree.EvaluateIn] at hr0
      cases hev : evalOperands o.subtraction (l.EvaluateIn o) (r.EvaluateIn o) g with
      | none => simp [hev] at hr0
      | some p =>
        obtain ⟨a, v, g2⟩ := p
        obtain ⟨h1, h2, h3⟩ := hty a v g2 hev
        simp only [hev, Option.some.injEq] at hr0
        subst hr0
        simp only [ParseTree.GetType]
        exact ⟨sub_typed _ _ _ _ h1 h2, h3⟩
  | .Multiplication n l r, g, he, hw, hb => by
    simp only [ParseTree.isExpr, ParseTree.identifiersBound, Bool.and_eq_true] at he hb
    obtain ⟨hop, hty⟩ := operands_types T o o.multiplication l r
      (fun g1 hw1 hb1 => exprIn_types T o l g1 he.1 hw1 hb1)
      (fun g1 hw1 hb1 => exprIn_types T o r g1 he.2 hw1 hb1) g hw hb.1 hb.2
    constructor
    · simp only [ParseTree.preservesTypesIn, hw, hop, Bool.true_and]
      cases hev : evalOperands o.multiplication (l.EvaluateIn o) (r.EvaluateIn o) g with
      | none => rfl
      | some p =>
        obtain ⟨a, v, g2⟩ := p
        obtain ⟨h1, h2, h3⟩ := hty a v g2 hev
        simp only [ParseTree.EvaluateIn, hev, ParseTree.GetType]
        exact returnedTyped_of_typed T _ _ _ (mul_typed _ _ _ _ h1 h2) (by rw [h3]; exact hw)
    · intro r0 hr0
      simp only [ParseTree.EvaluateIn] at hr0
      cases hev : evalOperands o.multiplication (l.EvaluateIn o) (r.EvaluateIn o) g with
      | none => simp [hev] at hr0
      | some p =>
        obtain ⟨a, v, g2⟩ := p
        obtain ⟨h1, h2, h3⟩ := hty a v g2 hev
        simp only [hev, Option.some.injEq] at hr0
        subst hr0
        simp only [ParseTree.GetType]
        exact ⟨mul_typed _ _ _ _ h1 h2, h3⟩
  | .Division n l r, g, he, hw, hb => by
    simp only [ParseTree.isExpr, ParseTree.identifiersBound, Bool.and_eq_true] at he hb
    obtain ⟨hop, hty⟩ := operands_types T o o.division l r
      (fun g1 hw1 hb1 => exprIn_types T o l g1 he.1 hw1 hb1)
      (fun g1 hw1 hb1 => exprIn_types T o r g1 he.2 hw1 hb1) g hw hb.1 hb.2
    constructor
    · simp only [ParseTree.preservesTypesIn, hw, hop, Bool.true_and]
      cases hev : evalOperands o.division (l.EvaluateIn o) (r.EvaluateIn o) g with
      | none => rfl
      | some p =>
        obtain ⟨a, v, g2⟩ := p
        obtain ⟨h1, h2, h3⟩ := hty a v g2 hev
        have hq := operatorDiv_eq a v
        have hg : (ParseTree.Division n l r).GetType T
            = (if l.GetType T = r.GetType T then l.GetType T
                else TypeForNode.ERROR_TYPE) := by
          simp only [ParseTree.GetType]
        by_cases hp : a.type = TypeForNode.INT_TYPE ∧ v.type = TypeForNode.INT_TYPE
            ∧ a.intValue = INT_MIN ∧ v.intValue = -1
        · rw [if_pos hp] at hq
          simp only [ParseTree.EvaluateIn, hev, hq, hp, and_self, if_true]
          rfl
        · rw [if_neg hp] at hq
          simp only [ParseTree.EvaluateIn, hev, hq, hp, if_false]
          rw [hg]
          refine returnedTyped_of_typed T _ _ _ (div_typed _ _ _ _ h1 h2) ?_
          rw [reportDivision_symbolTable, h3]
          exact hw
    · intro r0 hr0
      simp only [ParseTree.EvaluateIn] at hr0
      cases hev : evalOperands o.division (l.EvaluateIn o) (r.EvaluateIn o) g with
      | none => simp [hev] at hr0
      | some p =>
        obtain ⟨a, v, g2⟩ := p
        obtain ⟨h1, h2, h3⟩ := hty a v g2 hev
        simp only [hev] at hr0
        cases hq : Value.operatorDiv a v with
        | none => simp [hq] at hr0
        | some w =>
          simp only [hq, Option.some.injEq] at hr0
          subst hr0
          rw [operatorDiv_some a v w hq]
          simp only [ParseTree.GetType]
          exact ⟨div_typed _ _ _ _ h1 h2, by rw [reportDivision_symbolTable, h3]⟩
  | .IntegerConstant _ _, g, _, hw, _ => by
    simp [ParseTree.preservesTypesIn, ParseTree.EvaluateIn, ParseTree.GetType, Typed,
      Value.Integer, returnedTyped, hw]
  | .StringConstant _ _, g, _, hw, _ => by
    simp [ParseTree.preservesTypesIn, ParseTree.EvaluateIn, ParseTree.GetType, Typed,
      Value.String, returnedTyped, hw]
  | .Identifier id, g, _, hw, hb => by
    simp only [ParseTree.identifiersBound] at hb
    cases hf : Table.find g.symbolTable id.identifier with
    | none => simp [hf] at hb
    | some v =>
      obtain ⟨hT, hv⟩ := (wellTyped_iff T g.symbolTable).mp hw _ v hf
      have hty : Typed ((ParseTree.Identifier id).GetType T) v := by
        simp only [ParseTree.GetType, Identifier.GetType, hT, Typed]
        rcases hv with hv | hv <;> simp [hv]
      have hev : (ParseTree.Identifier id).EvaluateIn o g = some (v, g) := by
        simp [ParseTree.EvaluateIn, Identifier.Evaluate, Table.index, hf]
      constructor
      · simp only [ParseTree.preservesTypesIn, hw, hev, Bool.true_and]
        exact returnedTyped_of_typed T _ _ _ hty hw
      · intro r0 hr0
        rw [hev] at hr0
        cases hr0
        exact ⟨hty, rfl⟩
  | .StatementList _ _, g, he, _, _ => by simp [ParseTree.isExpr] at he
  | .VariableDeclaration _ _ _, g, he, _, _ => by simp [ParseTree.isExpr] at he
  | .VariableAssignment _ _ _, g, he, _, _ => by simp [ParseTree.isExpr] at he
  | .PrintCommand _ _ _, g, he, _, _ => by simp [ParseTree.isExpr] at he
/-- A statement that the check passes without error preserves types when the
built program evaluates it from a typed value table that covers the type
table of the check, the types being those of any later state of the type
table; when its evaluation returns, the value table is typed and covers the
type table after the check of the statement. -/
theorem stmtIn_types (T : Table TypeForNode) (o : OperandOrder) :
    ∀ (s : ParseTree) (c : SemanticCheck) (g : Globals),
    s.isStmt = true → (s.accept c).hasErrors = false →
    covers c.g.typeTable g.symbolTable → wellTyped T g.symbolTable = true →
    (∀ k v, Table.find (s.accept c).g.typeTable k = some v → Table.find T k = some v) →
    s.preservesTypesIn o T g = true
    ∧ ∀ r0, s.EvaluateIn o g = some r0 →
        wellTyped T r0.2.symbolTable = true
        ∧ covers (s.accept c).g.typeTable r0.2.symbolTable
  | .VariableDeclaration n t id, c, g, hs, h, hc, hw, hm => by
    simp only [ParseTree.isStmt, decide_eq_true_eq] at hs
    simp only [ParseTree.accept, SemanticCheck.visitDeclaration] at h hm ⊢
    cases hf : Table.find c.g.typeTable id.identifier with
    | some t2 => simp [hf] at h
    | none =>
      simp only [hf] at hm ⊢
      have hT := hm id.identifier t (find_assign_self _ _ _)
      have hd : (if t = TypeForNode.INT_TYPE then Value.Integer 0 else Value.String "").type
          = t := by
        rcases hs with hs | hs <;> simp [hs, Value.Integer, Value.String]
      have hafter : wellTyped T (Table.assign g.symbolTable id.identifier
          (if t = TypeForNode.INT_TYPE then Value.Integer 0 else Value.String "")) = true :=
        wellTyped_assign T _ _ _ hw (by rw [hd]; exact hT) (by rw [hd]; exact hs)
      constructor
      · simp only [ParseTree.preservesTypesIn, ParseTree.EvaluateIn, returnedTyped, hw, hafter,
          find_assign_self, decide_True, Bool.and_self]
      · intro r0 hr0
        simp only [ParseTree.EvaluateIn, Option.some.injEq] at hr0
        subst hr0
        exact ⟨hafter, covers_declare _ _ _ _ _ hc⟩
  | .VariableAssignment n id e, c, g, hs, h, hc, hw, hm => by
    simp only [ParseTree.isStmt] at hs
    simp only [ParseTree.accept] at h hm ⊢
    obtain ⟨h1, hT⟩ := checkAssignment_ok _ _ _ h
    have h0 := accept_clear_before e _ h1
    obtain ⟨hsome, hceq⟩ := visitIdentifier_ok id c h0
    rw [hceq] at h1 hT h hm ⊢
    rw [hT, expr_accept_typeTable e c hs] at hm ⊢
    have hdecl : e.identifiersDeclared c.g.typeTable = true := by
      have := expr_accept_hasErrors e c hs
      rw [h1, accept_clear_before e c h1] at this
      simpa using this.symm
    have hb := expr_checked_bound g.symbolTable e c hs h1 hc
    obtain ⟨hpe, hres⟩ := exprIn_types T o e g hs hw hb
    obtain ⟨tx, htx⟩ := Option.isSome_iff_exists.mp hsome
    have hgt : e.GetType (e.accept c).g.typeTable = tx :=
      checkAssignment_type id e _ h tx (by rw [expr_accept_typeTable e c hs]; exact htx)
    rw [expr_accept_typeTable e c hs, getType_mono _ T hm e hs hdecl] at hgt
    have hafter : ∀ r0, (ParseTree.VariableAssignment n id e).EvaluateIn o g = some r0 →
        wellTyped T r0.2.symbolTable = true ∧ covers c.g.typeTable r0.2.symbolTable := by
      intro r0 hr0
      simp only [ParseTree.EvaluateIn] at hr0
      cases hev : e.EvaluateIn o g with
      | none => simp [hev] at hr0
      | some ra =>
        obtain ⟨hty, hsym⟩ := hres ra hev
        rw [hgt] at hty
        simp only [hev] at hr0
        split_ifs at hr0 with hv
        · simp only [Option.some.injEq] at hr0
          subst hr0
          simp only [hsym]
          obtain ⟨ha, hb2⟩ := hty
          have hvt : ra.1.type = tx := by
            rcases ha with ha | ha
            · exact ha
            · exact absurd ha hv
          refine ⟨wellTyped_assign T _ _ _ hw (by rw [hvt]; exact hm _ _ htx) ?_,
            covers_assign _ _ _ _ hc⟩
          rcases hb2 with hb2 | hb2 | hb2
          · exact Or.inl hb2
          · exact Or.inr hb2
          · exact absurd hb2 hv
        · simp only [Option.some.injEq] at hr0
          subst hr0
          simp only [hsym]
          exact ⟨hw, hc⟩
    refine ⟨?_, hafter⟩
    simp only [ParseTree.preservesTypesIn, hw, hpe, Bool.true_and]
    cases hev : e.EvaluateIn o g with
    | none => rfl
    | some ra =>
      simp only
      cases hn : (ParseTree.VariableAssignment n id e).EvaluateIn o g with
      | none =>
        exfalso
        simp only [ParseTree.EvaluateIn, hev] at hn
        split_ifs at hn
      | some r0 =>
        simp only [returnedTyped, (hafter r0 hn).1, Bool.and_self]
  | .PrintCommand n tok e, c, g, hs, h, hc, hw, hm => by
    simp only [ParseTree.isStmt, Bool.and_eq_true] at hs
    simp only [ParseTree.accept] at h ⊢
    rw [expr_accept_typeTable e c hs.2]
    have hb := expr_checked_bound g.symbolTable e c hs.2 h hc
    obtain ⟨hpe, hres⟩ := exprIn_types T o e g hs.2 hw hb
    have hafter : ∀ r0, (ParseTree.PrintCommand n tok e).EvaluateIn o g = some r0 →
        wellTyped T r0.2.symbolTable = true ∧ covers c.g.typeTable r0.2.symbolTable := by
      intro r0 hr0
      simp only [ParseTree.EvaluateIn] at hr0
      cases hev : e.EvaluateIn o g with
      | none => simp [hev] at hr0
      | some ra =>
        obtain ⟨_, hsym⟩ := hres ra hev
        simp only [hev] at hr0
        split_ifs at hr0 <;>
          (simp only [Option.some.injEq] at hr0
           subst hr0
           simp only [hsym]
           exact ⟨hw, hc⟩)
    refine ⟨?_, hafter⟩
    simp only [ParseTree.preservesTypesIn, hw, hpe, Bool.true_and]
    cases hev : e.EvaluateIn o g with
    | none => rfl
    | some ra =>
      simp only
      cases hn : (ParseTree.PrintCommand n tok e).EvaluateIn o g with
      | none =>
        exfalso
        simp only [ParseTree.EvaluateIn, hev] at hn
        split_ifs at hn
      | some r0 =>
        simp only [returnedTyped, (hafter r0 hn).1, Bool.and_self]
  | .StatementList _ _, c, g, hs, _, _, _, _ => by simp [ParseTree.isStmt] at hs
  | .Addition _ _ _, c, g, hs, _, _, _, _ => by simp [ParseTree.isStmt] at hs
  | .Subtraction _ _ _, c, g, hs, _, _, _, _ => by simp [ParseTree.isStmt] at hs
  | .Multiplication _ _ _, c, g, hs, _, _, _, _ => by simp [ParseTree.isStmt] at hs
  | .Division _ _ _, c, g, hs, _, _, _, _ => by simp [ParseTree.isStmt] at hs
  | .IntegerConstant _ _, c, g, hs, _, _, _, _ => by simp [ParseTree.isStmt] at hs
  | .StringConstant _ _, c, g, hs, _, _, _, _ => by simp [ParseTree.isStmt] at hs
  | .Identifier _, c, g, hs, _, _, _, _ => by simp [ParseTree.isStmt] at hs

/-- A program that the check passes without error preserves types when the
built program evaluates it from a typed value table that covers the type
table of the check, and the value table that the evaluation leaves, when it
returns, is typed. -/
theorem stmtListIn_types (T : Table TypeForNode) (o : OperandOrder) :
    ∀ (ss : List ParseTree) (tree : ParseTree) (c : SemanticCheck) (g : Globals),
      (∀ s ∈ ss, s.isStmt = true) → stmtListTree ss = some tree →
      (tree.accept c).hasErrors = false → covers c.g.typeTable g.symbolTable →
      wellTyped T g.symbolTable = true →
      (∀ k v, Table.find (tree.accept c).g.typeTable k = some v → Table.find T k = some v) →
      tree.preservesTypesIn o T g = true
      ∧ ∀ r0, tree.EvaluateIn o g = some r0 → wellTyped T r0.2.symbolTable = true := by
  intro ss
  induction ss with
  | nil =>
    intro tree c g _ ht
    simp [stmtListTree] at ht
  | cons p ss ih =>
    intro tree c g hs ht h hc hw hm
    simp only [stmtListTree, Option.some.injEq] at ht
    subst ht
    have hp : p.isStmt = true := hs p (List.mem_cons_self _ _)
    cases hr : stmtListTree ss with
    | none =>
      rw [hr] at h hm
      simp only [ParseTree.accept] at h hm
      obtain ⟨h1, h2⟩ := stmtIn_types T o p c g hp h hc hw hm
      constructor
      · simp only [ParseTree.preservesTypesIn, h1]
      · intro r0 hr0
        simp only [ParseTree.EvaluateIn] at hr0
        cases hev : p.EvaluateIn o g with
        | none => simp [hev] at hr0
        | some a =>
          simp only [hev] at hr0
          split_ifs at hr0 <;>
            (simp only [Option.some.injEq] at hr0
             subst hr0
             exact (h2 a hev).1)
    | some t =>
      rw [hr] at h hm
      simp only [ParseTree.accept] at h hm
      have hclear := accept_clear_before t _ h
      have hm1 : ∀ k v, Table.find (p.accept c).g.typeTable k = some v →
          Table.find T k = some v :=
        fun k v hf => hm k v (accept_typeTable_mono k v t _ hf)
      obtain ⟨h1, h2⟩ := stmtIn_types T o p c g hp hclear hc hw hm1
      constructor
      · simp only [ParseTree.preservesTypesIn, h1, Bool.true_and]
        cases hev : p.EvaluateIn o g with
        | none => rfl
        | some a =>
          simp only
          split_ifs
          · rfl
          · exact (ih t (p.accept c) a.2
              (fun s hmem => hs s (List.mem_cons_of_mem _ hmem)) hr h (h2 a hev).2
              (h2 a hev).1 hm).1
      · intro r0 hr0
        simp only [ParseTree.EvaluateIn] at hr0
        cases hev : p.EvaluateIn o g with
        | none => simp [hev] at hr0
        | some a =>
          simp only [hev] at hr0
          split_ifs at hr0
          · simp only [Option.some.injEq] at hr0
            subst hr0
            exact (h2 a hev).1
          · exact (ih t (p.accept c) a.2
              (fun s hmem => hs s (List.mem_cons_of_mem _ hmem)) hr h (h2 a hev).2
              (h2 a hev).1 hm).2 r0 hr0

/-- C28: for every program that the parser builds, when the semantic check
started from an empty type table ends error free, types are preserved all
along the evaluation that `main` then starts from the empty value table, in
whichever order the compiler evaluates the operands of the binary nodes: at
every node that is evaluated each name bound in the value table holds an
integer or a string, of the type that the type table records for the name;
every node whose children returned returns itself, an expression with a value
of its static type (so an integer for `INT_TYPE`, a string for `STRING_TYPE`)
or `Error`, except that the evaluation stops at a `Division` whose operands
are the integers `INT_MIN` and `-1`; a declaration binds the default value of
its declared type, 0 or the empty string; and when the run returns, the value
table that it leaves is typed as well. -/
theorem type_preservation (o : OperandOrder) (ss : List ParseTree) (tree : ParseTree)
    (g0 : Globals) (hs : ∀ s ∈ ss, s.isStmt = true) (ht : stmtListTree ss = some tree)
    (hT : g0.typeTable = []) (hS : g0.symbolTable = [])
    (hfree : (tree.accept ⟨false, g0⟩).isErrorFree = true) :
    tree.preservesTypesIn o (tree.accept ⟨false, g0⟩).g.typeTable (tree.accept ⟨false, g0⟩).g
      = true
    ∧ ∀ g1, checkAndRunIn o tree g0 = some g1 →
        wellTyped (tree.accept ⟨false, g0⟩).g.typeTable g1.symbolTable = true := by
  have h : (tree.accept ⟨false, g0⟩).hasErrors = false := by
    simpa [SemanticCheck.isErrorFree] using hfree
  have hsym : (tree.accept ⟨false, g0⟩).g.symbolTable = [] := by
    rw [accept_symbolTable]
    exact hS
  have hcov : covers (⟨false, g0⟩ : SemanticCheck).g.typeTable
      (tree.accept ⟨false, g0⟩).g.symbolTable := by
    intro k hk
    simp only [hT] at hk
    simp [Table.find] at hk
  have hw : wellTyped (tree.accept ⟨false, g0⟩).g.typeTable
      (tree.accept ⟨false, g0⟩).g.symbolTable = true := by
    rw [hsym]
    rfl
  obtain ⟨h1, h2⟩ := stmtListIn_types (tree.accept ⟨false, g0⟩).g.typeTable o ss tree
    ⟨false, g0⟩ (tree.accept ⟨false, g0⟩).g hs ht h hcov hw (fun _ _ hf => hf)
  refine ⟨h1, ?_⟩
  intro g1 hg1
  unfold checkAndRunIn at hg1
  simp only [hfree, if_true] at hg1
  cases hev : tree.EvaluateIn o (tree.accept ⟨false, g0⟩).g with
  | none => simp [hev] at hg1
  | some r0 =>
    simp only [hev, Option.map_some', Option.some.injEq] at hg1
    subst hg1
    exact h2 r0 hev

theorem type_preservation_witness :
    (progTyped.preservesTypesIn OperandOrder.rightFirst
        (progTyped.accept ⟨false, Globals.initial none⟩).g.typeTable
        (progTyped.accept ⟨false, Globals.initial none⟩).g = true
      ∧ ∀ g1, checkAndRunIn OperandOrder.rightFirst progTyped (Globals.initial none) = some g1 →
          wellTyped (progTyped.accept ⟨false, Globals.initial none⟩).g.typeTable
            g1.symbolTable = true)
    ∧ (progMinOverMinusOne.preservesTypesIn OperandOrder.rightFirst
        (progMinOverMinusOne.accept ⟨false, Globals.initial none⟩).g.typeTable
        (progMinOverMinusOne.accept ⟨false, Globals.initial none⟩).g = true
      ∧ checkAndRunIn OperandOrder.rightFirst progMinOverMinusOne (Globals.initial none)
          = none) :=
  ⟨type_preservation OperandOrder.rightFirst
    [declIntX, declStringS, setSRepeat, setX6, setXDivZero,
      ParseTree.PrintCommand 0 TokenType.T_PRINT (ParseTree.Identifier ⟨0, "s"⟩)]
    progTyped (Globals.initial none) (by decide) rfl rfl rfl (by decide),
   (type_preservation OperandOrder.rightFirst [printMinOverMinusOne] progMinOverMinusOne
      (Globals.initial none) (by decide) rfl rfl rfl (by decide)).1,
   by decide⟩

end Interp
